import Mathlib

/-!
# The arena allocator of mrpc (`src/base/arena.h`, `src/base/arena.cc`)
and its reference-counted pointer (`src/base/ref_counted.h`)

A shallow embedding of `BaseArena` and `UnsafeArena`.

Conventions of the embedding.

* An address (`char*`, `void*`) is a natural number; `NULL` is `0`. Pointer
  arithmetic `p + n` is addition of naturals.
* A `size_t` value is a natural number. Subtractions, conversions from
  `ptrdiff_t` or `int` and left shifts of a `uint64_t` are reduced modulo `2^64`
  (`to_size_t`): they wrap on ordinary inputs, such as the negative pointer
  difference of `AdjustLastAlloc` when it shrinks. The byte counter
  (`bytes_allocated_ += block_size`) and the page rounding
  (`num_pages * kPageSize`) of `AllocNewBlock` are reduced modulo `2^64` as
  well: a request close to `2^64` makes them wrap. The sum `remaining_ += size`
  of `ReturnMemory` is exact.
* The system allocator is an input: every operation that may call `malloc` takes
  the address `mem` that this call would return. One operation acquires at most
  one block.
* `CHECK` / `PCHECK` failures abort the process: the operation returns `none`.
  The constructor is `none` also for a block size above `2^63`, for which its
  loop over `block_size_bits_` does not end.
  `assert` and `DCHECK` are compiled out of optimised builds; the functions do
  not abort on them, and their conditions are stated as separate predicates.
* A sequence of calls of the public interface of `UnsafeArena` is a list of
  `Op`; `run` threads the arena state through it and is `none` when a call
  aborts. What holds after a sequence is stated for the sequences that run to
  their end. The block that serves the bump allocations is not a field of the
  class: its capacity is followed along the sequence by `run_capacity`, the
  block itself by `run_block`. The entries of the block table in index order
  are `BaseArena.blocks`; the blocks acquired and the regions returned along a
  sequence are `acquisitions` and `regions`.
* The guarded variant `SafeArena` is the `BaseArena` state together with its
  mutex, which is free or held; its calls are issued by a single caller. A
  `Lock` of a mutex that the caller already holds never returns (`none`).
  `Caller` adds the memory content and the events of the caller in program
  order: each lock and unlock, each call of a protected operation of
  `BaseArena` or read of a field, each access of bytes outside the arena; an
  access records whether the caller held the mutex when it was made.
* `scoped_refptr` and `RefCounted` (`src/base/ref_counted.h`) are modelled over
  a heap of counted objects and the list of the `scoped_refptr` instances in
  the order of their construction. `ref_count_` is an exact integer, and
  `delete` is recorded by a counter on the object. The test class
  `ScopedRefPtrToSelf` (`src/base/ref_counted_unittest.cc`), whose objects hold
  a `scoped_refptr` member, has a heap of its own (`SelfRefs`); there `delete`
  runs the destructor of the member, and `Release` takes the length of the
  longest chain of destructors as fuel.
-/

set_option autoImplicit false

namespace mrpc

/-- Conversion of a mathematical integer to `size_t` / `uint64_t`. -/
def to_size_t (z : Int) : Nat := (z % (2 ^ 64 : Int)).toNat

/-- Conversion of a mathematical integer to a 32-bit `int` (two's complement). -/
def to_int (z : Int) : Int := (z + 2 ^ 31) % 2 ^ 32 - 2 ^ 31

/-- Line 29 of arena.cc: `static const int kPageSize = 8192`. -/
def kPageSize : Nat := 8192

/-- Line 70 of arena.h: `static const int kDefaultAlignment = 4`. -/
def kDefaultAlignment : Nat := 4

/-- The number of inline slots, `ARRAYSIZE(first_blocks_)`. -/
def kFirstBlocks : Nat := 16

/-- The private `struct AllocatedBlock { char* mem; size_t size; }`. -/
structure AllocatedBlock where
  mem : Nat
  size : Nat
  deriving DecidableEq, Repr, Inhabited

/-- The class `BaseArena::Handle`: a 32-bit value. -/
structure Handle where
  handle_ : Nat
  deriving DecidableEq, Repr

/-- `Handle::kInvalidValue = 0xFFFFFFFF`. -/
def Handle.kInvalidValue : Nat := 0xFFFFFFFF

/-- `Handle::valid()`. -/
def Handle.valid (h : Handle) : Bool := h.handle_ != Handle.kInvalidValue

/-- The data members of `BaseArena` (with `status_.bytes_allocated_` inlined).
`first_blocks_` is the inline array of 16 slots, `overflow_blocks_` the lazily
created vector (`none` is the null pointer). -/
structure BaseArena where
  bytes_allocated_ : Nat
  remaining_ : Nat
  first_block_we_own_ : Nat
  block_size_ : Nat
  freestart_ : Nat
  freestart_when_empty_ : Nat
  last_alloc_ : Nat
  blocks_alloced_ : Nat
  first_blocks_ : List AllocatedBlock
  overflow_blocks_ : Option (List AllocatedBlock)
  page_aligned_ : Bool
  handle_alignment_ : Nat
  handle_alignment_bits_ : Nat
  block_size_bits_ : Nat
  deriving DecidableEq, Repr

namespace BaseArena

/-- `BaseArena::block_count()`. -/
def block_count (a : BaseArena) : Nat :=
  a.blocks_alloced_ + (match a.overflow_blocks_ with
    | some v => v.length
    | none => 0)

/-- `BaseArena::is_empty()`. -/
def is_empty (a : BaseArena) : Bool :=
  a.freestart_ == a.freestart_when_empty_ && 1 == a.block_count

/-- `BaseArena::FreeBlocks()`: slots `1 .. blocks_alloced_ - 1` of the inline
array are cleared, the overflow vector is deleted. -/
def FreeBlocks (a : BaseArena) : BaseArena :=
  { a with
    first_blocks_ := (List.range a.first_blocks_.length).map (fun i =>
      if 1 ≤ i ∧ i < a.blocks_alloced_ then (⟨0, 0⟩ : AllocatedBlock)
      else a.first_blocks_.getD i default),
    blocks_alloced_ := 1,
    overflow_blocks_ := none }

/-- `BaseArena::Reset()`. -/
def Reset (a : BaseArena) : BaseArena :=
  let a1 := FreeBlocks a
  let b0 := a1.first_blocks_.getD 0 default
  let a2 := { a1 with
    freestart_ := b0.mem,
    remaining_ := b0.size,
    last_alloc_ := 0,
    bytes_allocated_ := a1.block_size_ }
  let overage := a2.freestart_ &&& (kDefaultAlignment - 1)
  let a3 := if overage > 0 then
      let waste := kDefaultAlignment - overage
      { a2 with
        freestart_ := a2.freestart_ + waste,
        remaining_ := to_size_t ((a2.remaining_ : Int) - waste) }
    else a2
  { a3 with freestart_when_empty_ := a3.freestart_ }

/-- `BaseArena::AllocNewBlock(block_size)`, with `mem` the address returned by
the system allocator. The result is the new table entry and the new state;
`none` is the abort of `PCHECK(NULL != block->mem)`. Every caller passes a
`block_size` that is not zero, so `block_size - 1` does not wrap. The product
`num_pages * kPageSize` and the sum `bytes_allocated_ += block_size` are
`size_t` values: they are reduced modulo `2^64`. -/
def AllocNewBlock (a : BaseArena) (block_size : Nat) (mem : Nat) :
    Option (AllocatedBlock × BaseArena) :=
  let block : Option AllocatedBlock :=
    if a.page_aligned_ then
      let num_pages := (block_size - 1) / kPageSize + 1
      let new_block_size := (num_pages * kPageSize) % 2 ^ 64
      if mem = 0 then none else some ⟨mem, new_block_size⟩
    else some ⟨mem, block_size⟩
  block.map fun b =>
    let a1 : BaseArena :=
      if a.blocks_alloced_ < kFirstBlocks then
        { a with
          first_blocks_ := a.first_blocks_.set a.blocks_alloced_ b,
          blocks_alloced_ := a.blocks_alloced_ + 1 }
      else
        { a with overflow_blocks_ := some ((a.overflow_blocks_.getD []) ++ [b]) }
    (b, { a1 with bytes_allocated_ := (a1.bytes_allocated_ + block_size) % 2 ^ 64 })

/-- The capacity that `AllocNewBlock` records for a request of `block_size`
bytes: the request itself, or in page-aligned mode the request rounded up to
whole pages, as a `size_t` (modulo `2^64`). -/
def new_block_capacity (a : BaseArena) (block_size : Nat) : Nat :=
  if a.page_aligned_ then (((block_size - 1) / kPageSize + 1) * kPageSize) % 2 ^ 64
  else block_size

/-- The state that `AllocNewBlock` leaves when it records the block `b` for a
request of `block_size` bytes: `b` is in the next inline slot, or at the end of
the overflow vector, and the request is added to `bytes_allocated` (a `size_t`:
modulo `2^64`). -/
def push_block (a : BaseArena) (b : AllocatedBlock) (block_size : Nat) : BaseArena :=
  if a.blocks_alloced_ < kFirstBlocks then
    { a with
      first_blocks_ := a.first_blocks_.set a.blocks_alloced_ b,
      blocks_alloced_ := a.blocks_alloced_ + 1,
      bytes_allocated_ := (a.bytes_allocated_ + block_size) % 2 ^ 64 }
  else
    { a with
      overflow_blocks_ := some ((a.overflow_blocks_.getD []) ++ [b]),
      bytes_allocated_ := (a.bytes_allocated_ + block_size) % 2 ^ 64 }

/-- `BaseArena::MakeNewBlock()`. -/
def MakeNewBlock (a : BaseArena) (mem : Nat) : Option BaseArena :=
  (AllocNewBlock a a.block_size_ mem).map fun r =>
    { r.2 with freestart_ := r.1.mem, remaining_ := r.1.size }

/-- `BaseArena::IndexToBlock(index)`; `none` is a failed `CHECK`. -/
def IndexToBlock (a : BaseArena) (index : Int) : Option AllocatedBlock :=
  if to_size_t index < kFirstBlocks then
    some (a.first_blocks_.getD (to_size_t index) default)
  else
    match a.overflow_blocks_ with
    | none => none
    | some v =>
      let index_in_overflow_blocks : Int := to_int (to_size_t (index - kFirstBlocks))
      if index_in_overflow_blocks < 0 then none
      else if to_size_t index_in_overflow_blocks < v.length then
        some (v.getD (to_size_t index_in_overflow_blocks) default)
      else none

/-- `BaseArena::GetMemoryFallback(size, align_as_int)`. The result is the
returned address and the new state. -/
def GetMemoryFallback (a : BaseArena) (size : Nat) (align_as_int : Int) (mem : Nat) :
    Option (Nat × BaseArena) :=
  if size = 0 then some (0, a)
  else
    let align := to_size_t align_as_int
    if a.block_size_ = 0 ∨ size > a.block_size_ / 4 then
      (AllocNewBlock a size mem).map fun r => (r.1.mem, r.2)
    else
      let overage := a.freestart_ &&& to_size_t ((align : Int) - 1)
      let a1 : BaseArena :=
        if overage ≠ 0 then
          let waste := to_size_t ((align : Int) - overage)
          { a with
            freestart_ := a.freestart_ + waste,
            remaining_ := if waste < a.remaining_ then a.remaining_ - waste else 0 }
        else a
      let a2 : Option BaseArena :=
        if size > a1.remaining_ then MakeNewBlock a1 mem else some a1
      a2.map fun s =>
        let s1 := { s with
          remaining_ := to_size_t ((s.remaining_ : Int) - size),
          last_alloc_ := s.freestart_,
          freestart_ := s.freestart_ + size }
        (s1.last_alloc_, s1)

/-- The padding step of `GetMemoryFallback` on its own (lines 183 to 193 of
arena.cc): the state once `freestart_` has been moved up to a multiple of
`align`. -/
def pad_freestart (a : BaseArena) (align : Nat) : BaseArena :=
  let overage := a.freestart_ &&& to_size_t ((align : Int) - 1)
  if overage ≠ 0 then
    let waste := to_size_t ((align : Int) - overage)
    { a with
      freestart_ := a.freestart_ + waste,
      remaining_ := if waste < a.remaining_ then a.remaining_ - waste else 0 }
  else a

/-- The bump step of `GetMemoryFallback` on its own (lines 197 to 201 of
arena.cc): the returned address and the state. -/
def bump (s : BaseArena) (size : Nat) : Nat × BaseArena :=
  (s.freestart_, { s with
    remaining_ := to_size_t ((s.remaining_ : Int) - size),
    last_alloc_ := s.freestart_,
    freestart_ := s.freestart_ + size })

/-- `BaseArena::GetMemory(size, align)` (inline, arena.h). -/
def GetMemory (a : BaseArena) (size : Nat) (align : Int) (mem : Nat) :
    Option (Nat × BaseArena) :=
  if size > 0 ∧ size < a.remaining_ ∧ align = 1 then
    let a1 := { a with
      last_alloc_ := a.freestart_,
      freestart_ := a.freestart_ + size,
      remaining_ := a.remaining_ - size }
    some (a1.last_alloc_, a1)
  else GetMemoryFallback a size align mem

/-- The condition of `assert(remaining_ <= block_size_)` at the entry of
`GetMemory`. -/
def GetMemory_assert (a : BaseArena) : Prop := a.remaining_ ≤ a.block_size_

/-- `BaseArena::ReturnMemory(memory, size)`. -/
def ReturnMemory (a : BaseArena) (memory : Nat) (size : Nat) : BaseArena :=
  let t := to_size_t ((a.freestart_ : Int) - a.last_alloc_)
  if memory = a.last_alloc_ ∧ t = size then
    { a with
      remaining_ := a.remaining_ + size,
      freestart_ := a.last_alloc_ }
  else a

/-- `BaseArena::AdjustLastAlloc(last_alloc, newsize)`: the returned flag and
the new state. -/
def AdjustLastAlloc (a : BaseArena) (last_alloc : Nat) (newsize : Nat) :
    Bool × BaseArena :=
  if last_alloc = 0 ∨ last_alloc ≠ a.last_alloc_ then (false, a)
  else if newsize > to_size_t (((a.freestart_ : Int) - a.last_alloc_) + a.remaining_) then
    (false, a)
  else
    let old_freestart := a.freestart_
    let freestart := a.last_alloc_ + newsize
    (true, { a with
      freestart_ := freestart,
      remaining_ := to_size_t ((a.remaining_ : Int) - ((freestart : Int) - old_freestart)) })

/-- The conditions of the two `assert`s of `AdjustLastAlloc` (the second,
`remaining_ >= 0`, holds of every `size_t`). -/
def AdjustLastAlloc_assert (a : BaseArena) : Prop :=
  a.freestart_ ≥ a.last_alloc_ ∧ a.freestart_ ≤ a.last_alloc_ + a.block_size_

/-- The reverse scan of `GetMemoryWithHandle`: `k` is `block_index + 1`. The
result `some none` is the loop running out (`block_index == -1`), the outer
`none` an abort inside `IndexToBlock`. -/
def findBlock (a : BaseArena) (p : Nat) : Nat → Option (Option (Nat × AllocatedBlock))
  | 0 => some none
  | k + 1 =>
    match IndexToBlock a (k : Int) with
    | none => none
    | some block =>
      if p ≥ block.mem ∧ p < block.mem + block.size then some (some (k, block))
      else findBlock a p k

/-- The packed value computed in `GetMemoryWithHandle`, in `uint64_t`:
`((uint64(block_index) << block_size_bits_) + offset) >> handle_alignment_bits_`. -/
def handle_value (block_size_bits handle_alignment_bits : Nat) (block_index : Nat)
    (offset : Nat) : Nat :=
  (((block_index <<< block_size_bits) % 2 ^ 64 + offset) % 2 ^ 64) >>> handle_alignment_bits

/-- The end of `GetMemoryWithHandle`: the comparison with `0xFFFFFFFF`, the
replacement by `Handle::kInvalidValue` and the cast to `uint32_t`. -/
def handle_store (hv : Nat) : Handle :=
  ⟨(if hv ≥ 0xFFFFFFFF then Handle.kInvalidValue else hv) % 2 ^ 32⟩

/-- `BaseArena::GetMemoryWithHandle(size, handle)` with a non-null `handle`:
the returned address, the handle written, the new state. -/
def GetMemoryWithHandle (a : BaseArena) (size : Nat) (mem : Nat) :
    Option (Nat × Handle × BaseArena) :=
  match GetMemory a size (to_int ((1 <<< a.handle_alignment_bits_ : Nat) : Int)) mem with
  | none => none
  | some (p, a1) =>
    match findBlock a1 p a1.block_count with
    | none => none
    | some none => none
    | some (some (block_index, block)) =>
      let offset := to_size_t ((p : Int) - block.mem)
      some (p, handle_store
        (handle_value a1.block_size_bits_ a1.handle_alignment_bits_ block_index offset), a1)

/-- The three `DCHECK`s of `GetMemoryWithHandle` on the offset found. -/
def GetMemoryWithHandle_dcheck (a : BaseArena) (offset : Nat) : Prop :=
  offset < a.block_size_ ∧
  offset &&& ((1 <<< a.handle_alignment_bits_) - 1) = 0 ∧
  a.block_size_ &&& ((1 <<< a.handle_alignment_bits_) - 1) = 0

/-- The loop of `set_handle_alignment`:
`while ((1 << bits) < handle_alignment_) ++bits`. The shift is an `int`
shift, defined for `bits < 31`; the fuel stops the loop there. -/
def handle_alignment_bits_loop (handle_alignment : Nat) : Nat → Nat → Nat
  | 0, bits => bits
  | fuel + 1, bits =>
    if 1 <<< bits < handle_alignment then
      handle_alignment_bits_loop handle_alignment fuel (bits + 1)
    else bits

/-- `BaseArena::set_handle_alignment(align)`; `none` is a failed `CHECK`. -/
def set_handle_alignment (a : BaseArena) (align : Int) : Option BaseArena :=
  if ¬ (align > 0 ∧ (align.toNat &&& (align.toNat - 1)) = 0) then none
  else if ¬ (to_size_t align < a.block_size_) then none
  else if ¬ (a.block_size_ % to_size_t align = 0) then none
  else if ¬ a.is_empty then none
  else some { a with
    handle_alignment_ := align.toNat,
    handle_alignment_bits_ := handle_alignment_bits_loop align.toNat 31 0 }

/-- The unpacking done by `HandleToPointer`: the `int block_index` and the
`size_t block_offset`. The mask `(1 << block_size_bits_) - 1` is an `int`
expression: for `block_size_bits_ > 30` it overflows `int`, C++ gives it no
value, and the result is `none`. -/
def handle_decode (block_size_bits handle_alignment_bits : Nat) (h : Handle) :
    Option (Int × Nat) :=
  let handle := (h.handle_ <<< handle_alignment_bits) % 2 ^ 64
  let block_index : Int := to_int ((handle >>> block_size_bits : Nat) : Int)
  if block_size_bits > 30 then none
  else
    let block_offset := handle &&& ((1 <<< block_size_bits) - 1)
    some (block_index, block_offset)

/-- `BaseArena::HandleToPointer(h)`; `none` is a failed `CHECK` (or the
undefined mask of `handle_decode`). -/
def HandleToPointer (a : BaseArena) (h : Handle) : Option Nat :=
  if ¬ h.valid then none
  else
    match handle_decode a.block_size_bits_ a.handle_alignment_bits_ h with
    | none => none
    | some d => (IndexToBlock a d.1).map fun block => block.mem + d.2

/-- The loop of the constructor:
`while ((size_t(1) << block_size_bits_) < block_size_) ++block_size_bits_`.
The shift is defined for fewer than 64 bits; the fuel stops the loop there:
the result 64 means that the source loop has not ended (`block_size > 2^63`). -/
def block_size_bits_loop (block_size : Nat) : Nat → Nat → Nat
  | 0, bits => bits
  | fuel + 1, bits =>
    if 1 <<< bits < block_size then block_size_bits_loop block_size fuel (bits + 1)
    else bits

/-- The constructor `BaseArena::BaseArena(first, block_size, align_to_page)`.
`mem` is the answer of the system allocator when the first block is not
supplied (`first == NULL`); `slots` is the uninitialised content of the
inline array. `none` is a constructor that does not return an arena: a failed
`CHECK` / `PCHECK`, or, before them, the loop over `block_size_bits_` not
ending (it reaches a shift by 64 bits when `block_size > 2^63`). -/
def construct (first : Nat) (block_size : Nat) (align_to_page : Bool) (mem : Nat)
    (slots : List AllocatedBlock) : Option BaseArena :=
  if 64 ≤ block_size_bits_loop block_size 64 0 then none
  else
    let mem0 : Option Nat :=
      if first ≠ 0 then
        if ¬ (!align_to_page ∨ first &&& (kPageSize - 1) = 0) then none else some first
      else if align_to_page then
        if ¬ (block_size &&& (kPageSize - 1) = 0) then none
        else if mem = 0 then none
        else some mem
      else some mem
    mem0.map fun m =>
      Reset {
        bytes_allocated_ := 0,
        remaining_ := 0,
        first_block_we_own_ := if first ≠ 0 then 1 else 0,
        block_size_ := block_size,
        freestart_ := 0,
        freestart_when_empty_ := 0,
        last_alloc_ := 0,
        blocks_alloced_ := 1,
        first_blocks_ := slots.set 0 ⟨m, block_size⟩,
        overflow_blocks_ := none,
        page_aligned_ := align_to_page,
        handle_alignment_ := 1,
        handle_alignment_bits_ := 0,
        block_size_bits_ := block_size_bits_loop block_size 64 0 }

end BaseArena

/-- Memory content: the byte stored at each address. -/
abbrev Memory := Nat → Nat

/-- The library routine `memcpy(dst, src, n)` as a forward byte loop. -/
def memcpy (m : Memory) (dst src : Nat) : Nat → Memory
  | 0 => m
  | n + 1 =>
    let m1 := memcpy m dst src n
    Function.update m1 (dst + n) (m1 (src + n))

namespace UnsafeArena

/-- `UnsafeArena::Alloc(size)`. -/
def Alloc (a : BaseArena) (size : Nat) (mem : Nat) : Option (Nat × BaseArena) :=
  a.GetMemory size 1 mem

/-- `UnsafeArena::AllocAligned(size, align)`. -/
def AllocAligned (a : BaseArena) (size : Nat) (align : Int) (mem : Nat) :
    Option (Nat × BaseArena) :=
  a.GetMemory size align mem

/-- `UnsafeArena::Free(memory, size)`. -/
def Free (a : BaseArena) (memory : Nat) (size : Nat) : BaseArena :=
  a.ReturnMemory memory size

/-- `UnsafeArena::AllocWithHandle(size, handle)`. -/
def AllocWithHandle (a : BaseArena) (size : Nat) (mem : Nat) :
    Option (Nat × Handle × BaseArena) :=
  a.GetMemoryWithHandle size mem

/-- `UnsafeArena::Shrink(s, new_size)`. -/
def Shrink (a : BaseArena) (s : Nat) (new_size : Nat) : Nat × BaseArena :=
  (s, (a.AdjustLastAlloc s new_size).2)

/-- `UnsafeArena::Realloc(s, oldsize, newsize)` on the arena state `a` and the
memory content `m`: the returned address, the new state, the new content.
When `Alloc` returns the null pointer (a failed `malloc` outside page-aligned
mode), the source hands it to `memcpy` and the process ends there; here the
copy is a copy to address 0 and the call returns: the model has this one run
more than the source. -/
def Realloc (a : BaseArena) (m : Memory) (s : Nat) (oldsize newsize : Nat) (mem : Nat) :
    Option (Nat × BaseArena × Memory) :=
  let r := a.AdjustLastAlloc s newsize
  if r.1 then some (s, r.2, m)
  else if newsize ≤ oldsize then some (s, r.2, m)
  else
    (Alloc r.2 newsize mem).map fun q =>
      (q.1, q.2, memcpy m q.1 s (min oldsize newsize))

end UnsafeArena

/-! ## Concrete arenas used in the examples -/

/-- An inline array whose sixteen slots are zero. -/
def slots0 : List AllocatedBlock := List.replicate 16 ⟨0, 0⟩

/-- The state of `UnsafeArena(4096)` after construction, with the first block
at address `base`. -/
def arena_at (base : Nat) : BaseArena :=
  { bytes_allocated_ := 4096,
    remaining_ := 4096,
    first_block_we_own_ := 0,
    block_size_ := 4096,
    freestart_ := base,
    freestart_when_empty_ := base,
    last_alloc_ := 0,
    blocks_alloced_ := 1,
    first_blocks_ := slots0.set 0 ⟨base, 4096⟩,
    overflow_blocks_ := none,
    page_aligned_ := false,
    handle_alignment_ := 1,
    handle_alignment_bits_ := 0,
    block_size_bits_ := 12 }

/-- The arena `arena_at 4112` after `set_handle_alignment(32)`. -/
def arena_align32 : BaseArena :=
  { arena_at 4112 with handle_alignment_ := 32, handle_alignment_bits_ := 5 }

/-- The arena `arena_align32` after `AllocWithHandle(8, &h)`. -/
def arena_align32_after : BaseArena :=
  { arena_align32 with last_alloc_ := 4128, freestart_ := 4136, remaining_ := 4072 }

/-- The state of `UnsafeArena(8192, true)` (page-aligned mode) after
construction, with the first block at address 8192. -/
def arena_paged : BaseArena :=
  { bytes_allocated_ := 8192,
    remaining_ := 8192,
    first_block_we_own_ := 0,
    block_size_ := 8192,
    freestart_ := 8192,
    freestart_when_empty_ := 8192,
    last_alloc_ := 0,
    blocks_alloced_ := 1,
    first_blocks_ := slots0.set 0 ⟨8192, 8192⟩,
    overflow_blocks_ := none,
    page_aligned_ := true,
    handle_alignment_ := 1,
    handle_alignment_bits_ := 0,
    block_size_bits_ := 13 }

/-- The arena `arena_at 4096` after `Alloc(5000)` was served by a dedicated
block at address 9000. -/
def arena_after_5000 : BaseArena :=
  { arena_at 4096 with
    bytes_allocated_ := 9096,
    blocks_alloced_ := 2,
    first_blocks_ := (slots0.set 0 ⟨4096, 4096⟩).set 1 ⟨9000, 5000⟩ }

/-- The arena `arena_at 4096` after `Alloc(100)`. -/
def arena_after_100 : BaseArena :=
  { arena_at 4096 with last_alloc_ := 4096, freestart_ := 4196, remaining_ := 3996 }

/-- The arena `arena_after_100` after a further `Alloc(50)`. -/
def arena_after_100_50 : BaseArena :=
  { arena_at 4096 with last_alloc_ := 4196, freestart_ := 4246, remaining_ := 3946 }

/-- The arena `arena_after_100_50` after a further `Alloc(200)`. -/
def arena_after_100_50_200 : BaseArena :=
  { arena_at 4096 with last_alloc_ := 4246, freestart_ := 4446, remaining_ := 3746 }

/-- An arena of block size `2^30` with five blocks (block `k` at address
`(k + 1) * 2^31`), the cursor at the start of block 4. -/
def arena_five_blocks : BaseArena :=
  { bytes_allocated_ := 5 * 2 ^ 30,
    remaining_ := 2 ^ 30,
    first_block_we_own_ := 0,
    block_size_ := 2 ^ 30,
    freestart_ := 5 * 2 ^ 31,
    freestart_when_empty_ := 2 ^ 31,
    last_alloc_ := 0,
    blocks_alloced_ := 5,
    first_blocks_ := [⟨2 ^ 31, 2 ^ 30⟩, ⟨2 * 2 ^ 31, 2 ^ 30⟩, ⟨3 * 2 ^ 31, 2 ^ 30⟩,
      ⟨4 * 2 ^ 31, 2 ^ 30⟩, ⟨5 * 2 ^ 31, 2 ^ 30⟩] ++ List.replicate 11 ⟨0, 0⟩,
    overflow_blocks_ := none,
    page_aligned_ := false,
    handle_alignment_ := 1,
    handle_alignment_bits_ := 0,
    block_size_bits_ := 30 }

/-- The arena `arena_five_blocks` after `AllocWithHandle(8, &h)`. -/
def arena_five_blocks_after : BaseArena :=
  { arena_five_blocks with
    last_alloc_ := 5 * 2 ^ 31, freestart_ := 5 * 2 ^ 31 + 8, remaining_ := 2 ^ 30 - 8 }

/-- The arena `arena_at 4096` after three `Alloc(100)`. -/
def arena_after_300 : BaseArena :=
  { arena_at 4096 with last_alloc_ := 4296, freestart_ := 4396, remaining_ := 3796 }

/-- The arena `arena_after_300` after `Alloc(4000)` was served by a dedicated
block at address 9000. -/
def arena_after_scenario : BaseArena :=
  { arena_after_300 with
    bytes_allocated_ := 8096,
    blocks_alloced_ := 2,
    first_blocks_ := (slots0.set 0 ⟨4096, 4096⟩).set 1 ⟨9000, 4000⟩ }

/-- The arena `arena_after_100` after `AdjustLastAlloc(4096, 0)`: the last
allocation is shrunk to nothing. -/
def arena_after_100_shrunk_0 : BaseArena :=
  { arena_at 4096 with last_alloc_ := 4096, freestart_ := 4096, remaining_ := 4096 }

/-- The arena `arena_after_100_shrunk_0` after `Alloc(50)`. -/
def arena_after_100_shrunk_0_50 : BaseArena :=
  { arena_at 4096 with last_alloc_ := 4096, freestart_ := 4146, remaining_ := 4046 }

/-- The arena `arena_after_100` after `AdjustLastAlloc(4096, 40)` and
`Alloc(50)`. -/
def arena_after_100_shrunk_40_50 : BaseArena :=
  { arena_at 4096 with last_alloc_ := 4136, freestart_ := 4186, remaining_ := 4006 }

/-- The state of `UnsafeArena(4096)` after construction, with the first block
at address 4098: `Reset` moves the cursor up to 4100. -/
def arena_at_4098 : BaseArena :=
  { arena_at 4098 with freestart_ := 4100, freestart_when_empty_ := 4100, remaining_ := 4094 }

/-- The arena `arena_at_4098` after `Alloc(100)`, `AllocAligned(8, 16)` (at
4208), `Shrink(4208, 4)`, `Alloc(4000)` (a dedicated block at 9000) and
`Free(4208, 4)`. -/
def arena_at_4098_after : BaseArena :=
  { arena_at_4098 with
    last_alloc_ := 4208, freestart_ := 4208, remaining_ := 3986,
    bytes_allocated_ := 8096,
    blocks_alloced_ := 2,
    first_blocks_ := (slots0.set 0 ⟨4098, 4096⟩).set 1 ⟨9000, 4000⟩ }

/-- The arena `arena_at 4096` after `Alloc(1)`. -/
def arena_after_1 : BaseArena :=
  { arena_at 4096 with last_alloc_ := 4096, freestart_ := 4097, remaining_ := 4095 }

/-- The arena `arena_at 4096` after `Free(NULL, 4096)`. -/
def arena_after_free_null : BaseArena :=
  { arena_at 4096 with freestart_ := 0, remaining_ := 8192 }

/-- The arena `arena_at 4096` after `AllocWithHandle(8, &h)`. -/
def arena_after_8 : BaseArena :=
  { arena_at 4096 with last_alloc_ := 4096, freestart_ := 4104, remaining_ := 4088 }

/-- The arena `arena_after_8` after `Free(4096, 8)`: empty again. -/
def arena_after_8_freed : BaseArena :=
  { arena_at 4096 with last_alloc_ := 4096 }

/-- The state of `UnsafeArena(first_block, 4096)` after construction with the
caller's block at address 4098: `Reset` moves the cursor up to 4100. -/
def arena_supplied_4098 : BaseArena :=
  { arena_at_4098 with first_block_we_own_ := 1 }

/-- The arena `arena_supplied_4098` after `AllocWithHandle(8, &h)`. -/
def arena_supplied_4098_after_8 : BaseArena :=
  { arena_supplied_4098 with last_alloc_ := 4100, freestart_ := 4108, remaining_ := 4086 }

/-- The arena `arena_supplied_4098_after_8` after `Free(4100, 8)` and
`set_handle_alignment(8)`. -/
def arena_supplied_4098_align8 : BaseArena :=
  { arena_supplied_4098 with
    last_alloc_ := 4100, handle_alignment_ := 8, handle_alignment_bits_ := 3 }

/-- The arena `arena_at 4096` after `Free(NULL, 4096)`, `Alloc(100)` and
`Alloc(100)`. -/
def arena_after_free_null_allocs : BaseArena :=
  { arena_at 4096 with last_alloc_ := 100, freestart_ := 200, remaining_ := 7992 }

/-! ## Sequences of calls -/

/-- One call of the public interface of `UnsafeArena`. A call that may acquire
a block carries the address `mem` that the system allocator returns for it. -/
inductive Op where
  | Alloc (size mem : Nat)
  | AllocAligned (size : Nat) (align : Int) (mem : Nat)
  | AllocWithHandle (size mem : Nat)
  | Free (memory size : Nat)
  | Shrink (s new_size : Nat)
  | Realloc (s old_size new_size mem : Nat)
  | Reset
  deriving DecidableEq, Repr

/-- The arena state after one call; `none` when the call aborts. The state that
`Realloc` leaves does not depend on the memory content. -/
def step (a : BaseArena) : Op → Option BaseArena
  | .Alloc size mem => (UnsafeArena.Alloc a size mem).map Prod.snd
  | .AllocAligned size align mem => (UnsafeArena.AllocAligned a size align mem).map Prod.snd
  | .AllocWithHandle size mem => (UnsafeArena.AllocWithHandle a size mem).map fun r => r.2.2
  | .Free memory size => some (UnsafeArena.Free a memory size)
  | .Shrink s new_size => some (UnsafeArena.Shrink a s new_size).2
  | .Realloc s old_size new_size mem =>
    (UnsafeArena.Realloc a (fun _ => 0) s old_size new_size mem).map fun r => r.2.1
  | .Reset => some a.Reset

/-- The arena state after a sequence of calls; `none` when one of them aborts. -/
def run (a : BaseArena) : List Op → Option BaseArena
  | [] => some a
  | op :: ops => (step a op).bind fun a1 => run a1 ops

/-- The addresses returned by consecutive calls `Alloc(s_1)`, ..., `Alloc(s_k)`
and the state they leave; each call is a pair of the size and of the address
the system allocator returns if the call acquires a block. `none` when a call
aborts. -/
def Alloc_each (a : BaseArena) : List (Nat × Nat) → Option (List Nat × BaseArena)
  | [] => some ([], a)
  | c :: rest =>
    match UnsafeArena.Alloc a c.1 c.2 with
    | none => none
    | some (p, a1) =>
      match Alloc_each a1 rest with
      | none => none
      | some (ps, a2) => some (p :: ps, a2)

/-- The branch that `GetMemory(size, align)` takes. -/
inductive Path where
  /-- `size == 0`: null is returned. -/
  | zero
  /-- The inline fast path of `GetMemory`. -/
  | fast
  /-- The large-request branch of `GetMemoryFallback`: `AllocNewBlock(size)`. -/
  | dedicated
  /-- The bump of `GetMemoryFallback` in the current block. -/
  | bump
  /-- `MakeNewBlock()` followed by the bump of `GetMemoryFallback`. -/
  | new_block
  deriving DecidableEq, Repr

/-- The branch that `GetMemory(size, align)` takes in the state `a`, read off the
conditions of `GetMemory` and `GetMemoryFallback`. -/
def GetMemory_path (a : BaseArena) (size : Nat) (align : Int) : Path :=
  if size > 0 ∧ size < a.remaining_ ∧ align = 1 then Path.fast
  else if size = 0 then Path.zero
  else if a.block_size_ = 0 ∨ size > a.block_size_ / 4 then Path.dedicated
  else if size > (a.pad_freestart (to_size_t align)).remaining_ then Path.new_block
  else Path.bump

/-- The arguments `(size, align)` of the `GetMemory` call that a call of the
public interface makes in the state `a`, if it makes one. -/
def alloc_call (a : BaseArena) : Op → Option (Nat × Int)
  | .Alloc size _ => some (size, 1)
  | .AllocAligned size align _ => some (size, align)
  | .AllocWithHandle size _ => some (size, to_int ((1 <<< a.handle_alignment_bits_ : Nat) : Int))
  | .Realloc s old_size new_size _ =>
    if (a.AdjustLastAlloc s new_size).1 then none
    else if new_size ≤ old_size then none
    else some (new_size, 1)
  | _ => none

/-- The size that a call requests from `AllocNewBlock` in the state `a`, if it
acquires a block: the request itself on the large-request branch, `block_size_`
when `MakeNewBlock` runs. -/
def requested (a : BaseArena) (op : Op) : Option Nat :=
  match alloc_call a op with
  | none => none
  | some (size, align) =>
    match GetMemory_path a size align with
    | Path.dedicated => some size
    | Path.new_block => some a.block_size_
    | _ => none

/-- The sizes requested from `AllocNewBlock` along a sequence of calls. -/
def requests (a : BaseArena) : List Op → List Nat
  | [] => []
  | op :: ops =>
    match step a op with
    | none => []
    | some a1 => (requested a op).toList ++ requests a1 ops

/-- The capacity of the block that serves the bump allocations after a call,
`cap` being that capacity before the call: `Reset` installs block 0,
`MakeNewBlock` the block it acquires. -/
def current_capacity (a : BaseArena) (cap : Nat) (op : Op) : Nat :=
  match op with
  | .Reset => (a.first_blocks_.getD 0 default).size
  | _ =>
    match alloc_call a op with
    | none => cap
    | some (size, align) =>
      match GetMemory_path a size align with
      | Path.new_block => a.new_block_capacity a.block_size_
      | _ => cap

/-- The capacity of the block that serves the bump allocations after a
sequence of calls. -/
def run_capacity (a : BaseArena) (cap : Nat) : List Op → Nat
  | [] => cap
  | op :: ops =>
    match step a op with
    | none => cap
    | some a1 => run_capacity a1 (current_capacity a cap op) ops

/-- What every call keeps true of the block table of an arena of block size
`bs`: `block_size_` is `bs`, `blocks_alloced_` counts block 0, and block 0 is
recorded with the capacity `bs`. -/
def table_inv (bs : Nat) (a : BaseArena) : Prop :=
  a.block_size_ = bs ∧ 1 ≤ a.blocks_alloced_ ∧ (a.first_blocks_.getD 0 default).size = bs

/-- What the calls keep true of the cursor, `cap` being the capacity of the
block that serves the bump allocations: `remaining_` is at most `cap`, and the
last allocation, when there is one, starts at or before `freestart_`, with at
most `cap` bytes from its start to the end of the block. -/
def cursor_inv (cap : Nat) (a : BaseArena) : Prop :=
  a.remaining_ ≤ cap ∧
  (a.last_alloc_ ≠ 0 →
    a.last_alloc_ ≤ a.freestart_ ∧ a.freestart_ - a.last_alloc_ + a.remaining_ ≤ cap)

/-- The calls that keep the cursor on multiples of 4: the sizes they request
and the block addresses that the system allocator returns are multiples of 4,
and the alignment of `AllocAligned` is a power of two. -/
def Op.aligned4 : Op → Prop
  | .Alloc size mem => size % 4 = 0 ∧ mem % 4 = 0
  | .AllocAligned size align mem =>
    size % 4 = 0 ∧ mem % 4 = 0 ∧ ∃ k : Nat, k ≤ 30 ∧ align = 2 ^ k
  | .AllocWithHandle size mem => size % 4 = 0 ∧ mem % 4 = 0
  | .Free _ _ => True
  | .Shrink _ new_size => new_size % 4 = 0
  | .Realloc _ _ new_size mem => new_size % 4 = 0 ∧ mem % 4 = 0
  | .Reset => True

/-- The calls other than `Free` on a null pointer. -/
def Op.no_null_free : Op → Prop
  | .Free memory _ => memory ≠ 0
  | _ => True

/-- The calls that request memory: `Alloc`, `AllocAligned`, `AllocWithHandle`. -/
def Op.is_allocation : Op → Prop
  | .Alloc _ _ => True
  | .AllocAligned _ _ _ => True
  | .AllocWithHandle _ _ => True
  | _ => False

/-! ## The guarded variant -/

namespace UnsafeArena

/-- `UnsafeArena::status()`: the `Status` object, that is `bytes_allocated_`. -/
def status (a : BaseArena) : Nat := a.bytes_allocated_

/-- `UnsafeArena::bytes_until_next_allocation()`. -/
def bytes_until_next_allocation (a : BaseArena) : Nat := a.remaining_

end UnsafeArena

/-- The class `Mutex` (a default, non-recursive `pthread_mutex_t`) in the run of
a single caller: whether the mutex is held. -/
structure Mutex where
  locked : Bool
  deriving DecidableEq, Repr

/-- `Mutex::Lock()`. With a single caller, locking a mutex that is already
held never returns: `none`. -/
def Mutex.Lock (m : Mutex) : Option Mutex :=
  if m.locked then none else some { m with locked := true }

/-- `Mutex::Unlock()`. -/
def Mutex.Unlock (m : Mutex) : Mutex := { m with locked := false }

/-- The class `SafeArena`: the `BaseArena` subobject and the member `mutex_`. -/
structure SafeArena where
  base : BaseArena
  mutex_ : Mutex
  deriving DecidableEq, Repr

/-- A block `{ LockGuard<Mutex> lock(&mutex_); body }` of a `SafeArena` member:
the constructor of the guard locks, `body` runs on the `BaseArena` subobject,
the destructor of the guard unlocks when the block is left. `none` when the
lock is never obtained or `body` aborts. -/
def LockGuard {α : Type} (s : SafeArena) (body : BaseArena → Option (α × BaseArena)) :
    Option (α × SafeArena) :=
  match s.mutex_.Lock with
  | none => none
  | some l =>
    match body s.base with
    | none => none
    | some (r, b) => some (r, { base := b, mutex_ := l.Unlock })

namespace SafeArena

/-- The constructor `SafeArena(block_size)`: `BaseArena(nullptr, block_size,
false)` and a fresh mutex. -/
def construct (block_size : Nat) (mem : Nat) (slots : List AllocatedBlock) :
    Option SafeArena :=
  (BaseArena.construct 0 block_size false mem slots).map fun b =>
    { base := b, mutex_ := { locked := false } }

/-- `SafeArena::Reset()`. -/
def Reset (s : SafeArena) : Option (Unit × SafeArena) :=
  LockGuard s fun b => some ((), b.Reset)

/-- `SafeArena::Alloc(size)`. -/
def Alloc (s : SafeArena) (size : Nat) (mem : Nat) : Option (Nat × SafeArena) :=
  LockGuard s fun b => b.GetMemory size 1 mem

/-- `SafeArena::AllocAligned(size, align)`. -/
def AllocAligned (s : SafeArena) (size : Nat) (align : Int) (mem : Nat) :
    Option (Nat × SafeArena) :=
  LockGuard s fun b => b.GetMemory size align mem

/-- `SafeArena::Free(memory, size)`. -/
def Free (s : SafeArena) (memory : Nat) (size : Nat) : Option (Unit × SafeArena) :=
  LockGuard s fun b => some ((), b.ReturnMemory memory size)

/-- `SafeArena::AllocWithHandle(size, handle)`. -/
def AllocWithHandle (s : SafeArena) (size : Nat) (mem : Nat) :
    Option ((Nat × Handle) × SafeArena) :=
  LockGuard s fun b => (b.GetMemoryWithHandle size mem).map fun r => ((r.1, r.2.1), r.2.2)

/-- `SafeArena::Shrink(s, new_size)`. -/
def Shrink (s : SafeArena) (p : Nat) (new_size : Nat) : Option (Nat × SafeArena) :=
  LockGuard s fun b => some (p, (b.AdjustLastAlloc p new_size).2)

/-- `SafeArena::status()`. -/
def status (s : SafeArena) : Option (Nat × SafeArena) :=
  LockGuard s fun b => some (b.bytes_allocated_, b)

/-- `SafeArena::bytes_until_next_allocation()`. -/
def bytes_until_next_allocation (s : SafeArena) : Option (Nat × SafeArena) :=
  LockGuard s fun b => some (b.remaining_, b)

/-- `SafeArena::Realloc(s, oldsize, newsize)` (arena.cc): the attempt to adjust
in place is one guarded block; the allocation that follows a failed attempt
is a call of `SafeArena::Alloc`, and the copy runs outside any guard. As in
`UnsafeArena.Realloc`, a copy to a null result of `Alloc` is a copy to
address 0. -/
def Realloc (s : SafeArena) (m : Memory) (p : Nat) (oldsize newsize : Nat) (mem : Nat) :
    Option (Nat × SafeArena × Memory) :=
  match LockGuard s fun b =>
      some ((b.AdjustLastAlloc p newsize).1, (b.AdjustLastAlloc p newsize).2) with
  | none => none
  | some (adjusted, s1) =>
    if adjusted then some (p, s1, m)
    else if newsize ≤ oldsize then some (p, s1, m)
    else
      (Alloc s1 newsize mem).map fun q =>
        (q.1, q.2, memcpy m q.1 p (min oldsize newsize))

end SafeArena

/-- A call of the interface that the two variants share: a call that changes
the arena, or one of the two reads. -/
inductive Call where
  | op (o : Op)
  | status
  | bytes_until_next_allocation
  deriving DecidableEq, Repr

/-- What a call returns to its caller. -/
inductive Result where
  /-- A `char*` or `void*`. -/
  | pointer (p : Nat)
  /-- A pointer and the handle written through the `Handle*` argument. -/
  | with_handle (p : Nat) (h : Handle)
  /-- Nothing (`void`). -/
  | done
  /-- A `Status`: its `bytes_allocated_`. -/
  | status (bytes_allocated : Nat)
  /-- A `size_t`. -/
  | size (n : Nat)
  deriving DecidableEq, Repr

/-- One call on an `UnsafeArena`: the result, the new state, the new memory
content; `none` when the call aborts. -/
def UnsafeArena.call (a : BaseArena) (m : Memory) : Call → Option (Result × BaseArena × Memory)
  | .op (.Alloc size mem) =>
    (UnsafeArena.Alloc a size mem).map fun r => (Result.pointer r.1, r.2, m)
  | .op (.AllocAligned size align mem) =>
    (UnsafeArena.AllocAligned a size align mem).map fun r => (Result.pointer r.1, r.2, m)
  | .op (.AllocWithHandle size mem) =>
    (UnsafeArena.AllocWithHandle a size mem).map fun r =>
      (Result.with_handle r.1 r.2.1, r.2.2, m)
  | .op (.Free memory size) => some (Result.done, UnsafeArena.Free a memory size, m)
  | .op (.Shrink p new_size) =>
    some (Result.pointer (UnsafeArena.Shrink a p new_size).1,
      (UnsafeArena.Shrink a p new_size).2, m)
  | .op (.Realloc p old_size new_size mem) =>
    (UnsafeArena.Realloc a m p old_size new_size mem).map fun r =>
      (Result.pointer r.1, r.2.1, r.2.2)
  | .op .Reset => some (Result.done, a.Reset, m)
  | .status => some (Result.status (UnsafeArena.status a), a, m)
  | .bytes_until_next_allocation =>
    some (Result.size (UnsafeArena.bytes_until_next_allocation a), a, m)

/-- One call on a `SafeArena`: the result, the new state, the new memory
content; `none` when the call aborts or never returns. -/
def SafeArena.call (s : SafeArena) (m : Memory) : Call → Option (Result × SafeArena × Memory)
  | .op (.Alloc size mem) =>
    (SafeArena.Alloc s size mem).map fun r => (Result.pointer r.1, r.2, m)
  | .op (.AllocAligned size align mem) =>
    (SafeArena.AllocAligned s size align mem).map fun r => (Result.pointer r.1, r.2, m)
  | .op (.AllocWithHandle size mem) =>
    (SafeArena.AllocWithHandle s size mem).map fun r =>
      (Result.with_handle r.1.1 r.1.2, r.2, m)
  | .op (.Free memory size) =>
    (SafeArena.Free s memory size).map fun r => (Result.done, r.2, m)
  | .op (.Shrink p new_size) =>
    (SafeArena.Shrink s p new_size).map fun r => (Result.pointer r.1, r.2, m)
  | .op (.Realloc p old_size new_size mem) =>
    (SafeArena.Realloc s m p old_size new_size mem).map fun r =>
      (Result.pointer r.1, r.2.1, r.2.2)
  | .op .Reset => (SafeArena.Reset s).map fun r => (Result.done, r.2, m)
  | .status => (SafeArena.status s).map fun r => (Result.status r.1, r.2, m)
  | .bytes_until_next_allocation =>
    (SafeArena.bytes_until_next_allocation s).map fun r => (Result.size r.1, r.2, m)

/-- A sequence of calls on an `UnsafeArena`: the results in order, the final
state and memory content. -/
def UnsafeArena.calls (a : BaseArena) (m : Memory) :
    List Call → Option (List Result × BaseArena × Memory)
  | [] => some ([], a, m)
  | c :: cs =>
    match UnsafeArena.call a m c with
    | none => none
    | some (r, a1, m1) =>
      match UnsafeArena.calls a1 m1 cs with
      | none => none
      | some (rs, a2, m2) => some (r :: rs, a2, m2)

/-- A sequence of calls on a `SafeArena`: the results in order, the final
state and memory content. -/
def SafeArena.calls (s : SafeArena) (m : Memory) :
    List Call → Option (List Result × SafeArena × Memory)
  | [] => some ([], s, m)
  | c :: cs =>
    match SafeArena.call s m c with
    | none => none
    | some (r, s1, m1) =>
      match SafeArena.calls s1 m1 cs with
      | none => none
      | some (rs, s2, m2) => some (r :: rs, s2, m2)

/-! ## Reference counting (`src/base/ref_counted.h`) -/

/-- The class `RefCountedBase`: the member `ref_count_`. It is an `int`, whose
overflow is undefined; the count is an exact integer here. -/
structure RefCountedBase where
  ref_count_ : Int
  deriving DecidableEq, Repr

namespace RefCountedBase

/-- The constructor `RefCountedBase()`: `ref_count_(0)`. -/
def construct : RefCountedBase := { ref_count_ := 0 }

/-- `RefCountedBase::HasOneRef()`. -/
def HasOneRef (o : RefCountedBase) : Bool := o.ref_count_ == 1

/-- `RefCountedBase::AddRef()`: `++ref_count_`. -/
def AddRef (o : RefCountedBase) : RefCountedBase := { o with ref_count_ := o.ref_count_ + 1 }

/-- `RefCountedBase::Release()`: `if (--ref_count_ == 0) return true; return
false;`, the returned flag and the object. -/
def Release (o : RefCountedBase) : Bool × RefCountedBase :=
  let o1 : RefCountedBase := { o with ref_count_ := o.ref_count_ - 1 }
  if o1.ref_count_ = 0 then (true, o1) else (false, o1)

end RefCountedBase

/-- An object of a class `T` derived from `RefCounted<T>`: its `RefCountedBase`
subobject, and how many times `delete` has run on the object. -/
structure RefCounted where
  base : RefCountedBase
  deleted : Nat
  deriving DecidableEq, Repr

namespace RefCounted

/-- The constructor `RefCounted()` of an object that `new T` creates. -/
def construct : RefCounted := { base := RefCountedBase.construct, deleted := 0 }

/-- `RefCounted<T>::AddRef()`. -/
def AddRef (o : RefCounted) : RefCounted := { o with base := o.base.AddRef }

/-- `RefCounted<T>::Release()`:
`if (RefCountedBase::Release()) delete static_cast<const T*>(this)`. -/
def Release (o : RefCounted) : RefCounted :=
  let r := o.base.Release
  if r.1 then { base := r.2, deleted := o.deleted + 1 } else { o with base := r.2 }

end RefCounted

/-- The objects in memory, by address. -/
abbrev Heap := Nat → RefCounted

/-- The state of a program that uses `scoped_refptr<T>`: the objects, and the
`scoped_refptr` instances in the order of their construction, each with its
`ptr_` (0 is `nullptr`), or `none` once its destructor has run. -/
structure Refs where
  heap : Heap
  ptrs : List (Option Nat)

/-- The state in which every address holds a freshly constructed object and no
`scoped_refptr` exists. -/
def Refs.initial : Refs := { heap := fun _ => RefCounted.construct, ptrs := [] }

/-- The number of live `scoped_refptr` instances that point to `p`. -/
def Refs.instances (w : Refs) (p : Nat) : Nat := w.ptrs.count (some p)

namespace scoped_refptr

/-- The static `scoped_refptr<T>::AddRef(T* ptr)`: `ptr->AddRef()`. -/
def AddRef (h : Heap) (ptr : Nat) : Heap := Function.update h ptr (h ptr).AddRef

/-- The static `scoped_refptr<T>::Release(T* ptr)`: `ptr->Release()`. -/
def Release (h : Heap) (ptr : Nat) : Heap := Function.update h ptr (h ptr).Release

/-- `scoped_refptr::get()` of the instance `i`; `none` when there is no live
instance `i`. -/
def get (w : Refs) (i : Nat) : Option Nat := w.ptrs.getD i none

/-- The constructor `scoped_refptr(T* p)`: `ptr_(p)`, then `AddRef(ptr_)` when
`ptr_` is not null. The new instance is the last one of `ptrs`. -/
def construct (w : Refs) (p : Nat) : Refs :=
  { heap := if p ≠ 0 then AddRef w.heap p else w.heap,
    ptrs := w.ptrs ++ [some p] }

/-- The copy constructor `scoped_refptr(const scoped_refptr<T>& r)`. -/
def copy_construct (w : Refs) (r : Nat) : Option Refs :=
  match get w r with
  | none => none
  | some q => some (construct w q)

/-- The move constructor `scoped_refptr(scoped_refptr&& r)`: `ptr_(r.get())`,
then `r.ptr_ = nullptr`. -/
def move_construct (w : Refs) (r : Nat) : Option Refs :=
  match get w r with
  | none => none
  | some q => some { heap := w.heap, ptrs := (w.ptrs.set r (some 0)) ++ [some q] }

/-- The destructor `~scoped_refptr()` of the instance `i`. -/
def destruct (w : Refs) (i : Nat) : Option Refs :=
  match get w i with
  | none => none
  | some q =>
    some { heap := if q ≠ 0 then Release w.heap q else w.heap,
           ptrs := w.ptrs.set i none }

/-- The assignment `operator=(T* p)` to the instance `i`. -/
def assign_pointer (w : Refs) (i : Nat) (p : Nat) : Option Refs :=
  match get w i with
  | none => none
  | some old_ptr =>
    let h1 := if p ≠ 0 then AddRef w.heap p else w.heap
    let ptrs1 := w.ptrs.set i (some p)
    some { heap := if old_ptr ≠ 0 then Release h1 old_ptr else h1, ptrs := ptrs1 }

/-- The assignment `operator=(const scoped_refptr<T>& r)` to the instance `i`:
`return *this = r.ptr_`. -/
def assign (w : Refs) (i : Nat) (r : Nat) : Option Refs :=
  match get w r with
  | none => none
  | some q => assign_pointer w i q

/-- The member `swap(scoped_refptr<T>& r)` of the instance `i`:
`p = ptr_; ptr_ = *pp; *pp = p` with `pp = &r.ptr_`. -/
def swap (w : Refs) (i : Nat) (r : Nat) : Option Refs :=
  match get w i with
  | none => none
  | some p =>
    match get w r with
    | none => none
    | some q => some { w with ptrs := (w.ptrs.set i (some q)).set r (some p) }

/-- The assignment `operator=(scoped_refptr<T>&& r)` to the instance `i`:
`scoped_refptr<T>(std::move(r)).swap(*this)`. The temporary is the instance
`w.ptrs.length`; its destructor runs at the end of the statement. -/
def move_assign (w : Refs) (i : Nat) (r : Nat) : Option Refs :=
  (move_construct w r).bind fun w1 =>
    (swap w1 w.ptrs.length i).bind fun w2 =>
      destruct w2 w.ptrs.length

end scoped_refptr

/-- One operation on `scoped_refptr` instances. -/
inductive RefOp where
  | construct (p : Nat)
  | copy_construct (r : Nat)
  | move_construct (r : Nat)
  | assign_pointer (i p : Nat)
  | assign (i r : Nat)
  | move_assign (i r : Nat)
  | swap (i r : Nat)
  | destruct (i : Nat)
  deriving DecidableEq, Repr

/-- The state after one operation; `none` when it names an instance that is not
live. -/
def RefOp.step (w : Refs) : RefOp → Option Refs
  | .construct p => some (scoped_refptr.construct w p)
  | .copy_construct r => scoped_refptr.copy_construct w r
  | .move_construct r => scoped_refptr.move_construct w r
  | .assign_pointer i p => scoped_refptr.assign_pointer w i p
  | .assign i r => scoped_refptr.assign w i r
  | .move_assign i r => scoped_refptr.move_assign w i r
  | .swap i r => scoped_refptr.swap w i r
  | .destruct i => scoped_refptr.destruct w i

/-- The state after a sequence of operations. -/
def RefOp.run (w : Refs) : List RefOp → Option Refs
  | [] => some w
  | op :: ops => (RefOp.step w op).bind fun w1 => RefOp.run w1 ops

/-- The raw pointer that an operation is given, if any, is null or points to an
object that has not been deleted. -/
def RefOp.valid (w : Refs) : RefOp → Prop
  | .construct p => p = 0 ∨ (w.heap p).deleted = 0
  | .assign_pointer _ p => p = 0 ∨ (w.heap p).deleted = 0
  | _ => True

/-- Every operation of the sequence is `valid` in the state in which it runs. -/
def RefOp.run_valid (w : Refs) : List RefOp → Prop
  | [] => True
  | op :: ops =>
    RefOp.valid w op ∧
      match RefOp.step w op with
      | none => True
      | some w1 => RefOp.run_valid w1 ops

/-- The reference-count invariant: the `ref_count_` of every object is the
number of live `scoped_refptr` instances that point to it, and an object has
been deleted at most once, and only when no instance points to it. -/
def Refs.counted (w : Refs) : Prop :=
  ∀ p, p ≠ 0 →
    (w.heap p).base.ref_count_ = (w.instances p : Int) ∧
    (w.heap p).deleted ≤ 1 ∧
    ((w.heap p).deleted = 1 → w.instances p = 0)

/-- What one operation does to the objects, `w` before and `w1` after: an
object is deleted, once, exactly when the number of instances that point to it
drops from 1 to 0. -/
def Refs.deletes (w w1 : Refs) : Prop :=
  ∀ p, p ≠ 0 →
    (w1.heap p).deleted =
      (w.heap p).deleted + (if w.instances p = 1 ∧ w1.instances p = 0 then 1 else 0)

/-- Whether an operation is `valid` in a state can be computed. -/
instance RefOp.valid_decidable (w : Refs) : (op : RefOp) → Decidable (RefOp.valid w op)
  | .construct p => inferInstanceAs (Decidable (p = 0 ∨ (w.heap p).deleted = 0))
  | .assign_pointer _ p => inferInstanceAs (Decidable (p = 0 ∨ (w.heap p).deleted = 0))
  | .copy_construct _ => inferInstanceAs (Decidable True)
  | .move_construct _ => inferInstanceAs (Decidable True)
  | .assign _ _ => inferInstanceAs (Decidable True)
  | .move_assign _ _ => inferInstanceAs (Decidable True)
  | .swap _ _ => inferInstanceAs (Decidable True)
  | .destruct _ => inferInstanceAs (Decidable True)

/-- Whether a sequence of operations is valid from a state can be computed. -/
instance RefOp.run_valid_decidable :
    (w : Refs) → (ops : List RefOp) → Decidable (RefOp.run_valid w ops)
  | _, [] => inferInstanceAs (Decidable True)
  | w, op :: ops =>
    have : Decidable (match RefOp.step w op with
        | none => True
        | some w1 => RefOp.run_valid w1 ops) :=
      match RefOp.step w op with
      | none => inferInstanceAs (Decidable True)
      | some w1 => RefOp.run_valid_decidable w1 ops
    inferInstanceAs (Decidable (RefOp.valid w op ∧
      match RefOp.step w op with
      | none => True
      | some w1 => RefOp.run_valid w1 ops))

/-- The operations `p1(raw1)`, `p2(raw2)`, `p3(p1)`, `p1 = std::move(p2)`, `~p3`
on two objects at the addresses 100 and 200. -/
def refs_example_ops : List RefOp :=
  [.construct 100, .construct 200, .copy_construct 0, .move_assign 0 1, .destruct 2]

/-- The state after `refs_example_ops`. -/
def refs_example : Refs := (RefOp.run Refs.initial refs_example_ops).getD Refs.initial

/-- One object at the address 100 and one instance `var(p)` that points to it:
the state of the self-assignment test before `var = var`. -/
def refs_one : Refs := scoped_refptr.construct Refs.initial 100

/-- Two objects at 100 and 200 with `p1(raw1)` and `p2(raw2)`: the state of the
move-assignment test before `p1 = std::move(p2)`. -/
def refs_two : Refs := scoped_refptr.construct (scoped_refptr.construct Refs.initial 100) 200

/-! ## The assertions of the slow path -/

/-- The condition of `assert(align_as_int > 0 && 0 == (align & (align - 1)))`
in `GetMemoryFallback`: the alignment is a power of two. -/
def BaseArena.GetMemoryFallback_assert_power_of_two (align_as_int : Int) : Prop :=
  align_as_int > 0 ∧
    to_size_t align_as_int &&& to_size_t ((to_size_t align_as_int : Int) - 1) = 0

/-- The condition of `assert(0 == (last_alloc_ & (align - 1)))` at the end of
`GetMemoryFallback`, read in the state `a` that the bump leaves. -/
def BaseArena.GetMemoryFallback_assert_aligned (a : BaseArena) (align_as_int : Int) : Prop :=
  a.last_alloc_ &&& to_size_t ((to_size_t align_as_int : Int) - 1) = 0

instance (align_as_int : Int) :
    Decidable (BaseArena.GetMemoryFallback_assert_power_of_two align_as_int) :=
  inferInstanceAs (Decidable (_ ∧ _))

instance (a : BaseArena) (align_as_int : Int) :
    Decidable (a.GetMemoryFallback_assert_aligned align_as_int) :=
  inferInstanceAs (Decidable (_ = _))

/-- The four calls `Alloc(1000)` that fill the first block of the arena of
block size 4096 up to its last 96 bytes. -/
def four_allocs : List (Nat × Nat) := [(1000, 0), (1000, 0), (1000, 0), (1000, 0)]

/-- The arena of block size 4096 (block 0 at address 4096) after four calls
`Alloc(1000)`: 96 bytes remain at address 8096. -/
def arena_after_4000 : BaseArena :=
  { arena_at 4096 with freestart_ := 8096, remaining_ := 96, last_alloc_ := 7096 }

/-! ## An object that holds a reference to itself (`src/base/ref_counted_unittest.cc`) -/

/-- An object of the test class `ScopedRefPtrToSelf`, derived from
`RefCounted<ScopedRefPtrToSelf>`: its `RefCountedBase` subobject, the `ptr_` of
its member `self_ptr_` (0 is `nullptr`; `none` once the destructor of the member
has run), and how many times `delete` has run on the object. -/
structure ScopedRefPtrToSelf where
  base : RefCountedBase
  self_ptr_ : Option Nat
  deleted : Nat
  deriving DecidableEq, Repr

/-- The objects of the class `ScopedRefPtrToSelf` by address, and the static
member `was_destroyed_`. -/
structure SelfRefs where
  heap : Nat → ScopedRefPtrToSelf
  was_destroyed_ : Bool

namespace ScopedRefPtrToSelf

/-- The constructor `ScopedRefPtrToSelf() : self_ptr_(this)` of the object at
the address `this`: `RefCounted()`, then `scoped_refptr(T* p)` on the member,
which calls `AddRef` when `p` is not null. -/
def construct (this : Nat) : ScopedRefPtrToSelf :=
  { base := if this ≠ 0 then RefCountedBase.construct.AddRef else RefCountedBase.construct,
    self_ptr_ := some this,
    deleted := 0 }

/-- The static `scoped_refptr<T>::AddRef(T* ptr)` for `T = ScopedRefPtrToSelf`. -/
def AddRef (w : SelfRefs) (ptr : Nat) : SelfRefs :=
  { w with heap := Function.update w.heap ptr (
      { (w.heap ptr) with base := (w.heap ptr).base.AddRef }) }

/-- The static `scoped_refptr<T>::Release(T* ptr)` for `T = ScopedRefPtrToSelf`:
`RefCounted<T>::Release()` on the object at `ptr`. When the count reaches 0,
`delete` runs the destructor body `was_destroyed_ = true` and then the
destructor of the member `self_ptr_`, which releases the object that the member
points to when it is not null. The first argument bounds the length of the
chain of destructors; `none` when it is used up. -/
def Release : Nat → SelfRefs → Nat → Option SelfRefs
  | 0, _, _ => none
  | fuel + 1, w, ptr =>
    let r := (w.heap ptr).base.Release
    if r.1 then
      let w1 : SelfRefs :=
        { heap := Function.update w.heap ptr (
            { base := r.2, self_ptr_ := none, deleted := (w.heap ptr).deleted + 1 }),
          was_destroyed_ := true }
      match (w.heap ptr).self_ptr_ with
      | none => some w1
      | some q => if q ≠ 0 then Release fuel w1 q else some w1
    else
      some { w with heap := Function.update w.heap ptr { (w.heap ptr) with base := r.2 } }

/-- The statement `new ScopedRefPtrToSelf()` when the object is created at the
address `this`. -/
def new_object (w : SelfRefs) (this : Nat) : SelfRefs :=
  { w with heap := Function.update w.heap this (construct this) }

/-- The assignment `o->self_ptr_ = p` for a raw pointer `p`
(`scoped_refptr::operator=(T* p)` on the member of the object at `o`); `none`
when the member has been destroyed or the chain of destructors is longer than
`fuel`. -/
def assign_pointer (fuel : Nat) (w : SelfRefs) (o p : Nat) : Option SelfRefs :=
  match (w.heap o).self_ptr_ with
  | none => none
  | some old_ptr =>
    let w1 := if p ≠ 0 then AddRef w p else w
    let w2 : SelfRefs :=
      { w1 with heap := Function.update w1.heap o { (w1.heap o) with self_ptr_ := some p } }
    if old_ptr ≠ 0 then Release fuel w2 old_ptr else some w2

/-- The assignment `o->self_ptr_ = std::move(r)`
(`scoped_refptr::operator=(scoped_refptr<T>&& r)` on the member of the object at
`o`), where `r` is the `ptr_` of an instance outside the objects:
`scoped_refptr<T>(std::move(r)).swap(*this)`, then the destructor of the
temporary. The result is the state and the `ptr_` of `r` afterwards. -/
def move_assign (fuel : Nat) (w : SelfRefs) (o r : Nat) : Option (SelfRefs × Nat) :=
  match (w.heap o).self_ptr_ with
  | none => none
  | some old_ptr =>
    let tmp := r
    let r1 := 0
    let w1 : SelfRefs :=
      { w with heap := Function.update w.heap o { (w.heap o) with self_ptr_ := some tmp } }
    let tmp1 := old_ptr
    (if tmp1 ≠ 0 then Release fuel w1 tmp1 else some w1).map fun w2 => (w2, r1)

end ScopedRefPtrToSelf

/-- The state of the two self-reference tests after `reset_was_destroyed()` and
`check = new ScopedRefPtrToSelf()`, the object being created at the address
100. -/
def self_refs_check : SelfRefs :=
  ScopedRefPtrToSelf.new_object
    { heap := fun _ => { base := RefCountedBase.construct, self_ptr_ := none, deleted := 0 },
      was_destroyed_ := false } 100

/-! ## The block table along a sequence of calls -/

/-- The address that the system allocator returns to a call, for the calls that
carry one. -/
def Op.mem : Op → Nat
  | .Alloc _ mem => mem
  | .AllocAligned _ _ mem => mem
  | .AllocWithHandle _ mem => mem
  | .Realloc _ _ _ mem => mem
  | _ => 0

/-- The table entry that a call appends in the state `a`, if it acquires a
block: the address returned by the system allocator with the capacity that
`AllocNewBlock` records for the request (the request itself on the
large-request branch, `block_size_` when `MakeNewBlock` runs). -/
def acquired (a : BaseArena) (op : Op) : Option AllocatedBlock :=
  match alloc_call a op with
  | none => none
  | some (size, align) =>
    match GetMemory_path a size align with
    | Path.dedicated => some ⟨op.mem, a.new_block_capacity size⟩
    | Path.new_block => some ⟨op.mem, a.new_block_capacity a.block_size_⟩
    | _ => none

/-- The blocks acquired along a sequence of calls, in the order of their
acquisition. -/
def acquisitions (a : BaseArena) : List Op → List AllocatedBlock
  | [] => []
  | op :: ops =>
    match step a op with
    | none => []
    | some a1 => (acquired a op).toList ++ acquisitions a1 ops

/-- The entries of the block table in index order: the inline slots in use,
then the overflow vector. -/
def BaseArena.blocks (a : BaseArena) : List AllocatedBlock :=
  a.first_blocks_.take a.blocks_alloced_ ++ a.overflow_blocks_.getD []

/-- The shape of the block table: the inline array has `kFirstBlocks` slots, of
which between one and all are in use, and there is no overflow vector while an
inline slot is free. -/
def table_wf (a : BaseArena) : Prop :=
  a.first_blocks_.length = kFirstBlocks ∧ 1 ≤ a.blocks_alloced_ ∧
  a.blocks_alloced_ ≤ kFirstBlocks ∧
  (a.blocks_alloced_ < kFirstBlocks → a.overflow_blocks_ = none)

/-- The block that serves the bump allocations after a call, `cur` being that
block before the call: `Reset` installs block 0, `MakeNewBlock` the block it
acquires. -/
def current_block (a : BaseArena) (cur : AllocatedBlock) (op : Op) : AllocatedBlock :=
  match op with
  | .Reset => a.first_blocks_.getD 0 default
  | _ =>
    match alloc_call a op with
    | none => cur
    | some (size, align) =>
      match GetMemory_path a size align with
      | Path.new_block => ⟨op.mem, a.new_block_capacity a.block_size_⟩
      | _ => cur

/-- The block that serves the bump allocations after a sequence of calls. -/
def run_block (a : BaseArena) (cur : AllocatedBlock) : List Op → AllocatedBlock
  | [] => cur
  | op :: ops =>
    match step a op with
    | none => cur
    | some a1 => run_block a1 (current_block a cur op) ops

/-- The cursor lies in the block `b`: the free space `[freestart_, freestart_ +
remaining_)` is inside the block, and the last allocation, when there is one,
starts inside the block at or before `freestart_`. -/
def block_inv (b : AllocatedBlock) (a : BaseArena) : Prop :=
  b.mem ≤ a.freestart_ ∧ a.freestart_ + a.remaining_ ≤ b.mem + b.size ∧
  (a.last_alloc_ ≠ 0 → b.mem ≤ a.last_alloc_ ∧ a.last_alloc_ ≤ a.freestart_)

/-- The region `(p, size)` that an allocation call returns in the state `a`:
`size` bytes from the address `p`. -/
def returned (a : BaseArena) : Op → Option (Nat × Nat)
  | .Alloc size mem => (UnsafeArena.Alloc a size mem).map fun r => (r.1, size)
  | .AllocAligned size align mem =>
    (UnsafeArena.AllocAligned a size align mem).map fun r => (r.1, size)
  | .AllocWithHandle size mem =>
    (UnsafeArena.AllocWithHandle a size mem).map fun r => (r.1, size)
  | _ => none

/-- The regions returned along a sequence of calls. -/
def regions (a : BaseArena) : List Op → List (Nat × Nat)
  | [] => []
  | op :: ops =>
    match step a op with
    | none => []
    | some a1 => (returned a op).toList ++ regions a1 ops

/-- The calls `Alloc`, `AllocAligned` and `AllocWithHandle` with a size that is
not zero. -/
def Op.allocates : Op → Prop
  | .Alloc size _ => 0 < size
  | .AllocAligned size _ _ => 0 < size
  | .AllocWithHandle size _ => 0 < size
  | _ => False

/-- The byte ranges of two blocks do not overlap. -/
def AllocatedBlock.disjoint (b c : AllocatedBlock) : Prop :=
  b.mem + b.size ≤ c.mem ∨ c.mem + c.size ≤ b.mem

/-- The regions `[r.1, r.1 + r.2)` and `[s.1, s.1 + s.2)` do not overlap. -/
def region_disjoint (r s : Nat × Nat) : Prop :=
  r.1 + r.2 ≤ s.1 ∨ s.1 + s.2 ≤ r.1

/-- The region `[r.1, r.1 + r.2)` lies inside the block `b`. -/
def region_inside (r : Nat × Nat) (b : AllocatedBlock) : Prop :=
  b.mem ≤ r.1 ∧ r.1 + r.2 ≤ b.mem + b.size

instance : DecidableRel AllocatedBlock.disjoint :=
  fun b c => inferInstanceAs (Decidable (b.mem + b.size ≤ c.mem ∨ c.mem + c.size ≤ b.mem))

instance : DecidableRel region_disjoint :=
  fun r s => inferInstanceAs (Decidable (r.1 + r.2 ≤ s.1 ∨ s.1 + s.2 ≤ r.1))

instance (r : Nat × Nat) (b : AllocatedBlock) : Decidable (region_inside r b) :=
  inferInstanceAs (Decidable (b.mem ≤ r.1 ∧ r.1 + r.2 ≤ b.mem + b.size))

instance (b : AllocatedBlock) (a : BaseArena) : Decidable (block_inv b a) :=
  inferInstanceAs (Decidable (_ ∧ _ ∧ (_ → _)))

instance (a : BaseArena) : Decidable (table_wf a) :=
  inferInstanceAs (Decidable (_ ∧ _ ∧ _ ∧ (_ → _)))

/-- Seventeen calls `Alloc(5000)` on an arena of block size 4096: each is served
by a dedicated block, the `i`-th at the address `10000 + 8192 * i`. -/
def seventeen_allocs : List Op :=
  (List.range 17).map fun i => Op.Alloc 5000 (10000 + 8192 * i)

/-- The arena of block size 4096 (block 0 at address 4096) after
`seventeen_allocs`. -/
def arena_seventeen : BaseArena :=
  (run (arena_at 4096) seventeen_allocs).getD (arena_at 4096)

/-- What a sequence of allocation calls keeps true of the regions `R` returned
so far, `B` being the blocks of the table and `cur` the block that serves the
bump allocations: the cursor lies in `cur`; every region lies in `cur` below
`freestart_`, or in a block that does not overlap `cur`; and the regions are
pairwise disjoint. -/
def regions_inv (a : BaseArena) (cur : AllocatedBlock) (B : List AllocatedBlock)
    (R : List (Nat × Nat)) : Prop :=
  cur ∈ B ∧ block_inv cur a ∧
  (∀ r ∈ R, (region_inside r cur ∧ r.1 + r.2 ≤ a.freestart_) ∨
    (∃ b ∈ B, region_inside r b ∧ b.disjoint cur)) ∧
  R.Pairwise region_disjoint

/-- Whether a call is an allocation call of a size that is not zero can be
computed. -/
instance Op.allocates_decidable : (op : Op) → Decidable op.allocates
  | .Alloc size _ => inferInstanceAs (Decidable (0 < size))
  | .AllocAligned size _ _ => inferInstanceAs (Decidable (0 < size))
  | .AllocWithHandle size _ => inferInstanceAs (Decidable (0 < size))
  | .Free _ _ => inferInstanceAs (Decidable False)
  | .Shrink _ _ => inferInstanceAs (Decidable False)
  | .Realloc _ _ _ _ => inferInstanceAs (Decidable False)
  | .Reset => inferInstanceAs (Decidable False)

/-- Eight allocation calls on the arena of block size 4096 whose block is at
4098: four that fill block 0, one served by a dedicated block at 9000, one that
makes a new block at 20000, and two served from that block. -/
def eight_allocs : List Op :=
  [.Alloc 1000 0, .Alloc 1000 0, .Alloc 1000 0, .Alloc 1000 0, .Alloc 4000 9000,
    .Alloc 1000 20000, .AllocAligned 8 16 0, .AllocWithHandle 40 0]

/-- The arena `arena_at_4098` after `eight_allocs`. -/
def arena_eight_allocs : BaseArena :=
  (run arena_at_4098 eight_allocs).getD arena_at_4098

/-- The number of bytes that a call requests, for the calls that request
memory. -/
def Op.size : Op → Nat
  | .Alloc size _ => size
  | .AllocAligned size _ _ => size
  | .AllocWithHandle size _ => size
  | .Realloc _ _ new_size _ => new_size
  | _ => 0

/-! ## The guarded variant, with the events of one caller -/

/-- The library routine `memset(dst, c, n)`. -/
def memset (m : Memory) (dst c n : Nat) : Memory :=
  fun x => if dst ≤ x ∧ x < dst + n then c else m x

/-- The library routine `memchr(s, c, n)`: the address of the first of the `n`
bytes at `s` that equals `c`; `none` is the null result. -/
def memchr (m : Memory) (s c n : Nat) : Option Nat :=
  ((List.range n).find? fun i => m (s + i) = c).map fun i => s + i

/-- The parts of the arena state that the members of `SafeArena` reach: the
protected operations of `BaseArena` they call, and the two fields they read. -/
inductive Access where
  | GetMemory
  | ReturnMemory
  | AdjustLastAlloc
  | GetMemoryWithHandle
  | Reset
  | status_
  | remaining_
  deriving DecidableEq, Repr

/-- What one caller of a `SafeArena` does, in program order. -/
inductive Event where
  /-- The call `mutex_.Lock()` has returned: the caller holds the mutex. -/
  | lock
  /-- The call `mutex_.Unlock()`. -/
  | unlock
  /-- A read or write of the arena state; `held` is whether the caller held
  `mutex_` at that moment. -/
  | access (what : Access) (held : Bool)
  /-- A read or write of bytes outside the arena object (`memcpy`, `memset`,
  `strlen`, `memchr`, a store through a returned pointer); `held` is whether
  the caller held `mutex_` at that moment. -/
  | bytes (held : Bool)
  deriving DecidableEq, Repr

/-- The state of the mutex after an event, from its state before; `none` when
the event is out of place: a lock of a held mutex, an unlock of a free one, an
access of the arena state while the mutex is free. -/
def Event.after (held : Bool) : Event → Option Bool
  | .lock => if held then none else some true
  | .unlock => if held then some false else none
  | .access _ _ => if held then some true else none
  | .bytes _ => some held

/-- The state of the mutex after a sequence of events; `none` when one of them
is out of place. -/
def held_after (held : Bool) : List Event → Option Bool
  | [] => some held
  | e :: es => (e.after held).bind fun h => held_after h es

/-- One caller of a `SafeArena`: the arena, the memory content, and the events
of the caller so far. -/
structure Caller where
  arena : SafeArena
  memory : Memory
  trace : List Event

namespace Caller

/-- `mutex_.Lock()`; `none` when the mutex is never obtained. -/
def Lock (t : Caller) : Option Caller :=
  t.arena.mutex_.Lock.map fun l =>
    { t with arena := { t.arena with mutex_ := l }, trace := t.trace ++ [Event.lock] }

/-- `mutex_.Unlock()`. -/
def Unlock (t : Caller) : Caller :=
  { t with
    arena := { t.arena with mutex_ := t.arena.mutex_.Unlock },
    trace := t.trace ++ [Event.unlock] }

/-- A call of a protected operation of `BaseArena`, or a read of a field, on
the `BaseArena` subobject; `none` when the operation aborts. The event records
the state of the mutex when the operation runs. -/
def access {α : Type} (t : Caller) (what : Access)
    (f : BaseArena → Option (α × BaseArena)) : Option (α × Caller) :=
  (f t.arena.base).map fun r =>
    (r.1, { t with
      arena := { t.arena with base := r.2 },
      trace := t.trace ++ [Event.access what t.arena.mutex_.locked] })

/-- A read or write of bytes outside the arena object. A store through a
pointer that the arena returned as null, which ends the process in the source,
is a store at address 0 here. -/
def bytes (t : Caller) (f : Memory → Memory) : Caller :=
  { t with memory := f t.memory, trace := t.trace ++ [Event.bytes t.arena.mutex_.locked] }

/-- A block `{ LockGuard<Mutex> lock(&mutex_); body }` of a `SafeArena` member:
the constructor of the guard locks, `body` runs, the destructor of the guard
unlocks when the block is left, also when it is left by a `return`. `none`
when the lock is never obtained or `body` aborts. -/
def LockGuard {α : Type} (t : Caller) (body : Caller → Option (α × Caller)) :
    Option (α × Caller) :=
  match t.Lock with
  | none => none
  | some t1 =>
    match body t1 with
    | none => none
    | some (r, t2) => some (r, t2.Unlock)

/-- `SafeArena::Reset()`. -/
def Reset (t : Caller) : Option (Unit × Caller) :=
  t.LockGuard fun c => c.access Access.Reset fun b => some ((), b.Reset)

/-- `SafeArena::Alloc(size)`. -/
def Alloc (t : Caller) (size : Nat) (mem : Nat) : Option (Nat × Caller) :=
  t.LockGuard fun c => c.access Access.GetMemory fun b => b.GetMemory size 1 mem

/-- `SafeArena::AllocAligned(size, align)`. -/
def AllocAligned (t : Caller) (size : Nat) (align : Int) (mem : Nat) :
    Option (Nat × Caller) :=
  t.LockGuard fun c => c.access Access.GetMemory fun b => b.GetMemory size align mem

/-- `SafeArena::Calloc(size)`. -/
def Calloc (t : Caller) (size : Nat) (mem : Nat) : Option (Nat × Caller) :=
  (t.Alloc size mem).map fun r => (r.1, r.2.bytes fun m => memset m r.1 0 size)

/-- `SafeArena::CallocAligned(size, align)`. -/
def CallocAligned (t : Caller) (size : Nat) (align : Int) (mem : Nat) :
    Option (Nat × Caller) :=
  (t.AllocAligned size align mem).map fun r => (r.1, r.2.bytes fun m => memset m r.1 0 size)

/-- `SafeArena::Free(memory, size)`. -/
def Free (t : Caller) (memory : Nat) (size : Nat) : Option (Unit × Caller) :=
  t.LockGuard fun c =>
    c.access Access.ReturnMemory fun b => some ((), b.ReturnMemory memory size)

/-- `SafeArena::AllocWithHandle(size, handle)`. -/
def AllocWithHandle (t : Caller) (size : Nat) (mem : Nat) :
    Option ((Nat × Handle) × Caller) :=
  t.LockGuard fun c =>
    c.access Access.GetMemoryWithHandle fun b =>
      (b.GetMemoryWithHandle size mem).map fun r => ((r.1, r.2.1), r.2.2)

/-- `SafeArena::SlowAlloc(size)`. -/
def SlowAlloc (t : Caller) (size : Nat) (mem : Nat) : Option (Nat × Caller) :=
  t.Alloc size mem

/-- `SafeArena::SlowFree(memory, size)`. -/
def SlowFree (t : Caller) (memory : Nat) (size : Nat) : Option (Unit × Caller) :=
  t.Free memory size

/-- `SafeArena::SlowAllocWithHandle(size, handle)`. -/
def SlowAllocWithHandle (t : Caller) (size : Nat) (mem : Nat) :
    Option ((Nat × Handle) × Caller) :=
  t.AllocWithHandle size mem

/-- `SafeArena::Memdup(s, bytes)`. -/
def Memdup (t : Caller) (s : Nat) (n : Nat) (mem : Nat) : Option (Nat × Caller) :=
  (t.Alloc n mem).map fun r => (r.1, r.2.bytes fun m => memcpy m r.1 s n)

/-- `SafeArena::MemdupPlusNUL(s, bytes)`. -/
def MemdupPlusNUL (t : Caller) (s : Nat) (n : Nat) (mem : Nat) : Option (Nat × Caller) :=
  (t.Alloc ((n + 1) % 2 ^ 64) mem).map fun r =>
    (r.1, (r.2.bytes fun m => memcpy m r.1 s n).bytes fun m => Function.update m (r.1 + n) 0)

/-- `SafeArena::MemdupWithHandle(s, bytes)`. -/
def MemdupWithHandle (t : Caller) (s : Nat) (n : Nat) (mem : Nat) :
    Option (Handle × Caller) :=
  (t.AllocWithHandle n mem).map fun r =>
    (r.1.2, r.2.bytes fun m => memcpy m r.1.1 s n)

/-- `SafeArena::Strdup(s)`; `len` is the value that `strlen(s)` returns. -/
def Strdup (t : Caller) (s : Nat) (len : Nat) (mem : Nat) : Option (Nat × Caller) :=
  (t.bytes fun m => m).Memdup s ((len + 1) % 2 ^ 64) mem

/-- `SafeArena::Strndup(s, n)`. -/
def Strndup (t : Caller) (s : Nat) (n : Nat) (mem : Nat) : Option (Nat × Caller) :=
  let eos := memchr t.memory s 0 n
  let t1 := t.bytes fun m => m
  let size : Nat :=
    match eos with
    | none => (n + 1) % 2 ^ 64
    | some e => to_size_t ((e : Int) - s + 1)
  (t1.Memdup s size mem).map fun r =>
    (r.1, r.2.bytes fun m => Function.update m (r.1 + to_size_t ((size : Int) - 1)) 0)

/-- `SafeArena::Realloc(s, oldsize, newsize)` (arena.cc): the block with the
guard holds the call of `AdjustLastAlloc`, and its `return s` leaves the block;
the allocation that follows a failed attempt is a call of `SafeArena::Alloc`,
and `memcpy` follows it. -/
def Realloc (t : Caller) (p : Nat) (oldsize newsize : Nat) (mem : Nat) :
    Option (Nat × Caller) :=
  match t.LockGuard fun c =>
      c.access Access.AdjustLastAlloc fun b =>
        some ((b.AdjustLastAlloc p newsize).1, (b.AdjustLastAlloc p newsize).2) with
  | none => none
  | some (adjusted, t1) =>
    if adjusted then some (p, t1)
    else if newsize ≤ oldsize then some (p, t1)
    else
      (t1.Alloc newsize mem).map fun q =>
        (q.1, q.2.bytes fun m => memcpy m q.1 p (min oldsize newsize))

/-- `SafeArena::SlowRealloc(memory, old_size, new_size)`. -/
def SlowRealloc (t : Caller) (p : Nat) (old_size new_size : Nat) (mem : Nat) :
    Option (Nat × Caller) :=
  t.Realloc p old_size new_size mem

/-- `SafeArena::Shrink(s, new_size)`. -/
def Shrink (t : Caller) (p : Nat) (new_size : Nat) : Option (Nat × Caller) :=
  t.LockGuard fun c =>
    c.access Access.AdjustLastAlloc fun b => some (p, (b.AdjustLastAlloc p new_size).2)

/-- `SafeArena::status()`. -/
def status (t : Caller) : Option (Nat × Caller) :=
  t.LockGuard fun c => c.access Access.status_ fun b => some (b.bytes_allocated_, b)

/-- `SafeArena::bytes_until_next_allocation()`. -/
def bytes_until_next_allocation (t : Caller) : Option (Nat × Caller) :=
  t.LockGuard fun c => c.access Access.remaining_ fun b => some (b.remaining_, b)

end Caller

/-- A call of a member function, other than a constructor, that the class
`SafeArena` declares, with its arguments. A call that may acquire a block carries the address `mem` that the
system allocator returns for it; `Strdup` carries the length `len` that
`strlen` finds. -/
inductive Entry where
  | Reset
  | Alloc (size mem : Nat)
  | AllocAligned (size : Nat) (align : Int) (mem : Nat)
  | Calloc (size mem : Nat)
  | CallocAligned (size : Nat) (align : Int) (mem : Nat)
  | Free (memory size : Nat)
  | AllocWithHandle (size mem : Nat)
  | SlowAlloc (size mem : Nat)
  | SlowFree (memory size : Nat)
  | SlowRealloc (memory old_size new_size mem : Nat)
  | SlowAllocWithHandle (size mem : Nat)
  | Memdup (s n mem : Nat)
  | MemdupPlusNUL (s n mem : Nat)
  | MemdupWithHandle (s n mem : Nat)
  | Strdup (s len mem : Nat)
  | Strndup (s n mem : Nat)
  | Realloc (s old_size new_size mem : Nat)
  | Shrink (s new_size : Nat)
  | status
  | bytes_until_next_allocation
  deriving DecidableEq, Repr

/-- The caller after one call of a member function of `SafeArena`; `none`
when the call does not return. -/
def Caller.call (t : Caller) : Entry → Option Caller
  | .Reset => t.Reset.map Prod.snd
  | .Alloc size mem => (t.Alloc size mem).map Prod.snd
  | .AllocAligned size align mem => (t.AllocAligned size align mem).map Prod.snd
  | .Calloc size mem => (t.Calloc size mem).map Prod.snd
  | .CallocAligned size align mem => (t.CallocAligned size align mem).map Prod.snd
  | .Free memory size => (t.Free memory size).map Prod.snd
  | .AllocWithHandle size mem => (t.AllocWithHandle size mem).map Prod.snd
  | .SlowAlloc size mem => (t.SlowAlloc size mem).map Prod.snd
  | .SlowFree memory size => (t.SlowFree memory size).map Prod.snd
  | .SlowRealloc memory old_size new_size mem =>
    (t.SlowRealloc memory old_size new_size mem).map Prod.snd
  | .SlowAllocWithHandle size mem => (t.SlowAllocWithHandle size mem).map Prod.snd
  | .Memdup s n mem => (t.Memdup s n mem).map Prod.snd
  | .MemdupPlusNUL s n mem => (t.MemdupPlusNUL s n mem).map Prod.snd
  | .MemdupWithHandle s n mem => (t.MemdupWithHandle s n mem).map Prod.snd
  | .Strdup s len mem => (t.Strdup s len mem).map Prod.snd
  | .Strndup s n mem => (t.Strndup s n mem).map Prod.snd
  | .Realloc s old_size new_size mem => (t.Realloc s old_size new_size mem).map Prod.snd
  | .Shrink s new_size => (t.Shrink s new_size).map Prod.snd
  | .status => t.status.map Prod.snd
  | .bytes_until_next_allocation => t.bytes_until_next_allocation.map Prod.snd

theorem to_size_t_natCast (n : Nat) (h : n < 2 ^ 64) : to_size_t (n : Int) = n := by
  unfold to_size_t
  omega

theorem to_size_t_sub (x y : Nat) (hy : y ≤ x) (hx : x < 2 ^ 64) :
    to_size_t ((x : Int) - y) = x - y := by
  unfold to_size_t
  omega

theorem to_int_natCast (n : Nat) (h : n < 2 ^ 31) : to_int (n : Int) = n := by
  unfold to_int
  omega

theorem block_size_bits_loop_spec (block_size : Nat) :
    ∀ fuel bits, block_size ≤ 2 ^ BaseArena.block_size_bits_loop block_size fuel bits ∨
      BaseArena.block_size_bits_loop block_size fuel bits = bits + fuel := by
  intro fuel
  induction fuel with
  | zero => intro bits; right; simp [BaseArena.block_size_bits_loop]
  | succ n ih =>
    intro bits
    unfold BaseArena.block_size_bits_loop
    by_cases h : 1 <<< bits < block_size
    · rw [if_pos h]
      rcases ih (bits + 1) with h1 | h1
      · left; exact h1
      · right; omega
    · rw [if_neg h]
      left
      rw [Nat.one_shiftLeft] at h
      omega

/-! ## The handle codec -/

theorem handle_value_eq_div (bsb hab i o : Nat) (hfit : i * 2 ^ bsb + o < 2 ^ 64) :
    BaseArena.handle_value bsb hab i o = (i * 2 ^ bsb + o) / 2 ^ hab := by
  have h1 : i * 2 ^ bsb < 2 ^ 64 := by omega
  unfold BaseArena.handle_value
  rw [Nat.shiftLeft_eq, Nat.shiftRight_eq_div_pow, Nat.mod_eq_of_lt h1, Nat.mod_eq_of_lt hfit]

theorem handle_store_of_lt (hv : Nat) (h : hv < 0xFFFFFFFF) :
    BaseArena.handle_store hv = ⟨hv⟩ := by
  unfold BaseArena.handle_store
  have h1 : ¬ hv ≥ 0xFFFFFFFF := by omega
  rw [if_neg h1]
  congr 1
  omega

theorem handle_store_of_ge (hv : Nat) (h : hv ≥ 0xFFFFFFFF) :
    BaseArena.handle_store hv = ⟨Handle.kInvalidValue⟩ := by
  unfold BaseArena.handle_store
  rw [if_pos h]
  rfl

/-- C1 (the code at the failing input). `UnsafeArena(4096)` whose first block
the system allocator places at address 4112 (a multiple of 16, not of 32),
then `set_handle_alignment(32)`, then `AllocWithHandle(8, &h)`: the call
returns the address 4128 with the valid handle 0, and `HandleToPointer` maps
that handle to 4112, not to the address returned. -/
theorem C1_round_trip_broken_at_unaligned_base :
    BaseArena.construct 0 4096 false 4112 slots0 = some (arena_at 4112) ∧
    (arena_at 4112).set_handle_alignment 32 = some arena_align32 ∧
    ∃ a1 : BaseArena,
      UnsafeArena.AllocWithHandle arena_align32 8 0 = some (4128, ⟨0⟩, a1) ∧
      (⟨0⟩ : Handle).valid = true ∧
      a1.HandleToPointer ⟨0⟩ = some 4112 ∧
      ¬ a1.GetMemoryWithHandle_dcheck (4128 - 4112) := by
  refine ⟨by decide, by decide, ?_⟩
  refine ⟨{ arena_align32 with
    last_alloc_ := 4128, freestart_ := 4136, remaining_ := 4072 }, by decide, by decide,
    by decide, ?_⟩
  unfold BaseArena.GetMemoryWithHandle_dcheck
  decide

/-- C2 (the claim as stated fails). (1) With `block_size = 2^40` (so
`block_size_bits = 40`), handle alignment 1, block index `2^24` and offset 0
the 64-bit shift `block_index << 40` wraps to 0: the packed value is 0, below
`0xFFFFFFFF`. It is also the packed value of block 0, offset 0, so no decoding
can return both pairs; the one of `HandleToPointer` does not return block
`2^24`. (2) With `block_size = 2^31`, handle alignment 8, block 0 and offset 8
the packed value is 1, and the `int` mask `(1 << 31) - 1` that
`HandleToPointer` needs to decode it has no value. -/
theorem C2_counterexample_shift_wraps :
    (BaseArena.block_size_bits_loop (2 ^ 40) 64 0 = 40 ∧
      2 ^ 0 ∣ 2 ^ 40 ∧ 0 < 2 ^ 40 ∧ 2 ^ 0 ∣ 0 ∧
      BaseArena.handle_value 40 0 (2 ^ 24) 0 = 0 ∧
      BaseArena.handle_value 40 0 (2 ^ 24) 0 < 0xFFFFFFFF ∧
      BaseArena.handle_value 40 0 (2 ^ 24) 0 = BaseArena.handle_value 40 0 0 0 ∧
      BaseArena.handle_decode 40 0
          (BaseArena.handle_store (BaseArena.handle_value 40 0 (2 ^ 24) 0))
        ≠ some (((2 ^ 24 : Nat) : Int), 0)) ∧
    (BaseArena.block_size_bits_loop (2 ^ 31) 64 0 = 31 ∧
      2 ^ 3 ∣ 2 ^ 31 ∧ 8 < 2 ^ 31 ∧ 2 ^ 3 ∣ 8 ∧
      BaseArena.handle_value 31 3 0 8 = 1 ∧
      BaseArena.handle_decode 31 3 (BaseArena.handle_store (BaseArena.handle_value 31 3 0 8))
        = none) := by
  decide

theorem block_size_bits_loop_min (block_size : Nat) :
    ∀ fuel bits, BaseArena.block_size_bits_loop block_size fuel bits = bits ∨
      2 ^ (BaseArena.block_size_bits_loop block_size fuel bits - 1) < block_size := by
  intro fuel
  induction fuel with
  | zero => intro bits; left; simp [BaseArena.block_size_bits_loop]
  | succ n ih =>
    intro bits
    unfold BaseArena.block_size_bits_loop
    by_cases h : 1 <<< bits < block_size
    · rw [if_pos h]
      rw [Nat.one_shiftLeft] at h
      rcases ih (bits + 1) with h1 | h1
      · right
        rw [h1]
        simpa using h
      · right; exact h1
    · rw [if_neg h]
      left; rfl

theorem block_size_bits_loop_le (block_size : Nat) :
    ∀ fuel bits, BaseArena.block_size_bits_loop block_size fuel bits ≤ bits + fuel := by
  intro fuel
  induction fuel with
  | zero => intro bits; simp [BaseArena.block_size_bits_loop]
  | succ n ih =>
    intro bits
    unfold BaseArena.block_size_bits_loop
    by_cases h : 1 <<< bits < block_size
    · rw [if_pos h]
      have := ih (bits + 1)
      omega
    · rw [if_neg h]
      omega

/-- The loop of the constructor reaches a shift by 64 bits exactly for block
sizes above `2^63`. -/
theorem block_size_bits_loop_overrun (block_size : Nat) :
    64 ≤ BaseArena.block_size_bits_loop block_size 64 0 ↔ 2 ^ 63 < block_size := by
  have hmin := block_size_bits_loop_min block_size 64 0
  have hspec := block_size_bits_loop_spec block_size 64 0
  have hle := block_size_bits_loop_le block_size 64 0
  generalize BaseArena.block_size_bits_loop block_size 64 0 = b at hmin hspec hle
  constructor
  · intro h64
    rcases hmin with h0 | h1
    · omega
    · have : (2 : Nat) ^ 63 ≤ 2 ^ (b - 1) := Nat.pow_le_pow_right (by decide) (by omega)
      omega
  · intro hbig
    rcases hspec with h1 | h1
    · by_contra hlt
      have : (2 : Nat) ^ b ≤ 2 ^ 63 := Nat.pow_le_pow_right (by decide) (by omega)
      omega
    · omega

/-- For a block size of at most `2^30` the constructor computes at most 30
bits, and they cover the block size. -/
theorem block_size_bits_le_30 (block_size : Nat) (h : block_size ≤ 2 ^ 30) :
    BaseArena.block_size_bits_loop block_size 64 0 ≤ 30 ∧
      block_size ≤ 2 ^ BaseArena.block_size_bits_loop block_size 64 0 := by
  have hmin := block_size_bits_loop_min block_size 64 0
  have hspec := block_size_bits_loop_spec block_size 64 0
  generalize BaseArena.block_size_bits_loop block_size 64 0 = b at hmin hspec
  have hb : b ≤ 30 := by
    rcases hmin with h0 | h1
    · omega
    · by_contra hgt
      have : 2 ^ 30 ≤ 2 ^ (b - 1) := Nat.pow_le_pow_right (by decide) (by omega)
      omega
  refine ⟨hb, ?_⟩
  rcases hspec with h1 | h1
  · exact h1
  · omega

/-- The round trip of the codec on a pair whose shifted index does not
overflow 64 bits, for at most 30 block-size bits that cover the offset. -/
theorem codec_round_trip (b hab i o : Nat) (hb : b ≤ 30) (hi : i < 2 ^ 31) (hob : o < 2 ^ b)
    (hdvd : 2 ^ hab ∣ i * 2 ^ b) (hmul : 2 ^ hab ∣ o)
    (hfit : i * 2 ^ b + o < 2 ^ 64)
    (hpacked : BaseArena.handle_value b hab i o < 0xFFFFFFFF) :
    BaseArena.handle_decode b hab (BaseArena.handle_store (BaseArena.handle_value b hab i o))
      = some ((i : Int), o) := by
  have hpow : (0 : Nat) < 2 ^ b := Nat.pow_pos (by decide)
  have hV : 2 ^ hab ∣ i * 2 ^ b + o := Dvd.dvd.add hdvd hmul
  rw [handle_value_eq_div b hab i o hfit] at hpacked ⊢
  rw [handle_store_of_lt _ hpacked]
  unfold BaseArena.handle_decode
  simp only
  rw [if_neg (by omega), Nat.shiftLeft_eq, Nat.div_mul_cancel hV, Nat.mod_eq_of_lt hfit,
    Nat.shiftRight_eq_div_pow, Nat.one_shiftLeft, Nat.and_pow_two_sub_one_eq_mod]
  have hq : (i * 2 ^ b + o) / 2 ^ b = i := by
    rw [Nat.add_comm, Nat.add_mul_div_right _ _ hpow, Nat.div_eq_of_lt hob, Nat.zero_add]
  have hr : (i * 2 ^ b + o) % 2 ^ b = o := by
    rw [Nat.add_comm, Nat.add_mul_mod_self_right, Nat.mod_eq_of_lt hob]
  rw [hq, hr, to_int_natCast i hi]

/-- C2 (amended). For every `block_size` of at most `2^30` (so that the `int`
mask of `HandleToPointer` is defined and the 64-bit shift cannot wrap), with
`block_size_bits` computed by the constructor, every handle alignment
`2 ^ hab` dividing `block_size`, every block index `i` (an `int`, so below
`2^31`) and every offset `o < block_size` that is a multiple of the alignment:
if the packed value is below `0xFFFFFFFF`, the handle stored is the packed
value and `HandleToPointer` decodes it to block index `i` and offset `o`. -/
theorem C2_codec_round_trip (block_size hab i o : Nat)
    (hbs : block_size ≤ 2 ^ 30)
    (hdiv : 2 ^ hab ∣ block_size) (hi : i < 2 ^ 31) (ho : o < block_size)
    (hmul : 2 ^ hab ∣ o)
    (hpacked : BaseArena.handle_value (BaseArena.block_size_bits_loop block_size 64 0) hab i o
      < 0xFFFFFFFF) :
    BaseArena.handle_store
        (BaseArena.handle_value (BaseArena.block_size_bits_loop block_size 64 0) hab i o)
      = ⟨BaseArena.handle_value (BaseArena.block_size_bits_loop block_size 64 0) hab i o⟩ ∧
    BaseArena.handle_decode (BaseArena.block_size_bits_loop block_size 64 0) hab
      (BaseArena.handle_store
        (BaseArena.handle_value (BaseArena.block_size_bits_loop block_size 64 0) hab i o))
      = some ((i : Int), o) := by
  have h30 := block_size_bits_le_30 block_size hbs
  generalize BaseArena.block_size_bits_loop block_size 64 0 = b at *
  obtain ⟨hb, hcover⟩ := h30
  have hob : o < 2 ^ b := by omega
  have hle : hab ≤ b := by
    by_contra hgt
    have h1 : 2 ^ hab ≤ block_size := Nat.le_of_dvd (by omega) hdiv
    have h2 : 2 ^ b < 2 ^ hab := Nat.pow_lt_pow_right (by decide) (by omega)
    omega
  have hdvd : 2 ^ hab ∣ i * 2 ^ b := Dvd.dvd.mul_left (pow_dvd_pow 2 hle) i
  have hfit : i * 2 ^ b + o < 2 ^ 64 := by
    have h1 : i * 2 ^ b ≤ 2 ^ 31 * 2 ^ 30 :=
      Nat.mul_le_mul (by omega) (Nat.pow_le_pow_right (by decide) hb)
    have h2 : (2 : Nat) ^ b ≤ 2 ^ 30 := Nat.pow_le_pow_right (by decide) hb
    omega
  exact ⟨handle_store_of_lt _ hpacked, codec_round_trip b hab i o hb hi hob hdvd hmul hfit hpacked⟩

/-- C2 (witness): alignment 8, block size 4096, block 2, offset 800. -/
theorem C2_codec_round_trip_witness :
    (4096 ≤ 2 ^ 30 ∧ 2 ^ 3 ∣ 4096 ∧ 2 < 2 ^ 31 ∧ 800 < 4096 ∧ 2 ^ 3 ∣ 800 ∧
      BaseArena.handle_value (BaseArena.block_size_bits_loop 4096 64 0) 3 2 800 < 0xFFFFFFFF) ∧
    BaseArena.block_size_bits_loop 4096 64 0 = 12 ∧
    BaseArena.handle_value 12 3 2 800 = 1124 ∧
    BaseArena.handle_decode (BaseArena.block_size_bits_loop 4096 64 0) 3
      (BaseArena.handle_store
        (BaseArena.handle_value (BaseArena.block_size_bits_loop 4096 64 0) 3 2 800))
      = some (((2 : Nat) : Int), 800) :=
  ⟨by decide, by decide, by decide,
    (C2_codec_round_trip 4096 3 2 800 (by decide) (by decide) (by decide) (by decide)
      (by decide) (by decide)).2⟩

/-- C3. Whenever the allocation and the block lookup of `GetMemoryWithHandle`
succeed, the call returns the allocated pointer: it does not abort on the
packed value. The handle it stores is `0xFFFFFFFF` exactly when the 64-bit
packed value is `>= 0xFFFFFFFF`, and is the packed value otherwise; a handle
reported `valid()` is strictly below `0xFFFFFFFF`. -/
theorem C3_exhaustion_gives_sentinel (a : BaseArena) (size mem p : Nat) (a1 : BaseArena)
    (k : Nat) (block : AllocatedBlock)
    (hget : a.GetMemory size (to_int ((1 <<< a.handle_alignment_bits_ : Nat) : Int)) mem
      = some (p, a1))
    (hfind : a1.findBlock p a1.block_count = some (some (k, block))) :
    ∃ h : Handle, a.GetMemoryWithHandle size mem = some (p, h, a1) ∧
      (h.handle_ = Handle.kInvalidValue ↔
        BaseArena.handle_value a1.block_size_bits_ a1.handle_alignment_bits_ k
          (to_size_t ((p : Int) - block.mem)) ≥ 0xFFFFFFFF) ∧
      (BaseArena.handle_value a1.block_size_bits_ a1.handle_alignment_bits_ k
          (to_size_t ((p : Int) - block.mem)) < 0xFFFFFFFF →
        h.handle_ = BaseArena.handle_value a1.block_size_bits_ a1.handle_alignment_bits_ k
          (to_size_t ((p : Int) - block.mem))) ∧
      (h.valid = true → h.handle_ < 0xFFFFFFFF) := by
  generalize hv : BaseArena.handle_value a1.block_size_bits_ a1.handle_alignment_bits_ k
    (to_size_t ((p : Int) - block.mem)) = packed
  refine ⟨BaseArena.handle_store packed, ?_, ?_, ?_, ?_⟩
  · unfold BaseArena.GetMemoryWithHandle
    rw [hget]
    simp only [hfind, hv]
  · by_cases h : packed ≥ 0xFFFFFFFF
    · rw [handle_store_of_ge packed h]
      simp [h]
    · rw [handle_store_of_lt packed (by omega)]
      simp only [Handle.kInvalidValue]
      omega
  · intro h
    rw [handle_store_of_lt packed h]
  · intro hvalid
    by_cases h : packed ≥ 0xFFFFFFFF
    · rw [handle_store_of_ge packed h] at hvalid
      simp [Handle.valid] at hvalid
    · rw [handle_store_of_lt packed (by omega)]
      simp only
      omega

/-- C3 (witness). (1) The allocation of 8 bytes on `arena_align32`: the handle
is the packed value 0. (2) The allocation of 8 bytes in block 4 of
`arena_five_blocks`: the packed value is `2^32`, the call returns the pointer
and stores the sentinel. -/
theorem C3_exhaustion_gives_sentinel_witness :
    (arena_align32.GetMemory 8
        (to_int ((1 <<< arena_align32.handle_alignment_bits_ : Nat) : Int)) 0
      = some (4128, arena_align32_after) ∧
    arena_align32_after.findBlock 4128 arena_align32_after.block_count
      = some (some (0, ⟨4112, 4096⟩)) ∧
    arena_align32.GetMemoryWithHandle 8 0 = some (4128, ⟨0⟩, arena_align32_after) ∧
    ∃ h : Handle, arena_align32.GetMemoryWithHandle 8 0 = some (4128, h, arena_align32_after) ∧
      (h.handle_ = Handle.kInvalidValue ↔
        BaseArena.handle_value arena_align32_after.block_size_bits_
          arena_align32_after.handle_alignment_bits_ 0
          (to_size_t (((4128 : Nat) : Int) - (⟨4112, 4096⟩ : AllocatedBlock).mem)) ≥ 0xFFFFFFFF) ∧
      (BaseArena.handle_value arena_align32_after.block_size_bits_
          arena_align32_after.handle_alignment_bits_ 0
          (to_size_t (((4128 : Nat) : Int) - (⟨4112, 4096⟩ : AllocatedBlock).mem)) < 0xFFFFFFFF →
        h.handle_ = BaseArena.handle_value arena_align32_after.block_size_bits_
          arena_align32_after.handle_alignment_bits_ 0
          (to_size_t (((4128 : Nat) : Int) - (⟨4112, 4096⟩ : AllocatedBlock).mem))) ∧
      (h.valid = true → h.handle_ < 0xFFFFFFFF)) ∧
    (arena_five_blocks.GetMemory 8
        (to_int ((1 <<< arena_five_blocks.handle_alignment_bits_ : Nat) : Int)) 0
      = some (5 * 2 ^ 31, arena_five_blocks_after) ∧
    arena_five_blocks_after.findBlock (5 * 2 ^ 31) arena_five_blocks_after.block_count
      = some (some (4, ⟨5 * 2 ^ 31, 2 ^ 30⟩)) ∧
    BaseArena.handle_value 30 0 4 0 = 2 ^ 32 ∧
    arena_five_blocks.GetMemoryWithHandle 8 0
      = some (5 * 2 ^ 31, ⟨0xFFFFFFFF⟩, arena_five_blocks_after) ∧
    ∃ h : Handle, arena_five_blocks.GetMemoryWithHandle 8 0
        = some (5 * 2 ^ 31, h, arena_five_blocks_after) ∧
      (h.handle_ = Handle.kInvalidValue ↔
        BaseArena.handle_value arena_five_blocks_after.block_size_bits_
          arena_five_blocks_after.handle_alignment_bits_ 4
          (to_size_t (((5 * 2 ^ 31 : Nat) : Int) -
            (⟨5 * 2 ^ 31, 2 ^ 30⟩ : AllocatedBlock).mem)) ≥ 0xFFFFFFFF) ∧
      (BaseArena.handle_value arena_five_blocks_after.block_size_bits_
          arena_five_blocks_after.handle_alignment_bits_ 4
          (to_size_t (((5 * 2 ^ 31 : Nat) : Int) -
            (⟨5 * 2 ^ 31, 2 ^ 30⟩ : AllocatedBlock).mem)) < 0xFFFFFFFF →
        h.handle_ = BaseArena.handle_value arena_five_blocks_after.block_size_bits_
          arena_five_blocks_after.handle_alignment_bits_ 4
          (to_size_t (((5 * 2 ^ 31 : Nat) : Int) -
            (⟨5 * 2 ^ 31, 2 ^ 30⟩ : AllocatedBlock).mem))) ∧
      (h.valid = true → h.handle_ < 0xFFFFFFFF)) :=
  ⟨⟨by decide, by decide, by decide,
    C3_exhaustion_gives_sentinel arena_align32 8 0 4128 arena_align32_after 0 ⟨4112, 4096⟩
      (by decide) (by decide)⟩,
   ⟨by decide, by decide, by decide, by decide,
    C3_exhaustion_gives_sentinel arena_five_blocks 8 0 (5 * 2 ^ 31) arena_five_blocks_after 4
      ⟨5 * 2 ^ 31, 2 ^ 30⟩ (by decide) (by decide)⟩⟩

/-! ## Allocation -/

theorem GetMemory_fast (a : BaseArena) (size : Nat) (mem : Nat)
    (h0 : 0 < size) (hlt : size < a.remaining_) :
    a.GetMemory size 1 mem = some (a.freestart_, { a with
      last_alloc_ := a.freestart_,
      freestart_ := a.freestart_ + size,
      remaining_ := a.remaining_ - size }) := by
  unfold BaseArena.GetMemory
  rw [if_pos ⟨h0, hlt, rfl⟩]

theorem GetMemory_slow (a : BaseArena) (size : Nat) (align : Int) (mem : Nat)
    (h : ¬ (size < a.remaining_ ∧ align = 1)) :
    a.GetMemory size align mem = a.GetMemoryFallback size align mem := by
  unfold BaseArena.GetMemory
  rw [if_neg]
  intro hc
  exact h ⟨hc.2.1, hc.2.2⟩

theorem to_size_t_one : to_size_t 1 = 1 := by decide

/-- C4 (the claim as stated fails). On a fresh arena of block size 4096 with
`remaining_ == 4096`, `Alloc(4096)` fits in what remains but is not served by
the fast path: it acquires a dedicated block (here at address 9000), returns
that block's address and leaves the cursor where it was. -/
theorem C4_counterexample_size_equals_remaining :
    0 < 4096 ∧ 4096 ≤ (arena_at 4096).remaining_ ∧
    ∃ a1 : BaseArena, UnsafeArena.Alloc (arena_at 4096) 4096 9000 = some (9000, a1) ∧
      9000 ≠ (arena_at 4096).freestart_ ∧
      a1.freestart_ = (arena_at 4096).freestart_ ∧
      a1.remaining_ = (arena_at 4096).remaining_ ∧
      a1.last_alloc_ = 0 ∧
      (arena_at 4096).block_count = 1 ∧ a1.block_count = 2 ∧
      (arena_at 4096).bytes_allocated_ = 4096 ∧ a1.bytes_allocated_ = 8192 := by
  refine ⟨by decide, by decide, ?_⟩
  refine ⟨{ arena_at 4096 with
    bytes_allocated_ := 8192, blocks_alloced_ := 2,
    first_blocks_ := (slots0.set 0 ⟨4096, 4096⟩).set 1 ⟨9000, 4096⟩ }, ?_⟩
  decide

/-- C4 (amended). For every arena state and every size with
`0 < size < remaining_`, or with `size == remaining_` and
`size <= block_size / 4`, `Alloc(size)` returns the previous `freestart_`,
advances `freestart_` by `size`, decreases `remaining_` by `size`, sets
`last_alloc_` to the returned address and acquires no block (`block_count()`
and `bytes_allocated` unchanged). -/
theorem C4_fast_path (a : BaseArena) (size mem : Nat) (h0 : 0 < size)
    (hfit : size < a.remaining_ ∨ (size = a.remaining_ ∧ size ≤ a.block_size_ / 4)) :
    ∃ a1 : BaseArena, UnsafeArena.Alloc a size mem = some (a.freestart_, a1) ∧
      a1 = { a with
        last_alloc_ := a.freestart_,
        freestart_ := a.freestart_ + size,
        remaining_ := a.remaining_ - size } ∧
      a1.freestart_ = a.freestart_ + size ∧
      a1.remaining_ + size = a.remaining_ ∧
      a1.last_alloc_ = a.freestart_ ∧
      a1.block_count = a.block_count ∧
      a1.bytes_allocated_ = a.bytes_allocated_ := by
  refine ⟨{ a with
        last_alloc_ := a.freestart_,
        freestart_ := a.freestart_ + size,
        remaining_ := a.remaining_ - size }, ?_, rfl, rfl, ?_, rfl, rfl, rfl⟩
  · rcases hfit with hlt | ⟨heq, hq⟩
    · exact GetMemory_fast a size mem h0 hlt
    · unfold UnsafeArena.Alloc
      rw [GetMemory_slow a size 1 mem (by omega)]
      unfold BaseArena.GetMemoryFallback
      have hbig : ¬ (a.block_size_ = 0 ∨ size > a.block_size_ / 4) := by omega
      have hgt : ¬ (size > a.remaining_) := by omega
      simp only [if_neg (Nat.pos_iff_ne_zero.mp h0), if_neg hbig, to_size_t_one]
      simp [to_size_t, hgt, heq]
  · show a.remaining_ - size + size = a.remaining_
    rcases hfit with hlt | ⟨heq, _⟩ <;> omega

/-- C4 (witness): `Alloc(100)` on the arena that `UnsafeArena(4096)` constructs
when the system allocator places the first block at address 4096. -/
theorem C4_fast_path_witness :
    BaseArena.construct 0 4096 false 4096 slots0 = some (arena_at 4096) ∧
    0 < 100 ∧ 100 < (arena_at 4096).remaining_ ∧
    ∃ a1 : BaseArena, UnsafeArena.Alloc (arena_at 4096) 100 0
        = some ((arena_at 4096).freestart_, a1) ∧
      a1 = { arena_at 4096 with
        last_alloc_ := (arena_at 4096).freestart_,
        freestart_ := (arena_at 4096).freestart_ + 100,
        remaining_ := (arena_at 4096).remaining_ - 100 } ∧
      a1.freestart_ = (arena_at 4096).freestart_ + 100 ∧
      a1.remaining_ + 100 = (arena_at 4096).remaining_ ∧
      a1.last_alloc_ = (arena_at 4096).freestart_ ∧
      a1.block_count = (arena_at 4096).block_count ∧
      a1.bytes_allocated_ = (arena_at 4096).bytes_allocated_ :=
  ⟨by decide, by decide, by decide,
    C4_fast_path (arena_at 4096) 100 0 (by decide) (Or.inl (by decide))⟩

/-- The capacity recorded by `AllocNewBlock` for a request of `block_size`. -/
theorem AllocNewBlock_some (a : BaseArena) (block_size mem : Nat)
    (hmem : a.page_aligned_ = true → mem ≠ 0) :
    a.AllocNewBlock block_size mem = some (⟨mem, a.new_block_capacity block_size⟩,
      a.push_block ⟨mem, a.new_block_capacity block_size⟩ block_size) := by
  unfold BaseArena.AllocNewBlock BaseArena.new_block_capacity BaseArena.push_block
  by_cases hs : a.blocks_alloced_ < kFirstBlocks
  · cases hpa : a.page_aligned_
    · simp [hs]
    · have := hmem hpa
      simp [this, hs]
  · cases hpa : a.page_aligned_
    · simp [hs]
    · have := hmem hpa
      simp [this, hs]

theorem AllocNewBlock_inv (a : BaseArena) (block_size mem : Nat)
    (r : AllocatedBlock × BaseArena) (h : a.AllocNewBlock block_size mem = some r) :
    a.page_aligned_ = true → mem ≠ 0 := by
  intro hpa hm
  unfold BaseArena.AllocNewBlock at h
  simp [hpa, hm] at h

theorem push_block_fields (a : BaseArena) (b : AllocatedBlock) (block_size : Nat) :
    (a.push_block b block_size).block_count = a.block_count + 1 ∧
    (a.push_block b block_size).freestart_ = a.freestart_ ∧
    (a.push_block b block_size).remaining_ = a.remaining_ ∧
    (a.push_block b block_size).last_alloc_ = a.last_alloc_ ∧
    (a.push_block b block_size).bytes_allocated_
      = (a.bytes_allocated_ + block_size) % 2 ^ 64 ∧
    (a.push_block b block_size).block_size_ = a.block_size_ ∧
    (a.push_block b block_size).page_aligned_ = a.page_aligned_ := by
  unfold BaseArena.push_block
  by_cases hs : a.blocks_alloced_ < kFirstBlocks
  · simp only [if_pos hs, BaseArena.block_count]
    refine ⟨by omega, trivial, trivial, trivial, trivial, trivial, trivial⟩
  · simp only [if_neg hs, BaseArena.block_count]
    refine ⟨?_, trivial, trivial, trivial, trivial, trivial, trivial⟩
    cases a.overflow_blocks_ with
    | none => simp
    | some v => simp; omega

/-- C5 (the claim as stated fails). (1) On a fresh arena of block size 4096,
`Alloc(2000)` exceeds a quarter of the block size but is served by the inline
fast path: no block is acquired and the cursor moves. (2) In page-aligned mode
(block size 8192), `AllocAligned(3000, 4)` acquires a block whose recorded
capacity is 8192, not 3000. (3) In page-aligned mode, `Alloc(2^64 - 1)`
acquires a block whose recorded capacity is 0: the rounding up to whole pages
wraps. -/
theorem C5_counterexample_fast_path_and_pages :
    (2000 > (arena_at 4096).block_size_ / 4 ∧
      ∃ a1 : BaseArena, UnsafeArena.Alloc (arena_at 4096) 2000 9000 = some (4096, a1) ∧
        a1.block_count = (arena_at 4096).block_count ∧
        a1.freestart_ = 6096 ∧ (arena_at 4096).freestart_ = 4096 ∧
        a1.remaining_ = 2096 ∧ (arena_at 4096).remaining_ = 4096) ∧
    (BaseArena.construct 0 8192 true 8192 slots0 = some arena_paged ∧
      3000 > arena_paged.block_size_ / 4 ∧
      ∃ a1 : BaseArena, UnsafeArena.AllocAligned arena_paged 3000 4 16384 = some (16384, a1) ∧
        a1.block_count = 2 ∧
        a1.IndexToBlock 1 = some ⟨16384, 8192⟩) ∧
    (2 ^ 64 - 1 > arena_paged.block_size_ / 4 ∧
      (UnsafeArena.Alloc arena_paged (2 ^ 64 - 1) 16384).map
          (fun r => (r.1, r.2.block_count, r.2.IndexToBlock 1))
        = some (16384, 2, some ⟨16384, 0⟩)) := by
  refine ⟨⟨by decide, ⟨{ arena_at 4096 with
      last_alloc_ := 4096, freestart_ := 6096, remaining_ := 2096 }, by decide⟩⟩, ?_, ?_⟩
  · refine ⟨by decide, by decide, ⟨{ arena_paged with
      bytes_allocated_ := 11192, blocks_alloced_ := 2,
      first_blocks_ := (slots0.set 0 ⟨8192, 8192⟩).set 1 ⟨16384, 8192⟩ }, by decide⟩⟩
  · exact ⟨by decide, by decide⟩

/-- C5 (amended). For every arena state and every size `> block_size / 4` that
the inline fast path does not serve (`size >= remaining_` or `align != 1`) and
whose rounding up to whole pages is a `size_t` in page-aligned mode
(`size + kPageSize <= 2^64`): a single allocation call (`Alloc` is
`AllocAligned` with `align == 1`) aborts when the arena is page-aligned and
the system allocator returns null; otherwise it acquires exactly one new
block, returns that block's start address, adds `size` to `bytes_allocated`
(modulo `2^64`) and leaves `freestart_`, `remaining_` and `last_alloc_`
untouched. In non-page-aligned mode the capacity of the new block is exactly
`size`; in page-aligned mode it is `size` rounded up to whole pages: a multiple
of `kPageSize` that is at least `size` and less than `size + kPageSize`. -/
theorem C5_overflow_policy (a : BaseArena) (size : Nat) (align : Int) (mem : Nat)
    (hbig : size > a.block_size_ / 4)
    (hslow : ¬ (size < a.remaining_ ∧ align = 1))
    (hpage : a.page_aligned_ = true → size + kPageSize ≤ 2 ^ 64) :
    UnsafeArena.Alloc a size mem = UnsafeArena.AllocAligned a size 1 mem ∧
    (a.page_aligned_ = true → mem = 0 →
      UnsafeArena.AllocAligned a size align mem = none) ∧
    ((a.page_aligned_ = true → mem ≠ 0) →
      ∃ (b : AllocatedBlock) (a1 : BaseArena),
        UnsafeArena.AllocAligned a size align mem = some (b.mem, a1) ∧
        b.mem = mem ∧
        b.size = (if a.page_aligned_ then ((size - 1) / kPageSize + 1) * kPageSize
          else size) ∧
        (a.page_aligned_ = true →
          b.size % kPageSize = 0 ∧ size ≤ b.size ∧ b.size < size + kPageSize) ∧
        (a.blocks_alloced_ < kFirstBlocks →
          a1.first_blocks_ = a.first_blocks_.set a.blocks_alloced_ b ∧
          a1.blocks_alloced_ = a.blocks_alloced_ + 1 ∧
          a1.overflow_blocks_ = a.overflow_blocks_) ∧
        (¬ a.blocks_alloced_ < kFirstBlocks →
          a1.first_blocks_ = a.first_blocks_ ∧
          a1.blocks_alloced_ = a.blocks_alloced_ ∧
          a1.overflow_blocks_ = some (a.overflow_blocks_.getD [] ++ [b])) ∧
        a1.block_count = a.block_count + 1 ∧
        a1.freestart_ = a.freestart_ ∧
        a1.remaining_ = a.remaining_ ∧
        a1.last_alloc_ = a.last_alloc_ ∧
        a1.bytes_allocated_ = (a.bytes_allocated_ + size) % 2 ^ 64) := by
  have hsize : size ≠ 0 := by omega
  have hfall : UnsafeArena.AllocAligned a size align mem
      = (a.AllocNewBlock size mem).map fun r => (r.1.mem, r.2) := by
    unfold UnsafeArena.AllocAligned
    rw [GetMemory_slow a size align mem hslow]
    unfold BaseArena.GetMemoryFallback
    rw [if_neg hsize]
    simp only [if_pos (Or.inr hbig : a.block_size_ = 0 ∨ size > a.block_size_ / 4)]
  refine ⟨rfl, ?_, ?_⟩
  · intro hp hm
    rw [hfall]
    unfold BaseArena.AllocNewBlock
    simp [hp, hm]
  · intro hmem
    have hf := push_block_fields a ⟨mem, a.new_block_capacity size⟩ size
    have hcap : a.new_block_capacity size
        = (if a.page_aligned_ then ((size - 1) / kPageSize + 1) * kPageSize else size) := by
      unfold BaseArena.new_block_capacity
      cases hp : a.page_aligned_
      · simp
      · have hb := hpage hp
        unfold kPageSize at hb ⊢
        simp only [if_true]
        exact Nat.mod_eq_of_lt (by omega)
    refine ⟨⟨mem, a.new_block_capacity size⟩,
      a.push_block ⟨mem, a.new_block_capacity size⟩ size, ?_, rfl, hcap, ?_, ?_, ?_,
      hf.1, hf.2.1, hf.2.2.1, hf.2.2.2.1, hf.2.2.2.2.1⟩
    · rw [hfall, AllocNewBlock_some a size mem hmem]
      rfl
    · intro hp
      have hb := hpage hp
      show a.new_block_capacity size % kPageSize = 0 ∧ size ≤ a.new_block_capacity size ∧
        a.new_block_capacity size < size + kPageSize
      rw [hcap, hp]
      unfold kPageSize at hb ⊢
      simp only [if_true]
      omega
    · intro hs
      unfold BaseArena.push_block
      rw [if_pos hs]
      exact ⟨rfl, rfl, rfl⟩
    · intro hs
      unfold BaseArena.push_block
      rw [if_neg hs]
      exact ⟨rfl, rfl, rfl⟩

/-- C5 (witness): `Alloc(5000)` on a fresh arena of block size 4096, the system
allocator answering with address 9000. -/
theorem C5_overflow_policy_witness :
    (5000 > (arena_at 4096).block_size_ / 4 ∧
      ¬ (5000 < (arena_at 4096).remaining_ ∧ (1 : Int) = 1) ∧
      UnsafeArena.Alloc (arena_at 4096) 5000 9000 = some (9000, arena_after_5000) ∧
      arena_after_5000.IndexToBlock 1 = some ⟨9000, 5000⟩) ∧
    UnsafeArena.Alloc (arena_at 4096) 5000 9000
      = UnsafeArena.AllocAligned (arena_at 4096) 5000 1 9000 ∧
    ((arena_at 4096).page_aligned_ = true → (9000 : Nat) = 0 →
      UnsafeArena.AllocAligned (arena_at 4096) 5000 1 9000 = none) ∧
    (((arena_at 4096).page_aligned_ = true → (9000 : Nat) ≠ 0) →
      ∃ (b : AllocatedBlock) (a1 : BaseArena),
        UnsafeArena.AllocAligned (arena_at 4096) 5000 1 9000 = some (b.mem, a1) ∧
        b.mem = 9000 ∧
        b.size = (if (arena_at 4096).page_aligned_
          then ((5000 - 1) / kPageSize + 1) * kPageSize else 5000) ∧
        ((arena_at 4096).page_aligned_ = true →
          b.size % kPageSize = 0 ∧ 5000 ≤ b.size ∧ b.size < 5000 + kPageSize) ∧
        ((arena_at 4096).blocks_alloced_ < kFirstBlocks →
          a1.first_blocks_
            = (arena_at 4096).first_blocks_.set (arena_at 4096).blocks_alloced_ b ∧
          a1.blocks_alloced_ = (arena_at 4096).blocks_alloced_ + 1 ∧
          a1.overflow_blocks_ = (arena_at 4096).overflow_blocks_) ∧
        (¬ (arena_at 4096).blocks_alloced_ < kFirstBlocks →
          a1.first_blocks_ = (arena_at 4096).first_blocks_ ∧
          a1.blocks_alloced_ = (arena_at 4096).blocks_alloced_ ∧
          a1.overflow_blocks_ = some ((arena_at 4096).overflow_blocks_.getD [] ++ [b])) ∧
        a1.block_count = (arena_at 4096).block_count + 1 ∧
        a1.freestart_ = (arena_at 4096).freestart_ ∧
        a1.remaining_ = (arena_at 4096).remaining_ ∧
        a1.last_alloc_ = (arena_at 4096).last_alloc_ ∧
        a1.bytes_allocated_ = ((arena_at 4096).bytes_allocated_ + 5000) % 2 ^ 64) :=
  ⟨by decide,
    C5_overflow_policy (arena_at 4096) 5000 1 9000 (by decide) (by decide) (by decide)⟩

/-- The capacity recorded for a request whose rounding to whole pages is a
`size_t`: at least the request, at most the request plus a page. -/
theorem new_block_capacity_bounds (a : BaseArena) (block_size : Nat)
    (h : a.page_aligned_ = true → block_size + kPageSize ≤ 2 ^ 64) :
    block_size ≤ a.new_block_capacity block_size ∧
      a.new_block_capacity block_size ≤ block_size + kPageSize := by
  unfold BaseArena.new_block_capacity
  cases hp : a.page_aligned_
  · simp
  · have hb := h hp
    unfold kPageSize at hb ⊢
    simp only [if_true]
    rw [Nat.mod_eq_of_lt (by omega)]
    omega

theorem MakeNewBlock_some (a : BaseArena) (mem : Nat) (s : BaseArena)
    (h : a.MakeNewBlock mem = some s) :
    s = { a.push_block ⟨mem, a.new_block_capacity a.block_size_⟩ a.block_size_ with
      freestart_ := mem, remaining_ := a.new_block_capacity a.block_size_ } := by
  unfold BaseArena.MakeNewBlock at h
  cases hnew : a.AllocNewBlock a.block_size_ mem with
  | none => rw [hnew] at h; simp at h
  | some r =>
    have hmem := AllocNewBlock_inv a a.block_size_ mem r hnew
    rw [AllocNewBlock_some a a.block_size_ mem hmem] at h
    simp only [Option.map_some', Option.some.injEq] at h
    exact h.symm

/-- The bump step of `GetMemoryFallback`, after the padding. -/
theorem bump_after_padding (a1p : BaseArena) (n mem : Nat) (s : BaseArena)
    (hr : a1p.remaining_ < 2 ^ 64) (hbs : a1p.block_size_ + kPageSize < 2 ^ 64)
    (hn : n ≤ a1p.block_size_ / 4)
    (h : (if n > a1p.remaining_ then a1p.MakeNewBlock mem else some a1p) = some s) :
    n ≤ s.remaining_ ∧ s.remaining_ < 2 ^ 64 ∧
      (s.block_count = a1p.block_count ∨ s.block_count = a1p.block_count + 1) := by
  by_cases hgt : n > a1p.remaining_
  · rw [if_pos hgt] at h
    have hs := MakeNewBlock_some a1p mem s h
    have hb := new_block_capacity_bounds a1p a1p.block_size_
    have hf := push_block_fields a1p ⟨mem, a1p.new_block_capacity a1p.block_size_⟩ a1p.block_size_
    subst hs
    refine ⟨?_, ?_, Or.inr ?_⟩
    · show n ≤ a1p.new_block_capacity a1p.block_size_
      omega
    · show a1p.new_block_capacity a1p.block_size_ < 2 ^ 64
      omega
    · exact hf.1
  · rw [if_neg hgt] at h
    simp only [Option.some.injEq] at h
    subst h
    exact ⟨by omega, hr, Or.inl rfl⟩

/-- The slow path for a request of at most a quarter of the block size, in
terms of its padding step and its bump step. -/
theorem GetMemoryFallback_small (a : BaseArena) (size : Nat) (align : Int) (mem : Nat)
    (h0 : size ≠ 0) (hsmall : ¬ (a.block_size_ = 0 ∨ size > a.block_size_ / 4)) :
    a.GetMemoryFallback size align mem =
      (if size > (a.pad_freestart (to_size_t align)).remaining_
        then (a.pad_freestart (to_size_t align)).MakeNewBlock mem
        else some (a.pad_freestart (to_size_t align))).map fun s => BaseArena.bump s size := by
  unfold BaseArena.GetMemoryFallback
  rw [if_neg h0]
  simp only [if_neg hsmall]
  rfl

theorem pad_freestart_fields (a : BaseArena) (align : Nat) :
    (a.pad_freestart align).remaining_ ≤ a.remaining_ ∧
    (a.pad_freestart align).block_size_ = a.block_size_ ∧
    (a.pad_freestart align).block_count = a.block_count ∧
    (a.pad_freestart align).last_alloc_ = a.last_alloc_ ∧
    (a.pad_freestart align).bytes_allocated_ = a.bytes_allocated_ ∧
    (a.pad_freestart align).page_aligned_ = a.page_aligned_ := by
  unfold BaseArena.pad_freestart
  simp only
  split
  · refine ⟨?_, rfl, rfl, rfl, rfl, rfl⟩
    show (if _ < a.remaining_ then a.remaining_ - _ else 0) ≤ a.remaining_
    split <;> omega
  · exact ⟨Nat.le_refl _, rfl, rfl, rfl, rfl, rfl⟩

/-- An allocation served from the bump region (the inline fast path, or the
slow path with `size <= block_size / 4`) returns the new `last_alloc_`, and
leaves `freestart_` at its end. -/
theorem GetMemory_bump (a : BaseArena) (n : Nat) (align : Int) (mem p : Nat) (a1 : BaseArena)
    (hn : 0 < n)
    (hbump : (n < a.remaining_ ∧ align = 1) ∨ (a.block_size_ ≠ 0 ∧ n ≤ a.block_size_ / 4))
    (hr : a.remaining_ < 2 ^ 64) (hbs : a.block_size_ + kPageSize < 2 ^ 64)
    (h : a.GetMemory n align mem = some (p, a1)) :
    a1.last_alloc_ = p ∧ a1.freestart_ = p + n ∧ n + a1.remaining_ < 2 ^ 64 ∧
      (a1.block_count = a.block_count ∨ a1.block_count = a.block_count + 1) := by
  by_cases hfast : n < a.remaining_ ∧ align = 1
  · obtain ⟨hlt, rfl⟩ := hfast
    rw [GetMemory_fast a n mem hn hlt] at h
    simp only [Option.some.injEq, Prod.mk.injEq] at h
    obtain ⟨rfl, rfl⟩ := h
    refine ⟨rfl, rfl, ?_, Or.inl rfl⟩
    show n + (a.remaining_ - n) < 2 ^ 64
    omega
  · have hsmall : a.block_size_ ≠ 0 ∧ n ≤ a.block_size_ / 4 := by
      rcases hbump with hb | hb
      · exact absurd hb hfast
      · exact hb
    have hbig : ¬ (a.block_size_ = 0 ∨ n > a.block_size_ / 4) := by omega
    rw [GetMemory_slow a n align mem hfast,
      GetMemoryFallback_small a n align mem (Nat.pos_iff_ne_zero.mp hn) hbig] at h
    simp only [Option.map_eq_some'] at h
    obtain ⟨s, hs, hres⟩ := h
    have hpf := pad_freestart_fields a (to_size_t align)
    have hfacts := bump_after_padding (a.pad_freestart (to_size_t align)) n mem s
      (by omega) (by omega) (by omega) hs
    unfold BaseArena.bump at hres
    simp only [Prod.mk.injEq] at hres
    obtain ⟨hp, ha1⟩ := hres
    subst ha1
    subst hp
    refine ⟨rfl, rfl, ?_, ?_⟩
    · show n + to_size_t ((s.remaining_ : Int) - n) < 2 ^ 64
      rw [to_size_t_sub _ _ hfacts.1 hfacts.2.1]
      omega
    · show s.block_count = a.block_count ∨ s.block_count = a.block_count + 1
      have := hfacts.2.2
      omega

/-! ## Adjusting the last allocation -/

/-- `AdjustLastAlloc` on a state whose last allocation ends at the cursor and
whose byte counts are in range. -/
theorem AdjustLastAlloc_ok (a : BaseArena) (ptr new_size : Nat)
    (hptr : ptr ≠ 0) (heq : ptr = a.last_alloc_)
    (hassert : a.last_alloc_ ≤ a.freestart_)
    (hrange : a.freestart_ - a.last_alloc_ + a.remaining_ < 2 ^ 64)
    (hsize : new_size ≤ a.freestart_ - a.last_alloc_ + a.remaining_) :
    a.AdjustLastAlloc ptr new_size = (true, { a with
      freestart_ := a.last_alloc_ + new_size,
      remaining_ := a.freestart_ - a.last_alloc_ + a.remaining_ - new_size }) := by
  unfold BaseArena.AdjustLastAlloc
  have h1 : ¬ (ptr = 0 ∨ ptr ≠ a.last_alloc_) := by
    intro h
    rcases h with h | h
    · exact hptr h
    · exact h heq
  have e1 : to_size_t (((a.freestart_ : Int) - a.last_alloc_) + a.remaining_)
      = a.freestart_ - a.last_alloc_ + a.remaining_ := by
    unfold to_size_t
    omega
  have e2 : to_size_t ((a.remaining_ : Int) -
      (((a.last_alloc_ + new_size : Nat) : Int) - a.freestart_))
      = a.freestart_ - a.last_alloc_ + a.remaining_ - new_size := by
    unfold to_size_t
    omega
  rw [if_neg h1, e1, if_neg (by omega)]
  simp only [e2]

theorem AdjustLastAlloc_fail (a : BaseArena) (ptr new_size : Nat)
    (h : (a.AdjustLastAlloc ptr new_size).1 = false) :
    a.AdjustLastAlloc ptr new_size = (false, a) := by
  unfold BaseArena.AdjustLastAlloc at h ⊢
  split
  · rfl
  · rename_i h1
    rw [if_neg h1] at h
    split
    · rfl
    · rename_i h2
      rw [if_neg h2] at h
      simp at h

/-- C6 (the claim as stated fails). On a fresh arena of block size 4096,
`Alloc(5000)` is served by a dedicated block (here at address 9000) and is not
recorded as the last allocation; with `remaining_ == 4096` after the call and
`m = 5001`, `5000 < m <= 5000 + 4096`, yet `AdjustLastAlloc(p, m)` returns
false. -/
theorem C6_counterexample_dedicated_block :
    0 < 5000 ∧
    UnsafeArena.Alloc (arena_at 4096) 5000 9000 = some (9000, arena_after_5000) ∧
    arena_after_5000.remaining_ = 4096 ∧ 5000 < 5001 ∧ 5001 ≤ 5000 + 4096 ∧
    arena_after_5000.AdjustLastAlloc 9000 5001 = (false, arena_after_5000) := by
  decide

/-- C6 (amended). For every arena state (with `remaining_` a `size_t` and a
block size that page rounding keeps a `size_t`) and every `n > 0` whose
allocation `p = Alloc(n)` is served from the bump region (by the inline fast
path, or by the slow path with `n <= block_size / 4`) and is not null, with
`remaining` the value of `remaining_` right after that call: for every `m` with
`n < m <= n + remaining`, `AdjustLastAlloc(p, m)` returns true, so
`Realloc(p, n, m)` returns `p` itself without writing memory, and
`block_count()` is unchanged. -/
theorem C6_in_place_growth (a : BaseArena) (n mem p : Nat) (a1 : BaseArena) (m : Nat)
    (mm : Memory) (mem2 : Nat)
    (hn : 0 < n)
    (hr : a.remaining_ < 2 ^ 64) (hbs : a.block_size_ + kPageSize < 2 ^ 64)
    (hbump : n < a.remaining_ ∨ (a.block_size_ ≠ 0 ∧ n ≤ a.block_size_ / 4))
    (halloc : UnsafeArena.Alloc a n mem = some (p, a1))
    (hp : p ≠ 0)
    (hm : n < m ∧ m ≤ n + a1.remaining_) :
    (a1.AdjustLastAlloc p m).1 = true ∧
    (a1.AdjustLastAlloc p m).2.freestart_ = p + m ∧
    (a1.AdjustLastAlloc p m).2.last_alloc_ = p ∧
    UnsafeArena.Realloc a1 mm p n m mem2 = some (p, (a1.AdjustLastAlloc p m).2, mm) ∧
    (a1.AdjustLastAlloc p m).2.block_count = a1.block_count := by
  have hb := GetMemory_bump a n 1 mem p a1 hn
    (by rcases hbump with h | h
        · exact Or.inl ⟨h, rfl⟩
        · exact Or.inr h) hr hbs halloc
  obtain ⟨hla, hfs, hrng, _⟩ := hb
  have hadj := AdjustLastAlloc_ok a1 p m hp hla.symm (by omega) (by omega) (by omega)
  refine ⟨by rw [hadj], by rw [hadj]; simp only; omega, by rw [hadj]; exact hla, ?_, by rw [hadj]; rfl⟩
  unfold UnsafeArena.Realloc
  simp only [hadj, if_true]

/-- C6 (witness): `Alloc(100)` on a fresh arena of block size 4096, grown in
place to 200 bytes. -/
theorem C6_in_place_growth_witness :
    (0 < 100 ∧ (arena_at 4096).remaining_ < 2 ^ 64 ∧
      (arena_at 4096).block_size_ + kPageSize < 2 ^ 64 ∧
      100 < (arena_at 4096).remaining_ ∧ 4096 ≠ 0) ∧
    UnsafeArena.Alloc (arena_at 4096) 100 0 = some (4096, arena_after_100) ∧
    (100 < 200 ∧ 200 ≤ 100 + arena_after_100.remaining_) ∧
    (arena_after_100.AdjustLastAlloc 4096 200).1 = true ∧
    (arena_after_100.AdjustLastAlloc 4096 200).2.freestart_ = 4096 + 200 ∧
    (arena_after_100.AdjustLastAlloc 4096 200).2.last_alloc_ = 4096 ∧
    UnsafeArena.Realloc arena_after_100 (fun _ => 0) 4096 100 200 0
      = some (4096, (arena_after_100.AdjustLastAlloc 4096 200).2, fun _ => 0) ∧
    (arena_after_100.AdjustLastAlloc 4096 200).2.block_count = arena_after_100.block_count :=
  ⟨by decide, by decide, by decide,
    C6_in_place_growth (arena_at 4096) 100 0 4096 arena_after_100 200 (fun _ => 0) 0
      (by decide) (by decide) (by decide) (Or.inl (by decide)) (by decide) (by decide)
      (by decide)⟩

theorem AdjustLastAlloc_true_iff (a : BaseArena) (ptr new_size : Nat) :
    (a.AdjustLastAlloc ptr new_size).1 = true ↔
      (ptr ≠ 0 ∧ ptr = a.last_alloc_ ∧
        new_size ≤ to_size_t (((a.freestart_ : Int) - a.last_alloc_) + a.remaining_)) := by
  unfold BaseArena.AdjustLastAlloc
  by_cases h1 : ptr = 0 ∨ ptr ≠ a.last_alloc_
  · rw [if_pos h1]
    simp only [Bool.false_eq_true, false_iff]
    rintro ⟨h0, heq, _⟩
    rcases h1 with h | h
    · exact h0 h
    · exact h heq
  · rw [if_neg h1]
    have h0 : ptr ≠ 0 := fun h => h1 (Or.inl h)
    have heq : ptr = a.last_alloc_ := by
      by_contra hne
      exact h1 (Or.inr hne)
    by_cases h2 : new_size > to_size_t (((a.freestart_ : Int) - a.last_alloc_) + a.remaining_)
    · rw [if_pos h2]
      simp only [Bool.false_eq_true, false_iff]
      rintro ⟨_, _, hle⟩
      omega
    · rw [if_neg h2]
      simp only [true_iff]
      exact ⟨h0, heq, by omega⟩

theorem AdjustLastAlloc_true_state (a : BaseArena) (ptr new_size : Nat)
    (h : (a.AdjustLastAlloc ptr new_size).1 = true) :
    (a.AdjustLastAlloc ptr new_size).2 = { a with
      freestart_ := a.last_alloc_ + new_size,
      remaining_ := to_size_t ((a.remaining_ : Int) -
        (((a.last_alloc_ + new_size : Nat) : Int) - a.freestart_)) } := by
  unfold BaseArena.AdjustLastAlloc at h ⊢
  by_cases h1 : ptr = 0 ∨ ptr ≠ a.last_alloc_
  · rw [if_pos h1] at h
    simp at h
  · rw [if_neg h1] at h ⊢
    by_cases h2 : new_size > to_size_t (((a.freestart_ : Int) - a.last_alloc_) + a.remaining_)
    · rw [if_pos h2] at h
      simp at h
    · rw [if_neg h2]

/-- C7. `AdjustLastAlloc(ptr, new_size)` returns true if and only if `ptr` is
non-null, `ptr == last_alloc_` and
`new_size <= (freestart_ - last_alloc_) + remaining_`; on success `freestart_`
becomes `last_alloc_ + new_size`, `remaining_` changes by the opposite amount
(`freestart_ + remaining_` is preserved) and no other field changes; on failure
the whole state is unchanged. First conjunct: in every state, with the
arithmetic of `size_t` (modulo `2^64`). Second conjunct: with exact integer
arithmetic, in every state that satisfies the assertion
`freestart_ >= last_alloc_` of the function and whose bytes from `last_alloc_`
to the end of the block fit a `size_t`. -/
theorem C7_adjust_last_alloc (a : BaseArena) (ptr new_size : Nat) :
    (((a.AdjustLastAlloc ptr new_size).1 = true ↔
        (ptr ≠ 0 ∧ ptr = a.last_alloc_ ∧
          new_size ≤ to_size_t (((a.freestart_ : Int) - a.last_alloc_) + a.remaining_))) ∧
      ((a.AdjustLastAlloc ptr new_size).1 = true →
        (a.AdjustLastAlloc ptr new_size).2 = { a with
          freestart_ := a.last_alloc_ + new_size,
          remaining_ := (a.AdjustLastAlloc ptr new_size).2.remaining_ } ∧
        ((a.AdjustLastAlloc ptr new_size).2.freestart_ +
          (a.AdjustLastAlloc ptr new_size).2.remaining_) % 2 ^ 64
            = (a.freestart_ + a.remaining_) % 2 ^ 64) ∧
      ((a.AdjustLastAlloc ptr new_size).1 = false →
        (a.AdjustLastAlloc ptr new_size).2 = a)) ∧
    (a.freestart_ ≥ a.last_alloc_ →
      a.freestart_ - a.last_alloc_ + a.remaining_ < 2 ^ 64 →
      ((a.AdjustLastAlloc ptr new_size).1 = true ↔
        (ptr ≠ 0 ∧ ptr = a.last_alloc_ ∧
          new_size ≤ (a.freestart_ - a.last_alloc_) + a.remaining_)) ∧
      ((a.AdjustLastAlloc ptr new_size).1 = true →
        (a.AdjustLastAlloc ptr new_size).2 = { a with
          freestart_ := a.last_alloc_ + new_size,
          remaining_ := a.freestart_ - a.last_alloc_ + a.remaining_ - new_size } ∧
        (a.AdjustLastAlloc ptr new_size).2.freestart_ +
          (a.AdjustLastAlloc ptr new_size).2.remaining_ = a.freestart_ + a.remaining_)) := by
  refine ⟨⟨AdjustLastAlloc_true_iff a ptr new_size, ?_, ?_⟩, ?_⟩
  · intro h
    rw [AdjustLastAlloc_true_state a ptr new_size h]
    refine ⟨rfl, ?_⟩
    show (a.last_alloc_ + new_size + to_size_t ((a.remaining_ : Int) -
        (((a.last_alloc_ + new_size : Nat) : Int) - a.freestart_))) % 2 ^ 64
      = (a.freestart_ + a.remaining_) % 2 ^ 64
    unfold to_size_t
    omega
  · intro h
    rw [AdjustLastAlloc_fail a ptr new_size h]
  · intro hassert hrange
    have e1 : to_size_t (((a.freestart_ : Int) - a.last_alloc_) + a.remaining_)
        = a.freestart_ - a.last_alloc_ + a.remaining_ := by
      unfold to_size_t
      omega
    have hiff := AdjustLastAlloc_true_iff a ptr new_size
    rw [e1] at hiff
    refine ⟨hiff, ?_⟩
    intro h
    obtain ⟨h0, heq, hle⟩ := hiff.mp h
    rw [AdjustLastAlloc_ok a ptr new_size h0 heq hassert hrange hle]
    refine ⟨rfl, ?_⟩
    show a.last_alloc_ + new_size + (a.freestart_ - a.last_alloc_ + a.remaining_ - new_size)
      = a.freestart_ + a.remaining_
    omega

/-- C7 (witness): shrinking the 100 bytes just allocated to 40. -/
theorem C7_adjust_last_alloc_witness :
    (arena_after_100.freestart_ ≥ arena_after_100.last_alloc_ ∧
      arena_after_100.freestart_ - arena_after_100.last_alloc_ + arena_after_100.remaining_
        < 2 ^ 64) ∧
    arena_after_100.AdjustLastAlloc 4096 40 = (true, { arena_after_100 with
      freestart_ := 4136, remaining_ := 4056 }) ∧
    ((arena_after_100.AdjustLastAlloc 4096 40).1 = true ↔
      (4096 ≠ 0 ∧ 4096 = arena_after_100.last_alloc_ ∧
        40 ≤ (arena_after_100.freestart_ - arena_after_100.last_alloc_) +
          arena_after_100.remaining_)) ∧
    ((arena_after_100.AdjustLastAlloc 4096 40).1 = true →
      (arena_after_100.AdjustLastAlloc 4096 40).2 = { arena_after_100 with
        freestart_ := arena_after_100.last_alloc_ + 40,
        remaining_ := arena_after_100.freestart_ - arena_after_100.last_alloc_ +
          arena_after_100.remaining_ - 40 } ∧
      (arena_after_100.AdjustLastAlloc 4096 40).2.freestart_ +
        (arena_after_100.AdjustLastAlloc 4096 40).2.remaining_
          = arena_after_100.freestart_ + arena_after_100.remaining_) :=
  ⟨by decide, by decide,
    (C7_adjust_last_alloc arena_after_100 4096 40).2 (by decide) (by decide)⟩

/-! ## Realloc -/

theorem pad_freestart_one (a : BaseArena) : a.pad_freestart (to_size_t 1) = a := by
  unfold BaseArena.pad_freestart
  have h : to_size_t (((to_size_t 1 : Nat) : Int) - 1) = 0 := by decide
  simp [h]

/-- `Alloc(n)` with `n > 0` returns the current `freestart_` (and then `n`
fits in `remaining_`) or the address of the block the call acquires. -/
theorem Alloc_address (a : BaseArena) (n mem p : Nat) (a1 : BaseArena) (hn : 0 < n)
    (h : UnsafeArena.Alloc a n mem = some (p, a1)) :
    (p = a.freestart_ ∧ n ≤ a.remaining_) ∨ p = mem := by
  unfold UnsafeArena.Alloc at h
  by_cases hfast : n < a.remaining_ ∧ (1 : Int) = 1
  · rw [GetMemory_fast a n mem hn hfast.1] at h
    simp only [Option.some.injEq, Prod.mk.injEq] at h
    exact Or.inl ⟨h.1.symm, by omega⟩
  · rw [GetMemory_slow a n 1 mem hfast] at h
    by_cases hbig : a.block_size_ = 0 ∨ n > a.block_size_ / 4
    · unfold BaseArena.GetMemoryFallback at h
      rw [if_neg (Nat.pos_iff_ne_zero.mp hn)] at h
      simp only [if_pos hbig, Option.map_eq_some'] at h
      obtain ⟨r, hr, hres⟩ := h
      have hmem := AllocNewBlock_inv a n mem r hr
      rw [AllocNewBlock_some a n mem hmem] at hr
      simp only [Option.some.injEq] at hr
      subst hr
      simp only [Prod.mk.injEq] at hres
      exact Or.inr hres.1.symm
    · rw [GetMemoryFallback_small a n 1 mem (Nat.pos_iff_ne_zero.mp hn) hbig,
        pad_freestart_one] at h
      simp only [Option.map_eq_some'] at h
      obtain ⟨s, hs, hres⟩ := h
      unfold BaseArena.bump at hres
      simp only [Prod.mk.injEq] at hres
      by_cases hgt : n > a.remaining_
      · rw [if_pos hgt] at hs
        have := MakeNewBlock_some a mem s hs
        subst this
        exact Or.inr hres.1.symm
      · rw [if_neg hgt] at hs
        simp only [Option.some.injEq] at hs
        subst hs
        exact Or.inl ⟨hres.1.symm, by omega⟩

/-- `Alloc` does not abort when the system allocator answers with a non-null
block in page-aligned mode. -/
theorem Alloc_isSome (a : BaseArena) (n mem : Nat)
    (hmem : a.page_aligned_ = true → mem ≠ 0) :
    ∃ r, UnsafeArena.Alloc a n mem = some r := by
  unfold UnsafeArena.Alloc
  by_cases hfast : n > 0 ∧ n < a.remaining_ ∧ (1 : Int) = 1
  · exact ⟨_, GetMemory_fast a n mem hfast.1 hfast.2.1⟩
  · unfold BaseArena.GetMemory
    rw [if_neg hfast]
    by_cases h0 : n = 0
    · unfold BaseArena.GetMemoryFallback
      rw [if_pos h0]
      exact ⟨_, rfl⟩
    · by_cases hbig : a.block_size_ = 0 ∨ n > a.block_size_ / 4
      · unfold BaseArena.GetMemoryFallback
        rw [if_neg h0]
        simp only [if_pos hbig, AllocNewBlock_some a n mem hmem, Option.map_some']
        exact ⟨_, rfl⟩
      · rw [GetMemoryFallback_small a n 1 mem h0 hbig, pad_freestart_one]
        by_cases hgt : n > a.remaining_
        · rw [if_pos hgt]
          unfold BaseArena.MakeNewBlock
          rw [AllocNewBlock_some a a.block_size_ mem hmem]
          exact ⟨_, rfl⟩
        · rw [if_neg hgt]
          exact ⟨_, rfl⟩

theorem Realloc_adjusted (a : BaseArena) (mm : Memory) (s old_size new_size mem : Nat)
    (h : (a.AdjustLastAlloc s new_size).1 = true) :
    UnsafeArena.Realloc a mm s old_size new_size mem
      = some (s, (a.AdjustLastAlloc s new_size).2, mm) := by
  unfold UnsafeArena.Realloc
  simp only [h, if_true]

theorem Realloc_not_larger (a : BaseArena) (mm : Memory) (s old_size new_size mem : Nat)
    (h : (a.AdjustLastAlloc s new_size).1 = false) (hle : new_size ≤ old_size) :
    UnsafeArena.Realloc a mm s old_size new_size mem = some (s, a, mm) := by
  unfold UnsafeArena.Realloc
  rw [AdjustLastAlloc_fail a s new_size h]
  simp only [Bool.false_eq_true, if_false, if_pos hle]

theorem Realloc_fresh (a : BaseArena) (mm : Memory) (s old_size new_size mem : Nat)
    (h : (a.AdjustLastAlloc s new_size).1 = false) (hgt : ¬ new_size ≤ old_size) :
    UnsafeArena.Realloc a mm s old_size new_size mem
      = (UnsafeArena.Alloc a new_size mem).map (fun q =>
          (q.1, q.2, memcpy mm q.1 s (min old_size new_size))) := by
  unfold UnsafeArena.Realloc
  rw [AdjustLastAlloc_fail a s new_size h]
  simp only [Bool.false_eq_true, if_false, if_neg hgt]

/-- C8 (the claim as stated fails). After `p = Alloc(100)` (address 4096) and
`Reset()`, the arena is again `arena_at 4096`; there `Realloc(p, 100, 200)`
cannot adjust in place (`last_alloc_` is null), has `new_size > old_size`, and
returns what `Alloc(200)` returns: the address 4096, which is `s` itself. -/
theorem C8_counterexample_same_pointer :
    arena_after_100.Reset = arena_at 4096 ∧
    ((arena_at 4096).AdjustLastAlloc 4096 200).1 = false ∧
    ¬ (200 ≤ 100) ∧
    (UnsafeArena.Alloc (arena_at 4096) 200 0).map Prod.fst = some 4096 ∧
    (UnsafeArena.Realloc (arena_at 4096) (fun _ => 0) 4096 100 200 0).map Prod.fst
      = some 4096 := by
  decide

/-- C8 (amended). For every arena state and arguments `(s, old_size, new_size)`:
when `AdjustLastAlloc(s, new_size)` succeeds, `Realloc` returns `s` with the
cursor adjusted in place; otherwise, when `new_size <= old_size`, it returns
`s` and leaves the whole arena state unchanged; otherwise it aborts when
`Alloc(new_size)` aborts, and when `Alloc(new_size)` returns a pointer that is
not null it returns exactly that pointer and the state that `Alloc` leaves,
after copying `min(old_size, new_size)` bytes to it. That pointer is the
current `freestart_` or the address of the block the call acquires, so it
differs from `s` whenever `s` is neither of the two. (When `Alloc` returns
null the source passes null to `memcpy` as the destination; that case is not
part of the statement.) -/
theorem C8_realloc_cases (a : BaseArena) (mm : Memory) (s old_size new_size mem : Nat) :
    ((a.AdjustLastAlloc s new_size).1 = true →
      UnsafeArena.Realloc a mm s old_size new_size mem
        = some (s, (a.AdjustLastAlloc s new_size).2, mm)) ∧
    ((a.AdjustLastAlloc s new_size).1 = false → new_size ≤ old_size →
      UnsafeArena.Realloc a mm s old_size new_size mem = some (s, a, mm)) ∧
    ((a.AdjustLastAlloc s new_size).1 = false → ¬ new_size ≤ old_size →
      (UnsafeArena.Alloc a new_size mem = none →
        UnsafeArena.Realloc a mm s old_size new_size mem = none) ∧
      ∀ (p : Nat) (a1 : BaseArena), UnsafeArena.Alloc a new_size mem = some (p, a1) →
        p ≠ 0 →
        UnsafeArena.Realloc a mm s old_size new_size mem
          = some (p, a1, memcpy mm p s (min old_size new_size)) ∧
        (p = a.freestart_ ∨ p = mem) ∧
        (s ≠ a.freestart_ → s ≠ mem → p ≠ s)) := by
  refine ⟨Realloc_adjusted a mm s old_size new_size mem,
    Realloc_not_larger a mm s old_size new_size mem, ?_⟩
  · intro h hgt
    have hre := Realloc_fresh a mm s old_size new_size mem h hgt
    refine ⟨?_, ?_⟩
    · intro hnone
      rw [hre, hnone]
      rfl
    · intro p a1 hq _
      have haddr := Alloc_address a new_size mem p a1 (by omega) hq
      have hp : p = a.freestart_ ∨ p = mem := by
        rcases haddr with h1 | h1
        · exact Or.inl h1.1
        · exact Or.inr h1
      refine ⟨by rw [hre, hq]; rfl, hp, ?_⟩
      intro h1 h2 h3
      rcases hp with h4 | h4
      · exact h1 (by rw [← h3, h4])
      · exact h2 (by rw [← h3, h4])

/-- C8 (witness): with 100 and then 50 bytes allocated, `Realloc` of the first
allocation from 100 to 200 bytes cannot adjust in place and returns the fresh
allocation at 4246. -/
theorem C8_realloc_cases_witness :
    (UnsafeArena.Alloc arena_after_100 50 0 = some (4196, arena_after_100_50) ∧
      (arena_after_100_50.AdjustLastAlloc 4096 200).1 = false ∧ ¬ (200 ≤ 100) ∧
      UnsafeArena.Alloc arena_after_100_50 200 0 = some (4246, arena_after_100_50_200) ∧
      (4246 : Nat) ≠ 0) ∧
    UnsafeArena.Realloc arena_after_100_50 (fun x => x) 4096 100 200 0
      = some (4246, arena_after_100_50_200, memcpy (fun x => x) 4246 4096 (min 100 200)) ∧
    (4246 = arena_after_100_50.freestart_ ∨ 4246 = 0) ∧
    (4096 ≠ arena_after_100_50.freestart_ → 4096 ≠ 0 → 4246 ≠ 4096) :=
  ⟨by decide,
    ((C8_realloc_cases arena_after_100_50 (fun x => x) 4096 100 200 0).2.2
      (by decide) (by decide)).2 4246 arena_after_100_50_200 (by decide) (by decide)⟩

theorem memcpy_outside (m : Memory) (dst src : Nat) :
    ∀ (n x : Nat), (x < dst ∨ dst + n ≤ x) → memcpy m dst src n x = m x := by
  intro n
  induction n with
  | zero => intro x _; rfl
  | succ k ih =>
    intro x hx
    unfold memcpy
    simp only
    rw [Function.update_noteq (by omega)]
    exact ih x (by omega)

theorem memcpy_copies (m : Memory) (dst src : Nat) :
    ∀ (n : Nat), (src + n ≤ dst ∨ dst + n ≤ src) →
      ∀ i, i < n → memcpy m dst src n (dst + i) = m (src + i) := by
  intro n
  induction n with
  | zero => intro _ i hi; omega
  | succ k ih =>
    intro hdis i hi
    unfold memcpy
    simp only
    by_cases hik : i = k
    · subst hik
      rw [Function.update_same]
      exact memcpy_outside m dst src i (src + i) (by omega)
    · rw [Function.update_noteq (by omega)]
      exact ih (by omega) i (by omega)

/-- C9. Let `[s, s + old_size)` be a live allocation: it does not meet the free
part `[freestart_, freestart_ + remaining_)` of the current block, nor the
`new_size` bytes at the address `mem` that the system allocator hands out next.
Then `Realloc(s, old_size, new_size)` returns (the system allocator answering
with a non-null block) and the first
`min(old_size, new_size)` bytes at the returned address equal the first
`min(old_size, new_size)` bytes that were at `s`; on the in-place and the
same-pointer paths the address is `s` and memory is not written. -/
theorem C9_realloc_preserves_content (a : BaseArena) (mm : Memory)
    (s old_size new_size mem : Nat)
    (hfree : s + old_size ≤ a.freestart_ ∨ a.freestart_ + a.remaining_ ≤ s)
    (hnew : s + old_size ≤ mem ∨ mem + new_size ≤ s)
    (hmem : mem ≠ 0) :
    ∃ (r : Nat) (a1 : BaseArena) (m1 : Memory),
      UnsafeArena.Realloc a mm s old_size new_size mem = some (r, a1, m1) ∧
      (∀ i, i < min old_size new_size → m1 (r + i) = mm (s + i)) ∧
      (((a.AdjustLastAlloc s new_size).1 = true ∨ new_size ≤ old_size) → r = s ∧ m1 = mm) := by
  by_cases hadj : (a.AdjustLastAlloc s new_size).1 = true
  · exact ⟨s, _, mm, Realloc_adjusted a mm s old_size new_size mem hadj, fun _ _ => rfl,
      fun _ => ⟨rfl, rfl⟩⟩
  · have hadj' : (a.AdjustLastAlloc s new_size).1 = false := by
      cases h : (a.AdjustLastAlloc s new_size).1
      · rfl
      · exact absurd h hadj
    by_cases hle : new_size ≤ old_size
    · exact ⟨s, a, mm, Realloc_not_larger a mm s old_size new_size mem hadj' hle,
        fun _ _ => rfl, fun _ => ⟨rfl, rfl⟩⟩
    · obtain ⟨⟨p, a1⟩, hq⟩ := Alloc_isSome a new_size mem (fun _ => hmem)
      have hre := Realloc_fresh a mm s old_size new_size mem hadj' hle
      rw [hq] at hre
      simp only [Option.map_some'] at hre
      refine ⟨p, a1, _, hre, ?_, ?_⟩
      · have haddr := Alloc_address a new_size mem p a1 (by omega) hq
        have hmin : min old_size new_size = old_size := by omega
        rw [hmin]
        apply memcpy_copies
        rcases haddr with ⟨hp, hrem⟩ | hp
        · subst hp
          omega
        · subst hp
          omega
      · intro h
        rcases h with h | h
        · exact absurd h hadj
        · exact absurd h hle

/-- C9 (witness): with 100 and then 50 bytes allocated on a fresh arena of
block size 4096, `Realloc` of the first allocation from 100 to 200 bytes. -/
theorem C9_realloc_preserves_content_witness :
    (4096 + 100 ≤ arena_after_100_50.freestart_ ∨
      arena_after_100_50.freestart_ + arena_after_100_50.remaining_ ≤ 4096) ∧
    (4096 + 100 ≤ 9000 ∨ 9000 + 200 ≤ 4096) ∧ 9000 ≠ 0 ∧
    (UnsafeArena.Realloc arena_after_100_50 (fun x => x % 256) 4096 100 200 9000).map Prod.fst
      = some 4246 ∧
    ∃ (r : Nat) (a1 : BaseArena) (m1 : Memory),
      UnsafeArena.Realloc arena_after_100_50 (fun x => x % 256) 4096 100 200 9000
        = some (r, a1, m1) ∧
      (∀ i, i < min 100 200 → m1 (r + i) = (fun x => x % 256) (4096 + i)) ∧
      (((arena_after_100_50.AdjustLastAlloc 4096 200).1 = true ∨ 200 ≤ 100) →
        r = 4096 ∧ m1 = (fun x => x % 256)) :=
  ⟨by decide, by decide, by decide, by decide,
    C9_realloc_preserves_content arena_after_100_50 (fun x => x % 256) 4096 100 200 9000
      (by decide) (by decide) (by decide)⟩

/-! ## Shrinking and growing back -/

/-- Shrinking the last allocation from `n` to `k` bytes. -/
theorem adjust_shrink (a1 : BaseArena) (p n k : Nat) (hp : p ≠ 0)
    (hla : a1.last_alloc_ = p) (hfs : a1.freestart_ = p + n)
    (hrng : n + a1.remaining_ < 2 ^ 64) (hk : k ≤ n) :
    a1.AdjustLastAlloc p k = (true, { a1 with
      freestart_ := p + k, remaining_ := a1.remaining_ + (n - k) }) := by
  rw [AdjustLastAlloc_ok a1 p k hp hla.symm (by omega) (by omega) (by omega)]
  have e1 : a1.last_alloc_ + k = p + k := by omega
  have e2 : a1.freestart_ - a1.last_alloc_ + a1.remaining_ - k = a1.remaining_ + (n - k) := by
    omega
  rw [e1, e2]

/-- Growing the last allocation back from `k` to `n` bytes restores the state. -/
theorem adjust_grow_back (a1 : BaseArena) (p n k : Nat) (hp : p ≠ 0)
    (hla : a1.last_alloc_ = p) (hfs : a1.freestart_ = p + n)
    (hrng : n + a1.remaining_ < 2 ^ 64) (hk : k ≤ n) :
    ({ a1 with freestart_ := p + k, remaining_ := a1.remaining_ + (n - k) } :
      BaseArena).AdjustLastAlloc p n = (true, a1) := by
  obtain ⟨ba, rem, fb, bs, fs, fse, la, bl, fbs, ob, pa, ha, hab, bsb⟩ := a1
  simp only at hla hfs hrng
  subst hla
  subst hfs
  rw [AdjustLastAlloc_ok _ la n hp rfl (by show la ≤ la + k; omega)
    (by show la + k - la + (rem + (n - k)) < 2 ^ 64; omega)
    (by show n ≤ la + k - la + (rem + (n - k)); omega)]
  simp only [Prod.mk.injEq, true_and, BaseArena.mk.injEq, and_true]
  omega

/-- C10. For every arena state (with `remaining_` a `size_t` and a block size
that page rounding keeps a `size_t`), every `n > 0` whose allocation
`p = Alloc(n)` is served from the bump region (by the inline fast path, or by
the slow path with `n <= block_size / 4`) and is not null, and every `k < n`:
`AdjustLastAlloc(p, k)` succeeds, a following `AdjustLastAlloc(p, n)` succeeds
too, and the state it leaves is the state right after the original `Alloc(n)`
(in particular `freestart_`, `remaining_` and `last_alloc_`). -/
theorem C10_shrink_then_grow (a : BaseArena) (n mem p : Nat) (a1 : BaseArena) (k : Nat)
    (hn : 0 < n)
    (hr : a.remaining_ < 2 ^ 64) (hbs : a.block_size_ + kPageSize < 2 ^ 64)
    (hbump : n < a.remaining_ ∨ (a.block_size_ ≠ 0 ∧ n ≤ a.block_size_ / 4))
    (halloc : UnsafeArena.Alloc a n mem = some (p, a1))
    (hp : p ≠ 0)
    (hk : k < n) :
    (a1.AdjustLastAlloc p k).1 = true ∧
    (a1.AdjustLastAlloc p k).2.freestart_ = p + k ∧
    (a1.AdjustLastAlloc p k).2.remaining_ = a1.remaining_ + (n - k) ∧
    ((a1.AdjustLastAlloc p k).2.AdjustLastAlloc p n).1 = true ∧
    ((a1.AdjustLastAlloc p k).2.AdjustLastAlloc p n).2 = a1 ∧
    ((a1.AdjustLastAlloc p k).2.AdjustLastAlloc p n).2.freestart_ = a1.freestart_ ∧
    ((a1.AdjustLastAlloc p k).2.AdjustLastAlloc p n).2.remaining_ = a1.remaining_ ∧
    ((a1.AdjustLastAlloc p k).2.AdjustLastAlloc p n).2.last_alloc_ = a1.last_alloc_ := by
  have hb := GetMemory_bump a n 1 mem p a1 hn
    (by rcases hbump with h | h
        · exact Or.inl ⟨h, rfl⟩
        · exact Or.inr h) hr hbs halloc
  obtain ⟨hla, hfs, hrng, _⟩ := hb
  rw [adjust_shrink a1 p n k hp hla hfs hrng (by omega)]
  simp only
  rw [adjust_grow_back a1 p n k hp hla hfs hrng (by omega)]
  exact ⟨trivial, trivial, trivial, rfl, rfl, rfl, rfl, rfl⟩

/-- C10 (witness): `Alloc(100)` on a fresh arena of block size 4096, shrunk to
40 bytes and grown back to 100. -/
theorem C10_shrink_then_grow_witness :
    (0 < 100 ∧ (arena_at 4096).remaining_ < 2 ^ 64 ∧
      (arena_at 4096).block_size_ + kPageSize < 2 ^ 64 ∧
      100 < (arena_at 4096).remaining_ ∧ 4096 ≠ 0 ∧ 40 < 100) ∧
    UnsafeArena.Alloc (arena_at 4096) 100 0 = some (4096, arena_after_100) ∧
    (arena_after_100.AdjustLastAlloc 4096 40).1 = true ∧
    (arena_after_100.AdjustLastAlloc 4096 40).2.freestart_ = 4096 + 40 ∧
    (arena_after_100.AdjustLastAlloc 4096 40).2.remaining_
      = arena_after_100.remaining_ + (100 - 40) ∧
    ((arena_after_100.AdjustLastAlloc 4096 40).2.AdjustLastAlloc 4096 100).1 = true ∧
    ((arena_after_100.AdjustLastAlloc 4096 40).2.AdjustLastAlloc 4096 100).2
      = arena_after_100 ∧
    ((arena_after_100.AdjustLastAlloc 4096 40).2.AdjustLastAlloc 4096 100).2.freestart_
      = arena_after_100.freestart_ ∧
    ((arena_after_100.AdjustLastAlloc 4096 40).2.AdjustLastAlloc 4096 100).2.remaining_
      = arena_after_100.remaining_ ∧
    ((arena_after_100.AdjustLastAlloc 4096 40).2.AdjustLastAlloc 4096 100).2.last_alloc_
      = arena_after_100.last_alloc_ :=
  ⟨by decide, by decide,
    C10_shrink_then_grow (arena_at 4096) 100 0 4096 arena_after_100 40
      (by decide) (by decide) (by decide) (Or.inl (by decide)) (by decide) (by decide)
      (by decide)⟩

/-! ## Reset -/

theorem land_three (m : Nat) : m &&& (kDefaultAlignment - 1) = m % 4 := by
  have h : kDefaultAlignment - 1 = 2 ^ 2 - 1 := by decide
  rw [h, Nat.and_pow_two_sub_one_eq_mod]

theorem map_range_getD (l : List AllocatedBlock) :
    (List.range l.length).map (fun i => l.getD i default) = l := by
  apply List.ext_getElem
  · simp
  · intro n h1 h2
    simp [List.getD_eq_getElem?_getD, List.getElem?_eq_getElem h2]

theorem FreeBlocks_slot0 (a : BaseArena) :
    a.FreeBlocks.first_blocks_.getD 0 default = a.first_blocks_.getD 0 default := by
  unfold BaseArena.FreeBlocks
  simp only
  cases h : a.first_blocks_ with
  | nil => rfl
  | cons x xs =>
    simp [List.range_succ_eq_map]

/-- The cursor that `Reset` installs for a block 0 at address `m`. -/
theorem Reset_cursor (a : BaseArena) :
    a.Reset.freestart_ =
      (if (a.first_blocks_.getD 0 default).mem % 4 > 0
        then (a.first_blocks_.getD 0 default).mem
          + (4 - (a.first_blocks_.getD 0 default).mem % 4)
        else (a.first_blocks_.getD 0 default).mem) ∧
    a.Reset.remaining_ =
      (if (a.first_blocks_.getD 0 default).mem % 4 > 0
        then to_size_t (((a.first_blocks_.getD 0 default).size : Int)
          - ((4 - (a.first_blocks_.getD 0 default).mem % 4 : Nat) : Int))
        else (a.first_blocks_.getD 0 default).size) ∧
    a.Reset.freestart_when_empty_ = a.Reset.freestart_ := by
  unfold BaseArena.Reset
  simp only [FreeBlocks_slot0, land_three]
  have hk : kDefaultAlignment = 4 := rfl
  split <;> simp [hk]

theorem Reset_fields (a : BaseArena) :
    a.Reset.first_blocks_ = a.FreeBlocks.first_blocks_ ∧
    a.Reset.blocks_alloced_ = 1 ∧
    a.Reset.overflow_blocks_ = none ∧
    a.Reset.last_alloc_ = 0 ∧
    a.Reset.bytes_allocated_ = a.block_size_ ∧
    a.Reset.block_size_ = a.block_size_ ∧
    a.Reset.page_aligned_ = a.page_aligned_ ∧
    a.Reset.first_block_we_own_ = a.first_block_we_own_ ∧
    a.Reset.handle_alignment_ = a.handle_alignment_ ∧
    a.Reset.handle_alignment_bits_ = a.handle_alignment_bits_ ∧
    a.Reset.block_size_bits_ = a.block_size_bits_ := by
  unfold BaseArena.Reset
  simp only
  split <;> exact ⟨rfl, rfl, rfl, rfl, rfl, rfl, rfl, rfl, rfl, rfl, rfl⟩

theorem FreeBlocks_Reset_table (a : BaseArena) :
    a.Reset.FreeBlocks.first_blocks_ = a.FreeBlocks.first_blocks_ := by
  have hf := Reset_fields a
  unfold BaseArena.FreeBlocks
  simp only [hf.2.1]
  have h1 : ∀ i : Nat, ¬ (1 ≤ i ∧ i < 1) := by omega
  simp only [h1, if_false]
  rw [map_range_getD, hf.1]
  rfl


theorem BaseArena_eq_of_fields (x y : BaseArena)
    (h1 : x.bytes_allocated_ = y.bytes_allocated_) (h2 : x.remaining_ = y.remaining_)
    (h3 : x.first_block_we_own_ = y.first_block_we_own_) (h4 : x.block_size_ = y.block_size_)
    (h5 : x.freestart_ = y.freestart_)
    (h6 : x.freestart_when_empty_ = y.freestart_when_empty_)
    (h7 : x.last_alloc_ = y.last_alloc_) (h8 : x.blocks_alloced_ = y.blocks_alloced_)
    (h9 : x.first_blocks_ = y.first_blocks_) (h10 : x.overflow_blocks_ = y.overflow_blocks_)
    (h11 : x.page_aligned_ = y.page_aligned_) (h12 : x.handle_alignment_ = y.handle_alignment_)
    (h13 : x.handle_alignment_bits_ = y.handle_alignment_bits_)
    (h14 : x.block_size_bits_ = y.block_size_bits_) : x = y := by
  cases x
  cases y
  simp only at h1 h2 h3 h4 h5 h6 h7 h8 h9 h10 h11 h12 h13 h14
  subst h1 h2 h3 h4 h5 h6 h7 h8 h9 h10 h11 h12 h13 h14
  rfl

/-- C13. For every arena state, `Reset(); Reset()` leaves the state that a single
`Reset()` leaves, in every field: the cursor (`freestart_`, `remaining_`),
`last_alloc_`, the inline block table and `blocks_alloced_`, the overflow
vector, `bytes_allocated` and `freestart_when_empty_` (and the fields that
`Reset` never writes). -/
theorem C13_reset_idempotent (a : BaseArena) :
    a.Reset.Reset = a.Reset ∧
    a.Reset.Reset.freestart_ = a.Reset.freestart_ ∧
    a.Reset.Reset.remaining_ = a.Reset.remaining_ ∧
    a.Reset.Reset.last_alloc_ = a.Reset.last_alloc_ ∧
    a.Reset.Reset.first_blocks_ = a.Reset.first_blocks_ ∧
    a.Reset.Reset.blocks_alloced_ = a.Reset.blocks_alloced_ ∧
    a.Reset.Reset.overflow_blocks_ = a.Reset.overflow_blocks_ ∧
    a.Reset.Reset.bytes_allocated_ = a.Reset.bytes_allocated_ ∧
    a.Reset.Reset.freestart_when_empty_ = a.Reset.freestart_when_empty_ := by
  have hf1 := Reset_fields a
  have hf2 := Reset_fields a.Reset
  have hc1 := Reset_cursor a
  have hc2 := Reset_cursor a.Reset
  have hslot : a.Reset.first_blocks_.getD 0 default = a.first_blocks_.getD 0 default := by
    rw [hf1.1, FreeBlocks_slot0]
  rw [hslot] at hc2
  have hfs : a.Reset.Reset.freestart_ = a.Reset.freestart_ := by rw [hc2.1, hc1.1]
  have hrem : a.Reset.Reset.remaining_ = a.Reset.remaining_ := by rw [hc2.2.1, hc1.2.1]
  have htab : a.Reset.Reset.first_blocks_ = a.Reset.first_blocks_ := by
    rw [hf2.1, FreeBlocks_Reset_table, hf1.1]
  have hall : a.Reset.Reset = a.Reset := by
    apply BaseArena_eq_of_fields
    · rw [hf2.2.2.2.2.1, hf1.2.2.2.2.1, hf1.2.2.2.2.2.1]
    · exact hrem
    · rw [hf2.2.2.2.2.2.2.2.1]
    · rw [hf2.2.2.2.2.2.1]
    · exact hfs
    · rw [hc2.2.2, hc1.2.2, hfs]
    · rw [hf2.2.2.2.1, hf1.2.2.2.1]
    · rw [hf2.2.1, hf1.2.1]
    · exact htab
    · rw [hf2.2.2.1, hf1.2.2.1]
    · rw [hf2.2.2.2.2.2.2.1]
    · rw [hf2.2.2.2.2.2.2.2.2.1]
    · rw [hf2.2.2.2.2.2.2.2.2.2.1]
    · rw [hf2.2.2.2.2.2.2.2.2.2.2]
  refine ⟨hall, ?_, ?_, ?_, ?_, ?_, ?_, ?_, ?_⟩ <;> rw [hall]

/-- C19. For every arena state and every `align`, `Alloc(0)` and
`AllocAligned(0, align)` return null without aborting and leave the whole
arena state unchanged. -/
theorem C19_zero_size_alloc (a : BaseArena) (align : Int) (mem : Nat) :
    UnsafeArena.Alloc a 0 mem = some (0, a) ∧
    UnsafeArena.AllocAligned a 0 align mem = some (0, a) := by
  unfold UnsafeArena.Alloc UnsafeArena.AllocAligned BaseArena.GetMemory
    BaseArena.GetMemoryFallback
  simp

/-! ## The branches of `GetMemory` -/

/-- The state in which `MakeNewBlock` leaves the arena `s` when the system
allocator returns `mem`. -/
theorem MakeNewBlock_eq (s : BaseArena) (mem : Nat) (hmem : s.page_aligned_ = true → mem ≠ 0) :
    s.MakeNewBlock mem = some { s.push_block ⟨mem, s.new_block_capacity s.block_size_⟩
        s.block_size_ with
      freestart_ := mem, remaining_ := s.new_block_capacity s.block_size_ } := by
  unfold BaseArena.MakeNewBlock
  rw [AllocNewBlock_some s s.block_size_ mem hmem]
  rfl

theorem MakeNewBlock_inv (s : BaseArena) (mem : Nat) (r : BaseArena)
    (h : s.MakeNewBlock mem = some r) : s.page_aligned_ = true → mem ≠ 0 := by
  unfold BaseArena.MakeNewBlock at h
  cases hnew : s.AllocNewBlock s.block_size_ mem with
  | none => rw [hnew] at h; simp at h
  | some x => exact AllocNewBlock_inv s s.block_size_ mem x hnew

/-- What `GetMemory(size, align)` returns and the state it leaves, branch by
branch, together with the conditions under which the branch is taken. -/
theorem GetMemory_by_path (a : BaseArena) (size : Nat) (align : Int) (mem p : Nat)
    (a1 : BaseArena) (h : a.GetMemory size align mem = some (p, a1)) :
    match GetMemory_path a size align with
    | Path.zero => size = 0 ∧ p = 0 ∧ a1 = a
    | Path.fast => 0 < size ∧ size < a.remaining_ ∧ align = 1 ∧ p = a.freestart_ ∧
        a1 = { a with
          last_alloc_ := a.freestart_,
          freestart_ := a.freestart_ + size,
          remaining_ := a.remaining_ - size }
    | Path.dedicated => 0 < size ∧ (a.block_size_ = 0 ∨ size > a.block_size_ / 4) ∧
        (a.page_aligned_ = true → mem ≠ 0) ∧ p = mem ∧
        a1 = a.push_block ⟨mem, a.new_block_capacity size⟩ size
    | Path.bump => 0 < size ∧ a.block_size_ ≠ 0 ∧ size ≤ a.block_size_ / 4 ∧
        size ≤ (a.pad_freestart (to_size_t align)).remaining_ ∧
        p = (a.pad_freestart (to_size_t align)).freestart_ ∧
        a1 = (BaseArena.bump (a.pad_freestart (to_size_t align)) size).2
    | Path.new_block => 0 < size ∧ a.block_size_ ≠ 0 ∧ size ≤ a.block_size_ / 4 ∧
        size > (a.pad_freestart (to_size_t align)).remaining_ ∧
        (a.page_aligned_ = true → mem ≠ 0) ∧ p = mem ∧
        a1 = (BaseArena.bump { (a.pad_freestart (to_size_t align)).push_block
            ⟨mem, a.new_block_capacity a.block_size_⟩ a.block_size_ with
          freestart_ := mem, remaining_ := a.new_block_capacity a.block_size_ } size).2 := by
  unfold GetMemory_path
  by_cases hfast : size > 0 ∧ size < a.remaining_ ∧ align = 1
  · rw [if_pos hfast]
    obtain ⟨h0, hlt, rfl⟩ := hfast
    rw [GetMemory_fast a size mem h0 hlt] at h
    simp only [Option.some.injEq, Prod.mk.injEq] at h
    exact ⟨h0, hlt, rfl, h.1.symm, h.2.symm⟩
  · rw [if_neg hfast]
    unfold BaseArena.GetMemory at h
    rw [if_neg hfast] at h
    by_cases h0 : size = 0
    · rw [if_pos h0]
      unfold BaseArena.GetMemoryFallback at h
      rw [if_pos h0] at h
      simp only [Option.some.injEq, Prod.mk.injEq] at h
      exact ⟨h0, h.1.symm, h.2.symm⟩
    · rw [if_neg h0]
      have hpos : 0 < size := Nat.pos_of_ne_zero h0
      by_cases hbig : a.block_size_ = 0 ∨ size > a.block_size_ / 4
      · rw [if_pos hbig]
        unfold BaseArena.GetMemoryFallback at h
        rw [if_neg h0] at h
        simp only [if_pos hbig, Option.map_eq_some'] at h
        obtain ⟨r, hr, hres⟩ := h
        have hmem := AllocNewBlock_inv a size mem r hr
        rw [AllocNewBlock_some a size mem hmem] at hr
        simp only [Option.some.injEq] at hr
        subst hr
        simp only [Prod.mk.injEq] at hres
        exact ⟨hpos, hbig, hmem, hres.1.symm, hres.2.symm⟩
      · rw [if_neg hbig]
        rw [GetMemoryFallback_small a size align mem h0 hbig] at h
        have hpf := pad_freestart_fields a (to_size_t align)
        by_cases hgt : size > (a.pad_freestart (to_size_t align)).remaining_
        · rw [if_pos hgt]
          rw [if_pos hgt] at h
          simp only [Option.map_eq_some'] at h
          obtain ⟨s, hs, hres⟩ := h
          have hmem := MakeNewBlock_inv _ mem s hs
          rw [MakeNewBlock_eq _ mem hmem] at hs
          simp only [Option.some.injEq] at hs
          subst hs
          rw [hpf.2.2.2.2.2] at hmem
          have hcap : (a.pad_freestart (to_size_t align)).new_block_capacity
              (a.pad_freestart (to_size_t align)).block_size_
              = a.new_block_capacity a.block_size_ := by
            unfold BaseArena.new_block_capacity
            rw [hpf.2.2.2.2.2, hpf.2.1]
          rw [hcap, hpf.2.1] at hres
          refine ⟨hpos, by omega, by omega, hgt, hmem, ?_, ?_⟩
          · have := congrArg Prod.fst hres
            exact this.symm
          · have := congrArg Prod.snd hres
            exact this.symm
        · rw [if_neg hgt]
          rw [if_neg hgt] at h
          simp only [Option.map_some', Option.some.injEq] at h
          refine ⟨hpos, by omega, by omega, by omega, ?_, ?_⟩
          · have := congrArg Prod.fst h
            exact this.symm
          · have := congrArg Prod.snd h
            exact this.symm

/-! ## One call of the public interface -/

theorem GetMemoryWithHandle_state (a : BaseArena) (size mem : Nat)
    (r : Nat × Handle × BaseArena) (h : a.GetMemoryWithHandle size mem = some r) :
    a.GetMemory size (to_int ((1 <<< a.handle_alignment_bits_ : Nat) : Int)) mem
      = some (r.1, r.2.2) := by
  unfold BaseArena.GetMemoryWithHandle at h
  split at h
  · simp at h
  · rename_i p a1 hget
    split at h
    · simp at h
    · simp at h
    · simp only [Option.some.injEq] at h
      subst h
      exact hget

/-- The state that a call leaves: the state left by the `GetMemory` call that
it makes, or the state itself, or the state left by `ReturnMemory`, by a
successful `AdjustLastAlloc` or by `Reset`. -/
theorem step_cases (a : BaseArena) (op : Op) (a1 : BaseArena) (h : step a op = some a1) :
    (∃ size align mem p, alloc_call a op = some (size, align) ∧
      a.GetMemory size align mem = some (p, a1)) ∨
    (alloc_call a op = none ∧
      (a1 = a ∨
        (∃ memory size, op = Op.Free memory size ∧ a1 = a.ReturnMemory memory size) ∨
        (∃ s n, (op = Op.Shrink s n ∨ ∃ old mem, op = Op.Realloc s old n mem) ∧
          (a.AdjustLastAlloc s n).1 = true ∧ a1 = (a.AdjustLastAlloc s n).2) ∨
        (op = Op.Reset ∧ a1 = a.Reset))) := by
  cases op with
  | Alloc size mem =>
    left
    simp only [step, Option.map_eq_some'] at h
    obtain ⟨⟨p, a2⟩, hq, rfl⟩ := h
    exact ⟨size, 1, mem, p, rfl, hq⟩
  | AllocAligned size align mem =>
    left
    simp only [step, Option.map_eq_some'] at h
    obtain ⟨⟨p, a2⟩, hq, rfl⟩ := h
    exact ⟨size, align, mem, p, rfl, hq⟩
  | AllocWithHandle size mem =>
    left
    simp only [step, Option.map_eq_some'] at h
    obtain ⟨r, hq, rfl⟩ := h
    exact ⟨size, _, mem, r.1, rfl, GetMemoryWithHandle_state a size mem r hq⟩
  | Free memory size =>
    right
    simp only [step, Option.some.injEq] at h
    exact ⟨rfl, Or.inr (Or.inl ⟨memory, size, rfl, h.symm⟩)⟩
  | Shrink s n =>
    right
    simp only [step, UnsafeArena.Shrink, Option.some.injEq] at h
    refine ⟨rfl, ?_⟩
    cases hadj : (a.AdjustLastAlloc s n).1
    · left
      rw [AdjustLastAlloc_fail a s n hadj] at h
      exact h.symm
    · right; right; left
      exact ⟨s, n, Or.inl rfl, hadj, h.symm⟩
  | Realloc s old n mem =>
    simp only [step, Option.map_eq_some'] at h
    obtain ⟨r, hq, rfl⟩ := h
    cases hadj : (a.AdjustLastAlloc s n).1
    · by_cases hle : n ≤ old
      · right
        rw [Realloc_not_larger a _ s old n mem hadj hle] at hq
        simp only [Option.some.injEq] at hq
        subst hq
        exact ⟨by simp [alloc_call, hadj, hle], Or.inl rfl⟩
      · left
        rw [Realloc_fresh a _ s old n mem hadj hle] at hq
        simp only [Option.map_eq_some'] at hq
        obtain ⟨⟨p, a2⟩, hq2, rfl⟩ := hq
        exact ⟨n, 1, mem, p, by simp [alloc_call, hadj, hle], hq2⟩
    · right
      rw [Realloc_adjusted a _ s old n mem hadj] at hq
      simp only [Option.some.injEq] at hq
      subst hq
      exact ⟨by simp [alloc_call, hadj],
        Or.inr (Or.inr (Or.inl ⟨s, n, Or.inr ⟨old, mem, rfl⟩, hadj, rfl⟩))⟩
  | Reset =>
    right
    simp only [step, Option.some.injEq] at h
    exact ⟨rfl, Or.inr (Or.inr (Or.inr ⟨rfl, h.symm⟩))⟩

theorem push_block_table (a : BaseArena) (b : AllocatedBlock) (n : Nat) :
    (a.push_block b n).handle_alignment_bits_ = a.handle_alignment_bits_ ∧
    a.blocks_alloced_ ≤ (a.push_block b n).blocks_alloced_ ∧
    (1 ≤ a.blocks_alloced_ →
      (a.push_block b n).first_blocks_.getD 0 default = a.first_blocks_.getD 0 default) := by
  unfold BaseArena.push_block
  by_cases hs : a.blocks_alloced_ < kFirstBlocks
  · simp only [if_pos hs]
    refine ⟨trivial, by omega, ?_⟩
    intro h1
    have hne : a.blocks_alloced_ ≠ 0 := by omega
    simp [List.getD_eq_getElem?_getD, List.getElem?_set_ne hne]
  · simp only [if_neg hs]
    exact ⟨trivial, Nat.le_refl _, fun _ => trivial⟩

theorem pad_freestart_table (a : BaseArena) (align : Nat) :
    (a.pad_freestart align).first_blocks_ = a.first_blocks_ ∧
    (a.pad_freestart align).blocks_alloced_ = a.blocks_alloced_ ∧
    (a.pad_freestart align).overflow_blocks_ = a.overflow_blocks_ ∧
    (a.pad_freestart align).handle_alignment_bits_ = a.handle_alignment_bits_ := by
  unfold BaseArena.pad_freestart
  simp only
  split <;> exact ⟨rfl, rfl, rfl, rfl⟩

/-- The fields that `GetMemory` does not use for the cursor: the configuration
is kept, block 0 stays in slot 0, and `bytes_allocated` (a `size_t`) and
`block_count()` grow by the block that the branch acquires, if it acquires
one. -/
theorem GetMemory_frame (a : BaseArena) (size : Nat) (align : Int) (mem p : Nat)
    (a1 : BaseArena) (h : a.GetMemory size align mem = some (p, a1)) :
    a1.block_size_ = a.block_size_ ∧ a1.page_aligned_ = a.page_aligned_ ∧
    a1.handle_alignment_bits_ = a.handle_alignment_bits_ ∧
    a.blocks_alloced_ ≤ a1.blocks_alloced_ ∧
    (1 ≤ a.blocks_alloced_ →
      a1.first_blocks_.getD 0 default = a.first_blocks_.getD 0 default) ∧
    a1.bytes_allocated_ =
      (match GetMemory_path a size align with
        | Path.dedicated => (a.bytes_allocated_ + size) % 2 ^ 64
        | Path.new_block => (a.bytes_allocated_ + a.block_size_) % 2 ^ 64
        | _ => a.bytes_allocated_) ∧
    a1.block_count = a.block_count +
      (match GetMemory_path a size align with
        | Path.dedicated => 1
        | Path.new_block => 1
        | _ => 0) := by
  have key := GetMemory_by_path a size align mem p a1 h
  have hpf := pad_freestart_fields a (to_size_t align)
  have hpt := pad_freestart_table a (to_size_t align)
  cases hpath : GetMemory_path a size align <;> rw [hpath] at key <;> simp only at key ⊢
  · obtain ⟨_, _, rfl⟩ := key
    exact ⟨rfl, rfl, rfl, Nat.le_refl _, fun _ => rfl, rfl, rfl⟩
  · obtain ⟨_, _, _, _, rfl⟩ := key
    exact ⟨rfl, rfl, rfl, Nat.le_refl _, fun _ => rfl, rfl, rfl⟩
  · obtain ⟨_, _, _, _, rfl⟩ := key
    have hf := push_block_fields a ⟨mem, a.new_block_capacity size⟩ size
    have ht := push_block_table a ⟨mem, a.new_block_capacity size⟩ size
    exact ⟨hf.2.2.2.2.2.1, hf.2.2.2.2.2.2, ht.1, ht.2.1, ht.2.2, hf.2.2.2.2.1, hf.1⟩
  · obtain ⟨_, _, _, _, _, rfl⟩ := key
    refine ⟨hpf.2.1, hpf.2.2.2.2.2, hpt.2.2.2, ?_, ?_, hpf.2.2.2.2.1, hpf.2.2.1⟩
    · show a.blocks_alloced_ ≤ (a.pad_freestart (to_size_t align)).blocks_alloced_
      rw [hpt.2.1]
    · intro _
      show (a.pad_freestart (to_size_t align)).first_blocks_.getD 0 default = _
      rw [hpt.1]
  · obtain ⟨_, _, _, _, _, _, rfl⟩ := key
    have hf := push_block_fields (a.pad_freestart (to_size_t align))
      ⟨mem, a.new_block_capacity a.block_size_⟩ a.block_size_
    have ht := push_block_table (a.pad_freestart (to_size_t align))
      ⟨mem, a.new_block_capacity a.block_size_⟩ a.block_size_
    refine ⟨?_, ?_, ?_, ?_, ?_, ?_, ?_⟩
    · exact hf.2.2.2.2.2.1.trans hpf.2.1
    · exact hf.2.2.2.2.2.2.trans hpf.2.2.2.2.2
    · exact ht.1.trans hpt.2.2.2
    · have := ht.2.1
      rw [hpt.2.1] at this
      exact this
    · intro h1
      have := ht.2.2 (by rw [hpt.2.1]; exact h1)
      rw [hpt.1] at this
      exact this
    · have := hf.2.2.2.2.1
      rw [hpf.2.2.2.2.1] at this
      exact this
    · have := hf.1
      rw [hpf.2.2.1] at this
      exact this

theorem ReturnMemory_frame (a : BaseArena) (memory size : Nat) :
    (a.ReturnMemory memory size).block_size_ = a.block_size_ ∧
    (a.ReturnMemory memory size).page_aligned_ = a.page_aligned_ ∧
    (a.ReturnMemory memory size).handle_alignment_bits_ = a.handle_alignment_bits_ ∧
    (a.ReturnMemory memory size).blocks_alloced_ = a.blocks_alloced_ ∧
    (a.ReturnMemory memory size).first_blocks_ = a.first_blocks_ ∧
    (a.ReturnMemory memory size).bytes_allocated_ = a.bytes_allocated_ ∧
    (a.ReturnMemory memory size).block_count = a.block_count ∧
    (a.ReturnMemory memory size).last_alloc_ = a.last_alloc_ := by
  unfold BaseArena.ReturnMemory
  simp only
  split <;> exact ⟨rfl, rfl, rfl, rfl, rfl, rfl, rfl, rfl⟩

theorem AdjustLastAlloc_frame (a : BaseArena) (s n : Nat) :
    (a.AdjustLastAlloc s n).2.block_size_ = a.block_size_ ∧
    (a.AdjustLastAlloc s n).2.page_aligned_ = a.page_aligned_ ∧
    (a.AdjustLastAlloc s n).2.handle_alignment_bits_ = a.handle_alignment_bits_ ∧
    (a.AdjustLastAlloc s n).2.blocks_alloced_ = a.blocks_alloced_ ∧
    (a.AdjustLastAlloc s n).2.first_blocks_ = a.first_blocks_ ∧
    (a.AdjustLastAlloc s n).2.bytes_allocated_ = a.bytes_allocated_ ∧
    (a.AdjustLastAlloc s n).2.block_count = a.block_count ∧
    (a.AdjustLastAlloc s n).2.last_alloc_ = a.last_alloc_ := by
  unfold BaseArena.AdjustLastAlloc
  split
  · exact ⟨rfl, rfl, rfl, rfl, rfl, rfl, rfl, rfl⟩
  · split <;> exact ⟨rfl, rfl, rfl, rfl, rfl, rfl, rfl, rfl⟩

theorem requested_of_call (a : BaseArena) (op : Op) (size : Nat) (align : Int)
    (h : alloc_call a op = some (size, align)) :
    (requested a op).toList.sum =
      (match GetMemory_path a size align with
        | Path.dedicated => size
        | Path.new_block => a.block_size_
        | _ => 0) ∧
    (requested a op).toList.length =
      (match GetMemory_path a size align with
        | Path.dedicated => 1
        | Path.new_block => 1
        | _ => 0) := by
  unfold requested
  rw [h]
  simp only
  cases GetMemory_path a size align <;> simp

theorem requested_of_no_call (a : BaseArena) (op : Op) (h : alloc_call a op = none) :
    requested a op = none := by
  unfold requested
  rw [h]

theorem requested_of_call_eq (a : BaseArena) (op : Op) (size : Nat) (align : Int)
    (h : alloc_call a op = some (size, align)) :
    requested a op =
      (match GetMemory_path a size align with
        | Path.dedicated => some size
        | Path.new_block => some a.block_size_
        | _ => none) := by
  unfold requested
  rw [h]

/-- What one call keeps and what it adds: the configuration and the table
invariant are kept; a call other than `Reset` adds to `bytes_allocated`, modulo
`2^64`, the size it requests from `AllocNewBlock`, and to `block_count()` the
block it acquires. -/
theorem step_frame (a : BaseArena) (op : Op) (a1 : BaseArena) (h : step a op = some a1) :
    a1.block_size_ = a.block_size_ ∧ a1.page_aligned_ = a.page_aligned_ ∧
    a1.handle_alignment_bits_ = a.handle_alignment_bits_ ∧
    (∀ bs, table_inv bs a → table_inv bs a1) ∧
    (op ≠ Op.Reset →
      a1.bytes_allocated_ =
        (match requested a op with
          | none => a.bytes_allocated_
          | some r => (a.bytes_allocated_ + r) % 2 ^ 64) ∧
      a1.block_count = a.block_count + (requested a op).toList.length) := by
  rcases step_cases a op a1 h with ⟨size, align, mem, p, hcall, hget⟩ | ⟨hcall, hrest⟩
  · have hf := GetMemory_frame a size align mem p a1 hget
    have hr := requested_of_call a op size align hcall
    have hre := requested_of_call_eq a op size align hcall
    refine ⟨hf.1, hf.2.1, hf.2.2.1, ?_, ?_⟩
    · rintro bs ⟨h1, h2, h3⟩
      exact ⟨hf.1.trans h1, by omega, by rw [hf.2.2.2.2.1 h2]; exact h3⟩
    · intro _
      refine ⟨?_, by rw [hr.2]; exact hf.2.2.2.2.2.2⟩
      rw [hre, hf.2.2.2.2.2.1]
      cases GetMemory_path a size align <;> rfl
  · have hreq := requested_of_no_call a op hcall
    rcases hrest with rfl | ⟨memory, size, _, rfl⟩ | ⟨s, n, _, _, rfl⟩ | ⟨rfl, rfl⟩
    · refine ⟨rfl, rfl, rfl, fun _ h => h, fun _ => ?_⟩
      rw [hreq]
      exact ⟨rfl, rfl⟩
    · have hf := ReturnMemory_frame a memory size
      refine ⟨hf.1, hf.2.1, hf.2.2.1, ?_, fun _ => ?_⟩
      · rintro bs ⟨h1, h2, h3⟩
        exact ⟨hf.1.trans h1, by rw [hf.2.2.2.1]; exact h2, by rw [hf.2.2.2.2.1]; exact h3⟩
      · rw [hreq]
        exact ⟨hf.2.2.2.2.2.1, hf.2.2.2.2.2.2.1⟩
    · have hf := AdjustLastAlloc_frame a s n
      refine ⟨hf.1, hf.2.1, hf.2.2.1, ?_, fun _ => ?_⟩
      · rintro bs ⟨h1, h2, h3⟩
        exact ⟨hf.1.trans h1, by rw [hf.2.2.2.1]; exact h2, by rw [hf.2.2.2.2.1]; exact h3⟩
      · rw [hreq]
        exact ⟨hf.2.2.2.2.2.1, hf.2.2.2.2.2.2.1⟩
    · have hf := Reset_fields a
      refine ⟨hf.2.2.2.2.2.1, hf.2.2.2.2.2.2.1, hf.2.2.2.2.2.2.2.2.2.1, ?_, fun hne => absurd rfl hne⟩
      rintro bs ⟨h1, h2, h3⟩
      refine ⟨hf.2.2.2.2.2.1.trans h1, by rw [hf.2.1], ?_⟩
      rw [hf.1, FreeBlocks_slot0]
      exact h3

/-- The configuration and the table invariant along a sequence of calls. -/
theorem run_frame (ops : List Op) :
    ∀ (a a1 : BaseArena), run a ops = some a1 →
      a1.block_size_ = a.block_size_ ∧ a1.page_aligned_ = a.page_aligned_ ∧
      a1.handle_alignment_bits_ = a.handle_alignment_bits_ ∧
      (∀ bs, table_inv bs a → table_inv bs a1) := by
  induction ops with
  | nil =>
    intro a a1 h
    simp only [run, Option.some.injEq] at h
    subst h
    exact ⟨rfl, rfl, rfl, fun _ h => h⟩
  | cons op ops ih =>
    intro a a1 h
    simp only [run, Option.bind_eq_some] at h
    obtain ⟨a2, hstep, hrun⟩ := h
    have h1 := step_frame a op a2 hstep
    have h2 := ih a2 a1 hrun
    exact ⟨h2.1.trans h1.1, h2.2.1.trans h1.2.1, h2.2.2.1.trans h1.2.2.1,
      fun bs h => h2.2.2.2 bs (h1.2.2.2.1 bs h)⟩

/-- The arena that the constructor builds satisfies the table invariant. -/
theorem construct_table_inv (first block_size : Nat) (align_to_page : Bool) (mem : Nat)
    (slots : List AllocatedBlock) (a0 : BaseArena) (hslots : slots.length = kFirstBlocks)
    (h : BaseArena.construct first block_size align_to_page mem slots = some a0) :
    table_inv block_size a0 ∧ a0.page_aligned_ = align_to_page ∧
    a0.handle_alignment_bits_ = 0 ∧ a0.bytes_allocated_ = block_size ∧ a0.block_count = 1 ∧
    ∃ x : BaseArena, a0 = x.Reset ∧ x.block_size_ = block_size ∧
      (x.first_blocks_.getD 0 default).size = block_size := by
  unfold BaseArena.construct at h
  split at h
  · simp at h
  simp only [Option.map_eq_some'] at h
  obtain ⟨m, _, rfl⟩ := h
  have hne : slots ≠ [] := by
    intro hnil
    rw [hnil] at hslots
    simp [kFirstBlocks] at hslots
  obtain ⟨x, xs, rfl⟩ := List.exists_cons_of_ne_nil hne
  refine ⟨⟨?_, ?_, ?_⟩, ?_, ?_, ?_, ?_, ⟨_, rfl, rfl, ?_⟩⟩
  · rw [(Reset_fields _).2.2.2.2.2.1]
  · rw [(Reset_fields _).2.1]
  · rw [(Reset_fields _).1, FreeBlocks_slot0]
    simp
  · rw [(Reset_fields _).2.2.2.2.2.2.1]
  · rw [(Reset_fields _).2.2.2.2.2.2.2.2.2.1]
  · rw [(Reset_fields _).2.2.2.2.1]
  · unfold BaseArena.block_count
    simp only [(Reset_fields _).2.1, (Reset_fields _).2.2.1]
  · simp

/-! ## Status accounting -/

theorem step_accounting (s : BaseArena) (op : Op) (s1 : BaseArena)
    (h : step s op = some s1) (hop : op ≠ Op.Reset) :
    (requested s op = none →
      s1.bytes_allocated_ = s.bytes_allocated_ ∧ s1.block_count = s.block_count) ∧
    (∀ r, requested s op = some r →
      s1.bytes_allocated_ = (s.bytes_allocated_ + r) % 2 ^ 64 ∧
      s1.block_count = s.block_count + 1 ∧
      (s.bytes_allocated_ + r < 2 ^ 64 →
        s1.bytes_allocated_ = s.bytes_allocated_ + r ∧
        s.bytes_allocated_ ≤ s1.bytes_allocated_)) := by
  have hf := (step_frame s op s1 h).2.2.2.2 hop
  refine ⟨?_, ?_⟩
  · intro hnone
    rw [hnone] at hf
    simpa using hf
  · intro r hr
    rw [hr] at hf
    simp only [Option.toList_some, List.length_singleton] at hf
    refine ⟨hf.1, hf.2, ?_⟩
    intro hlt
    rw [hf.1, Nat.mod_eq_of_lt hlt]
    exact ⟨rfl, by omega⟩

theorem run_accounting (ops : List Op) :
    ∀ (a a1 : BaseArena), run a ops = some a1 → Op.Reset ∉ ops →
      a.bytes_allocated_ < 2 ^ 64 →
      a1.bytes_allocated_ = (a.bytes_allocated_ + (requests a ops).sum) % 2 ^ 64 ∧
      a1.block_count = a.block_count + (requests a ops).length := by
  induction ops with
  | nil =>
    intro a a1 h _ hlt
    simp only [run, Option.some.injEq] at h
    subst h
    simp only [requests, List.sum_nil, List.length_nil, Nat.add_zero]
    exact ⟨(Nat.mod_eq_of_lt hlt).symm, trivial⟩
  | cons op ops ih =>
    intro a a1 h hno hlt
    simp only [run, Option.bind_eq_some] at h
    obtain ⟨a2, hstep, hrun⟩ := h
    have hop : op ≠ Op.Reset := by
      intro heq
      exact hno (by rw [heq]; exact List.mem_cons_self _ _)
    have hrest : Op.Reset ∉ ops := fun hin => hno (List.mem_cons_of_mem _ hin)
    have h1 := (step_frame a op a2 hstep).2.2.2.2 hop
    have hlt2 : a2.bytes_allocated_ < 2 ^ 64 := by
      rw [h1.1]
      cases requested a op with
      | none => exact hlt
      | some r => exact Nat.mod_lt _ (by decide)
    have h2 := ih a2 a1 hrun hrest hlt2
    simp only [requests, hstep, List.sum_append, List.length_append]
    refine ⟨?_, by omega⟩
    rw [h2.1, h1.1]
    cases requested a op with
    | none => simp
    | some r =>
      simp only [Option.toList_some, List.sum_cons, List.sum_nil, Nat.add_zero]
      rw [Nat.mod_add_mod, Nat.add_assoc]

/-- The requests along a sequence of calls split at any point of the
sequence. -/
theorem requests_append (l1 : List Op) :
    ∀ (a s : BaseArena) (l2 : List Op), run a l1 = some s →
      requests a (l1 ++ l2) = requests a l1 ++ requests s l2 ∧
      run a (l1 ++ l2) = run s l2 := by
  induction l1 with
  | nil =>
    intro a s l2 h
    simp only [run, Option.some.injEq] at h
    subst h
    simp [requests]
  | cons op ops ih =>
    intro a s l2 h
    simp only [run, Option.bind_eq_some] at h
    obtain ⟨a2, hstep, hrun⟩ := h
    have h2 := ih a2 s l2 hrun
    rw [List.cons_append]
    simp only [requests, run, hstep, Option.some_bind, h2.1, h2.2]
    exact ⟨(List.append_assoc _ _ _).symm, trivial⟩

/-- C14 (counterexample): on the arena constructed with block size 4096 in
non-page-aligned mode, two calls `Alloc(2^63)` for which `malloc` fails (it
returns null, which `AllocNewBlock` does not check in this mode) each add
`2^63` to the `size_t` counter: `bytes_allocated` goes from 4096 to
`2^63 + 4096` and then back to 4096. It has decreased, and it is not
`block_size` plus the sum `2^64` of the requested sizes. -/
theorem C14_counterexample_counter_wraps :
    BaseArena.construct 0 4096 false 4096 slots0 = some (arena_at 4096) ∧
    (arena_at 4096).bytes_allocated_ = 4096 ∧
    (run (arena_at 4096) [Op.Alloc (2 ^ 63) 0]).map (fun a => a.bytes_allocated_)
      = some (2 ^ 63 + 4096) ∧
    (run (arena_at 4096) [Op.Alloc (2 ^ 63) 0, Op.Alloc (2 ^ 63) 0]).map
        (fun a => (a.bytes_allocated_, a.block_count, a.block_size_))
      = some (4096, 3, 4096) ∧
    requests (arena_at 4096) [Op.Alloc (2 ^ 63) 0, Op.Alloc (2 ^ 63) 0] = [2 ^ 63, 2 ^ 63] ∧
    (4096 : Nat) < 2 ^ 63 + 4096 ∧
    (4096 : Nat) ≠ 4096 + (2 ^ 63 + 2 ^ 63) := by
  refine ⟨by decide, by decide, by decide, by decide, by decide, by decide, by decide⟩

/-- C14 (amended). Over every sequence of calls other than `Reset` that does
not abort, from a state whose `bytes_allocated` is a `size_t`: each call leaves
`bytes_allocated` unchanged when it acquires no block (`block_count()`
unchanged) and otherwise adds, modulo `2^64`, exactly the size it requested for
the block (`block_count()` grows by one); over the sequence `bytes_allocated`
becomes the old value plus the sum of the requested sizes modulo `2^64`
(`block_size` plus that sum, modulo `2^64`, when the sequence starts right
after construction or a `Reset`). As long as the old value plus the sum of the
requested sizes is below `2^64`, the additions are exact and `bytes_allocated`
never decreases: it is at least the starting value and at most the final value
at every point of the sequence. -/
theorem C14_status_accounting (a : BaseArena) (ops : List Op) (a1 : BaseArena)
    (hrun : run a ops = some a1) (hops : Op.Reset ∉ ops)
    (hsz : a.bytes_allocated_ < 2 ^ 64) :
    (∀ (s : BaseArena) (op : Op) (s1 : BaseArena), step s op = some s1 → op ≠ Op.Reset →
      (requested s op = none →
        s1.bytes_allocated_ = s.bytes_allocated_ ∧ s1.block_count = s.block_count) ∧
      (∀ r, requested s op = some r →
        s1.bytes_allocated_ = (s.bytes_allocated_ + r) % 2 ^ 64 ∧
        s1.block_count = s.block_count + 1 ∧
        (s.bytes_allocated_ + r < 2 ^ 64 →
          s1.bytes_allocated_ = s.bytes_allocated_ + r ∧
          s.bytes_allocated_ ≤ s1.bytes_allocated_))) ∧
    a1.bytes_allocated_ = (a.bytes_allocated_ + (requests a ops).sum) % 2 ^ 64 ∧
    a1.block_count = a.block_count + (requests a ops).length ∧
    (∀ x : BaseArena, a = x.Reset →
      a1.bytes_allocated_ = (a1.block_size_ + (requests a ops).sum) % 2 ^ 64) ∧
    (a.bytes_allocated_ + (requests a ops).sum < 2 ^ 64 →
      a1.bytes_allocated_ = a.bytes_allocated_ + (requests a ops).sum ∧
      (∀ x : BaseArena, a = x.Reset →
        a1.bytes_allocated_ = a1.block_size_ + (requests a ops).sum) ∧
      (∀ (l1 l2 : List Op) (s : BaseArena), ops = l1 ++ l2 → run a l1 = some s →
        a.bytes_allocated_ ≤ s.bytes_allocated_ ∧
        s.bytes_allocated_ ≤ a1.bytes_allocated_)) := by
  have hacc := run_accounting ops a a1 hrun hops hsz
  have hfr := run_frame ops a a1 hrun
  have hreset : ∀ x : BaseArena, a = x.Reset → a.bytes_allocated_ = a1.block_size_ := by
    intro x hx
    rw [hfr.1, hx, (Reset_fields x).2.2.2.2.1, (Reset_fields x).2.2.2.2.2.1]
  refine ⟨step_accounting, hacc.1, hacc.2, ?_, ?_⟩
  · intro x hx
    rw [hacc.1, hreset x hx]
  · intro hlt
    have hfin : a1.bytes_allocated_ = a.bytes_allocated_ + (requests a ops).sum := by
      rw [hacc.1, Nat.mod_eq_of_lt hlt]
    refine ⟨hfin, ?_, ?_⟩
    · intro x hx
      rw [hfin, hreset x hx]
    · intro l1 l2 s hsplit hrun1
      subst hsplit
      have hno1 : Op.Reset ∉ l1 := fun hin => hops (List.mem_append_left _ hin)
      have hno2 : Op.Reset ∉ l2 := fun hin => hops (List.mem_append_right _ hin)
      have hap := requests_append l1 a s l2 hrun1
      rw [hap.1, List.sum_append] at hlt hfin
      have h1 := (run_accounting l1 a s hrun1 hno1 hsz).1
      rw [Nat.mod_eq_of_lt (by omega)] at h1
      omega

/-- C14 (witness): three `Alloc(100)` and `Alloc(4000)` on a fresh arena of block
size 4096; the last call requests 4000 bytes for a dedicated block. -/
theorem C14_status_accounting_witness :
    (BaseArena.construct 0 4096 false 4096 slots0 = some (arena_at 4096) ∧
      run (arena_at 4096)
          [Op.Alloc 100 0, Op.Alloc 100 0, Op.Alloc 100 0, Op.Alloc 4000 9000]
        = some arena_after_scenario ∧
      requests (arena_at 4096)
        [Op.Alloc 100 0, Op.Alloc 100 0, Op.Alloc 100 0, Op.Alloc 4000 9000] = [4000] ∧
      arena_after_scenario.bytes_allocated_ = 4096 + 4000) ∧
    arena_after_scenario.bytes_allocated_ = ((arena_at 4096).bytes_allocated_ +
      (requests (arena_at 4096)
        [Op.Alloc 100 0, Op.Alloc 100 0, Op.Alloc 100 0, Op.Alloc 4000 9000]).sum)
        % 2 ^ 64 ∧
    arena_after_scenario.block_count = (arena_at 4096).block_count +
      (requests (arena_at 4096)
        [Op.Alloc 100 0, Op.Alloc 100 0, Op.Alloc 100 0, Op.Alloc 4000 9000]).length ∧
    (∀ x : BaseArena, arena_at 4096 = x.Reset →
      arena_after_scenario.bytes_allocated_ = (arena_after_scenario.block_size_ +
        (requests (arena_at 4096)
          [Op.Alloc 100 0, Op.Alloc 100 0, Op.Alloc 100 0, Op.Alloc 4000 9000]).sum)
          % 2 ^ 64) ∧
    ((arena_at 4096).bytes_allocated_ + (requests (arena_at 4096)
        [Op.Alloc 100 0, Op.Alloc 100 0, Op.Alloc 100 0, Op.Alloc 4000 9000]).sum < 2 ^ 64 →
      arena_after_scenario.bytes_allocated_ = (arena_at 4096).bytes_allocated_ +
        (requests (arena_at 4096)
          [Op.Alloc 100 0, Op.Alloc 100 0, Op.Alloc 100 0, Op.Alloc 4000 9000]).sum ∧
      (∀ x : BaseArena, arena_at 4096 = x.Reset →
        arena_after_scenario.bytes_allocated_ = arena_after_scenario.block_size_ +
          (requests (arena_at 4096)
            [Op.Alloc 100 0, Op.Alloc 100 0, Op.Alloc 100 0, Op.Alloc 4000 9000]).sum) ∧
      (∀ (l1 l2 : List Op) (s : BaseArena),
        [Op.Alloc 100 0, Op.Alloc 100 0, Op.Alloc 100 0, Op.Alloc 4000 9000] = l1 ++ l2 →
        run (arena_at 4096) l1 = some s →
        (arena_at 4096).bytes_allocated_ ≤ s.bytes_allocated_ ∧
        s.bytes_allocated_ ≤ arena_after_scenario.bytes_allocated_)) :=
  ⟨by decide,
    (C14_status_accounting (arena_at 4096)
      [Op.Alloc 100 0, Op.Alloc 100 0, Op.Alloc 100 0, Op.Alloc 4000 9000]
      arena_after_scenario (by decide) (by decide) (by decide)).2⟩

/-! ## The postcondition of `Reset` -/

/-- C12. From every arena state whose block 0 has the capacity `block_size_`
(set by the constructor and kept by every operation), with
`kDefaultAlignment < block_size_ < 2^64`: after `Reset()` `block_count() == 1`
and block 0 is retained with its base and capacity; `freestart_` is block 0's
base rounded up to the next multiple of `kDefaultAlignment` (a multiple of 4,
at least the base and less than 4 above it); `remaining_` is `block_size_`
minus that padding; `last_alloc_` is null; `bytes_allocated == block_size`;
`is_empty()` is true. -/
theorem C12_reset_postcondition (a : BaseArena)
    (hsize : (a.first_blocks_.getD 0 default).size = a.block_size_)
    (hbs : kDefaultAlignment < a.block_size_) (hlt : a.block_size_ < 2 ^ 64) :
    a.Reset.block_count = 1 ∧
    a.Reset.first_blocks_.getD 0 default = a.first_blocks_.getD 0 default ∧
    a.Reset.freestart_ % kDefaultAlignment = 0 ∧
    (a.first_blocks_.getD 0 default).mem ≤ a.Reset.freestart_ ∧
    a.Reset.freestart_ < (a.first_blocks_.getD 0 default).mem + kDefaultAlignment ∧
    a.Reset.remaining_ =
      a.block_size_ - (a.Reset.freestart_ - (a.first_blocks_.getD 0 default).mem) ∧
    a.Reset.last_alloc_ = 0 ∧
    a.Reset.bytes_allocated_ = a.block_size_ ∧
    a.Reset.block_size_ = a.block_size_ ∧
    a.Reset.is_empty = true := by
  have hc := Reset_cursor a
  have hf := Reset_fields a
  have hk : kDefaultAlignment = 4 := rfl
  have hcount : a.Reset.block_count = 1 := by
    unfold BaseArena.block_count
    simp only [hf.2.1, hf.2.2.1]
  refine ⟨hcount, ?_, ?_, ?_, ?_, ?_, hf.2.2.2.1, hf.2.2.2.2.1, hf.2.2.2.2.2.1, ?_⟩
  · rw [hf.1, FreeBlocks_slot0]
  · rw [hc.1, hk]
    split <;> omega
  · rw [hc.1]
    split <;> omega
  · rw [hc.1, hk]
    split <;> omega
  · rw [hc.1, hc.2.1, hsize]
    rw [hk] at hbs
    split
    · rw [to_size_t_sub _ _ (by omega) hlt]
      omega
    · omega
  · unfold BaseArena.is_empty
    rw [hcount, hc.2.2]
    simp

/-- C12 (witness): `Reset()` of the arena of block size 4096 that holds block 0
at 4096 and a dedicated block at 9000. -/
theorem C12_reset_postcondition_witness :
    (arena_after_scenario.first_blocks_.getD 0 default).size
      = arena_after_scenario.block_size_ ∧
    kDefaultAlignment < arena_after_scenario.block_size_ ∧
    arena_after_scenario.block_size_ < 2 ^ 64 ∧
    arena_after_scenario.Reset = arena_at 4096 ∧
    arena_after_scenario.Reset.block_count = 1 ∧
    arena_after_scenario.Reset.first_blocks_.getD 0 default
      = arena_after_scenario.first_blocks_.getD 0 default ∧
    arena_after_scenario.Reset.freestart_ % kDefaultAlignment = 0 ∧
    (arena_after_scenario.first_blocks_.getD 0 default).mem
      ≤ arena_after_scenario.Reset.freestart_ ∧
    arena_after_scenario.Reset.freestart_
      < (arena_after_scenario.first_blocks_.getD 0 default).mem + kDefaultAlignment ∧
    arena_after_scenario.Reset.remaining_ =
      arena_after_scenario.block_size_ - (arena_after_scenario.Reset.freestart_
        - (arena_after_scenario.first_blocks_.getD 0 default).mem) ∧
    arena_after_scenario.Reset.last_alloc_ = 0 ∧
    arena_after_scenario.Reset.bytes_allocated_ = arena_after_scenario.block_size_ ∧
    arena_after_scenario.Reset.block_size_ = arena_after_scenario.block_size_ ∧
    arena_after_scenario.Reset.is_empty = true :=
  ⟨by decide, by decide, by decide, by decide,
    C12_reset_postcondition arena_after_scenario (by decide) (by decide) (by decide)⟩

/-! ## The concrete scenario -/

/-- C18 (counterexample): on the arena constructed with block size 4096 (first
block at 4096), after three `Alloc(100)`, `Alloc(4000)` is served by a dedicated
block of 4000 bytes: `block_count()` goes from 1 to 2 and `bytes_allocated`
from 4096 to 8096, an increase of 4000 and not of 4096. -/
theorem C18_counterexample_increase_is_4000 :
    BaseArena.construct 0 4096 false 4096 slots0 = some (arena_at 4096) ∧
    run (arena_at 4096) [Op.Alloc 100 0, Op.Alloc 100 0, Op.Alloc 100 0]
      = some arena_after_300 ∧
    UnsafeArena.Alloc arena_after_300 4000 9000 = some (9000, arena_after_scenario) ∧
    arena_after_300.block_count = 1 ∧
    arena_after_scenario.block_count = 2 ∧
    arena_after_300.bytes_allocated_ = 4096 ∧
    arena_after_scenario.bytes_allocated_ = 4096 + 4000 ∧
    arena_after_scenario.bytes_allocated_ ≠ arena_after_300.bytes_allocated_ + 4096 := by
  decide

/-- C18. In every state of an arena of block size 4096 in non-page-aligned mode
in which fewer than 4001 bytes remain in the bump region (as after three
`Alloc(100)`), `Alloc(4000)` returns the start of a block acquired for it:
`block_count()` grows by exactly one, `bytes_allocated` by exactly 4000 (as a
`size_t`: modulo `2^64`, and exactly when the sum is below `2^64`), the
capacity recorded for the new block is 4000, and the bump region is untouched. -/
theorem C18_fourth_allocation (a : BaseArena) (mem : Nat)
    (hbs : a.block_size_ = 4096) (hpage : a.page_aligned_ = false)
    (hrem : a.remaining_ ≤ 4000) :
    ∃ a1, UnsafeArena.Alloc a 4000 mem = some (mem, a1) ∧
      a1 = a.push_block ⟨mem, 4000⟩ 4000 ∧
      a1.block_count = a.block_count + 1 ∧
      a1.bytes_allocated_ = (a.bytes_allocated_ + 4000) % 2 ^ 64 ∧
      (a.bytes_allocated_ + 4000 < 2 ^ 64 →
        a1.bytes_allocated_ = a.bytes_allocated_ + 4000) ∧
      a1.freestart_ = a.freestart_ ∧ a1.remaining_ = a.remaining_ ∧
      a1.last_alloc_ = a.last_alloc_ := by
  have hmem : a.page_aligned_ = true → mem ≠ 0 := by
    intro h
    rw [hpage] at h
    exact absurd h (by decide)
  have hcap : a.new_block_capacity 4000 = 4000 := by
    unfold BaseArena.new_block_capacity
    rw [hpage]
    rfl
  have hcall : UnsafeArena.Alloc a 4000 mem = some (mem, a.push_block ⟨mem, 4000⟩ 4000) := by
    unfold UnsafeArena.Alloc
    rw [GetMemory_slow a 4000 1 mem (by omega)]
    unfold BaseArena.GetMemoryFallback
    rw [if_neg (by decide), AllocNewBlock_some a 4000 mem hmem, hcap]
    simp [hbs]
  have hpb := push_block_fields a ⟨mem, 4000⟩ 4000
  exact ⟨_, hcall, rfl, hpb.1, hpb.2.2.2.2.1,
    fun hlt => by rw [hpb.2.2.2.2.1, Nat.mod_eq_of_lt hlt], hpb.2.1, hpb.2.2.1, hpb.2.2.2.1⟩

/-- C18 (witness): the state after three `Alloc(100)` on the arena of block
size 4096, and the system allocator answering 9000. -/
theorem C18_fourth_allocation_witness :
    arena_after_300.block_size_ = 4096 ∧ arena_after_300.page_aligned_ = false ∧
    arena_after_300.remaining_ ≤ 4000 ∧
    ∃ a1, UnsafeArena.Alloc arena_after_300 4000 9000 = some (9000, a1) ∧
      a1 = arena_after_300.push_block ⟨9000, 4000⟩ 4000 ∧
      a1.block_count = arena_after_300.block_count + 1 ∧
      a1.bytes_allocated_ = (arena_after_300.bytes_allocated_ + 4000) % 2 ^ 64 ∧
      (arena_after_300.bytes_allocated_ + 4000 < 2 ^ 64 →
        a1.bytes_allocated_ = arena_after_300.bytes_allocated_ + 4000) ∧
      a1.freestart_ = arena_after_300.freestart_ ∧
      a1.remaining_ = arena_after_300.remaining_ ∧
      a1.last_alloc_ = arena_after_300.last_alloc_ :=
  ⟨by decide, by decide, by decide,
    C18_fourth_allocation arena_after_300 9000 (by decide) (by decide) (by decide)⟩

/-! ## Zero-size requests through `AllocWithHandle` -/

theorem GetMemory_zero (a : BaseArena) (align : Int) (mem : Nat) :
    a.GetMemory 0 align mem = some (0, a) := by
  unfold BaseArena.GetMemory BaseArena.GetMemoryFallback
  simp

/-- The reverse scan for the null pointer finds no block when no block of the
table is at the null address. -/
theorem findBlock_null (a : BaseArena) (k : Nat)
    (h : ∀ i, i < k → ∀ b, a.IndexToBlock (i : Int) = some b → b.mem ≠ 0) :
    BaseArena.findBlock a 0 k = none ∨ BaseArena.findBlock a 0 k = some none := by
  induction k with
  | zero => exact Or.inr rfl
  | succ k ih =>
    unfold BaseArena.findBlock
    cases hb : a.IndexToBlock (k : Int) with
    | none => exact Or.inl rfl
    | some block =>
      have hne := h k (Nat.lt_succ_self k) block hb
      have hnot : ¬ (0 ≥ block.mem ∧ 0 < block.mem + block.size) := by omega
      simp only [if_neg hnot]
      exact ih (fun i hi => h i (Nat.lt_succ_of_lt hi))

/-- C20. In every arena state in which no block of the table is at the null
address (every state in which the system allocator never failed),
`AllocWithHandle(0, &h)` does not return: `GetMemory` returns null, the scan
for the block that holds the returned pointer finds none, and
`CHECK_GE(block_index, 0)` aborts; in the same state `Alloc(0)` returns null
and leaves the state unchanged. -/
theorem C20_zero_size_handle_alloc_aborts (a : BaseArena) (mem : Nat)
    (h : ∀ i, i < a.block_count → ∀ b, a.IndexToBlock (i : Int) = some b → b.mem ≠ 0) :
    UnsafeArena.AllocWithHandle a 0 mem = none ∧
    UnsafeArena.Alloc a 0 mem = some (0, a) := by
  refine ⟨?_, GetMemory_zero a 1 mem⟩
  unfold UnsafeArena.AllocWithHandle BaseArena.GetMemoryWithHandle
  rw [GetMemory_zero]
  rcases findBlock_null a a.block_count h with h1 | h1 <;> simp only [h1]

/-- C20 (witness): `AllocWithHandle(0, &h)` on the freshly constructed arena of
block size 4096 with its block at 4096. -/
theorem C20_zero_size_handle_alloc_aborts_witness :
    BaseArena.construct 0 4096 false 4096 slots0 = some (arena_at 4096) ∧
    UnsafeArena.AllocWithHandle (arena_at 4096) 0 9000 = none ∧
    UnsafeArena.Alloc (arena_at 4096) 0 9000 = some (0, arena_at 4096) :=
  ⟨by decide, C20_zero_size_handle_alloc_aborts (arena_at 4096) 9000 (by
    intro i hi b hb
    have hc : (arena_at 4096).block_count = 1 := by decide
    rw [hc] at hi
    have hi0 : i = 0 := by omega
    subst hi0
    have hb0 : (arena_at 4096).IndexToBlock ((0 : Nat) : Int) = some ⟨4096, 4096⟩ := by decide
    rw [hb0] at hb
    simp only [Option.some.injEq] at hb
    subst hb
    decide)⟩

/-! ## Shrinking, allocating, growing back -/

/-- C11 (counterexample): with `k = 0` the intervening allocation gets the
address `p` itself and becomes the last allocation, so the request to grow
back succeeds and moves the cursor: `p = Alloc(100)` is 4096,
`AdjustLastAlloc(p, 0)` succeeds, `Alloc(50)` is served by the inline fast path
and returns 4096, and `AdjustLastAlloc(p, 100)` returns true with `freestart_`
moved from 4146 to 4196. -/
theorem C11_counterexample_shrink_to_zero :
    UnsafeArena.Alloc (arena_at 4096) 100 0 = some (4096, arena_after_100) ∧
    arena_after_100.AdjustLastAlloc 4096 0 = (true, arena_after_100_shrunk_0) ∧
    GetMemory_path arena_after_100_shrunk_0 50 1 = Path.fast ∧
    UnsafeArena.Alloc arena_after_100_shrunk_0 50 0
      = some (4096, arena_after_100_shrunk_0_50) ∧
    arena_after_100_shrunk_0_50.AdjustLastAlloc 4096 100 = (true, arena_after_100) ∧
    arena_after_100_shrunk_0_50.freestart_ = 4146 ∧
    arena_after_100.freestart_ = 4196 := by
  decide

/-- C11. For every arena state (with `remaining_` a `size_t` and a block size
that page rounding keeps a `size_t`), every `n > 0` whose allocation
`p = Alloc(n)` is served from the bump region and is not null, every `k` with
`0 < k < n` and every `j > 0`: `AdjustLastAlloc(p, k)` succeeds, and after an
intervening `q = Alloc(j)` served from the bump region (by the inline fast
path, or by the slow path with `j <= block_size / 4`, where a block that the
call acquires is not at `p`), `q` is `p + k` or the start of the acquired
block, `q != p`, `q` is the last allocation, and `AdjustLastAlloc(p, n)`
returns false and changes nothing. -/
theorem C11_shrink_alloc_then_grow_fails (a : BaseArena) (n mem p : Nat) (a1 : BaseArena)
    (k j mem2 q : Nat) (a3 : BaseArena)
    (hn : 0 < n)
    (hr : a.remaining_ < 2 ^ 64) (hbs : a.block_size_ + kPageSize < 2 ^ 64)
    (hbump : n < a.remaining_ ∨ (a.block_size_ ≠ 0 ∧ n ≤ a.block_size_ / 4))
    (halloc : UnsafeArena.Alloc a n mem = some (p, a1))
    (hp : p ≠ 0)
    (hk0 : 0 < k) (hk : k < n) (hj : 0 < j)
    (hbump2 : j < (a1.AdjustLastAlloc p k).2.remaining_ ∨
      ((a1.AdjustLastAlloc p k).2.block_size_ ≠ 0 ∧
        j ≤ (a1.AdjustLastAlloc p k).2.block_size_ / 4))
    (hmem2 : mem2 ≠ p)
    (halloc2 : UnsafeArena.Alloc (a1.AdjustLastAlloc p k).2 j mem2 = some (q, a3)) :
    (a1.AdjustLastAlloc p k).1 = true ∧
    (q = p + k ∨ q = mem2) ∧ q ≠ p ∧ a3.last_alloc_ = q ∧
    a3.AdjustLastAlloc p n = (false, a3) ∧
    (a3.AdjustLastAlloc p n).1 = false ∧ (a3.AdjustLastAlloc p n).2 = a3 := by
  have hb := GetMemory_bump a n 1 mem p a1 hn
    (by rcases hbump with h | h
        · exact Or.inl ⟨h, rfl⟩
        · exact Or.inr h) hr hbs halloc
  obtain ⟨hla, hfs, hrng, _⟩ := hb
  have hfr := GetMemory_frame a n 1 mem p a1 halloc
  rw [adjust_shrink a1 p n k hp hla hfs hrng (by omega)] at hbump2 halloc2 ⊢
  simp only at hbump2 halloc2 ⊢
  have hb2 := GetMemory_bump _ j 1 mem2 q a3 hj
    (by rcases hbump2 with h | h
        · exact Or.inl ⟨h, rfl⟩
        · exact Or.inr h)
    (by show a1.remaining_ + (n - k) < 2 ^ 64; omega)
    (by show a1.block_size_ + kPageSize < 2 ^ 64; rw [hfr.1]; exact hbs) halloc2
  have hq := Alloc_address _ j mem2 q a3 hj halloc2
  have hq2 : q = p + k ∨ q = mem2 := by
    rcases hq with h | h
    · exact Or.inl h.1
    · exact Or.inr h
  have hne : q ≠ p := by
    rcases hq2 with h | h <;> omega
  have hfail : a3.AdjustLastAlloc p n = (false, a3) := by
    unfold BaseArena.AdjustLastAlloc
    rw [if_pos (Or.inr (by rw [hb2.1]; exact fun h => hne h.symm))]
  refine ⟨trivial, hq2, hne, hb2.1, hfail, ?_, ?_⟩ <;> rw [hfail]

/-- C11 (witness): `Alloc(100)` on a fresh arena of block size 4096, shrunk to
40 bytes, then `Alloc(50)`, then the request to grow back to 100. -/
theorem C11_shrink_alloc_then_grow_fails_witness :
    UnsafeArena.Alloc (arena_at 4096) 100 0 = some (4096, arena_after_100) ∧
    UnsafeArena.Alloc (arena_after_100.AdjustLastAlloc 4096 40).2 50 0
      = some (4136, arena_after_100_shrunk_40_50) ∧
    (arena_after_100.AdjustLastAlloc 4096 40).1 = true ∧
    ((4136 : Nat) = 4096 + 40 ∨ (4136 : Nat) = 0) ∧ (4136 : Nat) ≠ 4096 ∧
    arena_after_100_shrunk_40_50.last_alloc_ = 4136 ∧
    arena_after_100_shrunk_40_50.AdjustLastAlloc 4096 100
      = (false, arena_after_100_shrunk_40_50) ∧
    (arena_after_100_shrunk_40_50.AdjustLastAlloc 4096 100).1 = false ∧
    (arena_after_100_shrunk_40_50.AdjustLastAlloc 4096 100).2
      = arena_after_100_shrunk_40_50 :=
  ⟨by decide, by decide,
    C11_shrink_alloc_then_grow_fails (arena_at 4096) 100 0 4096 arena_after_100
      40 50 0 4136 arena_after_100_shrunk_40_50
      (by decide) (by decide) (by decide) (Or.inl (by decide)) (by decide) (by decide)
      (by decide) (by decide) (by decide) (Or.inl (by decide)) (by decide) (by decide)⟩

/-! ## Consecutive small allocations -/

/-- Consecutive allocations that together take less than `remaining_` are all
served by the inline fast path, one after the other. -/
theorem Alloc_each_fast (calls : List (Nat × Nat)) :
    ∀ a : BaseArena, (∀ c ∈ calls, 0 < c.1) →
      (calls.map Prod.fst).sum < a.remaining_ →
      ∃ ps a1, Alloc_each a calls = some (ps, a1) ∧
        ps.length = calls.length ∧
        (∀ i, i < calls.length →
          ps.getD i 0 = a.freestart_ + ((calls.take i).map Prod.fst).sum) ∧
        (∀ q ∈ ps, a.freestart_ ≤ q) ∧
        ps.Pairwise (fun x y => x < y) ∧
        a1.block_count = a.block_count ∧
        a1.bytes_allocated_ = a.bytes_allocated_ ∧
        a1.freestart_ = a.freestart_ + (calls.map Prod.fst).sum ∧
        a1.remaining_ = a.remaining_ - (calls.map Prod.fst).sum := by
  induction calls with
  | nil =>
    intro a _ _
    refine ⟨[], a, rfl, rfl, ?_, ?_, List.Pairwise.nil, rfl, rfl, ?_, ?_⟩
    · intro i hi
      simp at hi
    · intro q hq
      simp at hq
    · simp
    · simp
  | cons c rest ih =>
    intro a hpos hsum
    have hc : 0 < c.1 := hpos c (List.mem_cons_self _ _)
    simp only [List.map_cons, List.sum_cons] at hsum
    have hfast := GetMemory_fast a c.1 c.2 hc (by omega)
    obtain ⟨ps, a1, hrun, hlen, hoff, hge, hpw, hcount, hbytes, hfs, hrem⟩ :=
      ih { a with
          last_alloc_ := a.freestart_,
          freestart_ := a.freestart_ + c.1,
          remaining_ := a.remaining_ - c.1 }
        (fun d hd => hpos d (List.mem_cons_of_mem _ hd))
        (by show (rest.map Prod.fst).sum < a.remaining_ - c.1; omega)
    simp only at hoff hge hfs hrem
    refine ⟨a.freestart_ :: ps, a1, ?_, ?_, ?_, ?_, ?_, hcount, hbytes, ?_, ?_⟩
    · simp only [Alloc_each, UnsafeArena.Alloc, hfast, hrun]
    · simp [hlen]
    · intro i hi
      cases i with
      | zero => simp
      | succ i =>
        simp only [List.length_cons, Nat.add_lt_add_iff_right] at hi
        simp only [List.getD_cons_succ, List.take_succ_cons, List.map_cons, List.sum_cons]
        rw [hoff i hi]
        omega
    · intro q hq
      rcases List.mem_cons.mp hq with h | h
      · omega
      · have := hge q h
        omega
    · refine List.Pairwise.cons ?_ hpw
      intro q hq
      have := hge q hq
      omega
    · simp only [List.map_cons, List.sum_cons]
      omega
    · simp only [List.map_cons, List.sum_cons]
      omega

/-- C17. On an arena right after construction or `Reset()` (the state
`x.Reset`) whose block 0 has a 4-byte aligned base and the capacity
`block_size_`, for every list of calls `Alloc(s_1)`, ..., `Alloc(s_k)` with
every `s_i > 0` and `s_1 + ... + s_k < block_size_`: no call aborts, the i-th
call returns block 0's base `+ (s_1 + ... + s_(i-1))`, the returned addresses
are strictly increasing, `block_count()` stays 1 and `bytes_allocated` stays
`block_size_`. -/
theorem C17_consecutive_allocations (x : BaseArena) (calls : List (Nat × Nat))
    (hbase : (x.first_blocks_.getD 0 default).mem % 4 = 0)
    (hsize : (x.first_blocks_.getD 0 default).size = x.block_size_)
    (hpos : ∀ c ∈ calls, 0 < c.1)
    (hsum : (calls.map Prod.fst).sum < x.block_size_) :
    ∃ ps a1, Alloc_each x.Reset calls = some (ps, a1) ∧
      ps.length = calls.length ∧
      (∀ i, i < calls.length →
        ps.getD i 0 = (x.first_blocks_.getD 0 default).mem
          + ((calls.take i).map Prod.fst).sum) ∧
      ps.Pairwise (fun p q => p < q) ∧
      x.Reset.block_count = 1 ∧ a1.block_count = 1 ∧
      x.Reset.bytes_allocated_ = x.block_size_ ∧
      a1.bytes_allocated_ = x.block_size_ := by
  have hc := Reset_cursor x
  have hf := Reset_fields x
  have hfs : x.Reset.freestart_ = (x.first_blocks_.getD 0 default).mem := by
    rw [hc.1, if_neg (by omega)]
  have hrem : x.Reset.remaining_ = x.block_size_ := by
    rw [hc.2.1, if_neg (by omega), hsize]
  have hcount : x.Reset.block_count = 1 := by
    unfold BaseArena.block_count
    simp only [hf.2.1, hf.2.2.1]
  obtain ⟨ps, a1, hrun, hlen, hoff, _, hpw, hcnt, hbytes, _, _⟩ :=
    Alloc_each_fast calls x.Reset hpos (by rw [hrem]; exact hsum)
  refine ⟨ps, a1, hrun, hlen, ?_, hpw, hcount, ?_, hf.2.2.2.2.1, ?_⟩
  · intro i hi
    rw [hoff i hi, hfs]
  · rw [hcnt, hcount]
  · rw [hbytes, hf.2.2.2.2.1]

/-- C17 (witness): three `Alloc(100)` on the arena constructed with block size
4096 and its block at 4096 return the offsets 0, 100 and 200 of block 0. -/
theorem C17_consecutive_allocations_witness :
    BaseArena.construct 0 4096 false 4096 slots0 = some (arena_at 4096) ∧
    (arena_at 4096).Reset = arena_at 4096 ∧
    Alloc_each (arena_at 4096).Reset [(100, 0), (100, 0), (100, 0)]
      = some ([4096 + 0, 4096 + 100, 4096 + 200], arena_after_300) ∧
    (0 % 4 = 0 ∧ 100 % 4 = 0 ∧ 200 % 4 = 0) ∧
    ∃ ps a1, Alloc_each (arena_at 4096).Reset [(100, 0), (100, 0), (100, 0)]
        = some (ps, a1) ∧
      ps.length = [((100 : Nat), (0 : Nat)), (100, 0), (100, 0)].length ∧
      (∀ i, i < [((100 : Nat), (0 : Nat)), (100, 0), (100, 0)].length →
        ps.getD i 0 = ((arena_at 4096).first_blocks_.getD 0 default).mem
          + (([((100 : Nat), (0 : Nat)), (100, 0), (100, 0)].take i).map Prod.fst).sum) ∧
      ps.Pairwise (fun p q => p < q) ∧
      (arena_at 4096).Reset.block_count = 1 ∧ a1.block_count = 1 ∧
      (arena_at 4096).Reset.bytes_allocated_ = (arena_at 4096).block_size_ ∧
      a1.bytes_allocated_ = (arena_at 4096).block_size_ :=
  ⟨by decide, by decide, by decide, by decide,
    C17_consecutive_allocations (arena_at 4096) [(100, 0), (100, 0), (100, 0)]
      (by decide) (by decide) (by decide) (by decide)⟩

/-! ## Alignment of the cursor -/

theorem to_size_t_two_pow (k : Nat) (hk : k ≤ 30) : to_size_t ((2 : Int) ^ k) = 2 ^ k := by
  have hlt : (2 : Nat) ^ k < 2 ^ 64 :=
    Nat.pow_lt_pow_right (by decide) (by omega)
  have hc : ((2 : Int) ^ k) = (((2 : Nat) ^ k : Nat) : Int) := by push_cast; rfl
  rw [hc, to_size_t_natCast _ hlt]

/-- Padding to a power of two keeps a 4-byte aligned `freestart_` 4-byte
aligned. -/
theorem pad_freestart_pow2 (a : BaseArena) (k : Nat) (hk : k ≤ 30)
    (hfs : a.freestart_ % 4 = 0) :
    (a.pad_freestart (2 ^ k)).freestart_ % 4 = 0 := by
  have hlt : (2 : Nat) ^ k < 2 ^ 64 :=
    Nat.pow_lt_pow_right (by decide) (by omega)
  have hpos : 0 < (2 : Nat) ^ k := Nat.pow_pos (by decide)
  have h1 : to_size_t ((((2 : Nat) ^ k : Nat) : Int) - 1) = 2 ^ k - 1 := by
    unfold to_size_t
    omega
  unfold BaseArena.pad_freestart
  simp only [h1, Nat.and_pow_two_sub_one_eq_mod]
  split
  · rename_i hov
    have hmod : a.freestart_ % 2 ^ k < 2 ^ k := Nat.mod_lt _ hpos
    have hw : to_size_t ((((2 : Nat) ^ k : Nat) : Int) - ((a.freestart_ % 2 ^ k : Nat) : Int))
        = 2 ^ k - a.freestart_ % 2 ^ k := by
      unfold to_size_t
      omega
    simp only [hw]
    match k, hov, hmod with
    | 0, hov, _ =>
      exfalso
      apply hov
      rw [pow_zero, Nat.mod_one]
    | 1, hov, _ =>
      exfalso
      apply hov
      simp only [pow_one]
      omega
    | m + 2, hov, hmod =>
      have hp : (2 : Nat) ^ (m + 2) = 4 * 2 ^ m := by
        rw [pow_add]
        omega
      rw [hp] at hmod ⊢
      have hdm := Nat.div_add_mod a.freestart_ (4 * 2 ^ m)
      rw [Nat.mul_assoc] at hdm
      generalize a.freestart_ % (4 * 2 ^ m) = r at hdm hmod ⊢
      generalize 2 ^ m * (a.freestart_ / (4 * 2 ^ m)) = e at hdm
      generalize (2 : Nat) ^ m = M at hmod ⊢
      omega
  · exact hfs

/-- A `GetMemory` call whose size and system address are multiples of 4 and
whose alignment is a power of two keeps `freestart_` and `last_alloc_` on
multiples of 4. -/
theorem GetMemory_aligned (a : BaseArena) (size : Nat) (align : Int) (mem p : Nat)
    (a1 : BaseArena) (h : a.GetMemory size align mem = some (p, a1))
    (hfs : a.freestart_ % 4 = 0) (hla : a.last_alloc_ % 4 = 0)
    (hsize : size % 4 = 0) (hmem : mem % 4 = 0)
    (halign : ∃ k : Nat, k ≤ 30 ∧ align = 2 ^ k) :
    a1.freestart_ % 4 = 0 ∧ a1.last_alloc_ % 4 = 0 := by
  obtain ⟨k, hk, rfl⟩ := halign
  have key := GetMemory_by_path a size ((2 : Int) ^ k) mem p a1 h
  rw [to_size_t_two_pow k hk] at key
  have hpad := pad_freestart_pow2 a k hk hfs
  have hpf := pad_freestart_fields a (2 ^ k)
  cases hpath : GetMemory_path a size ((2 : Int) ^ k) <;> rw [hpath] at key <;>
    simp only at key
  · obtain ⟨_, _, rfl⟩ := key
    exact ⟨hfs, hla⟩
  · obtain ⟨_, _, _, _, rfl⟩ := key
    refine ⟨?_, hfs⟩
    show (a.freestart_ + size) % 4 = 0
    omega
  · obtain ⟨_, _, _, _, rfl⟩ := key
    have hpb := push_block_fields a ⟨mem, a.new_block_capacity size⟩ size
    rw [hpb.2.1, hpb.2.2.2.1]
    exact ⟨hfs, hla⟩
  · obtain ⟨_, _, _, _, _, rfl⟩ := key
    refine ⟨?_, hpad⟩
    show ((a.pad_freestart (2 ^ k)).freestart_ + size) % 4 = 0
    omega
  · obtain ⟨_, _, _, _, _, _, rfl⟩ := key
    refine ⟨?_, hmem⟩
    show (mem + size) % 4 = 0
    omega

/-- One call whose sizes and system addresses are multiples of 4 keeps
`freestart_` and `last_alloc_` on multiples of 4, in an arena whose handle
alignment is 1. -/
theorem step_aligned (a : BaseArena) (op : Op) (a1 : BaseArena)
    (h : step a op = some a1) (hop : op.aligned4)
    (hfs : a.freestart_ % 4 = 0) (hla : a.last_alloc_ % 4 = 0)
    (hbits : a.handle_alignment_bits_ = 0) :
    a1.freestart_ % 4 = 0 ∧ a1.last_alloc_ % 4 = 0 := by
  have hone : ∃ k : Nat, k ≤ 30 ∧ (1 : Int) = 2 ^ k := ⟨0, by decide, by norm_num⟩
  have hadj : ∀ s n, n % 4 = 0 →
      (a.AdjustLastAlloc s n).2.freestart_ % 4 = 0 ∧
      (a.AdjustLastAlloc s n).2.last_alloc_ % 4 = 0 := by
    intro s n hn
    cases hb : (a.AdjustLastAlloc s n).1
    · rw [AdjustLastAlloc_fail a s n hb]
      exact ⟨hfs, hla⟩
    · rw [AdjustLastAlloc_true_state a s n hb]
      refine ⟨?_, hla⟩
      show (a.last_alloc_ + n) % 4 = 0
      omega
  cases op with
  | Alloc size mem =>
    simp only [step, Option.map_eq_some'] at h
    obtain ⟨⟨p, a2⟩, hq, rfl⟩ := h
    exact GetMemory_aligned a size 1 mem p a2 hq hfs hla hop.1 hop.2 hone
  | AllocAligned size align mem =>
    simp only [step, Option.map_eq_some'] at h
    obtain ⟨⟨p, a2⟩, hq, rfl⟩ := h
    exact GetMemory_aligned a size align mem p a2 hq hfs hla hop.1 hop.2.1 hop.2.2
  | AllocWithHandle size mem =>
    simp only [step, Option.map_eq_some'] at h
    obtain ⟨r, hq, rfl⟩ := h
    have hg := GetMemoryWithHandle_state a size mem r hq
    rw [hbits] at hg
    have h1 : to_int (((1 <<< 0 : Nat) : Nat) : Int) = 1 := by decide
    rw [h1] at hg
    exact GetMemory_aligned a size 1 mem r.1 r.2.2 hg hfs hla hop.1 hop.2 hone
  | Free memory size =>
    simp only [step, Option.some.injEq] at h
    subst h
    unfold UnsafeArena.Free BaseArena.ReturnMemory
    simp only
    split
    · exact ⟨hla, hla⟩
    · exact ⟨hfs, hla⟩
  | Shrink s n =>
    simp only [step, UnsafeArena.Shrink, Option.some.injEq] at h
    subst h
    exact hadj s n hop
  | Realloc s old n mem =>
    simp only [step, Option.map_eq_some'] at h
    obtain ⟨r, hq, rfl⟩ := h
    unfold UnsafeArena.Realloc at hq
    simp only at hq
    by_cases hb : (a.AdjustLastAlloc s n).1 = true
    · rw [if_pos hb] at hq
      simp only [Option.some.injEq] at hq
      subst hq
      exact hadj s n hop.1
    · rw [if_neg hb] at hq
      by_cases hle : n ≤ old
      · rw [if_pos hle] at hq
        simp only [Option.some.injEq] at hq
        subst hq
        exact hadj s n hop.1
      · rw [if_neg hle] at hq
        simp only [Option.map_eq_some'] at hq
        obtain ⟨⟨p, a2⟩, hq2, rfl⟩ := hq
        have hf : (a.AdjustLastAlloc s n).1 = false := by
          cases hv : (a.AdjustLastAlloc s n).1
          · rfl
          · exact absurd hv hb
        rw [AdjustLastAlloc_fail a s n hf] at hq2
        exact GetMemory_aligned a n 1 mem p a2 hq2 hfs hla hop.1 hop.2 hone
  | Reset =>
    simp only [step, Option.some.injEq] at h
    subst h
    have hc := (Reset_cursor a).1
    refine ⟨?_, ?_⟩
    · rw [hc]
      split <;> omega
    · rw [(Reset_fields a).2.2.2.1]

theorem run_aligned (ops : List Op) :
    ∀ (a a1 : BaseArena), run a ops = some a1 → (∀ op ∈ ops, op.aligned4) →
      a.freestart_ % 4 = 0 → a.last_alloc_ % 4 = 0 → a.handle_alignment_bits_ = 0 →
      a1.freestart_ % 4 = 0 ∧ a1.last_alloc_ % 4 = 0 := by
  induction ops with
  | nil =>
    intro a a1 h _ hfs hla _
    simp only [run, Option.some.injEq] at h
    subst h
    exact ⟨hfs, hla⟩
  | cons op ops ih =>
    intro a a1 h hops hfs hla hbits
    simp only [run, Option.bind_eq_some] at h
    obtain ⟨a2, hstep, hrun⟩ := h
    have h1 := step_aligned a op a2 hstep (hops op (List.mem_cons_self _ _)) hfs hla hbits
    have h2 := (step_frame a op a2 hstep).2.2.1
    exact ih a2 a1 hrun (fun o ho => hops o (List.mem_cons_of_mem _ ho)) h1.1 h1.2
      (by rw [h2]; exact hbits)

/-- C15 (counterexample): `Alloc(1)` on the arena constructed with block size
4096 and its block at 4096 leaves `freestart_` at 4097, which is not a
multiple of `kDefaultAlignment`. -/
theorem C15_counterexample_alloc_one :
    BaseArena.construct 0 4096 false 4096 slots0 = some (arena_at 4096) ∧
    run (arena_at 4096) [Op.Alloc 1 0] = some arena_after_1 ∧
    arena_after_1.freestart_ = 4097 ∧
    arena_after_1.freestart_ % kDefaultAlignment ≠ 0 := by
  decide

/-- C15. After every sequence of public calls that starts from construction
and runs to its end, in which every requested size (and every new size of
`Shrink` and `Realloc`) is a multiple of 4, every block address that the system
allocator returns is a multiple of 4 and every alignment passed to
`AllocAligned` is a power of two, `freestart_` is a multiple of
`kDefaultAlignment`, and so is `last_alloc_`. -/
theorem C15_cursor_alignment (first block_size : Nat) (align_to_page : Bool) (mem : Nat)
    (slots : List AllocatedBlock) (a0 : BaseArena) (ops : List Op) (a1 : BaseArena)
    (hslots : slots.length = kFirstBlocks)
    (hcons : BaseArena.construct first block_size align_to_page mem slots = some a0)
    (hops : ∀ op ∈ ops, op.aligned4)
    (hrun : run a0 ops = some a1) :
    a0.freestart_ % kDefaultAlignment = 0 ∧
    a1.freestart_ % kDefaultAlignment = 0 ∧ a1.last_alloc_ % kDefaultAlignment = 0 := by
  have hk : kDefaultAlignment = 4 := rfl
  have hc := construct_table_inv first block_size align_to_page mem slots a0 hslots hcons
  obtain ⟨x, hx, _, _⟩ := hc.2.2.2.2.2
  have hfs0 : a0.freestart_ % 4 = 0 := by
    rw [hx, (Reset_cursor x).1]
    split <;> omega
  have hla0 : a0.last_alloc_ % 4 = 0 := by
    rw [hx, (Reset_fields x).2.2.2.1]
  have h := run_aligned ops a0 a1 hrun hops hfs0 hla0 hc.2.2.1
  rw [hk]
  exact ⟨hfs0, h.1, h.2⟩

/-- C15 (witness): the arena of block size 4096 with its block at 4098, after
`Alloc(100)`, `AllocAligned(8, 16)`, `Shrink` of the last allocation to 4 bytes,
`Alloc(4000)` (a dedicated block at 9000) and `Free` of the last allocation. -/
theorem C15_cursor_alignment_witness :
    slots0.length = kFirstBlocks ∧
    BaseArena.construct 0 4096 false 4098 slots0 = some arena_at_4098 ∧
    run arena_at_4098 [Op.Alloc 100 0, Op.AllocAligned 8 16 0, Op.Shrink 4208 4,
      Op.Alloc 4000 9000, Op.Free 4208 4] = some arena_at_4098_after ∧
    arena_at_4098.freestart_ % kDefaultAlignment = 0 ∧
    arena_at_4098_after.freestart_ % kDefaultAlignment = 0 ∧
    arena_at_4098_after.last_alloc_ % kDefaultAlignment = 0 :=
  ⟨by decide, by decide, by decide,
    C15_cursor_alignment 0 4096 false 4098 slots0 arena_at_4098
      [Op.Alloc 100 0, Op.AllocAligned 8 16 0, Op.Shrink 4208 4,
        Op.Alloc 4000 9000, Op.Free 4208 4] arena_at_4098_after
      (by decide) (by decide)
      (by
        intro op hop
        simp only [List.mem_cons, List.mem_singleton, List.not_mem_nil, or_false] at hop
        rcases hop with h | h | h | h | h <;> subst h
        · exact ⟨by decide, by decide⟩
        · exact ⟨by decide, by decide, 4, by decide, by norm_num⟩
        · show 4 % 4 = 0
          decide
        · exact ⟨by decide, by decide⟩
        · trivial)
      (by decide)⟩

/-! ## The space that remains in the current block -/

/-- The cursor that `Reset` installs is within block 0. -/
theorem Reset_cursor_inv (x : BaseArena) (bs : Nat)
    (hsize : (x.first_blocks_.getD 0 default).size = bs)
    (hbs4 : kDefaultAlignment < bs) (hlt : bs < 2 ^ 64) :
    cursor_inv bs x.Reset := by
  have hc := Reset_cursor x
  have hk : kDefaultAlignment = 4 := rfl
  rw [hk] at hbs4
  refine ⟨?_, ?_⟩
  · rw [hc.2.1, hsize]
    split
    · rw [to_size_t_sub _ _ (by omega) hlt]
      omega
    · exact Nat.le_refl _
  · intro h
    exact absurd (Reset_fields x).2.2.2.1 h

/-- The cursor after a `GetMemory` call is within the block that serves the
bump allocations: the block that `MakeNewBlock` installs when the call takes
that branch, the same block as before otherwise. -/
theorem GetMemory_cursor (a : BaseArena) (size : Nat) (align : Int) (mem p : Nat)
    (a1 : BaseArena) (cap : Nat) (h : a.GetMemory size align mem = some (p, a1))
    (hbs : a.block_size_ + kPageSize < 2 ^ 64) (hcap : cap < 2 ^ 64)
    (hinv : cursor_inv cap a) :
    cursor_inv (match GetMemory_path a size align with
      | Path.new_block => a.new_block_capacity a.block_size_
      | _ => cap) a1 := by
  have key := GetMemory_by_path a size align mem p a1 h
  have hpf := pad_freestart_fields a (to_size_t align)
  obtain ⟨hrem, hla⟩ := hinv
  cases hpath : GetMemory_path a size align <;> rw [hpath] at key <;> simp only at key ⊢
  · obtain ⟨_, _, rfl⟩ := key
    exact ⟨hrem, hla⟩
  · obtain ⟨_, hlt, _, _, rfl⟩ := key
    refine ⟨?_, fun _ => ⟨?_, ?_⟩⟩
    · show a.remaining_ - size ≤ cap
      omega
    · show a.freestart_ ≤ a.freestart_ + size
      omega
    · show a.freestart_ + size - a.freestart_ + (a.remaining_ - size) ≤ cap
      omega
  · obtain ⟨_, _, _, _, rfl⟩ := key
    have hpb := push_block_fields a ⟨mem, a.new_block_capacity size⟩ size
    unfold cursor_inv
    rw [hpb.2.1, hpb.2.2.1, hpb.2.2.2.1]
    exact ⟨hrem, hla⟩
  · obtain ⟨_, _, _, hfit, _, rfl⟩ := key
    have hsub : to_size_t (((a.pad_freestart (to_size_t align)).remaining_ : Int) - size)
        = (a.pad_freestart (to_size_t align)).remaining_ - size :=
      to_size_t_sub _ _ hfit (by omega)
    refine ⟨?_, fun _ => ⟨?_, ?_⟩⟩
    · show to_size_t (((a.pad_freestart (to_size_t align)).remaining_ : Int) - size) ≤ cap
      rw [hsub]
      omega
    · show (a.pad_freestart (to_size_t align)).freestart_
        ≤ (a.pad_freestart (to_size_t align)).freestart_ + size
      omega
    · show (a.pad_freestart (to_size_t align)).freestart_ + size
          - (a.pad_freestart (to_size_t align)).freestart_
          + to_size_t (((a.pad_freestart (to_size_t align)).remaining_ : Int) - size) ≤ cap
      rw [hsub]
      omega
  · obtain ⟨_, _, hsmall, _, _, _, rfl⟩ := key
    have hb := new_block_capacity_bounds a a.block_size_
    have hsub : to_size_t (((a.new_block_capacity a.block_size_ : Nat) : Int) - size)
        = a.new_block_capacity a.block_size_ - size :=
      to_size_t_sub _ _ (by omega) (by omega)
    refine ⟨?_, fun _ => ⟨?_, ?_⟩⟩
    · show to_size_t (((a.new_block_capacity a.block_size_ : Nat) : Int) - size)
        ≤ a.new_block_capacity a.block_size_
      rw [hsub]
      omega
    · show mem ≤ mem + size
      omega
    · show mem + size - mem
          + to_size_t (((a.new_block_capacity a.block_size_ : Nat) : Int) - size)
        ≤ a.new_block_capacity a.block_size_
      rw [hsub]
      omega

/-- A successful `AdjustLastAlloc` keeps the cursor within the block. -/
theorem AdjustLastAlloc_cursor (a : BaseArena) (s n cap : Nat) (hcap : cap < 2 ^ 64)
    (hinv : cursor_inv cap a) :
    cursor_inv cap (a.AdjustLastAlloc s n).2 := by
  cases hb : (a.AdjustLastAlloc s n).1
  · rw [AdjustLastAlloc_fail a s n hb]
    exact hinv
  · obtain ⟨hs0, hs, hn⟩ := (AdjustLastAlloc_true_iff a s n).mp hb
    obtain ⟨hrem, hla⟩ := hinv
    have hl := hla (by rw [← hs]; exact hs0)
    have ht : to_size_t (((a.freestart_ : Int) - a.last_alloc_) + a.remaining_)
        = a.freestart_ - a.last_alloc_ + a.remaining_ := by
      unfold to_size_t
      omega
    rw [ht] at hn
    rw [AdjustLastAlloc_ok a s n hs0 hs hl.1 (by omega) hn]
    refine ⟨?_, fun _ => ⟨?_, ?_⟩⟩
    · show a.freestart_ - a.last_alloc_ + a.remaining_ - n ≤ cap
      omega
    · show a.last_alloc_ ≤ a.last_alloc_ + n
      omega
    · show a.last_alloc_ + n - a.last_alloc_
        + (a.freestart_ - a.last_alloc_ + a.remaining_ - n) ≤ cap
      omega

/-- `ReturnMemory` of a pointer that is not null keeps the cursor within the
block. -/
theorem ReturnMemory_cursor (a : BaseArena) (memory size cap : Nat) (hmem : memory ≠ 0)
    (hcap : cap < 2 ^ 64) (hinv : cursor_inv cap a) :
    cursor_inv cap (a.ReturnMemory memory size) := by
  unfold BaseArena.ReturnMemory
  simp only
  split
  · rename_i hc
    obtain ⟨hrem, hla⟩ := hinv
    have hl := hla (by rw [← hc.1]; exact hmem)
    have ht : to_size_t ((a.freestart_ : Int) - a.last_alloc_)
        = a.freestart_ - a.last_alloc_ := by
      unfold to_size_t
      omega
    have hsz : size = a.freestart_ - a.last_alloc_ := by
      rw [← hc.2, ht]
    refine ⟨?_, fun _ => ⟨?_, ?_⟩⟩
    · show a.remaining_ + size ≤ cap
      omega
    · show a.last_alloc_ ≤ a.last_alloc_
      omega
    · show a.last_alloc_ - a.last_alloc_ + (a.remaining_ + size) ≤ cap
      omega
  · exact hinv

/-- One call other than `Free` of a null pointer keeps the cursor within the
current block; in non-page-aligned mode the capacity of that block stays
`block_size_`. -/
theorem step_cursor (a : BaseArena) (op : Op) (a1 : BaseArena) (bs cap : Nat)
    (h : step a op = some a1) (hnf : op.no_null_free)
    (htab : table_inv bs a) (hbs4 : kDefaultAlignment < bs)
    (hbs : bs + kPageSize < 2 ^ 64) (hcap : cap ≤ bs + kPageSize)
    (hinv : cursor_inv cap a) :
    cursor_inv (current_capacity a cap op) a1 ∧
    current_capacity a cap op ≤ bs + kPageSize ∧
    (a.page_aligned_ = false → cap = bs → current_capacity a cap op = bs) := by
  obtain ⟨hbse, _, hslot⟩ := htab
  have hnb := new_block_capacity_bounds a a.block_size_
  have hnbf : a.page_aligned_ = false → a.new_block_capacity a.block_size_ = bs := by
    intro hp
    unfold BaseArena.new_block_capacity
    rw [hp, ← hbse]
    rfl
  have hget : ∀ size align mem p, a.GetMemory size align mem = some (p, a1) →
      cursor_inv (match GetMemory_path a size align with
        | Path.new_block => a.new_block_capacity a.block_size_
        | _ => cap) a1 ∧
      (match GetMemory_path a size align with
        | Path.new_block => a.new_block_capacity a.block_size_
        | _ => cap) ≤ bs + kPageSize ∧
      (a.page_aligned_ = false → cap = bs →
        (match GetMemory_path a size align with
          | Path.new_block => a.new_block_capacity a.block_size_
          | _ => cap) = bs) := by
    intro size align mem p hq
    refine ⟨GetMemory_cursor a size align mem p a1 cap hq (by rw [hbse]; exact hbs)
      (by omega) hinv, ?_, ?_⟩
    · cases GetMemory_path a size align <;> simp only <;> omega
    · intro hp hc
      cases GetMemory_path a size align <;> simp only <;> first | exact hc | exact hnbf hp
  cases op with
  | Alloc size mem =>
    simp only [step, Option.map_eq_some'] at h
    obtain ⟨⟨p, a2⟩, hq, rfl⟩ := h
    exact hget size 1 mem p hq
  | AllocAligned size align mem =>
    simp only [step, Option.map_eq_some'] at h
    obtain ⟨⟨p, a2⟩, hq, rfl⟩ := h
    exact hget size align mem p hq
  | AllocWithHandle size mem =>
    simp only [step, Option.map_eq_some'] at h
    obtain ⟨r, hq, rfl⟩ := h
    exact hget size _ mem r.1 (GetMemoryWithHandle_state a size mem r hq)
  | Free memory size =>
    simp only [step, Option.some.injEq] at h
    subst h
    exact ⟨ReturnMemory_cursor a memory size cap hnf (by omega) hinv, hcap, fun _ hc => hc⟩
  | Shrink s n =>
    simp only [step, UnsafeArena.Shrink, Option.some.injEq] at h
    subst h
    exact ⟨AdjustLastAlloc_cursor a s n cap (by omega) hinv, hcap, fun _ hc => hc⟩
  | Realloc s old n mem =>
    simp only [step, Option.map_eq_some'] at h
    obtain ⟨r, hq, rfl⟩ := h
    unfold UnsafeArena.Realloc at hq
    simp only at hq
    by_cases hb : (a.AdjustLastAlloc s n).1 = true
    · rw [if_pos hb] at hq
      simp only [Option.some.injEq] at hq
      subst hq
      simp only [current_capacity, alloc_call, if_pos hb]
      exact ⟨AdjustLastAlloc_cursor a s n cap (by omega) hinv, hcap, fun _ hc => hc⟩
    · rw [if_neg hb] at hq
      by_cases hle : n ≤ old
      · rw [if_pos hle] at hq
        simp only [Option.some.injEq] at hq
        subst hq
        simp only [current_capacity, alloc_call, if_neg hb, if_pos hle]
        exact ⟨AdjustLastAlloc_cursor a s n cap (by omega) hinv, hcap, fun _ hc => hc⟩
      · rw [if_neg hle] at hq
        simp only [Option.map_eq_some'] at hq
        obtain ⟨⟨p, a2⟩, hq2, rfl⟩ := hq
        have hf : (a.AdjustLastAlloc s n).1 = false := by
          cases hv : (a.AdjustLastAlloc s n).1
          · rfl
          · exact absurd hv hb
        rw [AdjustLastAlloc_fail a s n hf] at hq2
        simp only [current_capacity, alloc_call, if_neg hb, if_neg hle]
        exact hget n 1 mem p hq2
  | Reset =>
    simp only [step, Option.some.injEq] at h
    subst h
    simp only [current_capacity]
    rw [hslot]
    exact ⟨Reset_cursor_inv a bs hslot hbs4 (by omega), by omega, fun _ _ => rfl⟩

theorem run_cursor (ops : List Op) :
    ∀ (a a1 : BaseArena) (bs cap : Nat), run a ops = some a1 →
      (∀ op ∈ ops, op.no_null_free) → table_inv bs a → kDefaultAlignment < bs →
      bs + kPageSize < 2 ^ 64 → cap ≤ bs + kPageSize → cursor_inv cap a →
      cursor_inv (run_capacity a cap ops) a1 ∧
      (a.page_aligned_ = false → cap = bs → run_capacity a cap ops = bs) := by
  induction ops with
  | nil =>
    intro a a1 bs cap h _ _ _ _ _ hinv
    simp only [run, Option.some.injEq] at h
    subst h
    exact ⟨hinv, fun _ hc => hc⟩
  | cons op ops ih =>
    intro a a1 bs cap h hops htab hbs4 hbs hcap hinv
    simp only [run, Option.bind_eq_some] at h
    obtain ⟨a2, hstep, hrun⟩ := h
    have h1 := step_cursor a op a2 bs cap hstep (hops op (List.mem_cons_self _ _))
      htab hbs4 hbs hcap hinv
    have hfr := step_frame a op a2 hstep
    have h2 := ih a2 a1 bs (current_capacity a cap op) hrun
      (fun o ho => hops o (List.mem_cons_of_mem _ ho)) (hfr.2.2.2.1 bs htab) hbs4 hbs
      h1.2.1 h1.1
    simp only [run_capacity, hstep]
    refine ⟨h2.1, ?_⟩
    intro hp hc
    exact h2.2 (by rw [hfr.2.1]; exact hp) (h1.2.2 hp hc)

/-- C16 (the code at the failing input): the remaining-space invariant
`remaining_ <= capacity of the current block`, which the code asserts at the
entry of `GetMemory`, is broken by the code. On the arena constructed with
block size 4096 and its block at 4096, `Free(NULL, 4096)` matches the null
`last_alloc_` and the size `freestart_ - last_alloc_`, so `ReturnMemory` adds
4096 to `remaining_` and moves `freestart_` to the null address: `remaining_`
is 8192, above the capacity 4096 of block 0, and the condition of
`assert(remaining_ <= block_size_)` is false. `AdjustLastAlloc`, which tests
the same pointer against `last_alloc_`, refuses the null pointer. -/
theorem C16_free_null_breaks_remaining :
    BaseArena.construct 0 4096 false 4096 slots0 = some (arena_at 4096) ∧
    (arena_at 4096).last_alloc_ = 0 ∧ (arena_at 4096).freestart_ = 4096 ∧
    (arena_at 4096).remaining_ = 4096 ∧
    BaseArena.ReturnMemory (arena_at 4096) 0 4096 = arena_after_free_null ∧
    run (arena_at 4096) [Op.Free 0 4096] = some arena_after_free_null ∧
    run_capacity (arena_at 4096) 4096 [Op.Free 0 4096] = 4096 ∧
    arena_after_free_null.remaining_ = 8192 ∧
    arena_after_free_null.freestart_ = 0 ∧
    arena_after_free_null.block_size_ = 4096 ∧
    ¬ arena_after_free_null.remaining_ ≤ 4096 ∧
    ¬ arena_after_free_null.GetMemory_assert ∧
    BaseArena.AdjustLastAlloc (arena_at 4096) 0 4096 = (false, arena_at 4096) := by
  refine ⟨by decide, by decide, by decide, by decide, by decide, by decide, by decide,
    by decide, by decide, by decide, by decide, ?_, by decide⟩
  unfold BaseArena.GetMemory_assert
  decide

/-- Where the remaining-space invariant holds: the calls other than a `Free`
of the null pointer keep it. For an arena constructed with
`kDefaultAlignment < block_size` (the
constructor's assertion) and `block_size + kPageSize < 2^64`, after every
sequence of public calls without a `Free` of the null pointer that runs to its
end: `remaining_` is at most the capacity of the current block (the block most
recently installed as the bump block by `Reset` or `MakeNewBlock`), and the
last allocation, when there is one, lies at or before `freestart_` with at
most that capacity from its start to the end of the free space; in
non-page-aligned mode this capacity is `block_size_` and the condition of
`assert(remaining_ <= block_size_)` at the entry of `GetMemory` holds. -/
theorem remaining_invariant_of_no_null_free (first block_size : Nat) (align_to_page : Bool) (mem : Nat)
    (slots : List AllocatedBlock) (a0 : BaseArena) (ops : List Op) (a1 : BaseArena)
    (hslots : slots.length = kFirstBlocks)
    (hbs4 : kDefaultAlignment < block_size) (hbs : block_size + kPageSize < 2 ^ 64)
    (hcons : BaseArena.construct first block_size align_to_page mem slots = some a0)
    (hops : ∀ op ∈ ops, op.no_null_free)
    (hrun : run a0 ops = some a1) :
    a1.remaining_ ≤ run_capacity a0 block_size ops ∧
    cursor_inv (run_capacity a0 block_size ops) a1 ∧
    (align_to_page = false →
      run_capacity a0 block_size ops = a1.block_size_ ∧ a1.GetMemory_assert) := by
  have hc := construct_table_inv first block_size align_to_page mem slots a0 hslots hcons
  obtain ⟨x, hx, _, hxs⟩ := hc.2.2.2.2.2
  have hinv0 : cursor_inv block_size a0 := by
    rw [hx]
    exact Reset_cursor_inv x block_size hxs hbs4 (by omega)
  have h := run_cursor ops a0 a1 block_size block_size hrun hops hc.1 hbs4 hbs
    (by omega) hinv0
  have hfr := run_frame ops a0 a1 hrun
  refine ⟨h.1.1, h.1, ?_⟩
  intro hp
  have hcap := h.2 (by rw [hc.2.1]; exact hp) rfl
  have hbs1 : a1.block_size_ = block_size := by
    rw [hfr.1]
    exact hc.1.1
  refine ⟨by rw [hcap, hbs1], ?_⟩
  unfold BaseArena.GetMemory_assert
  rw [hbs1, ← hcap]
  exact h.1.1

/-- An instance of `remaining_invariant_of_no_null_free`: the arena of block
size 4096 with its block at 4098, after
`Alloc(100)`, `AllocAligned(8, 16)`, `Shrink` of the last allocation to 4 bytes,
`Alloc(4000)` (a dedicated block at 9000) and `Free` of the last allocation. -/
theorem remaining_invariant_of_no_null_free_instance :
    slots0.length = kFirstBlocks ∧ kDefaultAlignment < 4096 ∧ 4096 + kPageSize < 2 ^ 64 ∧
    BaseArena.construct 0 4096 false 4098 slots0 = some arena_at_4098 ∧
    run arena_at_4098 [Op.Alloc 100 0, Op.AllocAligned 8 16 0, Op.Shrink 4208 4,
      Op.Alloc 4000 9000, Op.Free 4208 4] = some arena_at_4098_after ∧
    run_capacity arena_at_4098 4096 [Op.Alloc 100 0, Op.AllocAligned 8 16 0,
      Op.Shrink 4208 4, Op.Alloc 4000 9000, Op.Free 4208 4] = 4096 ∧
    arena_at_4098_after.remaining_ = 3986 ∧
    arena_at_4098_after.remaining_ ≤ run_capacity arena_at_4098 4096
      [Op.Alloc 100 0, Op.AllocAligned 8 16 0, Op.Shrink 4208 4,
        Op.Alloc 4000 9000, Op.Free 4208 4] ∧
    cursor_inv (run_capacity arena_at_4098 4096
      [Op.Alloc 100 0, Op.AllocAligned 8 16 0, Op.Shrink 4208 4,
        Op.Alloc 4000 9000, Op.Free 4208 4]) arena_at_4098_after ∧
    (false = false →
      run_capacity arena_at_4098 4096 [Op.Alloc 100 0, Op.AllocAligned 8 16 0,
        Op.Shrink 4208 4, Op.Alloc 4000 9000, Op.Free 4208 4]
        = arena_at_4098_after.block_size_ ∧
      arena_at_4098_after.GetMemory_assert) :=
  ⟨by decide, by decide, by decide, by decide, by decide, by decide, by decide,
    remaining_invariant_of_no_null_free 0 4096 false 4098 slots0 arena_at_4098
      [Op.Alloc 100 0, Op.AllocAligned 8 16 0, Op.Shrink 4208 4,
        Op.Alloc 4000 9000, Op.Free 4208 4] arena_at_4098_after
      (by decide) (by decide) (by decide) (by decide)
      (by
        intro op hop
        simp only [List.mem_cons, List.mem_singleton, List.not_mem_nil, or_false] at hop
        rcases hop with h | h | h | h | h <;> subst h
        · trivial
        · trivial
        · trivial
        · trivial
        · show (4208 : Nat) ≠ 0
          decide)
      (by decide)⟩

/-! ## Construction -/

theorem land_page (m : Nat) : m &&& (kPageSize - 1) = m % kPageSize := by
  have h : kPageSize - 1 = 2 ^ 13 - 1 := by decide
  have h2 : kPageSize = 2 ^ 13 := by decide
  rw [h, h2, Nat.and_pow_two_sub_one_eq_mod]

/-- When the constructor aborts, for a block size of at most `2^63` (above
it the loop over `block_size_bits_` does not end): a supplied first block that
is not page-aligned in page-aligned mode; without a supplied first block, in
page-aligned mode, a block size that is not a multiple of the page size or a
failed allocation. -/
theorem construct_none_iff (first block_size : Nat) (align_to_page : Bool) (mem : Nat)
    (slots : List AllocatedBlock) (hbs : block_size ≤ 2 ^ 63) :
    BaseArena.construct first block_size align_to_page mem slots = none ↔
      align_to_page = true ∧
        ((first ≠ 0 ∧ first % kPageSize ≠ 0) ∨
         (first = 0 ∧ (block_size % kPageSize ≠ 0 ∨ mem = 0))) := by
  have hloop : ¬ 64 ≤ BaseArena.block_size_bits_loop block_size 64 0 := by
    rw [block_size_bits_loop_overrun]
    omega
  unfold BaseArena.construct
  rw [if_neg hloop]
  simp only [Option.map_eq_none', land_page]
  by_cases hf : first = 0
  · cases align_to_page
    · simp [hf]
    · by_cases hb : block_size % kPageSize = 0
      · by_cases hm : mem = 0
        · simp [hf, hb, hm]
        · simp [hf, hb, hm]
      · simp [hf, hb]
  · cases align_to_page
    · simp [hf]
    · by_cases hp : first % kPageSize = 0
      · simp [hf, hp]
      · simp [hf, hp]

/-- C24 (counterexample): with a caller-supplied first block at the
page-aligned address 8192, construction in page-aligned mode with
`block_size = 5000`, which is not a multiple of `kPageSize`, does not abort.
And for `block_size = 2^63 + 1`, which is not a multiple of `kPageSize`
either, the loop over `block_size_bits_` that precedes the checks has not
ended after 64 rounds (`1 << 63 < block_size`, and the next shift is by 64
bits): the constructor does not reach the check that would abort. -/
theorem C24_counterexample_supplied_block :
    ((8192 : Nat) % kPageSize = 0 ∧ (5000 : Nat) % kPageSize ≠ 0 ∧
      (BaseArena.construct 8192 5000 true 0 slots0).isSome = true ∧
      (BaseArena.construct 8192 5000 true 0 slots0).map (fun a => a.block_size_)
        = some 5000 ∧
      (BaseArena.construct 8192 5000 true 0 slots0).map (fun a => a.page_aligned_)
        = some true) ∧
    ((2 ^ 63 + 1 : Nat) % kPageSize ≠ 0 ∧
      BaseArena.block_size_bits_loop (2 ^ 63 + 1) 63 0 = 63 ∧
      (1 : Nat) <<< 63 < 2 ^ 63 + 1 ∧
      BaseArena.block_size_bits_loop (2 ^ 63 + 1) 64 0 = 64) := by
  refine ⟨by decide, by decide, by decide, by decide, by decide⟩

/-- C24. For a block size of at most `2^63` (the sizes for which the
constructor's loop over `block_size_bits_` ends), constructing an arena with
`align_to_page == true` aborts exactly in these cases: the first block is
allocated by the arena and `block_size` is not a multiple of `kPageSize` (or
the page-aligned allocation fails); the first block is supplied by the caller
and is not page-aligned. With a supplied page-aligned first block the
construction completes for every such `block_size`. -/
theorem C24_page_aligned_construction (first block_size mem : Nat)
    (slots : List AllocatedBlock) (hbs : block_size ≤ 2 ^ 63) :
    (first = 0 → block_size % kPageSize ≠ 0 →
      BaseArena.construct first block_size true mem slots = none) ∧
    (first ≠ 0 → first % kPageSize ≠ 0 →
      BaseArena.construct first block_size true mem slots = none) ∧
    (first ≠ 0 → first % kPageSize = 0 →
      (BaseArena.construct first block_size true mem slots).isSome = true) ∧
    (BaseArena.construct first block_size true mem slots = none ↔
      (first ≠ 0 ∧ first % kPageSize ≠ 0) ∨
      (first = 0 ∧ (block_size % kPageSize ≠ 0 ∨ mem = 0))) := by
  have h := construct_none_iff first block_size true mem slots hbs
  simp only [true_and] at h
  refine ⟨?_, ?_, ?_, h⟩
  · intro hf hb
    exact h.mpr (Or.inr ⟨hf, Or.inl hb⟩)
  · intro hf hp
    exact h.mpr (Or.inl ⟨hf, hp⟩)
  · intro hf hp
    cases hc : BaseArena.construct first block_size true mem slots with
    | some _ => rfl
    | none =>
      rcases h.mp hc with ⟨_, h1⟩ | ⟨h1, _⟩
      · exact absurd hp h1
      · exact absurd h1 hf

/-- C24 (witness): with `block_size = 5000` in page-aligned mode, the
construction aborts without a supplied first block and with the supplied
block 4100, and completes with the supplied block 8192. -/
theorem C24_page_aligned_construction_witness :
    (5000 : Nat) ≤ 2 ^ 63 ∧
    BaseArena.construct 0 5000 true 8192 slots0 = none ∧
    BaseArena.construct 4100 5000 true 0 slots0 = none ∧
    ((8192 : Nat) ≠ 0 → (8192 : Nat) % kPageSize = 0 →
      (BaseArena.construct 8192 5000 true 0 slots0).isSome = true) :=
  ⟨by decide,
    (C24_page_aligned_construction 0 5000 8192 slots0 (by decide)).1 rfl (by decide),
    (C24_page_aligned_construction 4100 5000 0 slots0 (by decide)).2.1 (by decide) (by decide),
    (C24_page_aligned_construction 8192 5000 0 slots0 (by decide)).2.2.1⟩

/-- C25. For every `block_size` with `kDefaultAlignment < block_size <= 2^63`
(the sizes for which every shift of the constructor's loop is below 64 bits),
after construction `2^block_size_bits_ >= block_size` and
`2^(block_size_bits_ - 1) < block_size`, `block_size_bits_` is at least 3 and
at most 63, and every offset below `block_size` is below
`2^block_size_bits_`. -/
theorem C25_block_size_bits (first block_size : Nat) (align_to_page : Bool) (mem : Nat)
    (slots : List AllocatedBlock) (a0 : BaseArena)
    (hbs4 : kDefaultAlignment < block_size) (hbs : block_size ≤ 2 ^ 63)
    (hcons : BaseArena.construct first block_size align_to_page mem slots = some a0) :
    a0.block_size_bits_ = BaseArena.block_size_bits_loop block_size 64 0 ∧
    block_size ≤ 2 ^ a0.block_size_bits_ ∧
    2 ^ (a0.block_size_bits_ - 1) < block_size ∧
    3 ≤ a0.block_size_bits_ ∧ a0.block_size_bits_ ≤ 63 ∧
    (∀ offset, offset < block_size → offset < 2 ^ a0.block_size_bits_) := by
  have hk : kDefaultAlignment = 4 := rfl
  rw [hk] at hbs4
  have hbits : a0.block_size_bits_ = BaseArena.block_size_bits_loop block_size 64 0 := by
    unfold BaseArena.construct at hcons
    split at hcons
    · simp at hcons
    simp only [Option.map_eq_some'] at hcons
    obtain ⟨m, _, rfl⟩ := hcons
    rw [(Reset_fields _).2.2.2.2.2.2.2.2.2.2]
  have hmin := block_size_bits_loop_min block_size 64 0
  have hspec := block_size_bits_loop_spec block_size 64 0
  rw [← hbits] at hmin hspec
  generalize a0.block_size_bits_ = b at hmin hspec hbits ⊢
  have hle : block_size ≤ 2 ^ b := by
    rcases hspec with h | h
    · exact h
    · rw [h]
      have : (2 : Nat) ^ 63 ≤ 2 ^ (0 + 64) := Nat.pow_le_pow_right (by decide) (by omega)
      omega
  have hb3 : 3 ≤ b := by
    by_contra hlt
    have : (2 : Nat) ^ b ≤ 2 ^ 2 := Nat.pow_le_pow_right (by decide) (by omega)
    omega
  have hlow : 2 ^ (b - 1) < block_size := by
    rcases hmin with h | h
    · omega
    · exact h
  have hb63 : b ≤ 63 := by
    by_contra hgt
    have : (2 : Nat) ^ 63 ≤ 2 ^ (b - 1) := Nat.pow_le_pow_right (by decide) (by omega)
    omega
  exact ⟨hbits, hle, hlow, hb3, hb63, fun offset ho => by omega⟩

/-- C25 (witness): `block_size = 4096` gives 12 bits, and `block_size = 4097`
gives 13. -/
theorem C25_block_size_bits_witness :
    (BaseArena.construct 0 4096 false 4096 slots0 = some (arena_at 4096) ∧
      (arena_at 4096).block_size_bits_ = 12 ∧
      (BaseArena.construct 0 4097 false 4096 slots0).map (fun a => a.block_size_bits_)
        = some 13) ∧
    (arena_at 4096).block_size_bits_ = BaseArena.block_size_bits_loop 4096 64 0 ∧
    4096 ≤ 2 ^ (arena_at 4096).block_size_bits_ ∧
    2 ^ ((arena_at 4096).block_size_bits_ - 1) < 4096 ∧
    3 ≤ (arena_at 4096).block_size_bits_ ∧ (arena_at 4096).block_size_bits_ ≤ 63 ∧
    (∀ offset, offset < 4096 → offset < 2 ^ (arena_at 4096).block_size_bits_) :=
  ⟨by decide,
    C25_block_size_bits 0 4096 false 4096 slots0 (arena_at 4096) (by decide) (by decide)
      (by decide)⟩

/-! ## Block lookup -/

/-- When `IndexToBlock` aborts, for an `int` index in an arena whose index space
(the sixteen inline slots and the overflow vector) fits an `int`: the index is
negative, or it is at or beyond the
end of the overflow vector (with no overflow vector: at or beyond the sixteen
inline slots). An index within the inline array returns its slot. -/
theorem IndexToBlock_cases (a : BaseArena) (index : Int)
    (hlo : -2 ^ 31 ≤ index) (hhi : index < 2 ^ 31)
    (hcount : kFirstBlocks + (a.block_count - a.blocks_alloced_) < 2 ^ 31) :
    (a.IndexToBlock index = none ↔
      index < 0 ∨ ((kFirstBlocks + (a.block_count - a.blocks_alloced_) : Nat) : Int) ≤ index) ∧
    (0 ≤ index → index < kFirstBlocks →
      a.IndexToBlock index = some (a.first_blocks_.getD index.toNat default)) := by
  have hk : kFirstBlocks = 16 := rfl
  have hs : (index < 0 → 16 ≤ to_size_t index) ∧ (0 ≤ index → to_size_t index = index.toNat) := by
    unfold to_size_t
    omega
  have hi2 : (-2 ^ 31 + 16 ≤ index →
        to_int ((to_size_t (index - ((16 : Nat) : Int)) : Nat) : Int) = index - 16) ∧
      (index < -2 ^ 31 + 16 →
        to_int ((to_size_t (index - ((16 : Nat) : Int)) : Nat) : Int) = index - 16 + 2 ^ 32) := by
    unfold to_int to_size_t
    omega
  have hs2 : ∀ z : Int, 0 ≤ z → z < 2 ^ 32 → to_size_t z = z.toNat := by
    intro z h0 h1
    unfold to_size_t
    omega
  unfold BaseArena.IndexToBlock BaseArena.block_count at *
  rw [hk] at hcount ⊢
  generalize to_int ((to_size_t (index - ((16 : Nat) : Int)) : Nat) : Int) = i2 at hi2 ⊢
  have hs2i := hs2 i2
  generalize to_size_t index = s at hs ⊢
  by_cases hin : s < 16
  · have h0 : 0 ≤ index := by
      by_contra hneg
      have := hs.1 (by omega)
      omega
    have hlt : index < 16 := by
      have := hs.2 h0
      omega
    simp only [if_pos hin]
    refine ⟨⟨fun h => by simp at h, fun h => ?_⟩, fun _ _ => by rw [hs.2 h0]⟩
    omega
  · simp only [if_neg hin]
    refine ⟨?_, fun h0 h1 => absurd (hs.2 h0) (by omega)⟩
    cases hov : a.overflow_blocks_ with
    | none =>
      simp only [hov] at hcount ⊢
      simp only [true_iff]
      by_cases hneg : index < 0
      · exact Or.inl hneg
      · have := hs.2 (by omega)
        right
        omega
    | some v =>
      simp only [hov] at hcount ⊢
      by_cases hneg : index < 0
      · simp only [hneg, true_or, iff_true]
        by_cases hw : -2 ^ 31 + 16 ≤ index
        · rw [if_pos (by rw [hi2.1 hw]; omega)]
        · have h2 := hi2.2 (by omega)
          have h3 := hs2i (by omega) (by omega)
          rw [if_neg (by omega), if_neg (by omega)]
      · have h0 : 0 ≤ index := by omega
        have h1 := hs.2 h0
        have h2 := hi2.1 (by omega)
        have h3 := hs2i (by omega) (by omega)
        rw [if_neg (by omega)]
        by_cases hv : to_size_t i2 < v.length
        · rw [if_pos hv]
          refine ⟨fun h => by simp at h, fun h => ?_⟩
          omega
        · rw [if_neg hv]
          simp only [true_iff]
          right
          omega

/-- C23 (counterexample): in the freshly constructed arena of block size 4096
`block_count()` is 1, yet `IndexToBlock(1)` returns the unused inline slot 1
instead of aborting, and `HandleToPointer` on the valid-looking handle 4096
(block index 1, offset 0) returns the address read from that slot. -/
theorem C23_counterexample_unused_inline_slot :
    (arena_at 4096).block_count = 1 ∧
    (arena_at 4096).IndexToBlock 1 = some ⟨0, 0⟩ ∧
    (arena_at 4096).IndexToBlock 1 ≠ none ∧
    Handle.valid ⟨4096⟩ ∧
    BaseArena.handle_decode (arena_at 4096).block_size_bits_ (arena_at 4096).handle_alignment_bits_
      ⟨4096⟩ = some (1, 0) ∧
    (arena_at 4096).HandleToPointer ⟨4096⟩ = some 0 ∧
    (arena_at 4096).HandleToPointer ⟨4096⟩ ≠ none := by
  decide

/-- C23. For every arena state whose index space (the sixteen inline slots and
the overflow vector) fits an `int`, and every `int` index: `IndexToBlock(index)`
aborts if and only if the index is negative or at least
`16 + ` the length of the overflow vector (16 when there is none); for
`0 <= index < 16` it returns the inline slot `first_blocks_[index]`, whatever
`block_count()` is. `HandleToPointer` on a valid handle whose decoded block
index is `index` aborts in the same cases, and otherwise returns the block's
address plus the decoded offset. -/
theorem C23_block_lookup (a : BaseArena) (index : Int)
    (hlo : -2 ^ 31 ≤ index) (hhi : index < 2 ^ 31)
    (hcount : kFirstBlocks + (a.block_count - a.blocks_alloced_) < 2 ^ 31) :
    (index < 0 → a.IndexToBlock index = none) ∧
    (((kFirstBlocks + (a.block_count - a.blocks_alloced_) : Nat) : Int) ≤ index →
      a.IndexToBlock index = none) ∧
    (0 ≤ index → index < kFirstBlocks →
      a.IndexToBlock index = some (a.first_blocks_.getD index.toNat default)) ∧
    (a.IndexToBlock index = none ↔
      index < 0 ∨ ((kFirstBlocks + (a.block_count - a.blocks_alloced_) : Nat) : Int) ≤ index) ∧
    (∀ (h : Handle) (offset : Nat), h.valid →
      BaseArena.handle_decode a.block_size_bits_ a.handle_alignment_bits_ h = some (index, offset) →
      (a.HandleToPointer h = none ↔
        index < 0 ∨
          ((kFirstBlocks + (a.block_count - a.blocks_alloced_) : Nat) : Int) ≤ index) ∧
      (0 ≤ index → index < kFirstBlocks →
        a.HandleToPointer h = some ((a.first_blocks_.getD index.toNat default).mem + offset))) := by
  have hc := IndexToBlock_cases a index hlo hhi hcount
  refine ⟨fun h => hc.1.mpr (Or.inl h), fun h => hc.1.mpr (Or.inr h), hc.2, hc.1, ?_⟩
  intro h offset hv hd
  unfold BaseArena.HandleToPointer
  rw [if_neg (not_not.mpr hv), hd]
  simp only [Option.map_eq_none']
  refine ⟨hc.1, fun h0 h1 => ?_⟩
  rw [hc.2 h0 h1]
  rfl

/-- C23 (witness): the arena with block 0 at 4096 and a dedicated block at
9000: index 1 is the second block, index 16 and index -1 abort. -/
theorem C23_block_lookup_witness :
    (kFirstBlocks + (arena_after_scenario.block_count - arena_after_scenario.blocks_alloced_)
      < 2 ^ 31 ∧
      arena_after_scenario.IndexToBlock 1 = some ⟨9000, 4000⟩ ∧
      arena_after_scenario.IndexToBlock 16 = none ∧
      arena_after_scenario.IndexToBlock (-1) = none ∧
      arena_after_scenario.HandleToPointer ⟨4096 + 8⟩ = some 9008) ∧
    ((1 : Int) < 0 → arena_after_scenario.IndexToBlock 1 = none) ∧
    (((kFirstBlocks + (arena_after_scenario.block_count
        - arena_after_scenario.blocks_alloced_) : Nat) : Int) ≤ 1 →
      arena_after_scenario.IndexToBlock 1 = none) ∧
    ((0 : Int) ≤ 1 → (1 : Int) < kFirstBlocks →
      arena_after_scenario.IndexToBlock 1
        = some (arena_after_scenario.first_blocks_.getD (1 : Int).toNat default)) ∧
    (arena_after_scenario.IndexToBlock 1 = none ↔
      (1 : Int) < 0 ∨ ((kFirstBlocks + (arena_after_scenario.block_count
        - arena_after_scenario.blocks_alloced_) : Nat) : Int) ≤ 1) ∧
    (∀ (h : Handle) (offset : Nat), h.valid →
      BaseArena.handle_decode arena_after_scenario.block_size_bits_
        arena_after_scenario.handle_alignment_bits_ h = some (1, offset) →
      (arena_after_scenario.HandleToPointer h = none ↔
        (1 : Int) < 0 ∨ ((kFirstBlocks + (arena_after_scenario.block_count
          - arena_after_scenario.blocks_alloced_) : Nat) : Int) ≤ 1) ∧
      ((0 : Int) ≤ 1 → (1 : Int) < kFirstBlocks →
        arena_after_scenario.HandleToPointer h
          = some ((arena_after_scenario.first_blocks_.getD (1 : Int).toNat default).mem
            + offset))) :=
  ⟨by decide,
    C23_block_lookup arena_after_scenario 1 (by decide) (by decide) (by decide)⟩

/-! ## The handle alignment -/

/-- The test `0 == (n & (n - 1))` on a positive `n` singles out the powers of
two. -/
theorem land_pred_eq_zero_iff (n : Nat) (hn : 0 < n) :
    n &&& (n - 1) = 0 ↔ ∃ k : Nat, n = 2 ^ k := by
  constructor
  · induction n using Nat.strong_induction_on with
    | _ n ih =>
      intro h
      by_cases h1 : n = 1
      · exact ⟨0, by rw [h1]; rfl⟩
      · have hdiv : n / 2 &&& (n - 1) / 2 = 0 := by
          rw [← Nat.and_div_two, h]
        by_cases hodd : n % 2 = 1
        · exfalso
          have e : (n - 1) / 2 = n / 2 := by omega
          rw [e, Nat.and_self] at hdiv
          omega
        · have e : (n - 1) / 2 = n / 2 - 1 := by omega
          rw [e] at hdiv
          obtain ⟨k, hk⟩ := ih (n / 2) (by omega) (by omega) hdiv
          refine ⟨k + 1, ?_⟩
          rw [pow_succ, ← hk]
          omega
  · rintro ⟨k, rfl⟩
    rw [Nat.and_pow_two_sub_one_eq_mod, Nat.mod_self]

/-- The loop of `set_handle_alignment` finds the exponent of a power of two. -/
theorem handle_alignment_bits_loop_pow (k : Nat) :
    ∀ fuel bits, bits ≤ k → k - bits ≤ fuel →
      BaseArena.handle_alignment_bits_loop (2 ^ k) fuel bits = k := by
  intro fuel
  induction fuel with
  | zero =>
    intro bits h1 h2
    unfold BaseArena.handle_alignment_bits_loop
    omega
  | succ f ih =>
    intro bits h1 h2
    unfold BaseArena.handle_alignment_bits_loop
    rw [Nat.one_shiftLeft]
    by_cases hlt : bits < k
    · rw [if_pos (Nat.pow_lt_pow_right (by decide) hlt)]
      exact ih (bits + 1) (by omega) (by omega)
    · have hbk : bits = k := by omega
      rw [hbk, if_neg (Nat.lt_irrefl _)]

/-- What `set_handle_alignment` does with a power of two below `2^31`. -/
theorem set_handle_alignment_pow (a : BaseArena) (k : Nat) (hk : k ≤ 30) :
    a.set_handle_alignment (((2 ^ k : Nat) : Nat) : Int) =
      if 2 ^ k < a.block_size_ ∧ a.block_size_ % 2 ^ k = 0 ∧ a.is_empty = true then
        some { a with handle_alignment_ := 2 ^ k, handle_alignment_bits_ := k }
      else none := by
  have hlt : (2 : Nat) ^ k < 2 ^ 64 := Nat.pow_lt_pow_right (by decide) (by omega)
  have hpos : 0 < (2 : Nat) ^ k := Nat.pow_pos (by decide)
  unfold BaseArena.set_handle_alignment
  have h1 : ((((2 ^ k : Nat) : Nat) : Int) > 0 ∧
      ((((2 ^ k : Nat) : Nat) : Int).toNat &&& ((((2 ^ k : Nat) : Nat) : Int).toNat - 1)) = 0) := by
    refine ⟨by omega, ?_⟩
    rw [Int.toNat_ofNat]
    exact (land_pred_eq_zero_iff _ hpos).mpr ⟨k, rfl⟩
  rw [if_neg (not_not.mpr h1), to_size_t_natCast _ hlt, Int.toNat_ofNat,
    handle_alignment_bits_loop_pow k 31 0 (by omega) (by omega)]
  by_cases hb : 2 ^ k < a.block_size_
  · by_cases hm : a.block_size_ % 2 ^ k = 0
    · by_cases he : a.is_empty = true
      · simp [hb, hm, he]
      · simp [hb, hm, he]
    · simp [hb, hm]
  · simp [hb]

/-- A call of `set_handle_alignment` that completes was given a power of two. -/
theorem set_handle_alignment_inv (a : BaseArena) (align : Int) (hhi : align < 2 ^ 31)
    (h : (a.set_handle_alignment align).isSome = true) :
    ∃ k : Nat, k ≤ 30 ∧ align = (((2 ^ k : Nat) : Nat) : Int) := by
  unfold BaseArena.set_handle_alignment at h
  by_cases h1 : align > 0 ∧ (align.toNat &&& (align.toNat - 1)) = 0
  · obtain ⟨k, hk⟩ := (land_pred_eq_zero_iff align.toNat (by omega)).mp h1.2
    have hal : align = ((align.toNat : Nat) : Int) := by omega
    refine ⟨k, ?_, by rw [← hk]; exact hal⟩
    by_contra hgt
    have : (2 : Nat) ^ 31 ≤ 2 ^ k := Nat.pow_le_pow_right (by decide) (by omega)
    omega
  · rw [if_pos h1] at h
    simp at h

/-- C21. For every arena state and every `align` below `2^31` (an `int`):
`set_handle_alignment(align)` completes without aborting if and only if
`align` is a power of two, `align < block_size`, `block_size % align == 0` and
`is_empty()` holds, where `is_empty()` is `freestart_ == freestart_when_empty_`
and `block_count() == 1`; when it completes, `handle_alignment_ == align`,
`2^handle_alignment_bits_ == align`, and no other field changes. -/
theorem C21_set_handle_alignment (a : BaseArena) (align : Int) (hhi : align < 2 ^ 31) :
    ((a.set_handle_alignment align).isSome = true ↔
      (∃ k : Nat, align = 2 ^ k) ∧ align < (a.block_size_ : Int) ∧
        (a.block_size_ : Int) % align = 0 ∧ a.is_empty = true) ∧
    (a.is_empty = true ↔ a.freestart_ = a.freestart_when_empty_ ∧ a.block_count = 1) ∧
    (∀ a1, a.set_handle_alignment align = some a1 →
      (a1.handle_alignment_ : Int) = align ∧
      ((2 ^ a1.handle_alignment_bits_ : Nat) : Int) = align ∧
      a1 = { a with
        handle_alignment_ := a1.handle_alignment_,
        handle_alignment_bits_ := a1.handle_alignment_bits_ }) := by
  have hconv : ∀ k : Nat,
      ((((2 ^ k : Nat) : Nat) : Int) < (a.block_size_ : Int) ↔ 2 ^ k < a.block_size_) ∧
      ((a.block_size_ : Int) % (((2 ^ k : Nat) : Nat) : Int) = 0 ↔ a.block_size_ % 2 ^ k = 0) := by
    intro k
    constructor
    · exact Int.ofNat_lt
    · norm_cast
  refine ⟨⟨fun h => ?_, fun h => ?_⟩, ?_, ?_⟩
  · obtain ⟨k, hk, rfl⟩ := set_handle_alignment_inv a align hhi h
    rw [set_handle_alignment_pow a k hk] at h
    by_cases hc : 2 ^ k < a.block_size_ ∧ a.block_size_ % 2 ^ k = 0 ∧ a.is_empty = true
    · exact ⟨⟨k, by push_cast; rfl⟩, (hconv k).1.mpr hc.1, (hconv k).2.mpr hc.2.1, hc.2.2⟩
    · rw [if_neg hc] at h
      simp at h
  · obtain ⟨⟨k, hk⟩, h1, h2, h3⟩ := h
    have hal : align = (((2 ^ k : Nat) : Nat) : Int) := by
      rw [hk]
      push_cast
      rfl
    have hk30 : k ≤ 30 := by
      by_contra hgt
      have : (2 : Nat) ^ 31 ≤ 2 ^ k := Nat.pow_le_pow_right (by decide) (by omega)
      omega
    rw [hal] at h1 h2 ⊢
    rw [set_handle_alignment_pow a k hk30,
      if_pos ⟨(hconv k).1.mp h1, (hconv k).2.mp h2, h3⟩]
    rfl
  · unfold BaseArena.is_empty
    simp only [Bool.and_eq_true, beq_iff_eq]
    constructor
    · rintro ⟨h1, h2⟩
      exact ⟨h1, h2.symm⟩
    · rintro ⟨h1, h2⟩
      exact ⟨h1, h2.symm⟩
  · intro a1 h
    have hs : (a.set_handle_alignment align).isSome = true := by rw [h]; rfl
    obtain ⟨k, hk, rfl⟩ := set_handle_alignment_inv a _ hhi hs
    rw [set_handle_alignment_pow a k hk] at h
    split at h
    · simp only [Option.some.injEq] at h
      subst h
      exact ⟨rfl, rfl, rfl⟩
    · simp at h

/-- C21 (witness): `set_handle_alignment(8)` on the freshly constructed arena of
block size 4096 completes with `handle_alignment_bits_ == 3`; `align = 6`,
`align = 4096`, `align = 8` with `block_size = 4100` and `align = 8` after an
allocation abort. -/
theorem C21_set_handle_alignment_witness :
    ((arena_at 4096).set_handle_alignment 8
        = some { arena_at 4096 with handle_alignment_ := 8, handle_alignment_bits_ := 3 } ∧
      (arena_at 4096).set_handle_alignment 6 = none ∧
      (arena_at 4096).set_handle_alignment 4096 = none ∧
      BaseArena.set_handle_alignment { arena_at 4096 with block_size_ := 4100 } 8 = none ∧
      arena_after_100.set_handle_alignment 8 = none) ∧
    (((arena_at 4096).set_handle_alignment 8).isSome = true ↔
      (∃ k : Nat, (8 : Int) = 2 ^ k) ∧ (8 : Int) < ((arena_at 4096).block_size_ : Int) ∧
        ((arena_at 4096).block_size_ : Int) % 8 = 0 ∧ (arena_at 4096).is_empty = true) ∧
    ((arena_at 4096).is_empty = true ↔
      (arena_at 4096).freestart_ = (arena_at 4096).freestart_when_empty_ ∧
        (arena_at 4096).block_count = 1) ∧
    (∀ a1, (arena_at 4096).set_handle_alignment 8 = some a1 →
      (a1.handle_alignment_ : Int) = 8 ∧
      ((2 ^ a1.handle_alignment_bits_ : Nat) : Int) = 8 ∧
      a1 = { arena_at 4096 with
        handle_alignment_ := a1.handle_alignment_,
        handle_alignment_bits_ := a1.handle_alignment_bits_ }) :=
  ⟨by decide, C21_set_handle_alignment (arena_at 4096) 8 (by decide)⟩

/-! ## Free -/

/-- The two branches of `ReturnMemory`. -/
theorem ReturnMemory_cases (a : BaseArena) (memory size : Nat) :
    (memory = a.last_alloc_ ∧ to_size_t ((a.freestart_ : Int) - a.last_alloc_) = size →
      a.ReturnMemory memory size
        = { a with remaining_ := a.remaining_ + size, freestart_ := a.last_alloc_ }) ∧
    (¬ (memory = a.last_alloc_ ∧ to_size_t ((a.freestart_ : Int) - a.last_alloc_) = size) →
      a.ReturnMemory memory size = a) := by
  unfold BaseArena.ReturnMemory
  simp only
  constructor
  · intro h
    rw [if_pos h]
  · intro h
    rw [if_neg h]

/-- C26 (counterexample): in the state where the last allocation at 4096 has
been shrunk to nothing (`last_alloc_ == freestart_ == 4096`), `Free(4096, 0)`
meets both tests, `memory == last_alloc_` and `freestart_ - last_alloc_ == size`,
and the arena state is unchanged. -/
theorem C26_counterexample_free_of_size_zero :
    arena_after_100.AdjustLastAlloc 4096 0 = (true, arena_after_100_shrunk_0) ∧
    (4096 : Nat) = arena_after_100_shrunk_0.last_alloc_ ∧
    to_size_t ((arena_after_100_shrunk_0.freestart_ : Int)
      - arena_after_100_shrunk_0.last_alloc_) = 0 ∧
    UnsafeArena.Free arena_after_100_shrunk_0 4096 0 = arena_after_100_shrunk_0 := by
  decide

/-- C26. For every arena state whose `freestart_` and `last_alloc_` are
addresses (below `2^64`): when `memory == last_alloc_` and
`freestart_ - last_alloc_ == size` (as a `size_t`), `Free(memory, size)` moves
`freestart_` back to `last_alloc_` and adds `size` to `remaining_`, all other
fields kept; in every other case the whole state is unchanged; the state
changes if and only if both tests hold and `size != 0`. For an `Alloc(n)`
served by the fast path, `Free(p, n)` restores the whole cursor except
`last_alloc_` (`freestart_` and `remaining_` are as before the allocation),
and a second `Free(p, n)` changes nothing. -/
theorem C26_free (a : BaseArena) (memory size : Nat)
    (hfs : a.freestart_ < 2 ^ 64) (hla : a.last_alloc_ < 2 ^ 64) :
    (memory = a.last_alloc_ ∧ to_size_t ((a.freestart_ : Int) - a.last_alloc_) = size →
      UnsafeArena.Free a memory size
        = { a with remaining_ := a.remaining_ + size, freestart_ := a.last_alloc_ }) ∧
    (¬ (memory = a.last_alloc_ ∧ to_size_t ((a.freestart_ : Int) - a.last_alloc_) = size) →
      UnsafeArena.Free a memory size = a) ∧
    (UnsafeArena.Free a memory size ≠ a ↔
      (memory = a.last_alloc_ ∧ to_size_t ((a.freestart_ : Int) - a.last_alloc_) = size)
        ∧ size ≠ 0) ∧
    (∀ n mem, 0 < n → n < a.remaining_ → a.remaining_ < 2 ^ 64 →
      ∃ a1, UnsafeArena.Alloc a n mem = some (a.freestart_, a1) ∧
        UnsafeArena.Free a1 a.freestart_ n = { a with last_alloc_ := a.freestart_ } ∧
        (UnsafeArena.Free a1 a.freestart_ n).freestart_ = a.freestart_ ∧
        (UnsafeArena.Free a1 a.freestart_ n).remaining_ = a.remaining_ ∧
        UnsafeArena.Free (UnsafeArena.Free a1 a.freestart_ n) a.freestart_ n
          = UnsafeArena.Free a1 a.freestart_ n) := by
  have hc := ReturnMemory_cases a memory size
  refine ⟨hc.1, hc.2, ?_, ?_⟩
  · unfold UnsafeArena.Free
    by_cases hcond : memory = a.last_alloc_ ∧
        to_size_t ((a.freestart_ : Int) - a.last_alloc_) = size
    · rw [hc.1 hcond]
      simp only [hcond, true_and, and_self]
      have ht := hcond.2
      unfold to_size_t at ht
      constructor
      · intro hne h0
        apply hne
        have h1 : a.last_alloc_ = a.freestart_ := by omega
        obtain ⟨ba, rem, fb, bs, fs, fse, la, bl, fbs, ob, pa, ha, hab, bsb⟩ := a
        simp only at h1 ⊢
        subst h1
        subst h0
        rfl
      · intro h0 heq
        have h2 := congrArg BaseArena.remaining_ heq
        simp only at h2
        omega
    · rw [hc.2 hcond]
      simp [hcond]
  · intro n mem hn hlt hr
    have hfast := GetMemory_fast a n mem hn hlt
    refine ⟨_, hfast, ?_⟩
    have hfree1 : UnsafeArena.Free { a with
          last_alloc_ := a.freestart_,
          freestart_ := a.freestart_ + n,
          remaining_ := a.remaining_ - n } a.freestart_ n
        = { a with last_alloc_ := a.freestart_ } := by
      unfold UnsafeArena.Free
      rw [(ReturnMemory_cases _ a.freestart_ n).1 ⟨rfl, by
        show to_size_t (((a.freestart_ + n : Nat) : Int) - (a.freestart_ : Int)) = n
        unfold to_size_t
        omega⟩]
      have e : a.remaining_ - n + n = a.remaining_ := by omega
      simp only [e]
    rw [hfree1]
    refine ⟨rfl, rfl, rfl, ?_⟩
    unfold UnsafeArena.Free
    rw [(ReturnMemory_cases _ a.freestart_ n).2 (by
      intro hcond
      have ht := hcond.2
      simp only at ht
      unfold to_size_t at ht
      omega)]

/-- C26 (witness): `Alloc(100)` on the arena of block size 4096 with its block
at 4096, then `Free(4096, 100)` twice. -/
theorem C26_free_witness :
    ((arena_at 4096).freestart_ < 2 ^ 64 ∧ (arena_at 4096).last_alloc_ < 2 ^ 64 ∧
      UnsafeArena.Alloc (arena_at 4096) 100 0 = some (4096, arena_after_100) ∧
      UnsafeArena.Free arena_after_100 4096 100
        = { arena_at 4096 with last_alloc_ := 4096 } ∧
      UnsafeArena.Free (UnsafeArena.Free arena_after_100 4096 100) 4096 100
        = UnsafeArena.Free arena_after_100 4096 100 ∧
      UnsafeArena.Free arena_after_100 4096 50 = arena_after_100 ∧
      UnsafeArena.Free arena_after_100 4100 96 = arena_after_100) ∧
    ((4096 : Nat) = arena_after_100.last_alloc_ ∧
        to_size_t ((arena_after_100.freestart_ : Int) - arena_after_100.last_alloc_) = 100 →
      UnsafeArena.Free arena_after_100 4096 100
        = { arena_after_100 with
          remaining_ := arena_after_100.remaining_ + 100,
          freestart_ := arena_after_100.last_alloc_ }) ∧
    (¬ ((4096 : Nat) = arena_after_100.last_alloc_ ∧
        to_size_t ((arena_after_100.freestart_ : Int) - arena_after_100.last_alloc_) = 100) →
      UnsafeArena.Free arena_after_100 4096 100 = arena_after_100) ∧
    (UnsafeArena.Free arena_after_100 4096 100 ≠ arena_after_100 ↔
      ((4096 : Nat) = arena_after_100.last_alloc_ ∧
        to_size_t ((arena_after_100.freestart_ : Int) - arena_after_100.last_alloc_) = 100)
        ∧ (100 : Nat) ≠ 0) ∧
    (∀ n mem, 0 < n → n < arena_after_100.remaining_ → arena_after_100.remaining_ < 2 ^ 64 →
      ∃ a1, UnsafeArena.Alloc arena_after_100 n mem = some (arena_after_100.freestart_, a1) ∧
        UnsafeArena.Free a1 arena_after_100.freestart_ n
          = { arena_after_100 with last_alloc_ := arena_after_100.freestart_ } ∧
        (UnsafeArena.Free a1 arena_after_100.freestart_ n).freestart_
          = arena_after_100.freestart_ ∧
        (UnsafeArena.Free a1 arena_after_100.freestart_ n).remaining_
          = arena_after_100.remaining_ ∧
        UnsafeArena.Free (UnsafeArena.Free a1 arena_after_100.freestart_ n)
            arena_after_100.freestart_ n
          = UnsafeArena.Free a1 arena_after_100.freestart_ n) :=
  ⟨by decide, C26_free arena_after_100 4096 100 (by decide) (by decide)⟩

/-! ## Changing the handle alignment after allocations -/

theorem pad_freestart_ge (a : BaseArena) (align : Nat) :
    a.freestart_ ≤ (a.pad_freestart align).freestart_ ∧
    (a.pad_freestart align).freestart_when_empty_ = a.freestart_when_empty_ := by
  unfold BaseArena.pad_freestart
  simp only
  split
  · exact ⟨Nat.le_add_right _ _, rfl⟩
  · exact ⟨Nat.le_refl _, rfl⟩

theorem push_block_when_empty (a : BaseArena) (b : AllocatedBlock) (n : Nat) :
    (a.push_block b n).freestart_when_empty_ = a.freestart_when_empty_ := by
  unfold BaseArena.push_block
  split <;> rfl

/-- A `GetMemory` call of size zero changes nothing; any other one leaves the
arena not empty: a second block, or `freestart_` beyond its empty position. -/
theorem GetMemory_occupies (a : BaseArena) (size : Nat) (align : Int) (mem p : Nat)
    (a1 : BaseArena) (h : a.GetMemory size align mem = some (p, a1))
    (hcount : 1 ≤ a.block_count)
    (hinv : 2 ≤ a.block_count ∨ a.freestart_when_empty_ ≤ a.freestart_) :
    a1.freestart_when_empty_ = a.freestart_when_empty_ ∧
    1 ≤ a1.block_count ∧
    (2 ≤ a1.block_count ∨ a1.freestart_when_empty_ ≤ a1.freestart_) ∧
    (size = 0 → a1 = a) ∧
    (0 < size → 2 ≤ a1.block_count ∨ a1.freestart_when_empty_ < a1.freestart_) ∧
    ((2 ≤ a.block_count ∨ a.freestart_when_empty_ < a.freestart_) →
      2 ≤ a1.block_count ∨ a1.freestart_when_empty_ < a1.freestart_) := by
  have key := GetMemory_by_path a size align mem p a1 h
  have hpf := pad_freestart_fields a (to_size_t align)
  have hpg := pad_freestart_ge a (to_size_t align)
  cases hpath : GetMemory_path a size align <;> rw [hpath] at key <;> simp only at key
  · obtain ⟨h0, _, rfl⟩ := key
    exact ⟨rfl, hcount, hinv, fun _ => rfl, fun hp => absurd h0 (by omega), fun hs => hs⟩
  · obtain ⟨h0, _, _, _, rfl⟩ := key
    have hc : ({ a with
        last_alloc_ := a.freestart_,
        freestart_ := a.freestart_ + size,
        remaining_ := a.remaining_ - size } : BaseArena).block_count = a.block_count := rfl
    refine ⟨rfl, by rw [hc]; exact hcount, ?_, fun hz => absurd hz (by omega), ?_, ?_⟩
    · rw [hc]
      show 2 ≤ a.block_count ∨ a.freestart_when_empty_ ≤ a.freestart_ + size
      omega
    · intro _
      rw [hc]
      show 2 ≤ a.block_count ∨ a.freestart_when_empty_ < a.freestart_ + size
      omega
    · intro hs
      rw [hc]
      show 2 ≤ a.block_count ∨ a.freestart_when_empty_ < a.freestart_ + size
      omega
  · obtain ⟨h0, _, _, _, rfl⟩ := key
    have hpb := push_block_fields a ⟨mem, a.new_block_capacity size⟩ size
    refine ⟨push_block_when_empty _ _ _, by omega, Or.inl (by omega),
      fun hz => absurd hz (by omega), fun _ => Or.inl (by omega), fun _ => Or.inl (by omega)⟩
  · obtain ⟨h0, _, _, _, _, rfl⟩ := key
    have hc : (BaseArena.bump (a.pad_freestart (to_size_t align)) size).2.block_count
        = a.block_count := hpf.2.2.1
    have hfs : (BaseArena.bump (a.pad_freestart (to_size_t align)) size).2.freestart_
        = (a.pad_freestart (to_size_t align)).freestart_ + size := rfl
    have hwe : (BaseArena.bump (a.pad_freestart (to_size_t align)) size).2.freestart_when_empty_
        = a.freestart_when_empty_ := hpg.2
    rw [hc, hfs, hwe]
    refine ⟨rfl, hcount, by omega, fun hz => absurd hz (by omega), fun _ => by omega,
      fun _ => by omega⟩
  · obtain ⟨h0, _, _, _, _, _, rfl⟩ := key
    have hpb := push_block_fields (a.pad_freestart (to_size_t align))
      ⟨mem, a.new_block_capacity a.block_size_⟩ a.block_size_
    have hc : (BaseArena.bump { (a.pad_freestart (to_size_t align)).push_block
            ⟨mem, a.new_block_capacity a.block_size_⟩ a.block_size_ with
          freestart_ := mem, remaining_ := a.new_block_capacity a.block_size_ } size).2.block_count
        = a.block_count + 1 := by
      rw [← hpf.2.2.1, ← hpb.1]
      rfl
    have hwe : (BaseArena.bump { (a.pad_freestart (to_size_t align)).push_block
            ⟨mem, a.new_block_capacity a.block_size_⟩ a.block_size_ with
          freestart_ := mem,
          remaining_ := a.new_block_capacity a.block_size_ } size).2.freestart_when_empty_
        = a.freestart_when_empty_ := by
      rw [← hpg.2, ← push_block_when_empty (a.pad_freestart (to_size_t align))
        ⟨mem, a.new_block_capacity a.block_size_⟩ a.block_size_]
      rfl
    rw [hc, hwe]
    refine ⟨rfl, by omega, Or.inl (by omega), fun hz => absurd hz (by omega),
      fun _ => Or.inl (by omega), fun _ => Or.inl (by omega)⟩

/-- A zero-size request through `GetMemoryWithHandle` aborts when the blocks of
the table are at addresses that are not null. -/
theorem GetMemoryWithHandle_zero (a : BaseArena) (mem : Nat)
    (h : ∀ i, i < a.block_count → ∀ b, a.IndexToBlock (i : Int) = some b → b.mem ≠ 0) :
    a.GetMemoryWithHandle 0 mem = none := by
  unfold BaseArena.GetMemoryWithHandle
  rw [GetMemory_zero]
  rcases findBlock_null a a.block_count h with h1 | h1 <;> simp only [h1]

/-- One allocation call: it changes nothing and requested no bytes, or it
leaves the arena not empty. -/
theorem step_alloc_occupies (a : BaseArena) (op : Op) (a1 : BaseArena)
    (h : step a op = some a1) (hop : op.is_allocation)
    (hcount : 1 ≤ a.block_count)
    (hinv : 2 ≤ a.block_count ∨ a.freestart_when_empty_ ≤ a.freestart_) :
    a1.freestart_when_empty_ = a.freestart_when_empty_ ∧
    1 ≤ a1.block_count ∧
    (2 ≤ a1.block_count ∨ a1.freestart_when_empty_ ≤ a1.freestart_) ∧
    ((2 ≤ a.block_count ∨ a.freestart_when_empty_ < a.freestart_) →
      2 ≤ a1.block_count ∨ a1.freestart_when_empty_ < a1.freestart_) ∧
    (¬ (2 ≤ a1.block_count ∨ a1.freestart_when_empty_ < a1.freestart_) →
      a1 = a ∧ ∀ size mem, op = Op.AllocWithHandle size mem → size = 0) := by
  have hget : ∀ size align mem p, a.GetMemory size align mem = some (p, a1) →
      a1.freestart_when_empty_ = a.freestart_when_empty_ ∧
      1 ≤ a1.block_count ∧
      (2 ≤ a1.block_count ∨ a1.freestart_when_empty_ ≤ a1.freestart_) ∧
      ((2 ≤ a.block_count ∨ a.freestart_when_empty_ < a.freestart_) →
        2 ≤ a1.block_count ∨ a1.freestart_when_empty_ < a1.freestart_) ∧
      (¬ (2 ≤ a1.block_count ∨ a1.freestart_when_empty_ < a1.freestart_) →
        a1 = a ∧ size = 0) := by
    intro size align mem p hq
    have ho := GetMemory_occupies a size align mem p a1 hq hcount hinv
    refine ⟨ho.1, ho.2.1, ho.2.2.1, ho.2.2.2.2.2, ?_⟩
    intro hn
    have hz : size = 0 := by
      by_contra hne
      exact hn (ho.2.2.2.2.1 (Nat.pos_of_ne_zero hne))
    exact ⟨ho.2.2.2.1 hz, hz⟩
  cases op with
  | Alloc size mem =>
    simp only [step, Option.map_eq_some'] at h
    obtain ⟨⟨p, a2⟩, hq, rfl⟩ := h
    have hg := hget size 1 mem p hq
    exact ⟨hg.1, hg.2.1, hg.2.2.1, hg.2.2.2.1,
      fun hn => ⟨(hg.2.2.2.2 hn).1, fun _ _ he => by simp at he⟩⟩
  | AllocAligned size align mem =>
    simp only [step, Option.map_eq_some'] at h
    obtain ⟨⟨p, a2⟩, hq, rfl⟩ := h
    have hg := hget size align mem p hq
    exact ⟨hg.1, hg.2.1, hg.2.2.1, hg.2.2.2.1,
      fun hn => ⟨(hg.2.2.2.2 hn).1, fun _ _ he => by simp at he⟩⟩
  | AllocWithHandle size mem =>
    simp only [step, Option.map_eq_some'] at h
    obtain ⟨r, hq, rfl⟩ := h
    have hg := hget size _ mem r.1 (GetMemoryWithHandle_state a size mem r hq)
    refine ⟨hg.1, hg.2.1, hg.2.2.1, hg.2.2.2.1, fun hn => ⟨(hg.2.2.2.2 hn).1, ?_⟩⟩
    intro size2 mem2 he
    simp only [Op.AllocWithHandle.injEq] at he
    rw [← he.1]
    exact (hg.2.2.2.2 hn).2
  | Free memory size => exact absurd hop (by simp [Op.is_allocation])
  | Shrink s n => exact absurd hop (by simp [Op.is_allocation])
  | Realloc s old n mem => exact absurd hop (by simp [Op.is_allocation])
  | Reset => exact absurd hop (by simp [Op.is_allocation])

theorem run_alloc_occupies (ops : List Op) :
    ∀ (a a1 : BaseArena), run a ops = some a1 → (∀ op ∈ ops, op.is_allocation) →
      1 ≤ a.block_count →
      (2 ≤ a.block_count ∨ a.freestart_when_empty_ ≤ a.freestart_) →
      a1.freestart_when_empty_ = a.freestart_when_empty_ ∧
      1 ≤ a1.block_count ∧
      (2 ≤ a1.block_count ∨ a1.freestart_when_empty_ ≤ a1.freestart_) ∧
      ((2 ≤ a.block_count ∨ a.freestart_when_empty_ < a.freestart_) →
        2 ≤ a1.block_count ∨ a1.freestart_when_empty_ < a1.freestart_) ∧
      (¬ (2 ≤ a1.block_count ∨ a1.freestart_when_empty_ < a1.freestart_) →
        a1 = a ∧ ∀ op ∈ ops, step a op = some a ∧
          ∀ size mem, op = Op.AllocWithHandle size mem → size = 0) := by
  induction ops with
  | nil =>
    intro a a1 h _ hcount hinv
    simp only [run, Option.some.injEq] at h
    subst h
    exact ⟨rfl, hcount, hinv, fun hs => hs, fun _ => ⟨rfl, fun op hop => by simp at hop⟩⟩
  | cons op ops ih =>
    intro a a1 h hops hcount hinv
    simp only [run, Option.bind_eq_some] at h
    obtain ⟨a2, hstep, hrun⟩ := h
    have h1 := step_alloc_occupies a op a2 hstep (hops op (List.mem_cons_self _ _))
      hcount hinv
    have h2 := ih a2 a1 hrun (fun o ho => hops o (List.mem_cons_of_mem _ ho)) h1.2.1 h1.2.2.1
    refine ⟨h2.1.trans h1.1, h2.2.1, h2.2.2.1, fun hs => h2.2.2.2.1 (h1.2.2.2.1 hs), ?_⟩
    intro hn
    obtain ⟨he1, hall⟩ := h2.2.2.2.2 hn
    have hn2 : ¬ (2 ≤ a2.block_count ∨ a2.freestart_when_empty_ < a2.freestart_) :=
      fun hs => hn (h2.2.2.2.1 hs)
    obtain ⟨he2, hsz⟩ := h1.2.2.2.2 hn2
    refine ⟨he1.trans he2, ?_⟩
    intro o ho
    rcases List.mem_cons.mp ho with hh | hh
    · rw [hh]
      exact ⟨by rw [hstep, he2], hsz⟩
    · have := hall o hh
      rw [he2] at this
      exact this

theorem set_handle_alignment_empty (a : BaseArena) (align : Int) (a1 : BaseArena)
    (h : a.set_handle_alignment align = some a1) : a.is_empty = true := by
  unfold BaseArena.set_handle_alignment at h
  by_cases he : a.is_empty = true
  · exact he
  · exfalso
    split at h
    · simp at h
    · split at h
      · simp at h
      · split at h
        · simp at h
        · simp at h

/-- C22 (counterexample): on the arena constructed with block size 4096 (block
at 4096), `AllocWithHandle(8, &h)` returns 4096 with the valid handle 0,
`Free(4096, 8)` moves the cursor back to its empty position, and
`set_handle_alignment(8)` completes. With the first block supplied by the
caller at 4098 the handle issued for the address 4100 is 2; after
`Free(4100, 8)` and `set_handle_alignment(8)` it decodes to 4114. -/
theorem C22_counterexample_free_then_realign :
    BaseArena.construct 0 4096 false 4096 slots0 = some (arena_at 4096) ∧
    UnsafeArena.AllocWithHandle (arena_at 4096) 8 0 = some (4096, ⟨0⟩, arena_after_8) ∧
    Handle.valid ⟨0⟩ = true ∧
    UnsafeArena.Free arena_after_8 4096 8 = arena_after_8_freed ∧
    (arena_after_8_freed.set_handle_alignment 8).isSome = true ∧
    BaseArena.construct 4098 4096 false 0 slots0 = some arena_supplied_4098 ∧
    UnsafeArena.AllocWithHandle arena_supplied_4098 8 0
      = some (4100, ⟨2⟩, arena_supplied_4098_after_8) ∧
    Handle.valid ⟨2⟩ = true ∧
    arena_supplied_4098_after_8.HandleToPointer ⟨2⟩ = some 4100 ∧
    (UnsafeArena.Free arena_supplied_4098_after_8 4100 8).set_handle_alignment 8
      = some arena_supplied_4098_align8 ∧
    arena_supplied_4098_align8.HandleToPointer ⟨2⟩ = some 4114 := by
  decide

/-- C22. In every sequence of allocation calls (`Alloc`, `AllocAligned`,
`AllocWithHandle`, with no `Free`, `Shrink` or `Realloc` among them) that
starts right after construction or a `Reset` of an arena whose block 0 is not
at the null address: if `set_handle_alignment` completes without aborting
after the sequence, then the arena state is still the state right after the
`Reset`, every call of the sequence left that state unchanged, and the
sequence contains no `AllocWithHandle` call (so no handle has been issued). -/
theorem C22_alignment_change_after_allocations (x : BaseArena) (ops : List Op)
    (a : BaseArena) (align : Int) (a1 : BaseArena)
    (hb0 : (x.first_blocks_.getD 0 default).mem ≠ 0)
    (hops : ∀ op ∈ ops, op.is_allocation)
    (hrun : run x.Reset ops = some a)
    (hset : a.set_handle_alignment align = some a1) :
    a.is_empty = true ∧ a = x.Reset ∧
    (∀ op ∈ ops, step x.Reset op = some x.Reset) ∧
    (∀ size mem, Op.AllocWithHandle size mem ∉ ops) := by
  have hf := Reset_fields x
  have hc := Reset_cursor x
  have hcount : x.Reset.block_count = 1 := by
    unfold BaseArena.block_count
    simp only [hf.2.1, hf.2.2.1]
  have hempty := set_handle_alignment_empty a align a1 hset
  have hr := run_alloc_occupies ops x.Reset a hrun hops (by omega)
    (Or.inr (by rw [hc.2.2]))
  have hn : ¬ (2 ≤ a.block_count ∨ a.freestart_when_empty_ < a.freestart_) := by
    unfold BaseArena.is_empty at hempty
    simp only [Bool.and_eq_true, beq_iff_eq] at hempty
    omega
  obtain ⟨hax, hall⟩ := hr.2.2.2.2 hn
  refine ⟨hempty, hax, fun op hop => (hall op hop).1, ?_⟩
  intro size mem hin
  have hs := hall _ hin
  have hz : size = 0 := hs.2 size mem rfl
  have hstep := hs.1
  rw [hz] at hstep
  have hnone : x.Reset.GetMemoryWithHandle 0 mem = none := by
    apply GetMemoryWithHandle_zero
    intro i hi b hb
    rw [hcount] at hi
    have hi0 : i = 0 := by omega
    subst hi0
    have hget : x.Reset.IndexToBlock ((0 : Nat) : Int)
        = some (x.Reset.first_blocks_.getD 0 default) := by
      unfold BaseArena.IndexToBlock
      have h0 : to_size_t ((0 : Nat) : Int) = 0 := by decide
      rw [h0, if_pos (by decide)]
    rw [hget] at hb
    simp only [Option.some.injEq] at hb
    rw [← hb, hf.1, FreeBlocks_slot0]
    exact hb0
  simp only [step, UnsafeArena.AllocWithHandle, hnone] at hstep
  simp at hstep

/-- C22 (witness): after `Alloc(0)` and `AllocAligned(0, 8)` on the freshly
constructed arena, `set_handle_alignment(8)` completes. -/
theorem C22_alignment_change_after_allocations_witness :
    (((arena_at 4096).first_blocks_.getD 0 default).mem ≠ 0 ∧
      run (arena_at 4096).Reset [Op.Alloc 0 0, Op.AllocAligned 0 8 0] = some (arena_at 4096) ∧
      (arena_at 4096).set_handle_alignment 8
        = some { arena_at 4096 with handle_alignment_ := 8, handle_alignment_bits_ := 3 }) ∧
    (arena_at 4096).is_empty = true ∧ arena_at 4096 = (arena_at 4096).Reset ∧
    (∀ op ∈ [Op.Alloc 0 0, Op.AllocAligned 0 8 0],
      step (arena_at 4096).Reset op = some (arena_at 4096).Reset) ∧
    (∀ size mem, Op.AllocWithHandle size mem ∉ [Op.Alloc 0 0, Op.AllocAligned 0 8 0]) :=
  ⟨by decide,
    C22_alignment_change_after_allocations (arena_at 4096) [Op.Alloc 0 0, Op.AllocAligned 0 8 0]
      (arena_at 4096) 8 { arena_at 4096 with handle_alignment_ := 8, handle_alignment_bits_ := 3 }
      (by decide)
      (by
        intro op hop
        simp only [List.mem_cons, List.mem_singleton, List.not_mem_nil, or_false] at hop
        rcases hop with h | h <;> subst h <;> trivial)
      (by decide) (by decide)⟩

/-! ## The guarded variant and the unsynchronized one -/

/-- A guarded block entered with the mutex free runs its body and leaves the
mutex free. -/
theorem LockGuard_free {α : Type} (b : BaseArena)
    (body : BaseArena → Option (α × BaseArena)) :
    LockGuard { base := b, mutex_ := { locked := false } } body =
      (body b).map fun r => (r.1, { base := r.2, mutex_ := { locked := false } }) := by
  unfold LockGuard Mutex.Lock Mutex.Unlock
  simp only [Bool.false_eq_true, if_false]
  cases body b with
  | none => rfl
  | some r => rfl

/-- One call on a `SafeArena` whose mutex is free returns what the same call
returns on the `UnsafeArena` in the same state, and leaves that state with the
mutex free. -/
theorem SafeArena_call_eq (b : BaseArena) (m : Memory) (c : Call) :
    SafeArena.call { base := b, mutex_ := { locked := false } } m c =
      (UnsafeArena.call b m c).map fun r =>
        (r.1, { base := r.2.1, mutex_ := { locked := false } }, r.2.2) := by
  cases c with
  | status =>
    simp only [SafeArena.call, SafeArena.status, LockGuard_free, UnsafeArena.call,
      UnsafeArena.status, Option.map_some']
  | bytes_until_next_allocation =>
    simp only [SafeArena.call, SafeArena.bytes_until_next_allocation, LockGuard_free,
      UnsafeArena.call, UnsafeArena.bytes_until_next_allocation, Option.map_some']
  | op o =>
    cases o with
    | Alloc size mem =>
      simp only [SafeArena.call, SafeArena.Alloc, LockGuard_free, UnsafeArena.call,
        UnsafeArena.Alloc, Option.map_map]
      rfl
    | AllocAligned size align mem =>
      simp only [SafeArena.call, SafeArena.AllocAligned, LockGuard_free, UnsafeArena.call,
        UnsafeArena.AllocAligned, Option.map_map]
      rfl
    | AllocWithHandle size mem =>
      simp only [SafeArena.call, SafeArena.AllocWithHandle, LockGuard_free, UnsafeArena.call,
        UnsafeArena.AllocWithHandle, Option.map_map]
      rfl
    | Free memory size =>
      simp only [SafeArena.call, SafeArena.Free, LockGuard_free, UnsafeArena.call,
        UnsafeArena.Free, Option.map_some']
    | Shrink p n =>
      simp only [SafeArena.call, SafeArena.Shrink, LockGuard_free, UnsafeArena.call,
        UnsafeArena.Shrink, Option.map_some']
    | Realloc p old n mem =>
      simp only [SafeArena.call, SafeArena.Realloc, LockGuard_free, UnsafeArena.call,
        UnsafeArena.Realloc, Option.map_some']
      by_cases hb : (b.AdjustLastAlloc p n).1 = true
      · simp only [hb, if_true, Option.map_some']
      · simp only [hb, Bool.false_eq_true, if_false]
        by_cases hle : n ≤ old
        · simp only [hle, if_true, Option.map_some']
        · simp only [hle, if_false, SafeArena.Alloc, LockGuard_free, UnsafeArena.Alloc,
            Option.map_map]
          rfl
    | Reset =>
      simp only [SafeArena.call, SafeArena.Reset, LockGuard_free, UnsafeArena.call,
        Option.map_some']

theorem SafeArena_calls_eq (cs : List Call) :
    ∀ (b : BaseArena) (m : Memory),
      SafeArena.calls { base := b, mutex_ := { locked := false } } m cs =
        (UnsafeArena.calls b m cs).map fun r =>
          (r.1, { base := r.2.1, mutex_ := { locked := false } }, r.2.2) := by
  induction cs with
  | nil =>
    intro b m
    rfl
  | cons c cs ih =>
    intro b m
    simp only [SafeArena.calls, UnsafeArena.calls, SafeArena_call_eq]
    cases hc : UnsafeArena.call b m c with
    | none => rfl
    | some r =>
      obtain ⟨r1, b1, m1⟩ := r
      simp only [Option.map_some', ih]
      cases UnsafeArena.calls b1 m1 cs with
      | none => rfl
      | some q => rfl

/-- C27. For every block size, every answer of the system allocator and every
sequence of calls to `Alloc`, `AllocAligned`, `AllocWithHandle`, `Free`,
`Shrink`, `Realloc`, `Reset`, `status` and `bytes_until_next_allocation` issued
by a single caller: a `SafeArena` and an `UnsafeArena` constructed with the same
block size return the same results in the same order and reach the same arena
state and memory content (the guarded one with its mutex free), and one aborts
exactly when the other does; the same holds call by call from every state
in which the mutex is free. -/
theorem C27_guarded_variant_equivalence (block_size mem : Nat) (slots : List AllocatedBlock)
    (m : Memory) (cs : List Call) :
    ((SafeArena.construct block_size mem slots).bind fun s => SafeArena.calls s m cs) =
      (((BaseArena.construct 0 block_size false mem slots).bind fun a =>
          UnsafeArena.calls a m cs).map fun r =>
        (r.1, { base := r.2.1, mutex_ := { locked := false } }, r.2.2)) ∧
    (∀ (b : BaseArena) (c : Call),
      SafeArena.call { base := b, mutex_ := { locked := false } } m c =
        (UnsafeArena.call b m c).map fun r =>
          (r.1, { base := r.2.1, mutex_ := { locked := false } }, r.2.2)) := by
  refine ⟨?_, fun b c => SafeArena_call_eq b m c⟩
  unfold SafeArena.construct
  cases BaseArena.construct 0 block_size false mem slots with
  | none => rfl
  | some b =>
    simp only [Option.map_some', Option.some_bind]
    exact SafeArena_calls_eq cs b m

/-! ## Reference counts -/

theorem count_append_one (l : List (Option Nat)) (x : Option Nat) (p : Nat) :
    (l ++ [x]).count (some p) = l.count (some p) + (if x = some p then 1 else 0) := by
  rw [List.count_append, List.count_singleton]
  by_cases h : x = some p
  · simp [h]
  · simp [h]

theorem count_set_get (l : List (Option Nat)) :
    ∀ (i : Nat) (old : Option Nat) (new : Option Nat) (p : Nat),
      l[i]? = some old →
      (l.set i new).count (some p) + (if old = some p then 1 else 0)
        = l.count (some p) + (if new = some p then 1 else 0) := by
  induction l with
  | nil =>
    intro i old new p h
    simp at h
  | cons x xs ih =>
    intro i old new p h
    cases i with
    | zero =>
      simp only [List.getElem?_cons_zero, Option.some.injEq] at h
      subst h
      simp only [List.set_cons_zero, List.count_cons, beq_iff_eq]
      omega
    | succ i =>
      simp only [List.getElem?_cons_succ] at h
      have := ih i old new p h
      simp only [List.set_cons_succ, List.count_cons, beq_iff_eq]
      omega

theorem get_eq_some (w : Refs) (i q : Nat) (h : scoped_refptr.get w i = some q) :
    w.ptrs[i]? = some (some q) := by
  unfold scoped_refptr.get at h
  rw [List.getD_eq_getElem?_getD] at h
  cases hg : w.ptrs[i]? with
  | none => rw [hg] at h; simp at h
  | some x =>
    rw [hg] at h
    simp only [Option.getD_some] at h
    rw [h]

theorem cond_AddRef (h : Heap) (q x : Nat) (hx : x ≠ 0) :
    ((if q ≠ 0 then scoped_refptr.AddRef h q else h) x).base.ref_count_
      = (h x).base.ref_count_ + (if q = x then 1 else 0) ∧
    ((if q ≠ 0 then scoped_refptr.AddRef h q else h) x).deleted = (h x).deleted := by
  by_cases hq : q = 0
  · have hne : q ≠ x := by omega
    simp [hq, hne, Ne.symm hx]
  · by_cases hqx : q = x
    · subst hqx
      simp [hq, scoped_refptr.AddRef, RefCounted.AddRef, RefCountedBase.AddRef]
    · simp [hq, hqx, scoped_refptr.AddRef, Function.update_noteq (Ne.symm hqx)]

theorem cond_Release (h : Heap) (q x : Nat) (hx : x ≠ 0) :
    ((if q ≠ 0 then scoped_refptr.Release h q else h) x).base.ref_count_
      = (h x).base.ref_count_ - (if q = x then 1 else 0) ∧
    ((if q ≠ 0 then scoped_refptr.Release h q else h) x).deleted
      = (h x).deleted + (if q = x ∧ (h x).base.ref_count_ = 1 then 1 else 0) := by
  by_cases hq : q = 0
  · have hne : q ≠ x := by omega
    simp [hq, hne, Ne.symm hx]
  · by_cases hqx : q = x
    · subst hqx
      simp only [hq, ne_eq, not_false_eq_true, if_true, scoped_refptr.Release,
        Function.update_same, RefCounted.Release, RefCountedBase.Release, true_and]
      by_cases h1 : (h q).base.ref_count_ = 1
      · have h0 : (h q).base.ref_count_ - 1 = 0 := by omega
        simp [h0, h1]
      · have h0 : ¬ (h q).base.ref_count_ - 1 = 0 := by omega
        simp [h0, h1]
    · simp [hq, hqx, scoped_refptr.Release, Function.update_noteq (Ne.symm hqx)]

/-- A live instance that points to `q` is counted among the instances of `q`. -/
theorem instances_pos (w : Refs) (i q : Nat) (h : scoped_refptr.get w i = some q) :
    1 ≤ w.instances q := by
  have hg := get_eq_some w i q h
  have hc := count_set_get w.ptrs i (some q) none q hg
  unfold Refs.instances
  simp only [if_true, reduceCtorEq, if_false, Nat.add_zero] at hc
  omega

/-- In a state that satisfies the invariant, an object that a live instance
points to has not been deleted. -/
theorem counted_not_deleted (w : Refs) (i q : Nat) (hc : w.counted)
    (h : scoped_refptr.get w i = some q) : q = 0 ∨ (w.heap q).deleted = 0 := by
  by_cases hq : q = 0
  · exact Or.inl hq
  · right
    have hp := instances_pos w i q h
    have := hc q hq
    omega

theorem construct_counted (w : Refs) (p : Nat) (hc : w.counted)
    (hv : p = 0 ∨ (w.heap p).deleted = 0) :
    (scoped_refptr.construct w p).counted ∧ w.deletes (scoped_refptr.construct w p) := by
  have hi : ∀ x, (scoped_refptr.construct w p).instances x
      = w.instances x + (if p = x then 1 else 0) := by
    intro x
    unfold Refs.instances scoped_refptr.construct
    simp only [count_append_one, Option.some.injEq]
  constructor
  · intro x hx
    have ha := cond_AddRef w.heap p x hx
    have hcx := hc x hx
    rw [hi x]
    show ((if p ≠ 0 then scoped_refptr.AddRef w.heap p else w.heap) x).base.ref_count_ = _ ∧
      ((if p ≠ 0 then scoped_refptr.AddRef w.heap p else w.heap) x).deleted ≤ 1 ∧
      (((if p ≠ 0 then scoped_refptr.AddRef w.heap p else w.heap) x).deleted = 1 → _)
    rw [ha.1, ha.2]
    by_cases hpx : p = x
    · subst hpx
      simp only [if_true]
      rcases hv with h0 | h0
      · exact absurd h0 hx
      · refine ⟨by push_cast; omega, by omega, by omega⟩
    · simp only [hpx, if_false]
      exact ⟨by push_cast; omega, hcx.2.1, by omega⟩
  · intro x hx
    have ha := cond_AddRef w.heap p x hx
    rw [hi x]
    show ((if p ≠ 0 then scoped_refptr.AddRef w.heap p else w.heap) x).deleted = _
    rw [ha.2]
    have hcx := hc x hx
    by_cases hpx : p = x
    · simp [hpx]
    · simp only [hpx, if_false, Nat.add_zero]
      by_cases h1 : w.instances x = 1
      · simp [h1]
      · simp [h1]

/-- The common shape of the operations: one reference to `add` is taken
(`AddRef`, and one more instance points to it) and one reference to `rel`, held
by a live instance, is given up (that instance stops pointing to it, then
`Release`); 0 stands for no object. Such a step keeps the invariant, and it
deletes an object exactly when its number of instances drops from 1 to 0. -/
theorem counted_core (w w1 : Refs) (add rel : Nat) (hc : w.counted)
    (hheap : w1.heap =
      (if rel ≠ 0 then
        scoped_refptr.Release (if add ≠ 0 then scoped_refptr.AddRef w.heap add else w.heap) rel
      else (if add ≠ 0 then scoped_refptr.AddRef w.heap add else w.heap)))
    (hinst : ∀ x, x ≠ 0 → w1.instances x + (if rel = x then 1 else 0)
      = w.instances x + (if add = x then 1 else 0))
    (hrel : rel = 0 ∨ 1 ≤ w.instances rel)
    (hadd : add = 0 ∨ (w.heap add).deleted = 0) :
    w1.counted ∧ w.deletes w1 := by
  have key : ∀ x, x ≠ 0 →
      (w1.heap x).base.ref_count_
        = (w.heap x).base.ref_count_ + (if add = x then 1 else 0) - (if rel = x then 1 else 0) ∧
      (w1.heap x).deleted = (w.heap x).deleted +
        (if rel = x ∧ (w.heap x).base.ref_count_ + (if add = x then 1 else 0) = 1
          then 1 else 0) := by
    intro x hx
    have ha := cond_AddRef w.heap add x hx
    have hr := cond_Release (if add ≠ 0 then scoped_refptr.AddRef w.heap add else w.heap)
      rel x hx
    rw [hheap, hr.1, hr.2, ha.1, ha.2]
    exact ⟨rfl, rfl⟩
  constructor
  · intro x hx
    obtain ⟨k1, k2⟩ := key x hx
    have hcx := hc x hx
    have hix := hinst x hx
    rw [k1, k2]
    by_cases hrx : rel = x
    · have hpos : 1 ≤ w.instances x := by
        rcases hrel with h0 | h0
        · exact absurd (hrx ▸ h0) hx
        · rw [hrx] at h0
          exact h0
      by_cases hax : add = x
      · simp only [hrx, hax, if_true, true_and] at hix ⊢
        split_ifs <;> omega
      · simp only [hrx, hax, if_true, if_false, true_and] at hix ⊢
        split_ifs <;> omega
    · by_cases hax : add = x
      · have hd : (w.heap x).deleted = 0 := by
          rcases hadd with h0 | h0
          · exact absurd (hax ▸ h0) hx
          · rw [hax] at h0
            exact h0
        simp only [hrx, hax, if_true, if_false, false_and] at hix ⊢
        omega
      · simp only [hrx, hax, if_false, false_and] at hix ⊢
        omega
  · intro x hx
    obtain ⟨k1, k2⟩ := key x hx
    have hcx := hc x hx
    have hix := hinst x hx
    rw [k2]
    by_cases hrx : rel = x
    · have hpos : 1 ≤ w.instances x := by
        rcases hrel with h0 | h0
        · exact absurd (hrx ▸ h0) hx
        · rw [hrx] at h0
          exact h0
      by_cases hax : add = x
      · simp only [hrx, hax, if_true, true_and] at hix ⊢
        split_ifs <;> omega
      · simp only [hrx, hax, if_true, if_false, true_and] at hix ⊢
        split_ifs <;> omega
    · by_cases hax : add = x
      · simp only [hrx, hax, if_true, if_false, false_and] at hix ⊢
        split_ifs <;> omega
      · simp only [hrx, hax, if_false, false_and] at hix ⊢
        split_ifs <;> omega

/-- A step that leaves the objects alone and keeps the number of instances of
every object keeps the invariant and deletes nothing; what a later step
deletes is then the same counted from the state before. -/
theorem counted_same (w w1 : Refs) (hheap : w1.heap = w.heap)
    (hinst : ∀ x, x ≠ 0 → w1.instances x = w.instances x) :
    (w.counted → w1.counted) ∧ w.deletes w1 ∧ (∀ w2, w1.deletes w2 → w.deletes w2) := by
  refine ⟨?_, ?_, ?_⟩
  · intro hc x hx
    rw [hheap, hinst x hx]
    exact hc x hx
  · intro x hx
    rw [hheap, hinst x hx]
    split_ifs <;> omega
  · intro w2 hd x hx
    have := hd x hx
    rw [hheap, hinst x hx] at this
    exact this

theorem get_lt (w : Refs) (i q : Nat) (h : scoped_refptr.get w i = some q) :
    i < w.ptrs.length := by
  have hg := get_eq_some w i q h
  by_contra hge
  rw [List.getElem?_eq_none (by omega)] at hg
  simp at hg

theorem move_construct_effect (w : Refs) (r q : Nat) (h : scoped_refptr.get w r = some q) :
    scoped_refptr.move_construct w r
      = some { heap := w.heap, ptrs := (w.ptrs.set r (some 0)) ++ [some q] } ∧
    (∀ x, x ≠ 0 →
      Refs.instances { heap := w.heap, ptrs := (w.ptrs.set r (some 0)) ++ [some q] } x
        = w.instances x) := by
  constructor
  · unfold scoped_refptr.move_construct
    rw [h]
  · intro x hx
    have hc := count_set_get w.ptrs r (some q) (some 0) x (get_eq_some w r q h)
    unfold Refs.instances
    simp only [count_append_one, Option.some.injEq] at hc ⊢
    have h0 : ¬ (0 = x) := fun e => hx e.symm
    simp only [h0, if_false] at hc
    omega

theorem swap_effect (w : Refs) (i r p q : Nat) (hi : scoped_refptr.get w i = some p)
    (hr : scoped_refptr.get w r = some q) :
    scoped_refptr.swap w i r
      = some { w with ptrs := (w.ptrs.set i (some q)).set r (some p) } ∧
    (∀ x, Refs.instances { w with ptrs := (w.ptrs.set i (some q)).set r (some p) } x
        = w.instances x) := by
  constructor
  · unfold scoped_refptr.swap
    rw [hi, hr]
  · intro x
    have hil := get_lt w i p hi
    have h1 := count_set_get w.ptrs i (some p) (some q) x (get_eq_some w i p hi)
    have hr2 : (w.ptrs.set i (some q))[r]? = some (some q) := by
      by_cases hir : i = r
      · subst hir
        exact List.getElem?_set_self hil
      · rw [List.getElem?_set_ne hir]
        exact get_eq_some w r q hr
    have h2 := count_set_get (w.ptrs.set i (some q)) r (some q) (some p) x hr2
    unfold Refs.instances
    simp only [Option.some.injEq] at h1 h2 ⊢
    omega

theorem destruct_effect (w : Refs) (i q : Nat) (h : scoped_refptr.get w i = some q)
    (hc : w.counted) :
    scoped_refptr.destruct w i
      = some { heap := if q ≠ 0 then scoped_refptr.Release w.heap q else w.heap,
               ptrs := w.ptrs.set i none } ∧
    Refs.counted { heap := if q ≠ 0 then scoped_refptr.Release w.heap q else w.heap,
                   ptrs := w.ptrs.set i none } ∧
    w.deletes { heap := if q ≠ 0 then scoped_refptr.Release w.heap q else w.heap,
                ptrs := w.ptrs.set i none } := by
  refine ⟨?_, ?_⟩
  · unfold scoped_refptr.destruct
    rw [h]
  · apply counted_core w _ 0 q hc
    · simp
    · intro x hx
      have h1 := count_set_get w.ptrs i (some q) none x (get_eq_some w i q h)
      unfold Refs.instances
      have h0 : ¬ (0 = x) := fun e => hx e.symm
      simp only [Option.some.injEq, reduceCtorEq, if_false, h0] at h1 ⊢
      omega
    · exact Or.inr (instances_pos w i q h)
    · exact Or.inl rfl

theorem assign_pointer_effect (w : Refs) (i old_ptr p : Nat)
    (h : scoped_refptr.get w i = some old_ptr) (hc : w.counted)
    (hv : p = 0 ∨ (w.heap p).deleted = 0) :
    ∃ w1, scoped_refptr.assign_pointer w i p = some w1 ∧ w1.counted ∧ w.deletes w1 := by
  refine ⟨_, by unfold scoped_refptr.assign_pointer; rw [h], ?_⟩
  apply counted_core w _ p old_ptr hc
  · rfl
  · intro x hx
    have h1 := count_set_get w.ptrs i (some old_ptr) (some p) x (get_eq_some w i old_ptr h)
    unfold Refs.instances
    simp only [Option.some.injEq] at h1 ⊢
    omega
  · exact Or.inr (instances_pos w i old_ptr h)
  · exact hv

theorem move_construct_inv (w : Refs) (r : Nat) (w1 : Refs)
    (h : scoped_refptr.move_construct w r = some w1) :
    w1.heap = w.heap ∧ (∀ x, x ≠ 0 → w1.instances x = w.instances x) := by
  cases hg : scoped_refptr.get w r with
  | none =>
    unfold scoped_refptr.move_construct at h
    rw [hg] at h
    simp at h
  | some q =>
    have he := move_construct_effect w r q hg
    rw [he.1] at h
    simp only [Option.some.injEq] at h
    subst h
    exact ⟨rfl, he.2⟩

theorem swap_inv (w : Refs) (i r : Nat) (w1 : Refs)
    (h : scoped_refptr.swap w i r = some w1) :
    w1.heap = w.heap ∧ (∀ x, x ≠ 0 → w1.instances x = w.instances x) := by
  cases hi : scoped_refptr.get w i with
  | none =>
    unfold scoped_refptr.swap at h
    rw [hi] at h
    simp at h
  | some p =>
    cases hr : scoped_refptr.get w r with
    | none =>
      unfold scoped_refptr.swap at h
      rw [hi, hr] at h
      simp at h
    | some q =>
      have he := swap_effect w i r p q hi hr
      rw [he.1] at h
      simp only [Option.some.injEq] at h
      subst h
      exact ⟨rfl, fun x _ => he.2 x⟩

theorem destruct_inv (w : Refs) (i : Nat) (w1 : Refs) (hc : w.counted)
    (h : scoped_refptr.destruct w i = some w1) : w1.counted ∧ w.deletes w1 := by
  cases hg : scoped_refptr.get w i with
  | none =>
    unfold scoped_refptr.destruct at h
    rw [hg] at h
    simp at h
  | some q =>
    have he := destruct_effect w i q hg hc
    rw [he.1] at h
    simp only [Option.some.injEq] at h
    subst h
    exact he.2

/-- One operation on a state that satisfies the invariant, given a raw pointer
that is null or points to an object not yet deleted: the invariant holds
afterwards, and an object is deleted exactly when the number of instances that
point to it drops from 1 to 0. -/
theorem RefOp_step_counted (w : Refs) (op : RefOp) (w1 : Refs) (hc : w.counted)
    (hv : RefOp.valid w op) (h : RefOp.step w op = some w1) :
    w1.counted ∧ w.deletes w1 := by
  cases op with
  | construct p =>
    simp only [RefOp.step, Option.some.injEq] at h
    subst h
    exact construct_counted w p hc hv
  | copy_construct r =>
    simp only [RefOp.step, scoped_refptr.copy_construct] at h
    cases hg : scoped_refptr.get w r with
    | none => rw [hg] at h; simp at h
    | some q =>
      rw [hg] at h
      simp only [Option.some.injEq] at h
      subst h
      exact construct_counted w q hc (counted_not_deleted w r q hc hg)
  | move_construct r =>
    simp only [RefOp.step] at h
    have hm := move_construct_inv w r w1 h
    have hs := counted_same w w1 hm.1 hm.2
    exact ⟨hs.1 hc, hs.2.1⟩
  | assign_pointer i p =>
    simp only [RefOp.step] at h
    cases hg : scoped_refptr.get w i with
    | none =>
      unfold scoped_refptr.assign_pointer at h
      rw [hg] at h
      simp at h
    | some old_ptr =>
      obtain ⟨w2, h2, hc2, hd2⟩ := assign_pointer_effect w i old_ptr p hg hc hv
      rw [h2] at h
      simp only [Option.some.injEq] at h
      subst h
      exact ⟨hc2, hd2⟩
  | assign i r =>
    simp only [RefOp.step, scoped_refptr.assign] at h
    cases hr : scoped_refptr.get w r with
    | none => rw [hr] at h; simp at h
    | some q =>
      rw [hr] at h
      simp only at h
      cases hg : scoped_refptr.get w i with
      | none =>
        unfold scoped_refptr.assign_pointer at h
        rw [hg] at h
        simp at h
      | some old_ptr =>
        obtain ⟨w2, h2, hc2, hd2⟩ :=
          assign_pointer_effect w i old_ptr q hg hc (counted_not_deleted w r q hc hr)
        rw [h2] at h
        simp only [Option.some.injEq] at h
        subst h
        exact ⟨hc2, hd2⟩
  | move_assign i r =>
    simp only [RefOp.step, scoped_refptr.move_assign, Option.bind_eq_some] at h
    obtain ⟨wa, h1, wb, h2, h3⟩ := h
    have hm := move_construct_inv w r wa h1
    have hs1 := counted_same w wa hm.1 hm.2
    have hw := swap_inv wa w.ptrs.length i wb h2
    have hs2 := counted_same wa wb hw.1 hw.2
    have hd := destruct_inv wb w.ptrs.length w1 (hs2.1 (hs1.1 hc)) h3
    exact ⟨hd.1, hs1.2.2 w1 (hs2.2.2 w1 hd.2)⟩
  | swap i r =>
    simp only [RefOp.step] at h
    have hw := swap_inv w i r w1 h
    have hs := counted_same w w1 hw.1 hw.2
    exact ⟨hs.1 hc, hs.2.1⟩
  | destruct i =>
    simp only [RefOp.step] at h
    exact destruct_inv w i w1 hc h

theorem RefOp_run_counted (ops : List RefOp) :
    ∀ (w w1 : Refs), w.counted → RefOp.run_valid w ops → RefOp.run w ops = some w1 →
      w1.counted := by
  induction ops with
  | nil =>
    intro w w1 hc _ h
    simp only [RefOp.run, Option.some.injEq] at h
    subst h
    exact hc
  | cons op ops ih =>
    intro w w1 hc hv h
    simp only [RefOp.run, Option.bind_eq_some] at h
    obtain ⟨w2, hstep, hrun⟩ := h
    simp only [RefOp.run_valid, hstep] at hv
    exact ih w2 w1 (RefOp_step_counted w op w2 hc hv.1 hstep).1 hv.2 hrun

theorem initial_counted : Refs.initial.counted := by
  intro p _
  simp [Refs.initial, Refs.instances, RefCounted.construct, RefCountedBase.construct]

theorem get_of_getElem (w : Refs) (i q : Nat) (h : w.ptrs[i]? = some (some q)) :
    scoped_refptr.get w i = some q := by
  unfold scoped_refptr.get
  rw [List.getD_eq_getElem?_getD, h]
  rfl

/-- The state that the move assignment `i = std::move(r)` leaves, for two
distinct live instances. -/
theorem move_assign_effect (w : Refs) (i r raw old_ptr : Nat)
    (hr : scoped_refptr.get w r = some raw) (hi : scoped_refptr.get w i = some old_ptr)
    (hne : i ≠ r) :
    scoped_refptr.move_assign w i r =
      some { heap := if old_ptr ≠ 0 then scoped_refptr.Release w.heap old_ptr else w.heap,
             ptrs := ((w.ptrs.set r (some 0)).set i (some raw)) ++ [none] } := by
  have hil := get_lt w i old_ptr hi
  have hrl := get_lt w r raw hr
  have hgi := get_eq_some w i old_ptr hi
  unfold scoped_refptr.move_assign
  rw [(move_construct_effect w r raw hr).1]
  simp only [Option.some_bind]
  have ha_n : scoped_refptr.get
      { heap := w.heap, ptrs := (w.ptrs.set r (some 0)) ++ [some raw] } w.ptrs.length
      = some raw := by
    apply get_of_getElem
    show ((w.ptrs.set r (some 0)) ++ [some raw])[w.ptrs.length]? = some (some raw)
    rw [List.getElem?_append_right (by simp)]
    simp
  have ha_i : scoped_refptr.get
      { heap := w.heap, ptrs := (w.ptrs.set r (some 0)) ++ [some raw] } i
      = some old_ptr := by
    apply get_of_getElem
    show ((w.ptrs.set r (some 0)) ++ [some raw])[i]? = some (some old_ptr)
    rw [List.getElem?_append_left (by simp; exact hil), List.getElem?_set_ne (Ne.symm hne)]
    exact hgi
  rw [(swap_effect _ w.ptrs.length i raw old_ptr ha_n ha_i).1]
  simp only [Option.some_bind]
  have hptrs : (((w.ptrs.set r (some 0)) ++ [some raw]).set w.ptrs.length (some old_ptr)).set i
      (some raw) = ((w.ptrs.set r (some 0)).set i (some raw)) ++ [some old_ptr] := by
    rw [List.set_append_right _ _ (by simp), List.set_append_left _ _ (by simp; exact hil)]
    simp
  rw [hptrs]
  have hb_n : scoped_refptr.get
      { heap := w.heap, ptrs := ((w.ptrs.set r (some 0)).set i (some raw)) ++ [some old_ptr] }
      w.ptrs.length = some old_ptr := by
    apply get_of_getElem
    show (((w.ptrs.set r (some 0)).set i (some raw)) ++ [some old_ptr])[w.ptrs.length]?
      = some (some old_ptr)
    rw [List.getElem?_append_right (by simp)]
    simp
  unfold scoped_refptr.destruct
  rw [hb_n]
  simp only [Option.some.injEq, Refs.mk.injEq, true_and]
  rw [List.set_append_right _ _ (by simp)]
  simp

/-- C28. Over every sequence of `scoped_refptr` operations (construction from a
raw pointer, copy construction, move construction, assignment from a raw
pointer, copy assignment, move assignment, swap, destruction) that starts with
freshly constructed objects and no instance, and in which every raw pointer
handed to a constructor or an assignment is null or points to an object not
yet deleted: the `ref_count_` of every object equals the number of live
`scoped_refptr` instances that point to it; no object has been deleted more
than once, and a deleted object has no instance left; and in every further
operation an object is deleted exactly when the number of instances that
point to it drops from 1 to 0. -/
theorem C28_reference_count_invariant (ops : List RefOp) (w : Refs)
    (hvalid : RefOp.run_valid Refs.initial ops)
    (hrun : RefOp.run Refs.initial ops = some w) :
    (∀ p, p ≠ 0 →
      (w.heap p).base.ref_count_ = (w.instances p : Int) ∧
      (w.heap p).deleted ≤ 1 ∧
      ((w.heap p).deleted = 1 → w.instances p = 0)) ∧
    (∀ (op : RefOp) (w1 : Refs), RefOp.valid w op → RefOp.step w op = some w1 →
      ∀ p, p ≠ 0 →
        (w1.heap p).deleted =
          (w.heap p).deleted + (if w.instances p = 1 ∧ w1.instances p = 0 then 1 else 0)) := by
  have hc := RefOp_run_counted ops Refs.initial w initial_counted hvalid hrun
  exact ⟨hc, fun op w1 hv hs => (RefOp_step_counted w op w1 hc hv hs).2⟩

/-- C28 (witness): two objects at 100 and 200; `p1(100)`, `p2(200)`, `p3(p1)`,
`p1 = std::move(p2)`, then the destruction of `p3`: the object at 100 has been
deleted once and has no reference, the object at 200 has one. -/
theorem C28_reference_count_invariant_witness :
    (RefOp.run_valid Refs.initial refs_example_ops ∧
      RefOp.run Refs.initial refs_example_ops = some refs_example ∧
      refs_example.ptrs = [some 200, some 0, none, none] ∧
      refs_example.heap 100 = { base := { ref_count_ := 0 }, deleted := 1 } ∧
      refs_example.heap 200 = { base := { ref_count_ := 1 }, deleted := 0 }) ∧
    (∀ p, p ≠ 0 →
      (refs_example.heap p).base.ref_count_ = (refs_example.instances p : Int) ∧
      (refs_example.heap p).deleted ≤ 1 ∧
      ((refs_example.heap p).deleted = 1 → refs_example.instances p = 0)) ∧
    (∀ (op : RefOp) (w1 : Refs), RefOp.valid refs_example op →
      RefOp.step refs_example op = some w1 →
      ∀ p, p ≠ 0 →
        (w1.heap p).deleted =
          (refs_example.heap p).deleted +
            (if refs_example.instances p = 1 ∧ w1.instances p = 0 then 1 else 0)) :=
  ⟨⟨by decide, rfl, by decide, by decide, by decide⟩,
    C28_reference_count_invariant refs_example_ops refs_example (by decide) rfl⟩

/-! ## Self-assignment and moves of `scoped_refptr` -/

/-- C29. For every state and every live instance `var` that holds a pointer `p`
that is not null to an object whose `ref_count_` is at least 1 (the reference
of `var` itself; 1 when `var` is the only reference): the assignment
`var = var` completes, `var.get()` is still `p`, the `ref_count_` of the object
is unchanged and the object is not deleted; the whole state is unchanged. The
count is `ref_count_ + 1` after the `AddRef` that precedes the `Release`. -/
theorem C29_self_assignment (w : Refs) (var p : Nat)
    (hget : scoped_refptr.get w var = some p) (hp : p ≠ 0)
    (hcount : 1 ≤ (w.heap p).base.ref_count_) :
    ∃ w1, scoped_refptr.assign w var var = some w1 ∧
      scoped_refptr.get w1 var = some p ∧
      (w1.heap p).base.ref_count_ = (w.heap p).base.ref_count_ ∧
      (w1.heap p).deleted = (w.heap p).deleted ∧
      w1.heap = w.heap ∧ w1.ptrs = w.ptrs ∧
      ((scoped_refptr.AddRef w.heap p) p).base.ref_count_ = (w.heap p).base.ref_count_ + 1 := by
  have hheap : scoped_refptr.Release (scoped_refptr.AddRef w.heap p) p = w.heap := by
    funext x
    by_cases hx : x = p
    · subst hx
      have h0 : ¬ ((w.heap x).base.ref_count_ + 1 - 1 = 0) := by omega
      simp only [scoped_refptr.Release, scoped_refptr.AddRef, Function.update_same,
        RefCounted.Release, RefCounted.AddRef, RefCountedBase.Release, RefCountedBase.AddRef,
        h0, if_false]
      have e : (w.heap x).base.ref_count_ + 1 - 1 = (w.heap x).base.ref_count_ := by omega
      simp [e]
    · simp [scoped_refptr.Release, scoped_refptr.AddRef, Function.update_noteq hx]
  have hptrs : w.ptrs.set var (some p) = w.ptrs := by
    apply List.ext_getElem?
    intro n
    by_cases hn : var = n
    · subst hn
      rw [List.getElem?_set_self (get_lt w var p hget)]
      exact (get_eq_some w var p hget).symm
    · rw [List.getElem?_set_ne hn]
  have hrun : scoped_refptr.assign w var var = some { heap := w.heap, ptrs := w.ptrs } := by
    unfold scoped_refptr.assign
    rw [hget]
    unfold scoped_refptr.assign_pointer
    rw [hget]
    simp only [hp, ne_eq, not_false_eq_true, if_true, hheap, hptrs]
  refine ⟨_, hrun, hget, rfl, rfl, rfl, rfl, ?_⟩
  simp [scoped_refptr.AddRef, RefCounted.AddRef, RefCountedBase.AddRef]

/-- C29 (witness): `var(p)` is the only reference to the object at 100. -/
theorem C29_self_assignment_witness :
    (scoped_refptr.get refs_one 0 = some 100 ∧ (100 : Nat) ≠ 0 ∧
      (refs_one.heap 100).base.ref_count_ = 1) ∧
    ∃ w1, scoped_refptr.assign refs_one 0 0 = some w1 ∧
      scoped_refptr.get w1 0 = some 100 ∧
      (w1.heap 100).base.ref_count_ = (refs_one.heap 100).base.ref_count_ ∧
      (w1.heap 100).deleted = (refs_one.heap 100).deleted ∧
      w1.heap = refs_one.heap ∧ w1.ptrs = refs_one.ptrs ∧
      ((scoped_refptr.AddRef refs_one.heap 100) 100).base.ref_count_
        = (refs_one.heap 100).base.ref_count_ + 1 :=
  ⟨by decide, C29_self_assignment refs_one 0 100 (by decide) (by decide) (by decide)⟩

/-- C30. For every state, every live source instance `p1` that holds `raw`
(possibly null) and every live destination instance `p2` other than `p1` that
holds `old`: constructing a new instance from `std::move(p1)` leaves
`p1.get() == nullptr` and the new instance holding `raw`, with no object
touched; `p2 = std::move(p1)` leaves `p1.get() == nullptr` and
`p2.get() == raw`, performs no `AddRef`, and calls `Release` exactly once on
`old` when `old` is not null (every other object is untouched): the
`ref_count_` of `old` drops by one and `old` is deleted if and only if its
`ref_count_` was 1, also when `old` is the same object as `raw`. -/
theorem C30_move (w : Refs) (p1 p2 raw old : Nat)
    (h1 : scoped_refptr.get w p1 = some raw) (h2 : scoped_refptr.get w p2 = some old)
    (hne : p2 ≠ p1) :
    (∃ w1, scoped_refptr.move_construct w p1 = some w1 ∧
      scoped_refptr.get w1 p1 = some 0 ∧
      scoped_refptr.get w1 w.ptrs.length = some raw ∧
      w1.heap = w.heap) ∧
    (∃ w2, scoped_refptr.move_assign w p2 p1 = some w2 ∧
      scoped_refptr.get w2 p1 = some 0 ∧
      scoped_refptr.get w2 p2 = some raw ∧
      w2.heap = (if old ≠ 0 then scoped_refptr.Release w.heap old else w.heap) ∧
      (∀ x, x ≠ old → w2.heap x = w.heap x) ∧
      (old ≠ 0 →
        (w2.heap old).base.ref_count_ = (w.heap old).base.ref_count_ - 1 ∧
        (w2.heap old).deleted
          = (w.heap old).deleted + (if (w.heap old).base.ref_count_ = 1 then 1 else 0))) := by
  have h1l := get_lt w p1 raw h1
  have h2l := get_lt w p2 old h2
  constructor
  · refine ⟨_, (move_construct_effect w p1 raw h1).1, ?_, ?_, rfl⟩
    · apply get_of_getElem
      show ((w.ptrs.set p1 (some 0)) ++ [some raw])[p1]? = some (some 0)
      rw [List.getElem?_append_left (by simp; exact h1l), List.getElem?_set_self h1l]
    · apply get_of_getElem
      show ((w.ptrs.set p1 (some 0)) ++ [some raw])[w.ptrs.length]? = some (some raw)
      rw [List.getElem?_append_right (by simp)]
      simp
  · refine ⟨_, move_assign_effect w p2 p1 raw old h1 h2 hne, ?_, ?_, rfl, ?_, ?_⟩
    · apply get_of_getElem
      show (((w.ptrs.set p1 (some 0)).set p2 (some raw)) ++ [none])[p1]? = some (some 0)
      rw [List.getElem?_append_left (by simp; exact h1l), List.getElem?_set_ne hne,
        List.getElem?_set_self h1l]
    · apply get_of_getElem
      show (((w.ptrs.set p1 (some 0)).set p2 (some raw)) ++ [none])[p2]? = some (some raw)
      rw [List.getElem?_append_left (by simp; exact h2l),
        List.getElem?_set_self (by simp; exact h2l)]
    · intro x hx
      show (if old ≠ 0 then scoped_refptr.Release w.heap old else w.heap) x = w.heap x
      by_cases ho : old = 0
      · simp [ho]
      · simp [ho, scoped_refptr.Release, Function.update_noteq hx]
    · intro ho
      have hr := cond_Release w.heap old old ho
      simp only [true_and, if_true] at hr
      exact hr

/-- C30 (witness): `p1(raw1)`, `p2(raw2)` on two objects at 100 and 200, then
`p1 = std::move(p2)`: `p2` is null, `p1` holds `raw2`, the object at 100 is
deleted and the count of the object at 200 is still 1. -/
theorem C30_move_witness :
    (scoped_refptr.get refs_two 1 = some 200 ∧ scoped_refptr.get refs_two 0 = some 100 ∧
      (0 : Nat) ≠ 1 ∧ (refs_two.heap 100).base.ref_count_ = 1 ∧
      (refs_two.heap 200).base.ref_count_ = 1) ∧
    (∃ w1, scoped_refptr.move_construct refs_two 1 = some w1 ∧
      scoped_refptr.get w1 1 = some 0 ∧
      scoped_refptr.get w1 refs_two.ptrs.length = some 200 ∧
      w1.heap = refs_two.heap) ∧
    (∃ w2, scoped_refptr.move_assign refs_two 0 1 = some w2 ∧
      scoped_refptr.get w2 1 = some 0 ∧
      scoped_refptr.get w2 0 = some 200 ∧
      w2.heap = (if (100 : Nat) ≠ 0 then scoped_refptr.Release refs_two.heap 100
        else refs_two.heap) ∧
      (∀ x, x ≠ 100 → w2.heap x = refs_two.heap x) ∧
      ((100 : Nat) ≠ 0 →
        (w2.heap 100).base.ref_count_ = (refs_two.heap 100).base.ref_count_ - 1 ∧
        (w2.heap 100).deleted
          = (refs_two.heap 100).deleted
            + (if (refs_two.heap 100).base.ref_count_ = 1 then 1 else 0))) :=
  ⟨by decide, C30_move refs_two 1 0 200 100 (by decide) (by decide) (by decide)⟩

/-! ## The fast path and the slow path -/

/-- C39. For every arena state (with `remaining_` a `size_t`) and every `size`
with `0 < size < remaining_` and `size <= block_size / 4`, `GetMemory(size, 1)`
takes the inline fast path, and it returns the same address and leaves the
same state as `GetMemoryFallback(size, 1)` from the same state. -/
theorem C39_fast_path_refines_slow_path (a : BaseArena) (size mem : Nat)
    (h0 : 0 < size) (hlt : size < a.remaining_) (hsmall : size ≤ a.block_size_ / 4)
    (hr : a.remaining_ < 2 ^ 64) :
    GetMemory_path a size 1 = Path.fast ∧
    a.GetMemory size 1 mem = a.GetMemoryFallback size 1 mem ∧
    a.GetMemoryFallback size 1 mem = some (a.freestart_, { a with
      last_alloc_ := a.freestart_,
      freestart_ := a.freestart_ + size,
      remaining_ := a.remaining_ - size }) := by
  have hfast := GetMemory_fast a size mem h0 hlt
  have hbig : ¬ (a.block_size_ = 0 ∨ size > a.block_size_ / 4) := by omega
  have hfb : a.GetMemoryFallback size 1 mem = some (a.freestart_, { a with
      last_alloc_ := a.freestart_,
      freestart_ := a.freestart_ + size,
      remaining_ := a.remaining_ - size }) := by
    rw [GetMemoryFallback_small a size 1 mem (by omega) hbig, pad_freestart_one,
      if_neg (by omega)]
    simp only [Option.map_some', BaseArena.bump, Option.some.injEq, Prod.mk.injEq, true_and]
    rw [to_size_t_sub _ _ (by omega) hr]
  refine ⟨?_, ?_, hfb⟩
  · unfold GetMemory_path
    rw [if_pos ⟨h0, hlt, rfl⟩]
  · rw [hfast, hfb]

/-- C39 (witness): `Alloc(100)` on the freshly constructed arena of block size
4096. -/
theorem C39_fast_path_refines_slow_path_witness :
    ((arena_at 4096).GetMemory 100 1 0 = some (4096, arena_after_100) ∧
      (arena_at 4096).GetMemoryFallback 100 1 0 = some (4096, arena_after_100)) ∧
    GetMemory_path (arena_at 4096) 100 1 = Path.fast ∧
    (arena_at 4096).GetMemory 100 1 0 = (arena_at 4096).GetMemoryFallback 100 1 0 ∧
    (arena_at 4096).GetMemoryFallback 100 1 0 = some ((arena_at 4096).freestart_,
      { arena_at 4096 with
        last_alloc_ := (arena_at 4096).freestart_,
        freestart_ := (arena_at 4096).freestart_ + 100,
        remaining_ := (arena_at 4096).remaining_ - 100 }) :=
  ⟨by decide,
    C39_fast_path_refines_slow_path (arena_at 4096) 100 0 (by decide) (by decide) (by decide)
      (by decide)⟩

/-! ## Page rounding -/

/-- C34 (counterexample): in page-aligned mode (block size 8192), a request of
`2^64 - 1` bytes, for which the page-aligned allocation returns the non-null
address 16384: `num_pages` is `2^51` and the `size_t` product
`num_pages * kPageSize` wraps to 0, so the capacity recorded for the new block
is 0. It is not `((size - 1) / 8192 + 1) * 8192 = 2^64`, and it is not at
least `size`. The counter `bytes_allocated_` wraps as well: it goes from 8192
to 8191. -/
theorem C34_counterexample_rounding_wraps :
    arena_paged.page_aligned_ = true ∧
    (1 : Nat) ≤ 2 ^ 64 - 1 ∧ (2 ^ 64 - 1 : Nat) < 2 ^ 64 ∧
    (arena_paged.AllocNewBlock (2 ^ 64 - 1) 16384).map (fun r => r.1)
      = some ⟨16384, 0⟩ ∧
    ((2 ^ 64 - 1 - 1) / 8192 + 1) * 8192 = 2 ^ 64 ∧
    (0 : Nat) ≠ ((2 ^ 64 - 1 - 1) / 8192 + 1) * 8192 ∧
    ¬ (2 ^ 64 - 1 ≤ (0 : Nat)) ∧
    arena_paged.bytes_allocated_ = 8192 ∧
    (arena_paged.AllocNewBlock (2 ^ 64 - 1) 16384).map (fun r => r.2.bytes_allocated_)
      = some 8191 := by
  refine ⟨by decide, by decide, by decide, by decide, by decide, by decide, by decide,
    by decide, by decide⟩

/-- C34 (amended). For every requested size `>= 1` that, in page-aligned
mode, is at most `2^64 - kPageSize` (the sizes whose rounding up to whole pages
is a `size_t`): in page-aligned mode, when the allocation succeeds,
`AllocNewBlock(size)` records the capacity `((size - 1) / 8192 + 1) * 8192`,
which is a multiple of 8192, at least `size`, and at most every multiple of
8192 that is at least `size`, while `bytes_allocated` grows by `size` and not
by the rounded capacity (modulo `2^64`; exactly when the sum is below `2^64`);
in non-page-aligned mode the recorded capacity is `size`, and `bytes_allocated`
grows by `size` in the same way. -/
theorem C34_page_rounding (a : BaseArena) (size mem : Nat)
    (h1 : 1 ≤ size) (hmax : a.page_aligned_ = true → size + kPageSize ≤ 2 ^ 64) :
    (a.page_aligned_ = true → mem ≠ 0 →
      ∃ a1, a.AllocNewBlock size mem
          = some (⟨mem, ((size - 1) / 8192 + 1) * 8192⟩, a1) ∧
        a1.bytes_allocated_ = (a.bytes_allocated_ + size) % 2 ^ 64 ∧
        (a.bytes_allocated_ + size < 2 ^ 64 →
          a1.bytes_allocated_ = a.bytes_allocated_ + size) ∧
        a1.block_count = a.block_count + 1) ∧
    (((size - 1) / 8192 + 1) * 8192) % 8192 = 0 ∧
    size ≤ ((size - 1) / 8192 + 1) * 8192 ∧
    (a.page_aligned_ = true → ((size - 1) / 8192 + 1) * 8192 < 2 ^ 64) ∧
    (∀ m, m % 8192 = 0 → size ≤ m → ((size - 1) / 8192 + 1) * 8192 ≤ m) ∧
    (a.page_aligned_ = false →
      ∃ a1, a.AllocNewBlock size mem = some (⟨mem, size⟩, a1) ∧
        a1.bytes_allocated_ = (a.bytes_allocated_ + size) % 2 ^ 64 ∧
        (a.bytes_allocated_ + size < 2 ^ 64 →
          a1.bytes_allocated_ = a.bytes_allocated_ + size) ∧
        a1.block_count = a.block_count + 1) := by
  have hk : kPageSize = 8192 := rfl
  rw [hk] at hmax
  refine ⟨?_, by omega, by omega, ?_, ?_, ?_⟩
  · intro hp hm
    have hmax := hmax hp
    have hs := AllocNewBlock_some a size mem (fun _ => hm)
    have hcap : a.new_block_capacity size = ((size - 1) / 8192 + 1) * 8192 := by
      unfold BaseArena.new_block_capacity
      rw [hp, hk]
      simp only [if_true]
      exact Nat.mod_eq_of_lt (by omega)
    rw [hcap] at hs
    have hpb := push_block_fields a ⟨mem, ((size - 1) / 8192 + 1) * 8192⟩ size
    exact ⟨_, hs, hpb.2.2.2.2.1,
      fun hlt => by rw [hpb.2.2.2.2.1, Nat.mod_eq_of_lt hlt], hpb.1⟩
  · intro hp
    have hmax := hmax hp
    omega
  · intro m hm hle
    omega
  · intro hp
    have hs := AllocNewBlock_some a size mem (fun h => by rw [hp] at h; exact absurd h (by decide))
    have hcap : a.new_block_capacity size = size := by
      unfold BaseArena.new_block_capacity
      rw [hp]
      rfl
    rw [hcap] at hs
    have hpb := push_block_fields a ⟨mem, size⟩ size
    exact ⟨_, hs, hpb.2.2.2.2.1,
      fun hlt => by rw [hpb.2.2.2.2.1, Nat.mod_eq_of_lt hlt], hpb.1⟩

/-- C34 (witness): a request of 3000 bytes in page-aligned mode is recorded
with capacity 8192, and `bytes_allocated` grows by 3000. -/
theorem C34_page_rounding_witness :
    (arena_paged.page_aligned_ = true ∧
      (arena_paged.AllocNewBlock 3000 16384).map (fun r => (r.1, r.2.bytes_allocated_))
        = some (⟨16384, 8192⟩, 8192 + 3000)) ∧
    (arena_paged.page_aligned_ = true → (16384 : Nat) ≠ 0 →
      ∃ a1, arena_paged.AllocNewBlock 3000 16384
          = some (⟨16384, ((3000 - 1) / 8192 + 1) * 8192⟩, a1) ∧
        a1.bytes_allocated_ = (arena_paged.bytes_allocated_ + 3000) % 2 ^ 64 ∧
        (arena_paged.bytes_allocated_ + 3000 < 2 ^ 64 →
          a1.bytes_allocated_ = arena_paged.bytes_allocated_ + 3000) ∧
        a1.block_count = arena_paged.block_count + 1) ∧
    (((3000 - 1) / 8192 + 1) * 8192) % 8192 = 0 ∧
    3000 ≤ ((3000 - 1) / 8192 + 1) * 8192 ∧
    (arena_paged.page_aligned_ = true → ((3000 - 1) / 8192 + 1) * 8192 < 2 ^ 64) ∧
    (∀ m, m % 8192 = 0 → 3000 ≤ m → ((3000 - 1) / 8192 + 1) * 8192 ≤ m) ∧
    (arena_paged.page_aligned_ = false →
      ∃ a1, arena_paged.AllocNewBlock 3000 16384 = some (⟨16384, 3000⟩, a1) ∧
        a1.bytes_allocated_ = (arena_paged.bytes_allocated_ + 3000) % 2 ^ 64 ∧
        (arena_paged.bytes_allocated_ + 3000 < 2 ^ 64 →
          a1.bytes_allocated_ = arena_paged.bytes_allocated_ + 3000) ∧
        a1.block_count = arena_paged.block_count + 1) :=
  ⟨by decide, C34_page_rounding arena_paged 3000 16384 (by decide) (by decide)⟩

/-! ## Dedicated blocks and the cursor -/

/-- Appending a block commutes with `AdjustLastAlloc`. -/
theorem push_block_AdjustLastAlloc (a : BaseArena) (b : AllocatedBlock) (block_size : Nat)
    (s n : Nat) :
    (a.push_block b block_size).AdjustLastAlloc s n
      = ((a.AdjustLastAlloc s n).1, (a.AdjustLastAlloc s n).2.push_block b block_size) := by
  unfold BaseArena.push_block BaseArena.AdjustLastAlloc
  by_cases hs : a.blocks_alloced_ < kFirstBlocks
  · simp only [if_pos hs]
    split_ifs <;> simp_all
  · simp only [if_neg hs]
    split_ifs <;> simp_all

/-- Appending a block commutes with `ReturnMemory`. -/
theorem push_block_ReturnMemory (a : BaseArena) (b : AllocatedBlock) (block_size : Nat)
    (memory size : Nat) :
    (a.push_block b block_size).ReturnMemory memory size
      = (a.ReturnMemory memory size).push_block b block_size := by
  unfold BaseArena.push_block BaseArena.ReturnMemory
  by_cases hs : a.blocks_alloced_ < kFirstBlocks
  · simp only [if_pos hs]
    split_ifs <;> simp_all
  · simp only [if_neg hs]
    split_ifs <;> simp_all

/-- C40. Whenever `GetMemoryFallback(size, align)` takes the large-request
branch (`size > 0` and `block_size == 0 || size > block_size / 4`) and the
system allocator answers with a block base `mem` that, unless it is null, is
not the address of the tracked last allocation (and is non-null in page-aligned
mode, where a null answer aborts): the call returns `mem`, the base of the
block it appends to the table; `freestart_`, `remaining_` and `last_alloc_` are
unchanged;
`AdjustLastAlloc` on the returned pointer returns false and changes nothing, so
`Realloc` on it never resizes in place (it returns the pointer with the state
unchanged when the new size is not larger, and otherwise allocates anew and
copies); and `AdjustLastAlloc` and `ReturnMemory` on any other pointer, in
particular the previous bump allocation, answer and move the cursor exactly as
they would have before the call. -/
theorem C40_dedicated_block_frame (a : BaseArena) (size : Nat) (align : Int) (mem : Nat)
    (h0 : 0 < size) (hbig : a.block_size_ = 0 ∨ size > a.block_size_ / 4)
    (hmem : a.page_aligned_ = true → mem ≠ 0)
    (hfresh : mem ≠ 0 → mem ≠ a.last_alloc_) :
    ∃ a1 : BaseArena,
      a.GetMemoryFallback size align mem = some (mem, a1) ∧
      a1 = a.push_block ⟨mem, a.new_block_capacity size⟩ size ∧
      a1.block_count = a.block_count + 1 ∧
      a1.freestart_ = a.freestart_ ∧
      a1.remaining_ = a.remaining_ ∧
      a1.last_alloc_ = a.last_alloc_ ∧
      (∀ n, a1.AdjustLastAlloc mem n = (false, a1)) ∧
      (∀ (m : Memory) (oldsize newsize mem2 : Nat),
        UnsafeArena.Realloc a1 m mem oldsize newsize mem2
          = if newsize ≤ oldsize then some (mem, a1, m)
            else (UnsafeArena.Alloc a1 newsize mem2).map fun q =>
              (q.1, q.2, memcpy m q.1 mem (min oldsize newsize))) ∧
      (∀ p n, a1.AdjustLastAlloc p n
        = ((a.AdjustLastAlloc p n).1,
            (a.AdjustLastAlloc p n).2.push_block ⟨mem, a.new_block_capacity size⟩ size)) ∧
      (∀ p n, a1.ReturnMemory p n
        = (a.ReturnMemory p n).push_block ⟨mem, a.new_block_capacity size⟩ size) := by
  have hs := AllocNewBlock_some a size mem hmem
  have hpb := push_block_fields a ⟨mem, a.new_block_capacity size⟩ size
  have hcall : a.GetMemoryFallback size align mem
      = some (mem, a.push_block ⟨mem, a.new_block_capacity size⟩ size) := by
    unfold BaseArena.GetMemoryFallback
    rw [if_neg (by omega)]
    simp only [if_pos hbig, hs, Option.map_some']
  have hadj : ∀ n, (a.push_block ⟨mem, a.new_block_capacity size⟩ size).AdjustLastAlloc mem n
      = (false, a.push_block ⟨mem, a.new_block_capacity size⟩ size) := by
    intro n
    unfold BaseArena.AdjustLastAlloc
    by_cases hnull : mem = 0
    · rw [if_pos (Or.inl hnull)]
    · rw [if_pos (Or.inr (by rw [hpb.2.2.2.1]; exact hfresh hnull))]
  refine ⟨_, hcall, rfl, hpb.1, hpb.2.1, hpb.2.2.1, hpb.2.2.2.1, hadj, ?_, ?_, ?_⟩
  · intro m oldsize newsize mem2
    unfold UnsafeArena.Realloc
    simp only [hadj]
    simp
  · intro p n
    exact push_block_AdjustLastAlloc a _ size p n
  · intro p n
    exact push_block_ReturnMemory a _ size p n

/-- C40 (witness): after `Alloc(100)` on the fresh arena of block size 4096
(allocation at 4096, cursor at 4196), `Alloc(5000)` is served by a dedicated
block at 9000; the cursor is unchanged, shrinking the returned pointer is
refused, and the allocation at 4096 can still be grown in place. -/
theorem C40_dedicated_block_frame_witness :
    (arena_after_100.last_alloc_ = 4096 ∧ arena_after_100.freestart_ = 4196 ∧
      (arena_after_100.GetMemoryFallback 5000 1 9000).map (fun r =>
          (r.1, r.2.freestart_, r.2.remaining_, r.2.last_alloc_, r.2.block_count,
            (r.2.AdjustLastAlloc 9000 10).1, (r.2.AdjustLastAlloc 4096 200).1,
            (r.2.AdjustLastAlloc 4096 200).2.freestart_))
        = some (9000, 4196, 3996, 4096, 2, false, true, 4296)) ∧
    ∃ a1 : BaseArena,
      arena_after_100.GetMemoryFallback 5000 1 9000 = some (9000, a1) ∧
      a1 = arena_after_100.push_block ⟨9000, arena_after_100.new_block_capacity 5000⟩ 5000 ∧
      a1.block_count = arena_after_100.block_count + 1 ∧
      a1.freestart_ = arena_after_100.freestart_ ∧
      a1.remaining_ = arena_after_100.remaining_ ∧
      a1.last_alloc_ = arena_after_100.last_alloc_ ∧
      (∀ n, a1.AdjustLastAlloc 9000 n = (false, a1)) ∧
      (∀ (m : Memory) (oldsize newsize mem2 : Nat),
        UnsafeArena.Realloc a1 m 9000 oldsize newsize mem2
          = if newsize ≤ oldsize then some (9000, a1, m)
            else (UnsafeArena.Alloc a1 newsize mem2).map fun q =>
              (q.1, q.2, memcpy m q.1 9000 (min oldsize newsize))) ∧
      (∀ p n, a1.AdjustLastAlloc p n
        = ((arena_after_100.AdjustLastAlloc p n).1,
            (arena_after_100.AdjustLastAlloc p n).2.push_block
              ⟨9000, arena_after_100.new_block_capacity 5000⟩ 5000)) ∧
      (∀ p n, a1.ReturnMemory p n
        = (arena_after_100.ReturnMemory p n).push_block
            ⟨9000, arena_after_100.new_block_capacity 5000⟩ 5000) :=
  ⟨⟨by decide, by decide, by rfl⟩,
    C40_dedicated_block_frame arena_after_100 5000 1 9000 (by decide) (Or.inr (by decide))
      (by decide) (fun _ => by decide)⟩

/-! ## Alignment of the returned addresses -/

/-- C38 (the code at the failing input). On the arena of block size 4096 whose
first block is at address 4096, four calls `Alloc(1000)` leave 96 bytes at
address 8096. `AllocAligned(1000, 64)` (64 is a power of two and
`1000 <= 4096 / 4`) pads the cursor to 8128, finds that 1000 bytes do not fit
in the 64 bytes left and acquires a new block; the system allocator returns the
16-byte aligned address 9008. The call returns 9008, which is not a multiple
of 64, and the final assertion `0 == (last_alloc_ & (align - 1))` is false:
the padding is not redone in the new block. -/
theorem C38_new_block_base_is_not_realigned :
    Alloc_each (arena_at 4096) four_allocs
      = some ([4096, 5096, 6096, 7096], arena_after_4000) ∧
    BaseArena.GetMemoryFallback_assert_power_of_two 64 ∧
    1000 ≤ arena_after_4000.block_size_ / 4 ∧
    (arena_after_4000.pad_freestart (to_size_t 64)).freestart_ = 8128 ∧
    (arena_after_4000.pad_freestart (to_size_t 64)).remaining_ = 64 ∧
    GetMemory_path arena_after_4000 1000 64 = Path.new_block ∧
    9008 % 16 = 0 ∧
    (UnsafeArena.AllocAligned arena_after_4000 1000 64 9008).map Prod.fst = some 9008 ∧
    9008 % 64 = 48 ∧
    (∀ r ∈ UnsafeArena.AllocAligned arena_after_4000 1000 64 9008,
      r.2.last_alloc_ = 9008 ∧ ¬ r.2.GetMemoryFallback_assert_aligned 64) := by
  refine ⟨by decide, by decide, by decide, by decide, by decide, by decide, by decide,
    by decide, by decide, ?_⟩
  decide

/-! ## The slow path below a quarter of the block size -/

/-- The padding step for a power of two: `freestart_` moves up by `pad` bytes,
fewer than the alignment, to a multiple of the alignment, and `remaining_`
loses `pad` bytes or becomes 0. -/
theorem pad_freestart_two_pow (a : BaseArena) (k : Nat) (hk : k ≤ 30) :
    ∃ pad : Nat, pad < 2 ^ k ∧ (a.freestart_ + pad) % 2 ^ k = 0 ∧
      a.pad_freestart (2 ^ k) = { a with
        freestart_ := a.freestart_ + pad, remaining_ := a.remaining_ - pad } := by
  have hlt : (2 : Nat) ^ k < 2 ^ 64 :=
    Nat.pow_lt_pow_right (by decide) (by omega)
  have hpos : 0 < (2 : Nat) ^ k := Nat.pow_pos (by decide)
  have h1 : to_size_t ((((2 : Nat) ^ k : Nat) : Int) - 1) = 2 ^ k - 1 := by
    unfold to_size_t
    omega
  have hmod : a.freestart_ % 2 ^ k < 2 ^ k := Nat.mod_lt _ hpos
  unfold BaseArena.pad_freestart
  simp only [h1, Nat.and_pow_two_sub_one_eq_mod]
  by_cases hov : a.freestart_ % 2 ^ k = 0
  · refine ⟨0, hpos, by simpa using hov, ?_⟩
    simp [hov]
  · have hw : to_size_t ((((2 : Nat) ^ k : Nat) : Int) - ((a.freestart_ % 2 ^ k : Nat) : Int))
        = 2 ^ k - a.freestart_ % 2 ^ k := by
      unfold to_size_t
      omega
    refine ⟨2 ^ k - a.freestart_ % 2 ^ k, by omega, ?_, ?_⟩
    · have hdm := Nat.div_add_mod a.freestart_ (2 ^ k)
      have he : a.freestart_ + (2 ^ k - a.freestart_ % 2 ^ k)
          = 2 ^ k * (a.freestart_ / 2 ^ k + 1) := by
        rw [Nat.mul_add, Nat.mul_one]
        generalize 2 ^ k * (a.freestart_ / 2 ^ k) = e at hdm ⊢
        omega
      rw [he]
      exact Nat.mul_mod_right _ _
    · simp only [hw, if_pos hov, ne_eq, not_false_eq_true]
      congr 1
      split <;> omega

/-- C32. For every arena state (with `remaining_` and the capacity of a new
standard block, `block_size_` rounded up to whole pages in page-aligned mode,
in the range of `size_t`), every power-of-two alignment `2^k`
and every `size` with `0 < size <= block_size / 4`, `GetMemoryFallback(size,
2^k)` returns (the system allocator not failing in page-aligned mode) and does
the following. It pads `freestart_` by `pad < 2^k` bytes up to the next
multiple of the alignment, `remaining_` becoming `remaining_ - pad`, or 0 when
the padding is at least `remaining_`. If `size` then fits in what remains, no
block is acquired: the padded `freestart_` is returned and recorded in
`last_alloc_`, `freestart_` advances and `remaining_` shrinks by `size`. If it
does not fit, exactly one block of `block_size_` is acquired: its base `mem`
is returned and recorded in `last_alloc_`, `freestart_` is `mem + size` and
`remaining_` is the capacity of the block less `size`. In both cases `size` is
at most the `remaining_` it is subtracted from. -/
theorem C32_slow_path_bump (a : BaseArena) (size k mem : Nat) (hk : k ≤ 30)
    (h0 : 0 < size) (hsmall : size ≤ a.block_size_ / 4)
    (hr : a.remaining_ < 2 ^ 64)
    (hcap : (if a.page_aligned_ then ((a.block_size_ - 1) / kPageSize + 1) * kPageSize
      else a.block_size_) < 2 ^ 64)
    (hmem : a.page_aligned_ = true → mem ≠ 0) :
    ∃ pad : Nat, pad < 2 ^ k ∧ (a.freestart_ + pad) % 2 ^ k = 0 ∧
      (a.pad_freestart (to_size_t ((2 : Int) ^ k))).freestart_ = a.freestart_ + pad ∧
      (a.pad_freestart (to_size_t ((2 : Int) ^ k))).remaining_
        = (if pad < a.remaining_ then a.remaining_ - pad else 0) ∧
      (size ≤ a.remaining_ - pad →
        GetMemory_path a size ((2 : Int) ^ k) ≠ Path.new_block ∧
        a.GetMemoryFallback size ((2 : Int) ^ k) mem = some (a.freestart_ + pad, { a with
          last_alloc_ := a.freestart_ + pad,
          freestart_ := a.freestart_ + pad + size,
          remaining_ := a.remaining_ - pad - size })) ∧
      (a.remaining_ - pad < size →
        size ≤ a.new_block_capacity a.block_size_ ∧
        a.GetMemoryFallback size ((2 : Int) ^ k) mem = some (mem,
          { a.push_block ⟨mem, a.new_block_capacity a.block_size_⟩ a.block_size_ with
            last_alloc_ := mem,
            freestart_ := mem + size,
            remaining_ := a.new_block_capacity a.block_size_ - size }) ∧
        (a.push_block ⟨mem, a.new_block_capacity a.block_size_⟩ a.block_size_).block_count
          = a.block_count + 1) := by
  obtain ⟨pad, hpad, hmul, hst⟩ := pad_freestart_two_pow a k hk
  have hbig : ¬ (a.block_size_ = 0 ∨ size > a.block_size_ / 4) := by omega
  have hfb := GetMemoryFallback_small a size ((2 : Int) ^ k) mem (by omega) hbig
  rw [to_size_t_two_pow k hk] at hfb ⊢
  rw [hst] at hfb ⊢
  refine ⟨pad, hpad, hmul, rfl, ?_, ?_, ?_⟩
  · show a.remaining_ - pad = _
    split <;> omega
  · intro hfit
    refine ⟨?_, ?_⟩
    · unfold GetMemory_path
      rw [to_size_t_two_pow k hk, hst]
      split_ifs <;> first | decide | (exfalso; simp_all; omega)
    · rw [hfb, if_neg (by show ¬ size > a.remaining_ - pad; omega)]
      simp only [Option.map_some', BaseArena.bump, Option.some.injEq, Prod.mk.injEq, true_and]
      have e : to_size_t (((a.remaining_ - pad : Nat) : Int) - size)
          = a.remaining_ - pad - size := by
        unfold to_size_t
        omega
      rw [e]
  · intro hnofit
    have hb : a.block_size_ ≤ a.new_block_capacity a.block_size_ ∧
        a.new_block_capacity a.block_size_ < 2 ^ 64 := by
      unfold BaseArena.new_block_capacity
      cases hp : a.page_aligned_
      · rw [hp] at hcap
        simpa using hcap
      · rw [hp] at hcap
        simp only [if_true] at hcap ⊢
        rw [Nat.mod_eq_of_lt hcap]
        unfold kPageSize at hcap ⊢
        omega
    have hpb := push_block_fields a ⟨mem, a.new_block_capacity a.block_size_⟩ a.block_size_
    refine ⟨by omega, ?_, hpb.1⟩
    rw [hfb, if_pos (by show size > a.remaining_ - pad; omega)]
    rw [MakeNewBlock_eq { a with
      freestart_ := a.freestart_ + pad, remaining_ := a.remaining_ - pad } mem hmem]
    simp only [Option.map_some', BaseArena.bump, Option.some.injEq, Prod.mk.injEq, true_and]
    have e : to_size_t (((a.new_block_capacity a.block_size_ : Nat) : Int) - size)
        = a.new_block_capacity a.block_size_ - size := by
      unfold to_size_t
      omega
    unfold BaseArena.push_block BaseArena.new_block_capacity at e ⊢
    simp only [e]
    by_cases hs : a.blocks_alloced_ < kFirstBlocks
    · simp only [if_pos hs]
    · simp only [if_neg hs]

/-- C32 (witness): after `Alloc(1)` on the fresh arena of block size 4096 the
cursor is at 4097 with 4095 bytes left; `GetMemoryFallback(100, 8)` pads by 7
bytes to 4104, returns 4104 and leaves the cursor at 4204 with 3988 bytes. -/
theorem C32_slow_path_bump_witness :
    (arena_after_1.freestart_ = 4097 ∧ arena_after_1.remaining_ = 4095 ∧
      (arena_after_1.GetMemoryFallback 100 8 0).map (fun r =>
          (r.1, r.2.freestart_, r.2.remaining_, r.2.last_alloc_, r.2.block_count))
        = some (4104, 4204, 3988, 4104, 1)) ∧
    ∃ pad : Nat, pad < 2 ^ 3 ∧ (arena_after_1.freestart_ + pad) % 2 ^ 3 = 0 ∧
      (arena_after_1.pad_freestart (to_size_t ((2 : Int) ^ 3))).freestart_
        = arena_after_1.freestart_ + pad ∧
      (arena_after_1.pad_freestart (to_size_t ((2 : Int) ^ 3))).remaining_
        = (if pad < arena_after_1.remaining_ then arena_after_1.remaining_ - pad else 0) ∧
      (100 ≤ arena_after_1.remaining_ - pad →
        GetMemory_path arena_after_1 100 ((2 : Int) ^ 3) ≠ Path.new_block ∧
        arena_after_1.GetMemoryFallback 100 ((2 : Int) ^ 3) 0
          = some (arena_after_1.freestart_ + pad, { arena_after_1 with
            last_alloc_ := arena_after_1.freestart_ + pad,
            freestart_ := arena_after_1.freestart_ + pad + 100,
            remaining_ := arena_after_1.remaining_ - pad - 100 })) ∧
      (arena_after_1.remaining_ - pad < 100 →
        100 ≤ arena_after_1.new_block_capacity arena_after_1.block_size_ ∧
        arena_after_1.GetMemoryFallback 100 ((2 : Int) ^ 3) 0 = some (0,
          { arena_after_1.push_block
              ⟨0, arena_after_1.new_block_capacity arena_after_1.block_size_⟩
              arena_after_1.block_size_ with
            last_alloc_ := 0,
            freestart_ := 0 + 100,
            remaining_ := arena_after_1.new_block_capacity arena_after_1.block_size_ - 100 }) ∧
        (arena_after_1.push_block
            ⟨0, arena_after_1.new_block_capacity arena_after_1.block_size_⟩
            arena_after_1.block_size_).block_count
          = arena_after_1.block_count + 1) :=
  ⟨⟨by decide, by decide, by rfl⟩,
    C32_slow_path_bump arena_after_1 100 3 0 (by decide) (by decide) (by decide) (by decide)
      (by decide) (by decide)⟩

/-! ## Dropping the last reference -/

/-- `Release` on an object whose count is 1 and whose member `self_ptr_` is
null: the object is deleted, and nothing else is released. -/
theorem Release_last_member_null (fuel : Nat) (w : SelfRefs) (o : Nat)
    (hone : (w.heap o).base.ref_count_ = 1) (hnull : (w.heap o).self_ptr_ = some 0) :
    ∃ w1, ScopedRefPtrToSelf.Release (fuel + 1) w o = some w1 ∧
      w1.was_destroyed_ = true ∧
      (w1.heap o).deleted = (w.heap o).deleted + 1 ∧
      (w1.heap o).base.ref_count_ = 0 ∧
      (w1.heap o).self_ptr_ = none ∧
      (∀ x, x ≠ o → w1.heap x = w.heap x) := by
  refine ⟨{ heap := Function.update w.heap o
              { base := { ref_count_ := 0 }, self_ptr_ := none,
                deleted := (w.heap o).deleted + 1 },
            was_destroyed_ := true }, ?_, rfl, ?_, ?_, ?_, ?_⟩
  · unfold ScopedRefPtrToSelf.Release
    simp [RefCountedBase.Release, hone, hnull]
  · simp
  · simp
  · simp
  · intro x hx
    simp [Function.update_noteq hx]

/-- The state that `i = nullptr` leaves when the instance `i` is the only one
that points to the object at `p`. -/
theorem assign_null_last (w : Refs) (i p : Nat) (hc : w.counted)
    (hi : scoped_refptr.get w i = some p) (hp : p ≠ 0) (hone : w.instances p = 1) :
    (w.heap p).deleted = 0 ∧
    ∃ w1, scoped_refptr.assign_pointer w i 0 = some w1 ∧
      (w1.heap p).deleted = 1 ∧ (w1.heap p).base.ref_count_ = 0 ∧
      scoped_refptr.get w1 i = some 0 := by
  have hcp := hc p hp
  have hd0 : (w.heap p).deleted = 0 := by
    have h1 := hcp.2.1
    have h2 := hcp.2.2
    omega
  have hrc : (w.heap p).base.ref_count_ = 1 := by
    rw [hcp.1, hone]
    rfl
  refine ⟨hd0, _, by unfold scoped_refptr.assign_pointer; rw [hi], ?_, ?_, ?_⟩
  · have h := (cond_Release w.heap p p hp).2
    simp only [hrc, and_self, if_true, hd0] at h
    simpa using h
  · have h := (cond_Release w.heap p p hp).1
    simp only [hrc, if_true] at h
    simpa using h
  · apply get_of_getElem
    exact List.getElem?_set_self (get_lt w i p hi)

/-- The state that `i = scoped_refptr<T>()` leaves when the instance `i` is the
only one that points to the object at `p`: the empty temporary is the instance
`w.ptrs.length`, destroyed at the end of the statement. -/
theorem move_assign_empty_last (w : Refs) (i p : Nat) (hc : w.counted)
    (hi : scoped_refptr.get w i = some p) (hp : p ≠ 0) (hone : w.instances p = 1) :
    ∃ w1, RefOp.run w [.construct 0, .move_assign i w.ptrs.length, .destruct w.ptrs.length]
        = some w1 ∧
      (w1.heap p).deleted = 1 ∧ (w1.heap p).base.ref_count_ = 0 ∧
      scoped_refptr.get w1 i = some 0 := by
  have hcp := hc p hp
  have hd0 : (w.heap p).deleted = 0 := by
    have h1 := hcp.2.1
    have h2 := hcp.2.2
    omega
  have hrc : (w.heap p).base.ref_count_ = 1 := by
    rw [hcp.1, hone]
    rfl
  have hil := get_lt w i p hi
  have hgi := get_eq_some w i p hi
  have hr : scoped_refptr.get (scoped_refptr.construct w 0) w.ptrs.length = some 0 := by
    apply get_of_getElem
    show (w.ptrs ++ [some 0])[w.ptrs.length]? = some (some 0)
    rw [List.getElem?_append_right (by simp)]
    simp
  have hi2 : scoped_refptr.get (scoped_refptr.construct w 0) i = some p := by
    apply get_of_getElem
    show (w.ptrs ++ [some 0])[i]? = some (some p)
    rw [List.getElem?_append_left hil]
    exact hgi
  have hma := move_assign_effect (scoped_refptr.construct w 0) i w.ptrs.length 0 p hr hi2
    (by omega)
  have hlen : (scoped_refptr.construct w 0).ptrs.length = w.ptrs.length + 1 := by
    simp [scoped_refptr.construct]
  have hheap : (scoped_refptr.construct w 0).heap = w.heap := by
    simp [scoped_refptr.construct]
  have hptrs : (scoped_refptr.construct w 0).ptrs = w.ptrs ++ [some 0] := rfl
  rw [hheap, hptrs] at hma
  have hg3 : scoped_refptr.get
      { heap := if p ≠ 0 then scoped_refptr.Release w.heap p else w.heap,
        ptrs := (((w.ptrs ++ [some 0]).set w.ptrs.length (some 0)).set i (some 0)) ++ [none] }
      w.ptrs.length = some 0 := by
    apply get_of_getElem
    show ((((w.ptrs ++ [some 0]).set w.ptrs.length (some 0)).set i (some 0)) ++ [none])[
      w.ptrs.length]? = some (some 0)
    rw [List.getElem?_append_left (by simp), List.getElem?_set_ne (by omega),
      List.getElem?_set_self (by simp)]
  refine ⟨{ heap := if p ≠ 0 then scoped_refptr.Release w.heap p else w.heap,
            ptrs := ((((w.ptrs ++ [some 0]).set w.ptrs.length (some 0)).set i (some 0))
              ++ [none]).set w.ptrs.length none }, ?_, ?_, ?_, ?_⟩
  · simp only [RefOp.run, RefOp.step, Option.some_bind, hma]
    unfold scoped_refptr.destruct
    rw [hg3]
    simp only [ne_eq, not_true_eq_false, if_false, Option.some_bind]
  · show ((if p ≠ 0 then scoped_refptr.Release w.heap p else w.heap) p).deleted = 1
    have h := (cond_Release w.heap p p hp).2
    simp only [hrc, and_self, if_true, hd0] at h
    simpa using h
  · show ((if p ≠ 0 then scoped_refptr.Release w.heap p else w.heap) p).base.ref_count_ = 0
    have h := (cond_Release w.heap p p hp).1
    simp only [hrc, if_true] at h
    simpa using h
  · apply get_of_getElem
    show (((((w.ptrs ++ [some 0]).set w.ptrs.length (some 0)).set i (some 0)) ++ [none]).set
      w.ptrs.length none)[i]? = some (some 0)
    rw [List.getElem?_set_ne (by omega), List.getElem?_append_left (by simp; omega),
      List.getElem?_set_self (by simp; omega)]

/-- C31. Part one: in every state that satisfies the reference-count invariant,
for every object at `p` that exactly one live `scoped_refptr` instance `i`
points to, the object has not been deleted, and both `i = nullptr`
(`operator=(T*)`) and `i = scoped_refptr<T>()` (move assignment from an empty
temporary, destroyed at the end of the statement) delete it exactly once and
leave `i` null. Part two: for every object `o` of the class `ScopedRefPtrToSelf`
whose member `self_ptr_` points to `o` itself and is its only reference
(`ref_count_ == 1`, not deleted), `o->self_ptr_ = nullptr` and
`o->self_ptr_ = scoped_refptr<T>()` both return (for every positive fuel),
set `was_destroyed_`, and delete `o` exactly once: the member holds null when
`Release` runs (each assignment is `Release` on the state in which the member
is already null), so the destructor of the member releases nothing and
`ref_count_` ends at 0; every other object is untouched. -/
theorem C31_last_reference_dropped (w : Refs) (i p : Nat) (v : SelfRefs) (o fuel : Nat)
    (hc : w.counted) (hi : scoped_refptr.get w i = some p) (hp : p ≠ 0)
    (hone : w.instances p = 1)
    (ho : o ≠ 0) (hself : (v.heap o).self_ptr_ = some o)
    (hcount : (v.heap o).base.ref_count_ = 1) (hlive : (v.heap o).deleted = 0) :
    ((w.heap p).deleted = 0 ∧
      (∃ w1, scoped_refptr.assign_pointer w i 0 = some w1 ∧
        (w1.heap p).deleted = 1 ∧ (w1.heap p).base.ref_count_ = 0 ∧
        scoped_refptr.get w1 i = some 0) ∧
      (∃ w1, RefOp.run w
            [.construct 0, .move_assign i w.ptrs.length, .destruct w.ptrs.length] = some w1 ∧
        (w1.heap p).deleted = 1 ∧ (w1.heap p).base.ref_count_ = 0 ∧
        scoped_refptr.get w1 i = some 0)) ∧
    (∃ v0 v1 : SelfRefs,
      (v0.heap o).self_ptr_ = some 0 ∧
      ScopedRefPtrToSelf.assign_pointer (fuel + 1) v o 0
        = ScopedRefPtrToSelf.Release (fuel + 1) v0 o ∧
      (ScopedRefPtrToSelf.move_assign (fuel + 1) v o 0).map Prod.fst
        = ScopedRefPtrToSelf.Release (fuel + 1) v0 o ∧
      ScopedRefPtrToSelf.assign_pointer (fuel + 1) v o 0 = some v1 ∧
      ScopedRefPtrToSelf.move_assign (fuel + 1) v o 0 = some (v1, 0) ∧
      v1.was_destroyed_ = true ∧
      (v1.heap o).deleted = 1 ∧
      (v1.heap o).base.ref_count_ = 0 ∧
      (v1.heap o).self_ptr_ = none ∧
      (∀ x, x ≠ o → v1.heap x = v.heap x)) := by
  obtain ⟨hd0, h1⟩ := assign_null_last w i p hc hi hp hone
  refine ⟨⟨hd0, h1, move_assign_empty_last w i p hc hi hp hone⟩, ?_⟩
  obtain ⟨v1, hrel, hwd, hdel, hrc, hmem, hframe⟩ := Release_last_member_null fuel
    { v with heap := Function.update v.heap o { (v.heap o) with self_ptr_ := some 0 } } o
    (by simpa using hcount) (by simp)
  have ha : ScopedRefPtrToSelf.assign_pointer (fuel + 1) v o 0
      = ScopedRefPtrToSelf.Release (fuel + 1)
        { v with heap := Function.update v.heap o { (v.heap o) with self_ptr_ := some 0 } }
        o := by
    unfold ScopedRefPtrToSelf.assign_pointer
    rw [hself]
    simp [ho]
  have hm : ScopedRefPtrToSelf.move_assign (fuel + 1) v o 0
      = (ScopedRefPtrToSelf.Release (fuel + 1)
        { v with heap := Function.update v.heap o { (v.heap o) with self_ptr_ := some 0 } }
        o).map fun w2 => (w2, 0) := by
    unfold ScopedRefPtrToSelf.move_assign
    rw [hself]
    simp [ho]
  refine ⟨_, v1, ?_, ha, ?_, ?_, ?_, hwd, ?_, hrc, hmem, ?_⟩
  · simp
  · rw [hm, hrel]
    rfl
  · rw [ha, hrel]
  · rw [hm, hrel]
    rfl
  · rw [hdel]
    simp [hlive]
  · intro x hx
    rw [hframe x hx]
    simp [Function.update_noteq hx]

/-- C31 (witness): the instance `var(p)` that alone points to the object at 100,
and the object that `new ScopedRefPtrToSelf()` creates at 100 in the two
self-reference tests. -/
theorem C31_last_reference_dropped_witness :
    (ScopedRefPtrToSelf.assign_pointer 1 self_refs_check 100 0).map
        (fun v => (v.was_destroyed_, (v.heap 100).deleted, (v.heap 100).base.ref_count_))
      = some (true, 1, 0) ∧
    ((refs_one.heap 100).deleted = 0 ∧
      (∃ w1, scoped_refptr.assign_pointer refs_one 0 0 = some w1 ∧
        (w1.heap 100).deleted = 1 ∧ (w1.heap 100).base.ref_count_ = 0 ∧
        scoped_refptr.get w1 0 = some 0) ∧
      (∃ w1, RefOp.run refs_one
            [.construct 0, .move_assign 0 refs_one.ptrs.length,
              .destruct refs_one.ptrs.length] = some w1 ∧
        (w1.heap 100).deleted = 1 ∧ (w1.heap 100).base.ref_count_ = 0 ∧
        scoped_refptr.get w1 0 = some 0)) ∧
    (∃ v0 v1 : SelfRefs,
      (v0.heap 100).self_ptr_ = some 0 ∧
      ScopedRefPtrToSelf.assign_pointer (0 + 1) self_refs_check 100 0
        = ScopedRefPtrToSelf.Release (0 + 1) v0 100 ∧
      (ScopedRefPtrToSelf.move_assign (0 + 1) self_refs_check 100 0).map Prod.fst
        = ScopedRefPtrToSelf.Release (0 + 1) v0 100 ∧
      ScopedRefPtrToSelf.assign_pointer (0 + 1) self_refs_check 100 0 = some v1 ∧
      ScopedRefPtrToSelf.move_assign (0 + 1) self_refs_check 100 0 = some (v1, 0) ∧
      v1.was_destroyed_ = true ∧
      (v1.heap 100).deleted = 1 ∧
      (v1.heap 100).base.ref_count_ = 0 ∧
      (v1.heap 100).self_ptr_ = none ∧
      (∀ x, x ≠ 100 → v1.heap x = self_refs_check.heap x)) :=
  ⟨by decide,
    C31_last_reference_dropped refs_one 0 100 self_refs_check 100 0
      (construct_counted Refs.initial 100 initial_counted (Or.inr rfl)).1
      (by decide) (by decide) (by decide) (by decide) (by decide) (by decide) (by decide)⟩

/-! ## The block table along a sequence of calls -/

theorem take_succ_set (l : List AllocatedBlock) :
    ∀ (k : Nat) (b : AllocatedBlock), k < l.length →
      (l.set k b).take (k + 1) = l.take k ++ [b] := by
  induction l with
  | nil =>
    intro k b hk
    simp at hk
  | cons x xs ih =>
    intro k b hk
    cases k with
    | zero => simp
    | succ k =>
      simp only [List.length_cons, Nat.add_lt_add_iff_right] at hk
      simp only [List.set_cons_succ, List.take_succ_cons, List.cons_append, ih k b hk]

theorem push_block_blocks (a : BaseArena) (b : AllocatedBlock) (n : Nat) (hwf : table_wf a) :
    table_wf (a.push_block b n) ∧ (a.push_block b n).blocks = a.blocks ++ [b] := by
  obtain ⟨hlen, h1, h16, hov⟩ := hwf
  unfold BaseArena.push_block
  by_cases hs : a.blocks_alloced_ < kFirstBlocks
  · simp only [if_pos hs]
    have hnone := hov hs
    refine ⟨⟨?_, ?_, ?_, ?_⟩, ?_⟩
    · show (a.first_blocks_.set a.blocks_alloced_ b).length = kFirstBlocks
      rw [List.length_set]
      exact hlen
    · show 1 ≤ a.blocks_alloced_ + 1
      omega
    · show a.blocks_alloced_ + 1 ≤ kFirstBlocks
      omega
    · intro _
      exact hnone
    · unfold BaseArena.blocks
      simp only [hnone, Option.getD_none, List.append_nil]
      exact take_succ_set a.first_blocks_ a.blocks_alloced_ b (by omega)
  · simp only [if_neg hs]
    refine ⟨⟨hlen, h1, h16, ?_⟩, ?_⟩
    · intro hlt
      exact absurd hlt hs
    · unfold BaseArena.blocks
      simp only [Option.getD_some, List.append_assoc]

theorem pad_freestart_blocks (a : BaseArena) (align : Nat) :
    (table_wf a → table_wf (a.pad_freestart align)) ∧
    (a.pad_freestart align).blocks = a.blocks := by
  have ht := pad_freestart_table a align
  unfold table_wf BaseArena.blocks
  rw [ht.1, ht.2.1, ht.2.2.1]
  exact ⟨fun h => h, rfl⟩

/-- A change of the cursor alone keeps the block table. -/
theorem cursor_blocks (a : BaseArena) (fs rem la : Nat) :
    (table_wf a → table_wf { a with freestart_ := fs, remaining_ := rem, last_alloc_ := la }) ∧
    BaseArena.blocks { a with freestart_ := fs, remaining_ := rem, last_alloc_ := la }
      = a.blocks :=
  ⟨fun h => h, rfl⟩

/-- The block table after a `GetMemory` call: the branches that acquire a block
append its entry, the other branches keep the table. -/
theorem GetMemory_blocks (a : BaseArena) (size : Nat) (align : Int) (mem p : Nat)
    (a1 : BaseArena) (h : a.GetMemory size align mem = some (p, a1)) (hwf : table_wf a) :
    table_wf a1 ∧
    a1.blocks = a.blocks ++ (match GetMemory_path a size align with
      | Path.dedicated => [⟨mem, a.new_block_capacity size⟩]
      | Path.new_block => [⟨mem, a.new_block_capacity a.block_size_⟩]
      | _ => []) := by
  have key := GetMemory_by_path a size align mem p a1 h
  have hpad := pad_freestart_blocks a (to_size_t align)
  cases hpath : GetMemory_path a size align <;> rw [hpath] at key <;> simp only at key ⊢
  · obtain ⟨_, _, rfl⟩ := key
    exact ⟨hwf, by simp⟩
  · obtain ⟨_, _, _, _, rfl⟩ := key
    exact ⟨hwf, by simp [BaseArena.blocks]⟩
  · obtain ⟨_, _, _, _, rfl⟩ := key
    exact push_block_blocks a _ size hwf
  · obtain ⟨_, _, _, _, _, rfl⟩ := key
    refine ⟨hpad.1 hwf, ?_⟩
    rw [List.append_nil, ← hpad.2]
    rfl
  · obtain ⟨_, _, _, _, _, _, rfl⟩ := key
    have hpb := push_block_blocks (a.pad_freestart (to_size_t align))
      ⟨mem, a.new_block_capacity a.block_size_⟩ a.block_size_ (hpad.1 hwf)
    refine ⟨hpb.1, ?_⟩
    rw [← hpad.2, ← hpb.2]
    rfl

/-- The `GetMemory` call of a call of the public interface is made with the
address that the call carries. -/
theorem step_of_call (a : BaseArena) (op : Op) (a1 : BaseArena) (size : Nat) (align : Int)
    (h : step a op = some a1) (hcall : alloc_call a op = some (size, align)) :
    ∃ p, a.GetMemory size align op.mem = some (p, a1) := by
  cases op with
  | Alloc sz mem =>
    simp only [alloc_call, Option.some.injEq, Prod.mk.injEq] at hcall
    obtain ⟨rfl, rfl⟩ := hcall
    simp only [step, Option.map_eq_some'] at h
    obtain ⟨⟨p, a2⟩, hq, rfl⟩ := h
    exact ⟨p, hq⟩
  | AllocAligned sz al mem =>
    simp only [alloc_call, Option.some.injEq, Prod.mk.injEq] at hcall
    obtain ⟨rfl, rfl⟩ := hcall
    simp only [step, Option.map_eq_some'] at h
    obtain ⟨⟨p, a2⟩, hq, rfl⟩ := h
    exact ⟨p, hq⟩
  | AllocWithHandle sz mem =>
    simp only [alloc_call, Option.some.injEq, Prod.mk.injEq] at hcall
    obtain ⟨rfl, rfl⟩ := hcall
    simp only [step, Option.map_eq_some'] at h
    obtain ⟨r, hq, rfl⟩ := h
    exact ⟨r.1, GetMemoryWithHandle_state a sz mem r hq⟩
  | Free memory sz => simp [alloc_call] at hcall
  | Shrink s n => simp [alloc_call] at hcall
  | Realloc s old n mem =>
    simp only [alloc_call] at hcall
    split at hcall
    · simp at hcall
    · rename_i hb
      split at hcall
      · simp at hcall
      · rename_i hle
        simp only [Option.some.injEq, Prod.mk.injEq] at hcall
        obtain ⟨rfl, rfl⟩ := hcall
        simp only [step, Option.map_eq_some'] at h
        obtain ⟨r, hq, rfl⟩ := h
        have hf : (a.AdjustLastAlloc s n).1 = false := by
          cases hv : (a.AdjustLastAlloc s n).1
          · rfl
          · exact absurd hv hb
        rw [Realloc_fresh a _ s old n mem hf hle] at hq
        simp only [Option.map_eq_some'] at hq
        obtain ⟨⟨p, a2⟩, hq2, rfl⟩ := hq
        exact ⟨p, hq2⟩
  | Reset => simp [alloc_call] at hcall

theorem ReturnMemory_blocks (a : BaseArena) (memory size : Nat) :
    (table_wf a → table_wf (a.ReturnMemory memory size)) ∧
    (a.ReturnMemory memory size).blocks = a.blocks := by
  unfold BaseArena.ReturnMemory
  simp only
  split
  · exact ⟨fun h => h, rfl⟩
  · exact ⟨fun h => h, rfl⟩

theorem AdjustLastAlloc_blocks (a : BaseArena) (s n : Nat) :
    (table_wf a → table_wf (a.AdjustLastAlloc s n).2) ∧
    (a.AdjustLastAlloc s n).2.blocks = a.blocks := by
  unfold BaseArena.AdjustLastAlloc
  split
  · exact ⟨fun h => h, rfl⟩
  · split
    · exact ⟨fun h => h, rfl⟩
    · exact ⟨fun h => h, rfl⟩

/-- The table after `Reset`: block 0 alone. -/
theorem Reset_blocks (a : BaseArena) (hwf : table_wf a) :
    table_wf a.Reset ∧ a.Reset.blocks = [a.first_blocks_.getD 0 default] := by
  have hf := Reset_fields a
  have h0 := FreeBlocks_slot0 a
  have hlen : a.FreeBlocks.first_blocks_.length = a.first_blocks_.length := by
    unfold BaseArena.FreeBlocks
    simp
  obtain ⟨hl, _, _, _⟩ := hwf
  have hk : kFirstBlocks = 16 := rfl
  refine ⟨⟨by rw [hf.1, hlen]; exact hl, by rw [hf.2.1], by rw [hf.2.1, hk]; omega,
    fun _ => hf.2.2.1⟩, ?_⟩
  unfold BaseArena.blocks
  rw [hf.1, hf.2.1, hf.2.2.1, ← h0]
  have hpos : 0 < a.FreeBlocks.first_blocks_.length := by
    rw [hlen, hl, hk]
    omega
  cases hfb : a.FreeBlocks.first_blocks_ with
  | nil => rw [hfb] at hpos; simp at hpos
  | cons x xs => simp

/-- The table after one call: a call other than `Reset` appends the block it
acquires, if it acquires one; `Reset` leaves block 0 alone. -/
theorem step_blocks (a : BaseArena) (op : Op) (a1 : BaseArena) (h : step a op = some a1)
    (hwf : table_wf a) :
    table_wf a1 ∧
    (op ≠ Op.Reset → a1.blocks = a.blocks ++ (acquired a op).toList) ∧
    (op = Op.Reset → a1.blocks = [a.first_blocks_.getD 0 default]) := by
  cases hcall : alloc_call a op with
  | some c =>
    obtain ⟨size, align⟩ := c
    obtain ⟨p, hget⟩ := step_of_call a op a1 size align h hcall
    have hb := GetMemory_blocks a size align op.mem p a1 hget hwf
    refine ⟨hb.1, ?_, ?_⟩
    · intro _
      rw [hb.2]
      unfold acquired
      rw [hcall]
      simp only
      cases GetMemory_path a size align <;> rfl
    · intro hr
      subst hr
      simp [alloc_call] at hcall
  | none =>
    have hacq : (acquired a op).toList = [] := by
      unfold acquired
      rw [hcall]
      rfl
    rw [hacq, List.append_nil]
    rcases step_cases a op a1 h with ⟨size, align, mem, p, hc, _⟩ | ⟨_, hrest⟩
    · rw [hcall] at hc
      simp at hc
    · rcases hrest with heq | ⟨memory, size, rfl, rfl⟩ | ⟨s, n, _, _, rfl⟩ | ⟨rfl, rfl⟩
      · refine ⟨by rw [heq]; exact hwf, fun _ => by rw [heq], ?_⟩
        intro hr
        subst hr
        simp only [step, Option.some.injEq] at h
        rw [← h]
        exact (Reset_blocks a hwf).2
      · have hb := ReturnMemory_blocks a memory size
        exact ⟨hb.1 hwf, fun _ => hb.2, fun hr => by simp at hr⟩
      · have hb := AdjustLastAlloc_blocks a s n
        refine ⟨hb.1 hwf, fun _ => hb.2, ?_⟩
        intro hr
        subst hr
        simp only [step, Option.some.injEq] at h
        rw [← h]
        exact (Reset_blocks a hwf).2
      · have hb := Reset_blocks a hwf
        exact ⟨hb.1, fun hne => absurd rfl hne, fun _ => hb.2⟩

/-- The table after a sequence of calls without `Reset`: the table before,
followed by the acquired blocks in the order of their acquisition. -/
theorem run_blocks (ops : List Op) :
    ∀ (a a1 : BaseArena), run a ops = some a1 → (∀ op ∈ ops, op ≠ Op.Reset) → table_wf a →
      table_wf a1 ∧ a1.blocks = a.blocks ++ acquisitions a ops := by
  induction ops with
  | nil =>
    intro a a1 h _ hwf
    simp only [run, Option.some.injEq] at h
    subst h
    exact ⟨hwf, by simp [acquisitions]⟩
  | cons op ops ih =>
    intro a a1 h hops hwf
    simp only [run, Option.bind_eq_some] at h
    obtain ⟨a2, hstep, hrun⟩ := h
    have h1 := step_blocks a op a2 hstep hwf
    have h2 := ih a2 a1 hrun (fun o ho => hops o (List.mem_cons_of_mem _ ho)) h1.1
    refine ⟨h2.1, ?_⟩
    rw [h2.2, h1.2.1 (hops op (List.mem_cons_self _ _))]
    simp only [acquisitions, hstep, List.append_assoc]

theorem blocks_length (a : BaseArena) (hwf : table_wf a) :
    a.blocks.length = a.block_count := by
  obtain ⟨hl, _, h16, _⟩ := hwf
  unfold BaseArena.blocks BaseArena.block_count
  rw [List.length_append, List.length_take, Nat.min_eq_left (by omega)]
  cases a.overflow_blocks_ <;> rfl

/-- `IndexToBlock` at an index below `block_count()` (and within `int`) returns
the entry of the table at that index. -/
theorem IndexToBlock_blocks (a : BaseArena) (hwf : table_wf a) (i : Nat)
    (hi : i < a.block_count) (h31 : i < 2 ^ 31) :
    a.IndexToBlock (i : Int) = some (a.blocks.getD i default) := by
  obtain ⟨hl, h1, h16, hov⟩ := hwf
  have hk : kFirstBlocks = 16 := rfl
  have hs : to_size_t (i : Int) = i := to_size_t_natCast i (by omega)
  unfold BaseArena.IndexToBlock
  rw [hs]
  unfold BaseArena.blocks
  by_cases hlt : i < kFirstBlocks
  · rw [if_pos hlt]
    have hib : i < a.blocks_alloced_ := by
      by_cases hfull : a.blocks_alloced_ < kFirstBlocks
      · have hn := hov hfull
        unfold BaseArena.block_count at hi
        rw [hn] at hi
        simpa using hi
      · omega
    refine congrArg some ?_
    rw [List.getD_eq_getElem?_getD, List.getD_eq_getElem?_getD,
      List.getElem?_append_left (by rw [List.length_take]; omega), List.getElem?_take_of_lt hib]
  · rw [if_neg hlt]
    have hfull : a.blocks_alloced_ = kFirstBlocks := by
      by_contra hne
      have hn := hov (by omega)
      unfold BaseArena.block_count at hi
      rw [hn] at hi
      simp at hi
      omega
    cases hv : a.overflow_blocks_ with
    | none =>
      unfold BaseArena.block_count at hi
      rw [hv] at hi
      simp at hi
      omega
    | some v =>
      unfold BaseArena.block_count at hi
      rw [hv] at hi
      simp only at hi
      have e1 : to_int ((to_size_t ((i : Int) - ((kFirstBlocks : Nat) : Int)) : Nat) : Int)
          = ((i - 16 : Nat) : Int) := by
        unfold to_int to_size_t
        rw [hk]
        omega
      have e2 : to_size_t (((i - 16 : Nat) : Nat) : Int) = i - 16 :=
        to_size_t_natCast _ (by omega)
      simp only [e1, e2]
      rw [if_neg (by omega), if_pos (by omega)]
      refine congrArg some ?_
      simp only [Option.getD_some]
      have hlt2 : (List.take a.blocks_alloced_ a.first_blocks_).length = 16 := by
        rw [List.length_take]
        omega
      rw [List.getD_eq_getElem?_getD, List.getD_eq_getElem?_getD,
        List.getElem?_append_right (by rw [hlt2]; omega), hlt2]

/-- Where the entry `i` of the table is stored: in the inline slot `i` for
`i < 16`, else at the position `i - 16` of the overflow vector, which then
exists. -/
theorem blocks_getD (a : BaseArena) (hwf : table_wf a) (i : Nat) (hi : i < a.block_count) :
    (i < kFirstBlocks → a.blocks.getD i default = a.first_blocks_.getD i default) ∧
    (kFirstBlocks ≤ i → ∃ v, a.overflow_blocks_ = some v ∧ i - kFirstBlocks < v.length ∧
      a.blocks.getD i default = v.getD (i - kFirstBlocks) default) := by
  obtain ⟨hl, h1, h16, hov⟩ := hwf
  have hk : kFirstBlocks = 16 := rfl
  unfold BaseArena.blocks
  constructor
  · intro hlt
    have hib : i < a.blocks_alloced_ := by
      by_cases hfull : a.blocks_alloced_ < kFirstBlocks
      · have hn := hov hfull
        unfold BaseArena.block_count at hi
        rw [hn] at hi
        simpa using hi
      · omega
    rw [List.getD_eq_getElem?_getD, List.getD_eq_getElem?_getD,
      List.getElem?_append_left (by rw [List.length_take]; omega), List.getElem?_take_of_lt hib]
  · intro hge
    have hfull : a.blocks_alloced_ = kFirstBlocks := by
      by_contra hne
      have hn := hov (by omega)
      unfold BaseArena.block_count at hi
      rw [hn] at hi
      simp at hi
      omega
    cases hv : a.overflow_blocks_ with
    | none =>
      unfold BaseArena.block_count at hi
      rw [hv] at hi
      simp at hi
      omega
    | some v =>
      unfold BaseArena.block_count at hi
      rw [hv] at hi
      simp only at hi
      have hlt2 : (List.take a.blocks_alloced_ a.first_blocks_).length = kFirstBlocks := by
        rw [List.length_take]
        omega
      refine ⟨v, rfl, by omega, ?_⟩
      simp only [Option.getD_some]
      rw [List.getD_eq_getElem?_getD, List.getD_eq_getElem?_getD,
        List.getElem?_append_right (by rw [hlt2]; omega), hlt2]

/-- The constructor is `Reset` on a table of the right shape. -/
theorem construct_table_wf (first block_size : Nat) (align_to_page : Bool) (mem : Nat)
    (slots : List AllocatedBlock) (a0 : BaseArena) (hslots : slots.length = kFirstBlocks)
    (h : BaseArena.construct first block_size align_to_page mem slots = some a0) :
    ∃ x : BaseArena, table_wf x ∧ a0 = x.Reset := by
  unfold BaseArena.construct at h
  split at h
  · simp at h
  simp only [Option.map_eq_some'] at h
  obtain ⟨m, _, rfl⟩ := h
  refine ⟨_, ⟨?_, ?_, ?_, ?_⟩, rfl⟩
  · show (slots.set 0 ⟨m, block_size⟩).length = kFirstBlocks
    rw [List.length_set]
    exact hslots
  · show 1 ≤ 1
    omega
  · show 1 ≤ kFirstBlocks
    decide
  · intro _
    rfl

/-- C33. For an arena state `a0` right after construction (with sixteen inline
slots) or right after `Reset`, and every sequence of public calls without
`Reset` that runs to its end and acquires `n` blocks (`n < 2^31`, indices being
`int`): `block_count() == n + 1`; the `j`-th acquired block, for `j < 15`
(counting from 0), is stored in the inline slot `j + 1`; the later ones are in
the overflow vector, which then exists, at the position `j - 15`, in the order
of their acquisition; and for every `i` with `0 <= i <= n`, `IndexToBlock(i)`
does not abort and returns the `i`-th entry of the sequence made of block 0
followed by the acquired blocks. -/
theorem C33_block_table_contiguous (a0 : BaseArena) (ops : List Op) (a1 : BaseArena)
    (hstart : (∃ x : BaseArena, table_wf x ∧ a0 = x.Reset) ∨
      (∃ (first block_size : Nat) (align_to_page : Bool) (mem : Nat)
          (slots : List AllocatedBlock),
        slots.length = kFirstBlocks ∧
        BaseArena.construct first block_size align_to_page mem slots = some a0))
    (hops : ∀ op ∈ ops, op ≠ Op.Reset)
    (hrun : run a0 ops = some a1)
    (hint : (acquisitions a0 ops).length < 2 ^ 31) :
    a1.block_count = (acquisitions a0 ops).length + 1 ∧
    (∀ j, j < (acquisitions a0 ops).length → j < 15 →
      a1.first_blocks_.getD (j + 1) default = (acquisitions a0 ops).getD j default) ∧
    (∀ j, 15 ≤ j → j < (acquisitions a0 ops).length →
      ∃ v, a1.overflow_blocks_ = some v ∧ j - 15 < v.length ∧
        v.getD (j - 15) default = (acquisitions a0 ops).getD j default) ∧
    (∀ i : Nat, i ≤ (acquisitions a0 ops).length →
      a1.IndexToBlock (i : Int)
        = some ((a0.first_blocks_.getD 0 default :: acquisitions a0 ops).getD i default)) := by
  have hx : ∃ x : BaseArena, table_wf x ∧ a0 = x.Reset := by
    rcases hstart with h | ⟨first, block_size, align_to_page, mem, slots, hslots, hcons⟩
    · exact h
    · exact construct_table_wf first block_size align_to_page mem slots a0 hslots hcons
  obtain ⟨x, hwfx, rfl⟩ := hx
  have hk : kFirstBlocks = 16 := rfl
  have hr := Reset_blocks x hwfx
  have hslot : x.Reset.first_blocks_.getD 0 default = x.first_blocks_.getD 0 default := by
    rw [(Reset_fields x).1]
    exact FreeBlocks_slot0 x
  have hb := run_blocks ops x.Reset a1 hrun hops hr.1
  rw [hr.2] at hb
  have hlen := blocks_length a1 hb.1
  rw [hb.2] at hlen
  simp only [List.singleton_append, List.length_cons] at hlen
  have hbl : a1.blocks = x.Reset.first_blocks_.getD 0 default :: acquisitions x.Reset ops := by
    rw [hb.2, hslot]
    rfl
  refine ⟨hlen.symm, ?_, ?_, ?_⟩
  · intro j hj hj15
    have h := (blocks_getD a1 hb.1 (j + 1) (by omega)).1 (by omega)
    rw [← h, hbl]
    rfl
  · intro j hj15 hj
    obtain ⟨v, hv, hlt, h⟩ := (blocks_getD a1 hb.1 (j + 1) (by omega)).2 (by omega)
    have he : j + 1 - kFirstBlocks = j - 15 := by omega
    rw [he] at h hlt
    refine ⟨v, hv, hlt, ?_⟩
    rw [← h, hbl]
    rfl
  · intro i hi
    rw [IndexToBlock_blocks a1 hb.1 i (by omega) (by omega), hbl]

/-- C33 (witness): seventeen dedicated blocks acquired on the arena constructed
with block size 4096: eighteen blocks, the first fifteen acquired in the inline
slots 1 to 15, the last two in the overflow vector, and `IndexToBlock(17)`
returns the block acquired last. -/
theorem C33_block_table_contiguous_witness :
    ((acquisitions (arena_at 4096) seventeen_allocs).length = 17 ∧
      arena_seventeen.block_count = 18 ∧
      arena_seventeen.blocks_alloced_ = 16 ∧
      arena_seventeen.overflow_blocks_
        = some [⟨10000 + 8192 * 15, 5000⟩, ⟨10000 + 8192 * 16, 5000⟩] ∧
      arena_seventeen.IndexToBlock 17 = some ⟨10000 + 8192 * 16, 5000⟩) ∧
    arena_seventeen.block_count = (acquisitions (arena_at 4096) seventeen_allocs).length + 1 ∧
    (∀ j, j < (acquisitions (arena_at 4096) seventeen_allocs).length → j < 15 →
      arena_seventeen.first_blocks_.getD (j + 1) default
        = (acquisitions (arena_at 4096) seventeen_allocs).getD j default) ∧
    (∀ j, 15 ≤ j → j < (acquisitions (arena_at 4096) seventeen_allocs).length →
      ∃ v, arena_seventeen.overflow_blocks_ = some v ∧ j - 15 < v.length ∧
        v.getD (j - 15) default
          = (acquisitions (arena_at 4096) seventeen_allocs).getD j default) ∧
    (∀ i : Nat, i ≤ (acquisitions (arena_at 4096) seventeen_allocs).length →
      arena_seventeen.IndexToBlock (i : Int)
        = some (((arena_at 4096).first_blocks_.getD 0 default
            :: acquisitions (arena_at 4096) seventeen_allocs).getD i default)) :=
  ⟨by decide,
    C33_block_table_contiguous (arena_at 4096) seventeen_allocs arena_seventeen
      (Or.inr ⟨0, 4096, false, 4096, slots0, by decide, by decide⟩)
      (by decide) (by decide) (by decide)⟩

/-! ## The cursor and the current block -/

/-- The padding step for any alignment: `freestart_` moves up by some `waste`
and `remaining_` loses `waste` bytes or becomes 0. -/
theorem pad_freestart_waste (a : BaseArena) (align : Nat) :
    ∃ waste : Nat, (a.pad_freestart align).freestart_ = a.freestart_ + waste ∧
      (a.pad_freestart align).remaining_ = a.remaining_ - waste ∧
      (a.pad_freestart align).last_alloc_ = a.last_alloc_ := by
  unfold BaseArena.pad_freestart
  simp only
  split
  · refine ⟨to_size_t ((align : Int) - ((a.freestart_ &&& to_size_t ((align : Int) - 1) : Nat) : Int)),
      rfl, ?_, rfl⟩
    show (if _ < a.remaining_ then a.remaining_ - _ else 0) = _
    split <;> omega
  · exact ⟨0, rfl, rfl, rfl⟩

/-- The cursor that `Reset` installs lies in block 0. -/
theorem Reset_block_inv (x : BaseArena) (bs : Nat)
    (hsize : (x.first_blocks_.getD 0 default).size = bs)
    (hbs4 : kDefaultAlignment < bs) (hlt : bs < 2 ^ 64) :
    block_inv (x.first_blocks_.getD 0 default) x.Reset := by
  have hc := Reset_cursor x
  have hk : kDefaultAlignment = 4 := rfl
  rw [hk] at hbs4
  refine ⟨?_, ?_, ?_⟩
  · rw [hc.1]
    split <;> omega
  · rw [hc.1, hc.2.1, hsize]
    split
    · rw [to_size_t_sub _ _ (by omega) hlt]
      omega
    · exact Nat.le_refl _
  · intro h
    exact absurd (Reset_fields x).2.2.2.1 h

/-- The cursor after a `GetMemory` call lies in the block that serves the bump
allocations: the block that `MakeNewBlock` installs when the call takes that
branch, the same block as before otherwise. -/
theorem GetMemory_block_inv (a : BaseArena) (size : Nat) (align : Int) (mem p : Nat)
    (a1 : BaseArena) (cur : AllocatedBlock) (h : a.GetMemory size align mem = some (p, a1))
    (hbs : a.block_size_ + kPageSize < 2 ^ 64) (hcap : cur.size < 2 ^ 64)
    (hinv : block_inv cur a) :
    block_inv (match GetMemory_path a size align with
      | Path.new_block => ⟨mem, a.new_block_capacity a.block_size_⟩
      | _ => cur) a1 := by
  have key := GetMemory_by_path a size align mem p a1 h
  obtain ⟨waste, hw1, hw2, hw3⟩ := pad_freestart_waste a (to_size_t align)
  obtain ⟨hlo, hhi, hla⟩ := hinv
  cases hpath : GetMemory_path a size align <;> rw [hpath] at key <;> simp only at key ⊢
  · obtain ⟨_, _, rfl⟩ := key
    exact ⟨hlo, hhi, hla⟩
  · obtain ⟨_, hlt, _, _, rfl⟩ := key
    refine ⟨?_, ?_, fun _ => ⟨?_, ?_⟩⟩
    · show cur.mem ≤ a.freestart_ + size
      omega
    · show a.freestart_ + size + (a.remaining_ - size) ≤ cur.mem + cur.size
      omega
    · show cur.mem ≤ a.freestart_
      exact hlo
    · show a.freestart_ ≤ a.freestart_ + size
      omega
  · obtain ⟨_, _, _, _, rfl⟩ := key
    have hpb := push_block_fields a ⟨mem, a.new_block_capacity size⟩ size
    unfold block_inv
    rw [hpb.2.1, hpb.2.2.1, hpb.2.2.2.1]
    exact ⟨hlo, hhi, hla⟩
  · obtain ⟨h0, _, _, hfit, _, rfl⟩ := key
    rw [hw2] at hfit
    have hsub : to_size_t (((a.pad_freestart (to_size_t align)).remaining_ : Int) - size)
        = a.remaining_ - waste - size := by
      rw [hw2]
      exact to_size_t_sub _ _ hfit (by omega)
    refine ⟨?_, ?_, fun _ => ⟨?_, ?_⟩⟩
    · show cur.mem ≤ (a.pad_freestart (to_size_t align)).freestart_ + size
      rw [hw1]
      omega
    · show (a.pad_freestart (to_size_t align)).freestart_ + size
          + to_size_t (((a.pad_freestart (to_size_t align)).remaining_ : Int) - size)
        ≤ cur.mem + cur.size
      rw [hsub, hw1]
      omega
    · show cur.mem ≤ (a.pad_freestart (to_size_t align)).freestart_
      rw [hw1]
      omega
    · show (a.pad_freestart (to_size_t align)).freestart_
        ≤ (a.pad_freestart (to_size_t align)).freestart_ + size
      omega
  · obtain ⟨_, _, hsmall, _, _, _, rfl⟩ := key
    have hb := new_block_capacity_bounds a a.block_size_
    have hsub : to_size_t (((a.new_block_capacity a.block_size_ : Nat) : Int) - size)
        = a.new_block_capacity a.block_size_ - size :=
      to_size_t_sub _ _ (by omega) (by omega)
    refine ⟨?_, ?_, fun _ => ⟨?_, ?_⟩⟩
    · show mem ≤ mem + size
      omega
    · show mem + size + to_size_t (((a.new_block_capacity a.block_size_ : Nat) : Int) - size)
        ≤ mem + a.new_block_capacity a.block_size_
      rw [hsub]
      omega
    · show mem ≤ mem
      omega
    · show mem ≤ mem + size
      omega

/-- `AdjustLastAlloc` keeps the cursor in the block. -/
theorem AdjustLastAlloc_block_inv (a : BaseArena) (s n : Nat) (cur : AllocatedBlock)
    (hcap : cur.size < 2 ^ 64) (hinv : block_inv cur a) :
    block_inv cur (a.AdjustLastAlloc s n).2 := by
  cases hb : (a.AdjustLastAlloc s n).1
  · rw [AdjustLastAlloc_fail a s n hb]
    exact hinv
  · obtain ⟨hs0, hs, hn⟩ := (AdjustLastAlloc_true_iff a s n).mp hb
    obtain ⟨hlo, hhi, hla⟩ := hinv
    have hl := hla (by rw [← hs]; exact hs0)
    have ht : to_size_t (((a.freestart_ : Int) - a.last_alloc_) + a.remaining_)
        = a.freestart_ - a.last_alloc_ + a.remaining_ := by
      unfold to_size_t
      omega
    rw [ht] at hn
    rw [AdjustLastAlloc_ok a s n hs0 hs hl.2 (by omega) hn]
    refine ⟨?_, ?_, fun _ => ⟨?_, ?_⟩⟩
    · show cur.mem ≤ a.last_alloc_ + n
      omega
    · show a.last_alloc_ + n + (a.freestart_ - a.last_alloc_ + a.remaining_ - n)
        ≤ cur.mem + cur.size
      omega
    · show cur.mem ≤ a.last_alloc_
      exact hl.1
    · show a.last_alloc_ ≤ a.last_alloc_ + n
      omega

/-- `ReturnMemory` of a pointer that is not null keeps the cursor in the
block. -/
theorem ReturnMemory_block_inv (a : BaseArena) (memory size : Nat) (cur : AllocatedBlock)
    (hmem : memory ≠ 0) (hcap : cur.size < 2 ^ 64) (hinv : block_inv cur a) :
    block_inv cur (a.ReturnMemory memory size) := by
  unfold BaseArena.ReturnMemory
  simp only
  split
  · rename_i hc
    obtain ⟨hlo, hhi, hla⟩ := hinv
    have hl := hla (by rw [← hc.1]; exact hmem)
    have ht : to_size_t ((a.freestart_ : Int) - a.last_alloc_)
        = a.freestart_ - a.last_alloc_ := by
      unfold to_size_t
      omega
    have hsz : size = a.freestart_ - a.last_alloc_ := by
      rw [← hc.2, ht]
    refine ⟨?_, ?_, fun _ => ⟨?_, ?_⟩⟩
    · show cur.mem ≤ a.last_alloc_
      exact hl.1
    · show a.last_alloc_ + (a.remaining_ + size) ≤ cur.mem + cur.size
      omega
    · show cur.mem ≤ a.last_alloc_
      exact hl.1
    · show a.last_alloc_ ≤ a.last_alloc_
      omega
  · exact hinv

theorem current_block_of_call (a : BaseArena) (cur : AllocatedBlock) (op : Op) (size : Nat)
    (align : Int) (h : alloc_call a op = some (size, align)) :
    current_block a cur op =
      (match GetMemory_path a size align with
        | Path.new_block => ⟨op.mem, a.new_block_capacity a.block_size_⟩
        | _ => cur) := by
  cases op with
  | Reset => simp [alloc_call] at h
  | Alloc sz mem => simp only [current_block, h]
  | AllocAligned sz al mem => simp only [current_block, h]
  | AllocWithHandle sz mem => simp only [current_block, h]
  | Free memory sz => simp only [current_block, h]
  | Shrink s n => simp only [current_block, h]
  | Realloc s old n mem => simp only [current_block, h]

theorem current_block_of_no_call (a : BaseArena) (cur : AllocatedBlock) (op : Op)
    (h : alloc_call a op = none) (hne : op ≠ Op.Reset) :
    current_block a cur op = cur := by
  cases op with
  | Reset => exact absurd rfl hne
  | Alloc sz mem => simp only [current_block, h]
  | AllocAligned sz al mem => simp only [current_block, h]
  | AllocWithHandle sz mem => simp only [current_block, h]
  | Free memory sz => simp only [current_block, h]
  | Shrink s n => simp only [current_block, h]
  | Realloc s old n mem => simp only [current_block, h]

/-- One call other than `Free` of a null pointer keeps the cursor in the current
block, which is an entry of the block table and no larger than a standard block
rounded up to pages. -/
theorem step_block_inv (a : BaseArena) (op : Op) (a1 : BaseArena) (bs : Nat)
    (cur : AllocatedBlock)
    (h : step a op = some a1) (hnf : op.no_null_free)
    (htab : table_inv bs a) (hwf : table_wf a) (hbs4 : kDefaultAlignment < bs)
    (hbs : bs + kPageSize < 2 ^ 64) (hcap : cur.size ≤ bs + kPageSize)
    (hmemb : cur ∈ a.blocks) (hinv : block_inv cur a) :
    block_inv (current_block a cur op) a1 ∧
    (current_block a cur op).size ≤ bs + kPageSize ∧
    current_block a cur op ∈ a1.blocks := by
  obtain ⟨hbse, _, hslot⟩ := htab
  have hnb := new_block_capacity_bounds a a.block_size_
  have hsb := step_blocks a op a1 h hwf
  cases hcall : alloc_call a op with
  | some c =>
    obtain ⟨size, align⟩ := c
    obtain ⟨p, hget⟩ := step_of_call a op a1 size align h hcall
    have hne : op ≠ Op.Reset := by
      intro hr
      subst hr
      simp [alloc_call] at hcall
    have hbi := GetMemory_block_inv a size align op.mem p a1 cur hget
      (by rw [hbse]; exact hbs) (by omega) hinv
    have hbl := hsb.2.1 hne
    rw [current_block_of_call a cur op size align hcall]
    refine ⟨hbi, ?_, ?_⟩
    · cases GetMemory_path a size align <;> simp only <;> omega
    · rw [hbl]
      unfold acquired
      rw [hcall]
      simp only
      cases GetMemory_path a size align <;> simp [hmemb]
  | none =>
    rcases step_cases a op a1 h with ⟨size, align, mem, p, hc, _⟩ | ⟨_, hrest⟩
    · rw [hcall] at hc
      simp at hc
    · by_cases hreset : op = Op.Reset
      · subst hreset
        simp only [step, Option.some.injEq] at h
        subst h
        simp only [current_block]
        refine ⟨Reset_block_inv a bs hslot hbs4 (by omega), by rw [hslot]; omega, ?_⟩
        rw [(Reset_blocks a hwf).2]
        simp
      · have hbl := hsb.2.1 hreset
        have hacq : (acquired a op).toList = [] := by
          unfold acquired
          rw [hcall]
          rfl
        rw [hacq, List.append_nil] at hbl
        rw [current_block_of_no_call a cur op hcall hreset, hbl]
        refine ⟨?_, hcap, hmemb⟩
        rcases hrest with heq | ⟨memory, size, rfl, rfl⟩ | ⟨s, n, _, _, rfl⟩ | ⟨hr, _⟩
        · rw [heq]
          exact hinv
        · exact ReturnMemory_block_inv a memory size cur hnf (by omega) hinv
        · exact AdjustLastAlloc_block_inv a s n cur (by omega) hinv
        · exact absurd hr hreset

/-- A sequence of calls without `Free` of a null pointer keeps the cursor in the
current block, which is an entry of the block table. -/
theorem run_block_inv (ops : List Op) :
    ∀ (a a1 : BaseArena) (bs : Nat) (cur : AllocatedBlock), run a ops = some a1 →
      (∀ op ∈ ops, op.no_null_free) → table_inv bs a → table_wf a →
      kDefaultAlignment < bs → bs + kPageSize < 2 ^ 64 → cur.size ≤ bs + kPageSize →
      cur ∈ a.blocks → block_inv cur a →
      block_inv (run_block a cur ops) a1 ∧ run_block a cur ops ∈ a1.blocks := by
  induction ops with
  | nil =>
    intro a a1 bs cur h _ _ _ _ _ _ hmemb hinv
    simp only [run, Option.some.injEq] at h
    subst h
    exact ⟨hinv, hmemb⟩
  | cons op ops ih =>
    intro a a1 bs cur h hops htab hwf hbs4 hbs hcap hmemb hinv
    simp only [run, Option.bind_eq_some] at h
    obtain ⟨a2, hstep, hrun⟩ := h
    have h1 := step_block_inv a op a2 bs cur hstep (hops op (List.mem_cons_self _ _))
      htab hwf hbs4 hbs hcap hmemb hinv
    have hfr := step_frame a op a2 hstep
    have hsb := step_blocks a op a2 hstep hwf
    have h2 := ih a2 a1 bs (current_block a cur op) hrun
      (fun o ho => hops o (List.mem_cons_of_mem _ ho)) (hfr.2.2.2.1 bs htab) hsb.1 hbs4 hbs
      h1.2.1 h1.2.2 h1.1
    simp only [run_block, hstep]
    exact h2

theorem Reset_slot0 (x : BaseArena) :
    x.Reset.first_blocks_.getD 0 default = x.first_blocks_.getD 0 default := by
  rw [(Reset_fields x).1]
  exact FreeBlocks_slot0 x

/-- C35 (the code at the failing input): `last_alloc_`, when set, is meant to
lie in the block that `freestart_` points into, and the code moves it out of
every block. On the arena constructed with block size 4096 and its
block at 4096, `Free(NULL, 4096)` matches the null `last_alloc_` and moves
`freestart_` to the null address; the next two calls `Alloc(100)` are served
from there, and leave `last_alloc_ = 100` and `freestart_ = 200`. The only
block of the table is `[4096, 8192)`: `last_alloc_` is not null and lies below
the base of the block. With `Alloc(100)`, `Alloc(5000)` after the same `Free`,
`last_alloc_ = 100` and `freestart_ = 5100`, and the condition
`freestart_ <= last_alloc_ + block_size_` asserted in `AdjustLastAlloc` is
false. -/
theorem C35_free_null_moves_last_alloc_out :
    BaseArena.construct 0 4096 false 4096 slots0 = some (arena_at 4096) ∧
    (run (arena_at 4096) [Op.Free 0 4096, Op.Alloc 100 0, Op.Alloc 5000 0]).map
      (fun a => (a.last_alloc_, a.freestart_, a.block_size_,
        decide (a.freestart_ ≤ a.last_alloc_ + a.block_size_)))
      = some (100, 5100, 4096, false) ∧
    run (arena_at 4096) [Op.Free 0 4096, Op.Alloc 100 0, Op.Alloc 100 0]
      = some arena_after_free_null_allocs ∧
    arena_after_free_null_allocs.last_alloc_ = 100 ∧
    arena_after_free_null_allocs.last_alloc_ ≠ 0 ∧
    arena_after_free_null_allocs.freestart_ = 200 ∧
    arena_after_free_null_allocs.block_count = 1 ∧
    arena_after_free_null_allocs.blocks = [⟨4096, 4096⟩] ∧
    run_block (arena_at 4096) ((arena_at 4096).first_blocks_.getD 0 default)
      [Op.Free 0 4096, Op.Alloc 100 0, Op.Alloc 100 0] = ⟨4096, 4096⟩ ∧
    ¬ (∃ b ∈ arena_after_free_null_allocs.blocks,
        b.mem ≤ arena_after_free_null_allocs.last_alloc_ ∧
        arena_after_free_null_allocs.last_alloc_ ≤ arena_after_free_null_allocs.freestart_ ∧
        arena_after_free_null_allocs.freestart_ ≤ b.mem + b.size) := by
  refine ⟨by decide, by decide, by decide, by decide, by decide, by decide, by decide,
    by decide, by decide, ?_⟩
  decide

/-- Where `last_alloc_` stays inside the current block: the calls other than a
`Free` of the null pointer keep it there. For an arena constructed with `kDefaultAlignment < block_size` (the
constructor's assertion) and `block_size + kPageSize < 2^64`, after every
sequence of public calls without a `Free` of the null pointer that runs to its
end: the current block (the block most recently installed as the bump block by
`Reset` or `MakeNewBlock`) is an entry of the block table; `freestart_` lies in
it, with the free space ending at or before the end of the block; and if
`last_alloc_` is not null, then block base `<= last_alloc_ <= freestart_ <=`
block base + capacity, so that the condition `freestart_ >= last_alloc_`
asserted in `AdjustLastAlloc` holds. -/
theorem last_alloc_in_block_of_no_null_free (first block_size : Nat) (align_to_page : Bool)
    (mem : Nat) (slots : List AllocatedBlock) (a0 : BaseArena) (ops : List Op)
    (a1 : BaseArena)
    (hslots : slots.length = kFirstBlocks)
    (hbs4 : kDefaultAlignment < block_size) (hbs : block_size + kPageSize < 2 ^ 64)
    (hcons : BaseArena.construct first block_size align_to_page mem slots = some a0)
    (hops : ∀ op ∈ ops, op.no_null_free)
    (hrun : run a0 ops = some a1) :
    run_block a0 (a0.first_blocks_.getD 0 default) ops ∈ a1.blocks ∧
    (run_block a0 (a0.first_blocks_.getD 0 default) ops).mem ≤ a1.freestart_ ∧
    a1.freestart_ + a1.remaining_
      ≤ (run_block a0 (a0.first_blocks_.getD 0 default) ops).mem
        + (run_block a0 (a0.first_blocks_.getD 0 default) ops).size ∧
    (a1.last_alloc_ ≠ 0 →
      (run_block a0 (a0.first_blocks_.getD 0 default) ops).mem ≤ a1.last_alloc_ ∧
      a1.last_alloc_ ≤ a1.freestart_ ∧
      a1.freestart_ ≤ (run_block a0 (a0.first_blocks_.getD 0 default) ops).mem
        + (run_block a0 (a0.first_blocks_.getD 0 default) ops).size ∧
      a1.freestart_ ≥ a1.last_alloc_) := by
  have hc := construct_table_inv first block_size align_to_page mem slots a0 hslots hcons
  obtain ⟨x, hx, _, hxs⟩ := hc.2.2.2.2.2
  obtain ⟨y, hwfy, hy⟩ := construct_table_wf first block_size align_to_page mem slots a0
    hslots hcons
  have hwf : table_wf a0 := by
    rw [hy]
    exact (Reset_blocks y hwfy).1
  have hbl : a0.blocks = [a0.first_blocks_.getD 0 default] := by
    rw [hy, (Reset_blocks y hwfy).2, Reset_slot0]
  have hinv0 : block_inv (a0.first_blocks_.getD 0 default) a0 := by
    rw [hx, Reset_slot0]
    exact Reset_block_inv x block_size hxs hbs4 (by omega)
  have h := run_block_inv ops a0 a1 block_size (a0.first_blocks_.getD 0 default) hrun hops
    hc.1 hwf hbs4 hbs (by rw [hc.1.2.2]; omega) (by rw [hbl]; simp) hinv0
  obtain ⟨⟨hlo, hhi, hla⟩, hmemb⟩ := h
  refine ⟨hmemb, hlo, hhi, ?_⟩
  intro hne
  have hl := hla hne
  exact ⟨hl.1, hl.2, by omega, hl.2⟩

/-- An instance of `last_alloc_in_block_of_no_null_free`: the arena of block
size 4096 with its block at 4098, after
`Alloc(100)`, `AllocAligned(8, 16)`, `Shrink` of the last allocation to 4 bytes,
`Alloc(4000)` (a dedicated block at 9000) and `Free` of the last allocation:
the last allocation 4208 lies in block 0, `[4098, 8194)`. -/
theorem last_alloc_in_block_of_no_null_free_instance :
    (slots0.length = kFirstBlocks ∧ kDefaultAlignment < 4096 ∧ 4096 + kPageSize < 2 ^ 64 ∧
      BaseArena.construct 0 4096 false 4098 slots0 = some arena_at_4098 ∧
      run arena_at_4098 [Op.Alloc 100 0, Op.AllocAligned 8 16 0, Op.Shrink 4208 4,
        Op.Alloc 4000 9000, Op.Free 4208 4] = some arena_at_4098_after ∧
      run_block arena_at_4098 (arena_at_4098.first_blocks_.getD 0 default)
        [Op.Alloc 100 0, Op.AllocAligned 8 16 0, Op.Shrink 4208 4,
          Op.Alloc 4000 9000, Op.Free 4208 4] = ⟨4098, 4096⟩ ∧
      arena_at_4098_after.last_alloc_ = 4208 ∧ arena_at_4098_after.freestart_ = 4208) ∧
    run_block arena_at_4098 (arena_at_4098.first_blocks_.getD 0 default)
      [Op.Alloc 100 0, Op.AllocAligned 8 16 0, Op.Shrink 4208 4,
        Op.Alloc 4000 9000, Op.Free 4208 4] ∈ arena_at_4098_after.blocks ∧
    (run_block arena_at_4098 (arena_at_4098.first_blocks_.getD 0 default)
      [Op.Alloc 100 0, Op.AllocAligned 8 16 0, Op.Shrink 4208 4,
        Op.Alloc 4000 9000, Op.Free 4208 4]).mem ≤ arena_at_4098_after.freestart_ ∧
    arena_at_4098_after.freestart_ + arena_at_4098_after.remaining_
      ≤ (run_block arena_at_4098 (arena_at_4098.first_blocks_.getD 0 default)
          [Op.Alloc 100 0, Op.AllocAligned 8 16 0, Op.Shrink 4208 4,
            Op.Alloc 4000 9000, Op.Free 4208 4]).mem
        + (run_block arena_at_4098 (arena_at_4098.first_blocks_.getD 0 default)
          [Op.Alloc 100 0, Op.AllocAligned 8 16 0, Op.Shrink 4208 4,
            Op.Alloc 4000 9000, Op.Free 4208 4]).size ∧
    (arena_at_4098_after.last_alloc_ ≠ 0 →
      (run_block arena_at_4098 (arena_at_4098.first_blocks_.getD 0 default)
        [Op.Alloc 100 0, Op.AllocAligned 8 16 0, Op.Shrink 4208 4,
          Op.Alloc 4000 9000, Op.Free 4208 4]).mem ≤ arena_at_4098_after.last_alloc_ ∧
      arena_at_4098_after.last_alloc_ ≤ arena_at_4098_after.freestart_ ∧
      arena_at_4098_after.freestart_
        ≤ (run_block arena_at_4098 (arena_at_4098.first_blocks_.getD 0 default)
            [Op.Alloc 100 0, Op.AllocAligned 8 16 0, Op.Shrink 4208 4,
              Op.Alloc 4000 9000, Op.Free 4208 4]).mem
          + (run_block arena_at_4098 (arena_at_4098.first_blocks_.getD 0 default)
            [Op.Alloc 100 0, Op.AllocAligned 8 16 0, Op.Shrink 4208 4,
              Op.Alloc 4000 9000, Op.Free 4208 4]).size ∧
      arena_at_4098_after.freestart_ ≥ arena_at_4098_after.last_alloc_) :=
  ⟨by decide,
    last_alloc_in_block_of_no_null_free 0 4096 false 4098 slots0 arena_at_4098
      [Op.Alloc 100 0, Op.AllocAligned 8 16 0, Op.Shrink 4208 4,
        Op.Alloc 4000 9000, Op.Free 4208 4] arena_at_4098_after
      (by decide) (by decide) (by decide) (by decide)
      (by
        intro op hop
        simp only [List.mem_cons, List.mem_singleton, List.not_mem_nil, or_false] at hop
        rcases hop with h | h | h | h | h <;> subst h
        · trivial
        · trivial
        · trivial
        · trivial
        · show (4208 : Nat) ≠ 0
          decide)
      (by decide)⟩

/-! ## The regions returned by allocation calls -/

theorem disjoint_symm (b c : AllocatedBlock) (h : b.disjoint c) : c.disjoint b :=
  Or.symm h

/-- Regions inside two blocks that do not overlap do not overlap. -/
theorem region_disjoint_of_blocks (r s : Nat × Nat) (b c : AllocatedBlock)
    (hr : region_inside r b) (hs : region_inside s c) (h : b.disjoint c) :
    region_disjoint r s := by
  unfold region_inside at hr hs
  unfold AllocatedBlock.disjoint at h
  unfold region_disjoint
  omega

/-- The `GetMemory` call made by an allocation call of a size that is not zero,
and the region that the call returns. -/
theorem returned_of_step (a : BaseArena) (op : Op) (a1 : BaseArena)
    (h : step a op = some a1) (ha : op.allocates) :
    ∃ size align p, alloc_call a op = some (size, align) ∧ 0 < size ∧ size = op.size ∧
      a.GetMemory size align op.mem = some (p, a1) ∧ returned a op = some (p, size) := by
  cases op with
  | Alloc sz mem =>
    simp only [step, Option.map_eq_some'] at h
    obtain ⟨⟨p, a2⟩, hq, rfl⟩ := h
    refine ⟨sz, 1, p, rfl, ha, rfl, hq, ?_⟩
    simp only [returned, hq, Option.map_some']
  | AllocAligned sz al mem =>
    simp only [step, Option.map_eq_some'] at h
    obtain ⟨⟨p, a2⟩, hq, rfl⟩ := h
    refine ⟨sz, al, p, rfl, ha, rfl, hq, ?_⟩
    simp only [returned, hq, Option.map_some']
  | AllocWithHandle sz mem =>
    simp only [step, Option.map_eq_some'] at h
    obtain ⟨r, hq, rfl⟩ := h
    refine ⟨sz, _, r.1, rfl, ha, rfl, GetMemoryWithHandle_state a sz mem r hq, ?_⟩
    simp only [returned, hq, Option.map_some']
  | Free memory sz => exact absurd ha (by simp [Op.allocates])
  | Shrink s n => exact absurd ha (by simp [Op.allocates])
  | Realloc s old n mem => exact absurd ha (by simp [Op.allocates])
  | Reset => exact absurd ha (by simp [Op.allocates])

/-- One `GetMemory` call of a size that is not zero, and whose rounding up to
whole pages is a `size_t` in page-aligned mode, keeps `regions_inv`, when the
block it acquires, if any, overlaps no block of the table. -/
theorem GetMemory_regions (a : BaseArena) (size : Nat) (align : Int) (mem p : Nat)
    (a1 : BaseArena) (cur : AllocatedBlock) (B : List AllocatedBlock)
    (R : List (Nat × Nat))
    (h : a.GetMemory size align mem = some (p, a1)) (h0 : 0 < size)
    (hpg : a.page_aligned_ = true → size + kPageSize ≤ 2 ^ 64)
    (hbs : a.block_size_ + kPageSize < 2 ^ 64) (hcap : cur.size < 2 ^ 64)
    (hinv : regions_inv a cur B R)
    (hnew : ∀ b1 ∈ (match GetMemory_path a size align with
        | Path.dedicated => [(⟨mem, a.new_block_capacity size⟩ : AllocatedBlock)]
        | Path.new_block => [⟨mem, a.new_block_capacity a.block_size_⟩]
        | _ => []), ∀ b ∈ B, b.disjoint b1) :
    regions_inv a1
      (match GetMemory_path a size align with
        | Path.new_block => ⟨mem, a.new_block_capacity a.block_size_⟩
        | _ => cur)
      (B ++ (match GetMemory_path a size align with
        | Path.dedicated => [(⟨mem, a.new_block_capacity size⟩ : AllocatedBlock)]
        | Path.new_block => [⟨mem, a.new_block_capacity a.block_size_⟩]
        | _ => []))
      (R ++ [(p, size)]) := by
  obtain ⟨hcur, hbi, hreg, hpw⟩ := hinv
  have hbi1 := GetMemory_block_inv a size align mem p a1 cur h hbs hcap hbi
  have key := GetMemory_by_path a size align mem p a1 h
  obtain ⟨waste, hw1, hw2, hw3⟩ := pad_freestart_waste a (to_size_t align)
  obtain ⟨hlo, hhi, hla⟩ := hbi
  cases hpath : GetMemory_path a size align <;>
    rw [hpath] at key hbi1 hnew <;> simp only at key hbi1 hnew ⊢
  · omega
  · obtain ⟨_, hlt, _, rfl, rfl⟩ := key
    have hin : region_inside (a.freestart_, size) cur := ⟨hlo, by show _ + _ ≤ _; omega⟩
    refine ⟨by simpa using hcur, hbi1, ?_, ?_⟩
    · intro r hr
      simp only [List.mem_append, List.mem_singleton] at hr
      rcases hr with hr | rfl
      · rcases hreg r hr with ⟨h1, h2⟩ | ⟨b, hb, h1, h2⟩
        · exact Or.inl ⟨h1, by show _ ≤ a.freestart_ + size; omega⟩
        · exact Or.inr ⟨b, by simpa using hb, h1, h2⟩
      · exact Or.inl ⟨hin, Nat.le_refl _⟩
    · rw [List.pairwise_append]
      refine ⟨hpw, by simp, ?_⟩
      intro r hr s hs
      simp only [List.mem_singleton] at hs
      subst hs
      rcases hreg r hr with ⟨h1, h2⟩ | ⟨b, hb, h1, h2⟩
      · exact Or.inl h2
      · exact region_disjoint_of_blocks r _ b cur h1 hin h2
  · obtain ⟨_, _, _, rfl, rfl⟩ := key
    have hpb := push_block_fields a ⟨p, a.new_block_capacity size⟩ size
    have hcapb := new_block_capacity_bounds a size hpg
    have hin : region_inside (p, size) ⟨p, a.new_block_capacity size⟩ :=
      ⟨Nat.le_refl _, by show p + size ≤ p + a.new_block_capacity size; omega⟩
    have hd : ∀ b ∈ B, b.disjoint ⟨p, a.new_block_capacity size⟩ :=
      fun b hb => hnew _ (by simp) b hb
    refine ⟨by simp [hcur], hbi1, ?_, ?_⟩
    · intro r hr
      simp only [List.mem_append, List.mem_singleton] at hr
      rcases hr with hr | rfl
      · rcases hreg r hr with ⟨h1, h2⟩ | ⟨b, hb, h1, h2⟩
        · exact Or.inl ⟨h1, by rw [hpb.2.1]; exact h2⟩
        · exact Or.inr ⟨b, by simp [hb], h1, h2⟩
      · exact Or.inr ⟨_, by simp, hin, disjoint_symm _ _ (hd cur hcur)⟩
    · rw [List.pairwise_append]
      refine ⟨hpw, by simp, ?_⟩
      intro r hr s hs
      simp only [List.mem_singleton] at hs
      subst hs
      rcases hreg r hr with ⟨h1, _⟩ | ⟨b, hb, h1, _⟩
      · exact region_disjoint_of_blocks r _ cur _ h1 hin (hd cur hcur)
      · exact region_disjoint_of_blocks r _ b _ h1 hin (hd b hb)
  · obtain ⟨_, _, _, hfit, rfl, rfl⟩ := key
    rw [hw2] at hfit
    have hin : region_inside ((a.pad_freestart (to_size_t align)).freestart_, size) cur := by
      refine ⟨?_, ?_⟩
      · show cur.mem ≤ (a.pad_freestart (to_size_t align)).freestart_
        rw [hw1]
        omega
      · show (a.pad_freestart (to_size_t align)).freestart_ + size ≤ cur.mem + cur.size
        rw [hw1]
        omega
    refine ⟨by simpa using hcur, hbi1, ?_, ?_⟩
    · intro r hr
      simp only [List.mem_append, List.mem_singleton] at hr
      rcases hr with hr | rfl
      · rcases hreg r hr with ⟨h1, h2⟩ | ⟨b, hb, h1, h2⟩
        · refine Or.inl ⟨h1, ?_⟩
          show _ ≤ (a.pad_freestart (to_size_t align)).freestart_ + size
          rw [hw1]
          omega
        · exact Or.inr ⟨b, by simpa using hb, h1, h2⟩
      · exact Or.inl ⟨hin, Nat.le_refl _⟩
    · rw [List.pairwise_append]
      refine ⟨hpw, by simp, ?_⟩
      intro r hr s hs
      simp only [List.mem_singleton] at hs
      subst hs
      rcases hreg r hr with ⟨h1, h2⟩ | ⟨b, hb, h1, h2⟩
      · refine Or.inl ?_
        show r.1 + r.2 ≤ (a.pad_freestart (to_size_t align)).freestart_
        rw [hw1]
        omega
      · exact region_disjoint_of_blocks r _ b cur h1 hin h2
  · obtain ⟨_, _, hsmall, _, _, rfl, rfl⟩ := key
    have hcapb := new_block_capacity_bounds a a.block_size_ (fun _ => by omega)
    have hin : region_inside (p, size) ⟨p, a.new_block_capacity a.block_size_⟩ :=
      ⟨Nat.le_refl _, by show p + size ≤ p + a.new_block_capacity a.block_size_; omega⟩
    have hd : ∀ b ∈ B, b.disjoint ⟨p, a.new_block_capacity a.block_size_⟩ :=
      fun b hb => hnew _ (by simp) b hb
    refine ⟨by simp, hbi1, ?_, ?_⟩
    · intro r hr
      simp only [List.mem_append, List.mem_singleton] at hr
      rcases hr with hr | rfl
      · rcases hreg r hr with ⟨h1, _⟩ | ⟨b, hb, h1, _⟩
        · exact Or.inr ⟨cur, by simp [hcur], h1, hd cur hcur⟩
        · exact Or.inr ⟨b, by simp [hb], h1, hd b hb⟩
      · exact Or.inl ⟨hin, Nat.le_refl _⟩
    · rw [List.pairwise_append]
      refine ⟨hpw, by simp, ?_⟩
      intro r hr s hs
      simp only [List.mem_singleton] at hs
      subst hs
      rcases hreg r hr with ⟨h1, _⟩ | ⟨b, hb, h1, _⟩
      · exact region_disjoint_of_blocks r _ cur _ h1 hin (hd cur hcur)
      · exact region_disjoint_of_blocks r _ b _ h1 hin (hd b hb)

theorem acquired_of_call (a : BaseArena) (op : Op) (size : Nat) (align : Int)
    (h : alloc_call a op = some (size, align)) :
    (acquired a op).toList =
      (match GetMemory_path a size align with
        | Path.dedicated => [(⟨op.mem, a.new_block_capacity size⟩ : AllocatedBlock)]
        | Path.new_block => [⟨op.mem, a.new_block_capacity a.block_size_⟩]
        | _ => []) := by
  unfold acquired
  rw [h]
  simp only
  cases GetMemory_path a size align <;> rfl

/-- A sequence of allocation calls of sizes that are not zero, and whose
rounding up to whole pages is a `size_t` in page-aligned mode, keeps
`regions_inv`, when the acquired blocks overlap neither each other nor the
blocks of the table; every call returns a region. -/
theorem run_regions (ops : List Op) :
    ∀ (a a1 : BaseArena) (bs : Nat) (cur : AllocatedBlock) (B : List AllocatedBlock)
      (R : List (Nat × Nat)), run a ops = some a1 →
      (∀ op ∈ ops, op.allocates) →
      (a.page_aligned_ = true → ∀ op ∈ ops, op.size + kPageSize ≤ 2 ^ 64) →
      a.block_size_ = bs → bs + kPageSize < 2 ^ 64 →
      cur.size ≤ bs + kPageSize → regions_inv a cur B R →
      (B ++ acquisitions a ops).Pairwise AllocatedBlock.disjoint →
      regions_inv a1 (run_block a cur ops) (B ++ acquisitions a ops) (R ++ regions a ops) ∧
      (regions a ops).length = ops.length := by
  induction ops with
  | nil =>
    intro a a1 bs cur B R h _ _ _ _ _ hinv _
    simp only [run, Option.some.injEq] at h
    subst h
    simp only [acquisitions, regions, run_block, List.append_nil, List.length_nil, and_true]
    exact hinv
  | cons op ops ih =>
    intro a a1 bs cur B R h hops hsizes hbse hbs hcap hinv hpw
    simp only [run, Option.bind_eq_some] at h
    obtain ⟨a2, hstep, hrun⟩ := h
    obtain ⟨size, align, p, hcall, h0, hsz, hget, hret⟩ :=
      returned_of_step a op a2 hstep (hops op (List.mem_cons_self _ _))
    have hacq := acquired_of_call a op size align hcall
    have hcb := current_block_of_call a cur op size align hcall
    have hfr := GetMemory_frame a size align op.mem p a2 hget
    have hnb := new_block_capacity_bounds a a.block_size_ (fun _ => by omega)
    have hpg : a.page_aligned_ = true → size + kPageSize ≤ 2 ^ 64 := by
      intro hp
      rw [hsz]
      exact hsizes hp op (List.mem_cons_self _ _)
    simp only [acquisitions, regions, run_block, hstep, hret, Option.toList_some] at hpw ⊢
    rw [hacq] at hpw ⊢
    rw [hcb]
    rw [← List.append_assoc] at hpw ⊢
    rw [← List.append_assoc]
    have hnew : ∀ b1 ∈ (match GetMemory_path a size align with
        | Path.dedicated => [(⟨op.mem, a.new_block_capacity size⟩ : AllocatedBlock)]
        | Path.new_block => [⟨op.mem, a.new_block_capacity a.block_size_⟩]
        | _ => []), ∀ b ∈ B, b.disjoint b1 := by
      intro b1 hb1 b hb
      have h1 := (List.pairwise_append.mp (List.pairwise_append.mp hpw).1).2.2
      exact h1 b hb b1 hb1
    have hstepinv := GetMemory_regions a size align op.mem p a2 cur B R hget h0 hpg
      (by rw [hbse]; exact hbs) (by omega) hinv hnew
    have hcap2 : (match GetMemory_path a size align with
        | Path.new_block => (⟨op.mem, a.new_block_capacity a.block_size_⟩ : AllocatedBlock)
        | _ => cur).size ≤ bs + kPageSize := by
      cases GetMemory_path a size align <;> simp only <;> omega
    have h2 := ih a2 a1 bs _ _ _ hrun (fun o ho => hops o (List.mem_cons_of_mem _ ho))
      (fun hp o ho => hsizes (by rw [← hfr.2.1]; exact hp) o (List.mem_cons_of_mem _ ho))
      (hfr.1.trans hbse) hbs hcap2 hstepinv hpw
    refine ⟨h2.1, ?_⟩
    rw [List.length_append, h2.2]
    simp only [List.length_singleton, List.length_cons, List.length_nil]
    omega

/-- The state right after `Reset` or right after construction: the table holds
block 0 alone, of capacity `bs`, and the cursor lies in it. -/
theorem start_state (a0 : BaseArena) (bs : Nat)
    (hstart : (∃ x : BaseArena, table_wf x ∧ table_inv bs x ∧ a0 = x.Reset) ∨
      (∃ (first : Nat) (align_to_page : Bool) (mem : Nat) (slots : List AllocatedBlock),
        slots.length = kFirstBlocks ∧
        BaseArena.construct first bs align_to_page mem slots = some a0))
    (hbs4 : kDefaultAlignment < bs) (hbs : bs < 2 ^ 64) :
    table_wf a0 ∧ table_inv bs a0 ∧ a0.blocks = [a0.first_blocks_.getD 0 default] ∧
    block_inv (a0.first_blocks_.getD 0 default) a0 := by
  rcases hstart with ⟨x, hwf, htab, rfl⟩ | ⟨first, align_to_page, mem, slots, hslots, hcons⟩
  · have hr := Reset_blocks x hwf
    refine ⟨hr.1, ?_, by rw [hr.2, Reset_slot0], ?_⟩
    · refine ⟨?_, ?_, ?_⟩
      · rw [(Reset_fields x).2.2.2.2.2.1]
        exact htab.1
      · rw [(Reset_fields x).2.1]
      · rw [Reset_slot0]
        exact htab.2.2
    · rw [Reset_slot0]
      exact Reset_block_inv x bs htab.2.2 hbs4 hbs
  · have hc := construct_table_inv first bs align_to_page mem slots a0 hslots hcons
    obtain ⟨x, hx, _, hxs⟩ := hc.2.2.2.2.2
    obtain ⟨y, hwfy, hy⟩ := construct_table_wf first bs align_to_page mem slots a0
      hslots hcons
    refine ⟨?_, hc.1, ?_, ?_⟩
    · rw [hy]
      exact (Reset_blocks y hwfy).1
    · rw [hy, (Reset_blocks y hwfy).2, Reset_slot0]
    · rw [hx, Reset_slot0]
      exact Reset_block_inv x bs hxs hbs4 hbs

/-- C37 (counterexample): the page-aligned arena of block size 8192 (block 0 at
8192) receives `Alloc(2^64 - 1)`, and the page-aligned allocation returns the
non-null address 16384. The capacity recorded for the new block is the
`size_t` product `2^51 * 8192 = 0`. Block 0 and the new block are disjoint,
the call returns the region `[16384, 16384 + 2^64 - 1)`, and no block of the
table contains it. -/
theorem C37_counterexample_page_rounding_wraps :
    BaseArena.construct 0 8192 true 8192 slots0 = some arena_paged ∧
    (∀ op ∈ [Op.Alloc (2 ^ 64 - 1) 16384], op.allocates) ∧
    (run arena_paged [Op.Alloc (2 ^ 64 - 1) 16384]).map (fun a => a.blocks)
      = some [⟨8192, 8192⟩, ⟨16384, 0⟩] ∧
    regions arena_paged [Op.Alloc (2 ^ 64 - 1) 16384] = [(16384, 2 ^ 64 - 1)] ∧
    (arena_paged.first_blocks_.getD 0 default
      :: acquisitions arena_paged [Op.Alloc (2 ^ 64 - 1) 16384]).Pairwise
        AllocatedBlock.disjoint ∧
    ¬ (∃ b ∈ [(⟨8192, 8192⟩ : AllocatedBlock), ⟨16384, 0⟩],
        b.mem ≤ 16384 ∧ 16384 + (2 ^ 64 - 1) ≤ b.mem + b.size) := by
  refine ⟨by decide, by decide, by decide, by decide, by decide, by decide⟩

/-- C37 (amended). For an arena state right after construction or right after
`Reset` (block size above `kDefaultAlignment`, `block_size + kPageSize < 2^64`),
and every sequence of calls `Alloc`, `AllocAligned`, `AllocWithHandle` with
sizes that are not zero and, in page-aligned mode, at most `2^64 - kPageSize`
(so that their rounding up to whole pages is a `size_t`) that runs to its end:
if block 0 and the blocks that the system allocator hands out along the
sequence are pairwise disjoint, then the block table is block 0 followed by the
acquired blocks, every call returns a region, the returned regions
`[p_i, p_i + size_i)` are pairwise disjoint, and each lies inside one block of
the block table. -/
theorem C37_live_allocations_disjoint (a0 : BaseArena) (bs : Nat) (ops : List Op)
    (a1 : BaseArena)
    (hstart : (∃ x : BaseArena, table_wf x ∧ table_inv bs x ∧ a0 = x.Reset) ∨
      (∃ (first : Nat) (align_to_page : Bool) (mem : Nat) (slots : List AllocatedBlock),
        slots.length = kFirstBlocks ∧
        BaseArena.construct first bs align_to_page mem slots = some a0))
    (hbs4 : kDefaultAlignment < bs) (hbs : bs + kPageSize < 2 ^ 64)
    (hops : ∀ op ∈ ops, op.allocates)
    (hsizes : a0.page_aligned_ = true → ∀ op ∈ ops, op.size + kPageSize ≤ 2 ^ 64)
    (hrun : run a0 ops = some a1)
    (hdisj : (a0.first_blocks_.getD 0 default :: acquisitions a0 ops).Pairwise
      AllocatedBlock.disjoint) :
    a1.blocks = a0.first_blocks_.getD 0 default :: acquisitions a0 ops ∧
    (regions a0 ops).length = ops.length ∧
    (regions a0 ops).Pairwise (fun r s => r.1 + r.2 ≤ s.1 ∨ s.1 + s.2 ≤ r.1) ∧
    (∀ r ∈ regions a0 ops, ∃ b ∈ a1.blocks, b.mem ≤ r.1 ∧ r.1 + r.2 ≤ b.mem + b.size) := by
  obtain ⟨hwf, htab, hbl, hbi⟩ := start_state a0 bs hstart hbs4 (by omega)
  have hnr : ∀ op ∈ ops, op ≠ Op.Reset := by
    intro op hop hr
    have := hops op hop
    rw [hr] at this
    exact this
  have hb := run_blocks ops a0 a1 hrun hnr hwf
  rw [hbl] at hb
  have hinv0 : regions_inv a0 (a0.first_blocks_.getD 0 default)
      [a0.first_blocks_.getD 0 default] [] :=
    ⟨by simp, hbi, by simp, List.Pairwise.nil⟩
  have h := run_regions ops a0 a1 bs (a0.first_blocks_.getD 0 default)
    [a0.first_blocks_.getD 0 default] [] hrun hops hsizes htab.1 hbs
    (by rw [htab.2.2]; omega) hinv0 hdisj
  obtain ⟨⟨hcur, _, hreg, hpw⟩, hlen⟩ := h
  simp only [List.nil_append] at hreg hpw
  refine ⟨hb.2, hlen, hpw, ?_⟩
  intro r hr
  rw [hb.2]
  rcases hreg r hr with ⟨h1, _⟩ | ⟨b, hb1, h1, _⟩
  · exact ⟨_, hcur, h1⟩
  · exact ⟨b, hb1, h1⟩

/-- C37 (witness): eight allocation calls on the arena constructed with block
size 4096 and its block at 4098, with a dedicated block at 9000 and a new
standard block at 20000: the eight returned regions. -/
theorem C37_live_allocations_disjoint_witness :
    (run arena_at_4098 eight_allocs = some arena_eight_allocs ∧
      regions arena_at_4098 eight_allocs
        = [(4100, 1000), (5100, 1000), (6100, 1000), (7100, 1000), (9000, 4000),
            (20000, 1000), (21008, 8), (21016, 40)] ∧
      arena_eight_allocs.blocks = [⟨4098, 4096⟩, ⟨9000, 4000⟩, ⟨20000, 4096⟩]) ∧
    arena_eight_allocs.blocks
      = arena_at_4098.first_blocks_.getD 0 default :: acquisitions arena_at_4098 eight_allocs ∧
    (regions arena_at_4098 eight_allocs).length = eight_allocs.length ∧
    (regions arena_at_4098 eight_allocs).Pairwise
      (fun r s => r.1 + r.2 ≤ s.1 ∨ s.1 + s.2 ≤ r.1) ∧
    (∀ r ∈ regions arena_at_4098 eight_allocs,
      ∃ b ∈ arena_eight_allocs.blocks, b.mem ≤ r.1 ∧ r.1 + r.2 ≤ b.mem + b.size) :=
  ⟨by decide,
    C37_live_allocations_disjoint arena_at_4098 4096 eight_allocs arena_eight_allocs
      (Or.inr ⟨0, false, 4098, slots0, by decide, by decide⟩)
      (by decide) (by decide) (by decide) (fun h => absurd h (by decide)) (by decide)
      (by decide)⟩

/-! ## The lock discipline of the guarded variant -/

theorem held_after_append (h : Bool) (es1 es2 : List Event) :
    held_after h (es1 ++ es2) = (held_after h es1).bind fun h1 => held_after h1 es2 := by
  induction es1 generalizing h with
  | nil => simp [held_after]
  | cons e es ih =>
    simp only [List.cons_append, held_after]
    cases e.after h with
    | none => simp
    | some h1 => simp [ih]

end mrpc
